import Mathlib

/-!
# Lever / Shift / ShiftSieve eviction engines over an intrusive doubly linked list

A shallow embedding of `cacheObj.c`, `Lever.c`, `Shift.c` and `ShiftSieve.c`.

* Memory is a heap `Ptr → cache_obj_t`; a C pointer is an `Option Ptr` with
  `none` for `NULL`.  Every C assignment through a pointer is one heap update,
  in source order.
* A computation that dereferences `NULL` or violates an `assert` /
  `DEBUG_ASSERT` yields `Res.fault`; a loop that exhausts its fuel yields
  `Res.timeout`.
* The pointer-to-pointer arguments `head`, `tail`, `mark` of the list
  primitives are always the addresses of engine fields, hence never `NULL`;
  they are modelled by the values stored in those fields.
-/

namespace CacheSim

/-! ## Results of partial computations -/

/-- Outcome of running a piece of C code. -/
inductive Res (α : Type) where
  | ok (a : α) : Res α
  | fault : Res α
  | timeout : Res α

/-- Sequencing of outcomes. -/
def Res.bind {α β : Type} (r : Res α) (f : α → Res β) : Res β :=
  match r with
  | .ok a => f a
  | .fault => .fault
  | .timeout => .timeout

/-- Whether the computation returned normally. -/
def Res.isOk {α : Type} (r : Res α) : Bool :=
  match r with
  | .ok _ => true
  | _ => false

/-- A property of the returned value; false when nothing is returned. -/
def Res.holds {α : Type} (r : Res α) (P : α → Prop) : Prop :=
  match r with
  | .ok a => P a
  | _ => False

instance {α : Type} (r : Res α) (P : α → Prop) [DecidablePred P] : Decidable (r.holds P) := by
  cases r <;> simp only [Res.holds] <;> infer_instance

/-! ## Data model (`cacheObj.h`, `request.h`) -/

/-- Address of a cache object. -/
abbrev Ptr := Nat

/-- Modelled from the spec: the node type `cache_obj_t` of `cacheObj.h` (absent):
identifier, size, list links and the per-policy metadata (`lever.freq` /
`shift.freq` share `freq`, `shiftsieve.status` is `status`). -/
@[ext]
structure cache_obj_t where
  obj_id : Nat
  obj_size : Int
  next_access_vtime : Int
  prev : Option Ptr
  next : Option Ptr
  freq : Nat
  status : Nat

/-- Modelled from the spec: the request record `request_t` of `request.h` (absent). -/
structure request_t where
  obj_id : Nat
  obj_size : Int
  next_access_vtime : Int
  valid : Bool

/-- The heap of cache objects. -/
abbrev Heap := Ptr → cache_obj_t

/-- The all-zero object produced by `memset(cache_obj, 0, sizeof(cache_obj_t))`. -/
def zero_obj : cache_obj_t :=
  { obj_id := 0, obj_size := 0, next_access_vtime := 0, prev := none, next := none,
    freq := 0, status := 0 }

/-- Assignment `p->queue.prev = v`. -/
def setPrev (h : Heap) (p : Ptr) (v : Option Ptr) : Heap :=
  Function.update h p { h p with prev := v }

/-- Assignment `p->queue.next = v`. -/
def setNext (h : Heap) (p : Ptr) (v : Option Ptr) : Heap :=
  Function.update h p { h p with next := v }

/-- Assignment `p->lever.freq = v` (also `p->shift.freq = v`). -/
def setFreq (h : Heap) (p : Ptr) (v : Nat) : Heap :=
  Function.update h p { h p with freq := v }

/-- Assignment `p->shiftsieve.status = v`. -/
def setStatus (h : Heap) (p : Ptr) (v : Nat) : Heap :=
  Function.update h p { h p with status := v }

/-- Guarded assignment `if (o != NULL) o->queue.prev = v`. -/
def setPrevO (h : Heap) (o : Option Ptr) (v : Option Ptr) : Heap :=
  match o with
  | some p => setPrev h p v
  | none => h

/-- Guarded assignment `if (o != NULL) o->queue.next = v`. -/
def setNextO (h : Heap) (o : Option Ptr) (v : Option Ptr) : Heap :=
  match o with
  | some p => setNext h p v
  | none => h

/-- The heap together with the two list slots `*head` and `*tail`. -/
structure dlist where
  heap : Heap
  head : Option Ptr
  tail : Option Ptr

/-! ## `cacheObj.c` -/

/-- Source `copy_cache_obj_to_request`. -/
def copy_cache_obj_to_request (_req_dest : request_t) (cache_obj : cache_obj_t) : request_t :=
  { obj_id := cache_obj.obj_id, obj_size := cache_obj.obj_size,
    next_access_vtime := cache_obj.next_access_vtime, valid := true }

/-- Source `copy_request_to_cache_obj` (without `SUPPORT_TTL`). -/
def copy_request_to_cache_obj (cache_obj : cache_obj_t) (req : request_t) : cache_obj_t :=
  { cache_obj with obj_size := req.obj_size, obj_id := req.obj_id }

/-- Source `create_cache_obj_from_request`: the contents of the fresh object. -/
def create_cache_obj_from_request (req : Option request_t) : cache_obj_t :=
  match req with
  | some r => copy_request_to_cache_obj zero_obj r
  | none => zero_obj

/-- Source `remove_obj_from_list`. -/
def remove_obj_from_list (q : dlist) (cache_obj : Ptr) : dlist :=
  let q1 : dlist :=
    if some cache_obj = q.head then
      { heap := setPrevO q.heap (q.heap cache_obj).next none,
        head := (q.heap cache_obj).next, tail := q.tail }
    else q
  let q2 : dlist :=
    if some cache_obj = q1.tail then
      { heap := setNextO q1.heap (q1.heap cache_obj).prev none,
        head := q1.head, tail := (q1.heap cache_obj).prev }
    else q1
  let h3 := setNextO q2.heap (q2.heap cache_obj).prev (q2.heap cache_obj).next
  let h4 := setPrevO h3 (h3 cache_obj).next (h3 cache_obj).prev
  let h5 := setPrev h4 cache_obj none
  let h6 := setNext h5 cache_obj none
  { heap := h6, head := q2.head, tail := q2.tail }

/-- Source `move_obj_to_tail`. -/
def move_obj_to_tail (q : dlist) (cache_obj : Ptr) : Res dlist :=
  if q.head = q.tail then
    if some cache_obj = q.head ∧ (q.heap cache_obj).next = none
        ∧ (q.heap cache_obj).prev = none then .ok q else .fault
  else if some cache_obj = q.head then
    match (q.heap cache_obj).next with
    | none => .fault
    | some n =>
      let h1 := setPrev q.heap n none
      match q.tail with
      | none => .fault
      | some t =>
        let h2 := setNext h1 t (some cache_obj)
        let h3 := setNext h2 cache_obj none
        let h4 := setPrev h3 cache_obj (some t)
        .ok { heap := h4, head := some n, tail := some cache_obj }
  else if some cache_obj = q.tail then .ok q
  else
    match (q.heap cache_obj).prev with
    | none => .fault
    | some p =>
      let h1 := setNext q.heap p (q.heap cache_obj).next
      match (h1 cache_obj).next with
      | none => .fault
      | some n =>
        let h2 := setPrev h1 n (h1 cache_obj).prev
        match q.tail with
        | none => .fault
        | some t =>
          let h3 := setNext h2 t (some cache_obj)
          let h4 := setNext h3 cache_obj none
          let h5 := setPrev h4 cache_obj (some t)
          .ok { heap := h5, head := q.head, tail := some cache_obj }

/-- Source `move_obj_to_head`. -/
def move_obj_to_head (q : dlist) (cache_obj : Ptr) : Res dlist :=
  if q.head = q.tail then
    if some cache_obj = q.head ∧ (q.heap cache_obj).next = none
        ∧ (q.heap cache_obj).prev = none then .ok q else .fault
  else if some cache_obj = q.head then .ok q
  else if some cache_obj = q.tail then
    match (q.heap cache_obj).prev with
    | none => .fault
    | some p =>
      let h1 := setNext q.heap p (q.heap cache_obj).next
      let tail1 := (h1 cache_obj).prev
      match q.head with
      | none => .fault
      | some hd =>
        let h2 := setPrev h1 hd (some cache_obj)
        let h3 := setPrev h2 cache_obj none
        let h4 := setNext h3 cache_obj (some hd)
        .ok { heap := h4, head := some cache_obj, tail := tail1 }
  else
    match (q.heap cache_obj).prev with
    | none => .fault
    | some p =>
      let h1 := setNext q.heap p (q.heap cache_obj).next
      match (h1 cache_obj).next with
      | none => .fault
      | some n =>
        let h2 := setPrev h1 n (h1 cache_obj).prev
        match q.head with
        | none => .fault
        | some hd =>
          let h3 := setPrev h2 hd (some cache_obj)
          let h4 := setPrev h3 cache_obj none
          let h5 := setNext h4 cache_obj (some hd)
          .ok { heap := h5, head := some cache_obj, tail := q.tail }

/-- Source `move_obj_after_mark`; `mark` is the value of `*mark`. -/
def move_obj_after_mark (q : dlist) (mark : Option Ptr) (cache_obj : Ptr) : Res dlist :=
  if some cache_obj = mark then .ok q
  else
    let unlinked : Res dlist :=
      if some cache_obj = q.head then
        let head1 := (q.heap cache_obj).next
        .ok { heap := setPrevO q.heap head1 none, head := head1, tail := q.tail }
      else
        match (q.heap cache_obj).prev with
        | none => .fault
        | some p =>
          let h1 := setNext q.heap p (q.heap cache_obj).next
          match (h1 cache_obj).next with
          | some n => .ok { heap := setPrev h1 n (h1 cache_obj).prev, head := q.head, tail := q.tail }
          | none => .ok { heap := h1, head := q.head, tail := (h1 cache_obj).prev }
    unlinked.bind fun q1 =>
      match mark with
      | none => .fault
      | some m =>
        let h2 := setPrev q1.heap cache_obj (some m)
        let h3 := setNext h2 cache_obj (h2 m).next
        match (h3 m).next with
        | some mn =>
          let h4 := setPrev h3 mn (some cache_obj)
          .ok { heap := setNext h4 m (some cache_obj), head := q1.head, tail := q1.tail }
        | none =>
          .ok { heap := setNext h3 m (some cache_obj), head := q1.head, tail := some cache_obj }

/-- Source `prepend_obj_to_head`. -/
def prepend_obj_to_head (q : dlist) (cache_obj : Ptr) : Res dlist :=
  let h1 := setPrev q.heap cache_obj none
  let h2 := setNext h1 cache_obj q.head
  let tail1 : Res (Option Ptr) :=
    if q.tail = none then
      if q.head = none then .ok (some cache_obj) else .fault
    else .ok q.tail
  tail1.bind fun t =>
    let h3 := setPrevO h2 q.head (some cache_obj)
    .ok { heap := h3, head := some cache_obj, tail := t }

/-- Source `insert_obj_after_mark`; `mark` is the value of `*mark`. -/
def insert_obj_after_mark (q : dlist) (mark : Option Ptr) (cache_obj : Ptr) : Res dlist :=
  match mark with
  | none => .fault
  | some m =>
    let h1 := setPrev q.heap cache_obj (some m)
    let h2 := setNext h1 cache_obj (h1 m).next
    let q3 : dlist :=
      match (h2 m).next with
      | some mn => { heap := setPrev h2 mn (some cache_obj), head := q.head, tail := q.tail }
      | none => { heap := h2, head := q.head, tail := some cache_obj }
    let h4 := setNext q3.heap m (some cache_obj)
    let tail5 := if q3.tail = some m then some cache_obj else q3.tail
    .ok { heap := h4, head := q3.head, tail := tail5 }

/-- Source `append_obj_to_tail`. -/
def append_obj_to_tail (q : dlist) (cache_obj : Ptr) : Res dlist :=
  let h1 := setNext q.heap cache_obj none
  let h2 := setPrev h1 cache_obj q.tail
  let head1 : Res (Option Ptr) :=
    if q.head = none then
      if q.tail = none then .ok (some cache_obj) else .fault
    else .ok q.head
  head1.bind fun hd =>
    let h3 := setNextO h2 q.tail (some cache_obj)
    .ok { heap := h3, head := hd, tail := some cache_obj }

/-! ## Base services (`cache.c`, `hashtable.h`: interfaces only) -/

/-- Memory: the heap and the next address `malloc` hands out. -/
structure Mem where
  heap : Heap
  brk : Ptr

/-- Modelled from the spec: the engine state `cache_t` of `cache.h` (absent): hash
index from `obj_id` to the resident node, the counters, the common parameters
and the policy payload. -/
structure cache_t (P : Type) where
  hashtable : Nat → Option Ptr
  n_obj : Int
  occupied_byte : Int
  cache_size : Int
  obj_md_size : Int
  eviction_params : P

/-- A cache together with the memory its nodes live in. -/
structure World (P : Type) where
  mem : Mem
  cache : cache_t P

/-- Replace the heap of a world. -/
def World.setHeap {P : Type} (w : World P) (h : Heap) : World P :=
  { mem := { heap := h, brk := w.mem.brk }, cache := w.cache }

/-- Replace the policy payload of a world. -/
def World.setParams {P : Type} (w : World P) (p : P) : World P :=
  { mem := w.mem, cache := { w.cache with eviction_params := p } }

/-- Modelled from the spec: the common parameters `common_cache_params_t` (absent). -/
structure common_cache_params_t where
  cache_size : Int
  consider_obj_metadata : Bool

/-- Modelled from the spec: `cache_struct_init` (absent) with the `obj_md_size`
choice every `*_init` of the three engines makes: empty index, zero counters. -/
def cache_struct_init {P : Type} (ccache_params : common_cache_params_t) (params : P) :
    cache_t P :=
  { hashtable := fun _ => none, n_obj := 0, occupied_byte := 0,
    cache_size := ccache_params.cache_size,
    obj_md_size := if ccache_params.consider_obj_metadata then 1 else 0,
    eviction_params := params }

/-- The memory before any allocation. -/
def Mem.empty : Mem := { heap := fun _ => zero_obj, brk := 0 }

/-- Modelled from the spec: `hashtable_find_obj_id` (absent): index lookup. -/
def hashtable_find_obj_id {P : Type} (c : cache_t P) (obj_id : Nat) : Option Ptr :=
  c.hashtable obj_id

/-- Modelled from the spec: `cache_find_base` (absent) without TTL: index lookup. -/
def cache_find_base {P : Type} (w : World P) (req : request_t) (_update_cache : Bool) :
    Option Ptr :=
  w.cache.hashtable req.obj_id

/-- Modelled from the spec: `cache_insert_base` (absent): allocates a node with
`create_cache_obj_from_request`, enters it in the index, increments `n_obj`,
adds `obj_size + obj_md_size` to `occupied_byte`. -/
def cache_insert_base {P : Type} (w : World P) (req : request_t) : World P × Ptr :=
  let obj := w.mem.brk
  ({ mem := { heap := Function.update w.mem.heap obj (create_cache_obj_from_request (some req)),
              brk := obj + 1 },
     cache := { w.cache with
       hashtable := Function.update w.cache.hashtable req.obj_id (some obj),
       n_obj := w.cache.n_obj + 1,
       occupied_byte := w.cache.occupied_byte + (req.obj_size + w.cache.obj_md_size) } }, obj)

/-- Modelled from the spec: `cache_remove_obj_base` (absent): removes the node from
the index, decrements the counters and frees the node. -/
def cache_remove_obj_base {P : Type} (w : World P) (obj : Ptr) (_free : Bool) : World P :=
  { mem := w.mem,
    cache := { w.cache with
      hashtable := Function.update w.cache.hashtable (w.mem.heap obj).obj_id none,
      n_obj := w.cache.n_obj - 1,
      occupied_byte := w.cache.occupied_byte - ((w.mem.heap obj).obj_size + w.cache.obj_md_size) } }

/-- Modelled from the spec: `cache_evict_base` (absent): same effect as
`cache_remove_obj_base`. -/
def cache_evict_base {P : Type} (w : World P) (obj : Ptr) (free : Bool) : World P :=
  cache_remove_obj_base w obj free

/-- The function table of an engine over its state type. -/
structure cache_ops (S : Type) where
  find : S → request_t → Bool → Res (S × Option Ptr)
  insert : S → request_t → Res (S × Ptr)
  evict : S → request_t → Res S
  get_occupied_byte : S → Int
  cache_size : S → Int
  obj_md_size : S → Int

/-- The loop `while (occupied + req.size + obj_md_size > capacity) evict` of
`cache_get_base`; `fuel` bounds the number of `evict` calls. -/
def evict_until_fits {S : Type} (ops : cache_ops S) (req : request_t) : Nat → S → Res S
  | 0, s =>
    if ops.get_occupied_byte s + req.obj_size + ops.obj_md_size s > ops.cache_size s
    then .timeout else .ok s
  | fuel + 1, s =>
    if ops.get_occupied_byte s + req.obj_size + ops.obj_md_size s > ops.cache_size s
    then (ops.evict s req).bind (evict_until_fits ops req fuel) else .ok s

/-- Modelled from the spec: `cache_get_base` (absent): `find(update=true)`; on a hit
return true; on a miss evict while the object does not fit, then insert and
return false. -/
def cache_get_base {S : Type} (ops : cache_ops S) (fuel : Nat) (s : S) (req : request_t) :
    Res (S × Bool) :=
  (ops.find s req true).bind fun r =>
    match r.2 with
    | some _ => .ok (r.1, true)
    | none =>
      (evict_until_fits ops req fuel r.1).bind fun s2 =>
        (ops.insert s2 req).bind fun r3 => .ok (r3.1, false)

/-! ## `Lever.c` -/

/-- Source `Lever_params_t`. -/
structure Lever_params_t where
  q_head : Option Ptr
  q_tail : Option Ptr
  fast : Option Ptr
  slow : Option Ptr

/-- State of a Lever cache. -/
abbrev LeverState := World Lever_params_t

/-- The list slots of a Lever cache. -/
def LeverState.q (w : LeverState) : dlist :=
  { heap := w.mem.heap, head := w.cache.eviction_params.q_head,
    tail := w.cache.eviction_params.q_tail }

/-- Store the heap and list slots back into a Lever cache. -/
def LeverState.setQ (w : LeverState) (q : dlist) : LeverState :=
  (w.setHeap q.heap).setParams
    { w.cache.eviction_params with q_head := q.head, q_tail := q.tail }

/-- Source `Lever_init`. -/
def Lever_init (ccache_params : common_cache_params_t) : LeverState :=
  { mem := Mem.empty,
    cache := cache_struct_init ccache_params
      { q_head := none, q_tail := none, fast := none, slow := none } }

/-- Source `Lever_find`. -/
def Lever_find (w : LeverState) (req : request_t) (update_cache : Bool) :
    LeverState × Option Ptr :=
  match cache_find_base w req update_cache with
  | some cache_obj =>
    if update_cache then
      (w.setHeap (setFreq w.mem.heap cache_obj 1), some cache_obj)
    else (w, some cache_obj)
  | none => (w, none)

/-- Source `Lever_insert`. -/
def Lever_insert (w : LeverState) (req : request_t) : Res (LeverState × Ptr) :=
  let r := cache_insert_base w req
  (prepend_obj_to_head (LeverState.q r.1) r.2).bind fun q =>
    let w2 := LeverState.setQ r.1 q
    .ok (w2.setHeap (setFreq w2.mem.heap r.2 0), r.2)

/-- Source `Lever_to_evict`. -/
def Lever_to_evict (w : LeverState) : Option Ptr :=
  match w.cache.eviction_params.slow with
  | some pointer =>
    if (w.mem.heap pointer).freq = 0 then some pointer else w.cache.eviction_params.q_tail
  | none => w.cache.eviction_params.q_tail

/-- One iteration of the `for` loop of `Lever_evict`, up to the `break` test. -/
def Lever_evict_fast (w : LeverState) : Res LeverState :=
  match w.cache.eviction_params.fast with
  | none => .fault
  | some obj =>
    let w1 : LeverState :=
      w.setParams { w.cache.eviction_params with fast := (w.mem.heap obj).prev }
    if (w1.mem.heap obj).freq = 1 then
      let w2 : LeverState := w1.setHeap (setFreq w1.mem.heap obj 0)
      (move_obj_after_mark (LeverState.q w2) w2.cache.eviction_params.slow obj).bind fun q =>
        .ok (LeverState.setQ w2 q)
    else .ok w1

/-- The part of `Lever_evict` after the `for` loop. -/
def Lever_evict_slow (w : LeverState) : Res LeverState :=
  match w.cache.eviction_params.slow with
  | none => .fault
  | some obj =>
    let w1 : LeverState :=
      w.setParams { w.cache.eviction_params with slow := (w.mem.heap obj).prev }
    if (w1.mem.heap obj).freq = 1 then
      let w2 : LeverState := w1.setHeap (setFreq w1.mem.heap obj 0)
      match w2.cache.eviction_params.q_tail with
      | none => .fault
      | some obj_to_evict =>
        match (w2.mem.heap obj_to_evict).prev with
        | some t =>
          let q3 : dlist :=
            { heap := setNext w2.mem.heap t none, head := w2.cache.eviction_params.q_head,
              tail := some t }
          .ok (cache_evict_base (LeverState.setQ w2 q3) obj_to_evict true)
        | none =>
          if w2.cache.n_obj = 1 then
            let q3 : dlist := { heap := w2.mem.heap, head := none, tail := none }
            .ok (cache_evict_base (LeverState.setQ w2 q3) obj_to_evict true)
          else .fault
    else
      let q3 := remove_obj_from_list (LeverState.q w1) obj
      .ok (cache_evict_base (LeverState.setQ w1 q3) obj true)

/-- Source `Lever_evict`. -/
def Lever_evict (w : LeverState) : Res LeverState :=
  let p := w.cache.eviction_params
  let p1 : Lever_params_t := if p.slow = none then { p with slow := p.q_tail } else p
  let p2 : Lever_params_t := if p1.fast = none then { p1 with fast := p1.q_tail } else p1
  let w2 : LeverState := w.setParams p2
  (Lever_evict_fast w2).bind fun w3 =>
    let looped : Res LeverState :=
      if w3.cache.eviction_params.fast = none then .ok w3 else Lever_evict_fast w3
    looped.bind Lever_evict_slow

/-- Source `Lever_remove_obj`. -/
def Lever_remove_obj (w : LeverState) (obj_to_remove : Ptr) : LeverState :=
  let p := w.cache.eviction_params
  let p1 : Lever_params_t :=
    if some obj_to_remove = p.slow then { p with slow := (w.mem.heap obj_to_remove).prev } else p
  let p2 : Lever_params_t :=
    if some obj_to_remove = p1.fast then { p1 with fast := (w.mem.heap obj_to_remove).prev }
    else p1
  let w2 : LeverState := w.setParams p2
  let q3 := remove_obj_from_list (LeverState.q w2) obj_to_remove
  cache_remove_obj_base (LeverState.setQ w2 q3) obj_to_remove true

/-- Source `Lever_remove`. -/
def Lever_remove (w : LeverState) (obj_id : Nat) : LeverState × Bool :=
  match hashtable_find_obj_id w.cache obj_id with
  | none => (w, false)
  | some obj => (Lever_remove_obj w obj, true)

/-- The function table installed by `Lever_init`. -/
def Lever_ops : cache_ops LeverState :=
  { find := fun w req u => .ok (Lever_find w req u),
    insert := Lever_insert,
    evict := fun w _ => Lever_evict w,
    get_occupied_byte := fun w => w.cache.occupied_byte,
    cache_size := fun w => w.cache.cache_size,
    obj_md_size := fun w => w.cache.obj_md_size }

/-- Source `Lever_get`. -/
def Lever_get (fuel : Nat) (w : LeverState) (req : request_t) : Res (LeverState × Bool) :=
  cache_get_base Lever_ops fuel w req

/-! ## `ShiftSieve.c` -/

/-- Source `VISITED_MASK`. -/
def VISITED_MASK : Nat := 1

/-- Source `SURVIVED_MASK`. -/
def SURVIVED_MASK : Nat := 2

/-- The 32-bit complement `~VISITED_MASK`. -/
def NOT_VISITED_MASK : Nat := 4294967294

/-- Source `ShiftSieve_params_t`. -/
structure ShiftSieve_params_t where
  q_head : Option Ptr
  q_tail : Option Ptr
  pointer : Option Ptr
  right : Int
  hot : Int

/-- State of a ShiftSieve cache. -/
abbrev SieveState := World ShiftSieve_params_t

/-- The list slots of a ShiftSieve cache. -/
def SieveState.q (w : SieveState) : dlist :=
  { heap := w.mem.heap, head := w.cache.eviction_params.q_head,
    tail := w.cache.eviction_params.q_tail }

/-- Store the heap and list slots back into a ShiftSieve cache. -/
def SieveState.setQ (w : SieveState) (q : dlist) : SieveState :=
  (w.setHeap q.heap).setParams
    { w.cache.eviction_params with q_head := q.head, q_tail := q.tail }

/-- Source `ShiftSieve_init`. -/
def ShiftSieve_init (ccache_params : common_cache_params_t) : SieveState :=
  { mem := Mem.empty,
    cache := cache_struct_init ccache_params
      { q_head := none, q_tail := none, pointer := none, right := 0, hot := 0 } }

/-- Source `ShiftSieve_find`. -/
def ShiftSieve_find (w : SieveState) (req : request_t) (update_cache : Bool) :
    Res (SieveState × Option Ptr) :=
  match cache_find_base w req update_cache with
  | some cache_obj =>
    if update_cache then
      let moved : Res SieveState :=
        if (w.mem.heap cache_obj).status &&& SURVIVED_MASK = 0 then
          let w1 : SieveState :=
            if some cache_obj = w.cache.eviction_params.pointer then
              w.setParams { w.cache.eviction_params with pointer := (w.mem.heap cache_obj).prev }
            else w
          (move_obj_to_head (SieveState.q w1) cache_obj).bind fun q =>
            .ok (SieveState.setQ w1 q)
        else .ok w
      moved.bind fun w2 =>
        .ok (w2.setHeap (setStatus w2.mem.heap cache_obj
              ((w2.mem.heap cache_obj).status ||| VISITED_MASK)), some cache_obj)
    else .ok (w, some cache_obj)
  | none => .ok (w, none)

/-- Source `ShiftSieve_insert`. -/
def ShiftSieve_insert (w : SieveState) (req : request_t) : Res (SieveState × Ptr) :=
  let r := cache_insert_base w req
  (prepend_obj_to_head (SieveState.q r.1) r.2).bind fun q =>
    let w2 := SieveState.setQ r.1 q
    .ok (w2.setHeap (setStatus w2.mem.heap r.2 0), r.2)

/-- Loop state of the victim scan: heap, `obj`, `right`, `hot`. -/
structure scan_t where
  heap : Heap
  obj : Option Ptr
  right : Int
  hot : Int

/-- The `while (obj->shiftsieve.status & VISITED_MASK)` loop that `ShiftSieve_to_evict`
and `ShiftSieve_evict` both contain; returns the final loop state with the victim. -/
def ShiftSieve_scan (n_obj : Int) (q_tail : Option Ptr) : Nat → scan_t → Res (scan_t × Ptr)
  | fuel, s =>
    match s.obj with
    | none => .fault
    | some obj =>
      if (s.heap obj).status &&& VISITED_MASK ≠ 0 then
        match fuel with
        | 0 => .timeout
        | fuel1 + 1 =>
          let h1 := setStatus s.heap obj ((s.heap obj).status &&& NOT_VISITED_MASK)
          let s2 : scan_t :=
            if (h1 obj).status &&& SURVIVED_MASK = 0 then
              { s with heap := setStatus h1 obj ((h1 obj).status ||| SURVIVED_MASK),
                       hot := s.hot + 1 }
            else { s with heap := h1 }
          let s3 : scan_t := { s2 with obj := (s2.heap obj).prev, right := s2.right + 1 }
          let s4 : scan_t :=
            if n_obj - s3.right ≤ Int.tdiv s3.hot 2 then
              { s3 with obj := q_tail, right := 0, hot := 0 }
            else s3
          ShiftSieve_scan n_obj q_tail fuel1 s4
      else .ok (s, obj)

/-- The common prefix of `ShiftSieve_to_evict` and `ShiftSieve_evict`: pick the start
of the scan, run the loop, then `params->pointer = obj->queue.prev`. -/
def ShiftSieve_select (fuel : Nat) (w : SieveState) : Res (SieveState × Ptr) :=
  let p := w.cache.eviction_params
  let s0 : scan_t :=
    match p.pointer with
    | none => { heap := w.mem.heap, obj := p.q_tail, right := 0, hot := 0 }
    | some o => { heap := w.mem.heap, obj := some o, right := p.right, hot := p.hot }
  (ShiftSieve_scan w.cache.n_obj p.q_tail fuel s0).bind fun r =>
    .ok ((w.setHeap r.1.heap).setParams
          { p with right := r.1.right, hot := r.1.hot, pointer := (r.1.heap r.2).prev }, r.2)

/-- Source `ShiftSieve_to_evict`. -/
def ShiftSieve_to_evict (fuel : Nat) (w : SieveState) : Res (SieveState × Ptr) :=
  ShiftSieve_select fuel w

/-- Source `ShiftSieve_evict`. -/
def ShiftSieve_evict (fuel : Nat) (w : SieveState) : Res SieveState :=
  (ShiftSieve_select fuel w).bind fun r =>
    let q := remove_obj_from_list (SieveState.q r.1) r.2
    .ok (cache_evict_base (SieveState.setQ r.1 q) r.2 true)

/-- Source `ShiftSieve_remove_obj`. -/
def ShiftSieve_remove_obj (w : SieveState) (obj_to_remove : Ptr) : SieveState :=
  let w1 : SieveState :=
    if some obj_to_remove = w.cache.eviction_params.pointer then
      w.setParams { w.cache.eviction_params with pointer := (w.mem.heap obj_to_remove).prev }
    else w
  let q := remove_obj_from_list (SieveState.q w1) obj_to_remove
  cache_remove_obj_base (SieveState.setQ w1 q) obj_to_remove true

/-- Source `ShiftSieve_remove`. -/
def ShiftSieve_remove (w : SieveState) (obj_id : Nat) : SieveState × Bool :=
  match hashtable_find_obj_id w.cache obj_id with
  | none => (w, false)
  | some obj => (ShiftSieve_remove_obj w obj, true)

/-- The function table installed by `ShiftSieve_init`; `fuel` bounds the scan loop. -/
def ShiftSieve_ops (fuel : Nat) : cache_ops SieveState :=
  { find := ShiftSieve_find,
    insert := ShiftSieve_insert,
    evict := fun w _ => ShiftSieve_evict fuel w,
    get_occupied_byte := fun w => w.cache.occupied_byte,
    cache_size := fun w => w.cache.cache_size,
    obj_md_size := fun w => w.cache.obj_md_size }

/-- Source `ShiftSieve_get`. -/
def ShiftSieve_get (fuel : Nat) (w : SieveState) (req : request_t) : Res (SieveState × Bool) :=
  cache_get_base (ShiftSieve_ops fuel) fuel w req

/-! ## FIFO sub-caches (`FIFO.c`: interface only) -/

/-- Modelled from the spec: `FIFO_params_t` (absent): head and tail of the queue. -/
structure FIFO_params_t where
  q_head : Option Ptr
  q_tail : Option Ptr

/-- State of a FIFO cache. -/
abbrev FIFOState := World FIFO_params_t

/-- The list slots of a FIFO cache. -/
def FIFOState.q (w : FIFOState) : dlist :=
  { heap := w.mem.heap, head := w.cache.eviction_params.q_head,
    tail := w.cache.eviction_params.q_tail }

/-- Store the heap and list slots back into a FIFO cache. -/
def FIFOState.setQ (w : FIFOState) (q : dlist) : FIFOState :=
  (w.setHeap q.heap).setParams { q_head := q.head, q_tail := q.tail }

/-- Modelled from the spec: `FIFO_init` (absent): an empty queue. -/
def FIFO_init (ccache_params : common_cache_params_t) : cache_t FIFO_params_t :=
  cache_struct_init ccache_params { q_head := none, q_tail := none }

/-- Modelled from the spec: `FIFO_find` (absent): index lookup, no promotion. -/
def FIFO_find (w : FIFOState) (req : request_t) (update_cache : Bool) : Option Ptr :=
  cache_find_base w req update_cache

/-- Modelled from the spec: `FIFO_insert` (absent): new node at the head of the queue. -/
def FIFO_insert (w : FIFOState) (req : request_t) : Res (FIFOState × Ptr) :=
  let r := cache_insert_base w req
  (prepend_obj_to_head (FIFOState.q r.1) r.2).bind fun q => .ok (FIFOState.setQ r.1 q, r.2)

/-- Modelled from the spec: `FIFO_to_evict` (absent): the tail of the queue. -/
def FIFO_to_evict (w : FIFOState) : Option Ptr :=
  w.cache.eviction_params.q_tail

/-- Modelled from the spec: `FIFO_remove` (absent): unlink the node found by id and
release it through `cache_remove_obj_base`. -/
def FIFO_remove (w : FIFOState) (obj_id : Nat) : FIFOState × Bool :=
  match hashtable_find_obj_id w.cache obj_id with
  | none => (w, false)
  | some obj =>
    let q := remove_obj_from_list (FIFOState.q w) obj
    (cache_remove_obj_base (FIFOState.setQ w q) obj true, true)

/-! ## `Shift.c` -/

/-- Source `Shift_params_t`.  The two FIFO caches are the objects `c0` and `c1`;
`eviction` and `retention` are the pointers to them (`false` for `c0`, `true`
for `c1`). -/
structure Shift_params_t where
  c0 : cache_t FIFO_params_t
  c1 : cache_t FIFO_params_t
  eviction : Bool
  retention : Bool
  shift : Bool
  req_local : request_t

/-- Dereference of a pointer to one of the two FIFO caches. -/
def Shift_params_t.sub (p : Shift_params_t) (b : Bool) : cache_t FIFO_params_t :=
  if b then p.c1 else p.c0

/-- Store through a pointer to one of the two FIFO caches. -/
def Shift_params_t.setSub (p : Shift_params_t) (b : Bool) (c : cache_t FIFO_params_t) :
    Shift_params_t :=
  if b then { p with c1 := c } else { p with c0 := c }

/-- State of a Shift cache. -/
abbrev ShiftState := World Shift_params_t

/-- The FIFO cache behind pointer `b`, with the shared memory. -/
def ShiftState.fifo (w : ShiftState) (b : Bool) : FIFOState :=
  { mem := w.mem, cache := w.cache.eviction_params.sub b }

/-- Write back the FIFO cache behind pointer `b` and the memory. -/
def ShiftState.setFifo (w : ShiftState) (b : Bool) (f : FIFOState) : ShiftState :=
  { mem := f.mem,
    cache := { w.cache with eviction_params := w.cache.eviction_params.setSub b f.cache } }

/-- Source `Shift_init`. -/
def Shift_init (ccache_params : common_cache_params_t) : ShiftState :=
  { mem := Mem.empty,
    cache := cache_struct_init ccache_params
      { c0 := FIFO_init ccache_params, c1 := FIFO_init ccache_params,
        eviction := false, retention := true, shift := false,
        req_local := { obj_id := 0, obj_size := 0, next_access_vtime := 0, valid := false } } }

/-- The hit path of `Shift_find` with `update_cache` on the FIFO cache behind `b`. -/
def Shift_find_in (w : ShiftState) (b : Bool) (req : request_t) :
    Res (ShiftState × Option Ptr) :=
  match FIFO_find (w.fifo b) req true with
  | some obj =>
    let moved : Res ShiftState :=
      if (w.mem.heap obj).freq = 0 then
        (move_obj_to_head (FIFOState.q (w.fifo b)) obj).bind fun q =>
          .ok (w.setFifo b (FIFOState.setQ (w.fifo b) q))
      else .ok w
    moved.bind fun w1 =>
      .ok (w1.setHeap (setFreq w1.mem.heap obj ((w1.mem.heap obj).freq + 1)), some obj)
  | none => .ok (w, none)

/-- Source `Shift_find`. -/
def Shift_find (w : ShiftState) (req : request_t) (update_cache : Bool) :
    Res (ShiftState × Option Ptr) :=
  let p := w.cache.eviction_params
  if !update_cache then
    match FIFO_find (w.fifo p.retention) req false with
    | some obj => .ok (w, some obj)
    | none =>
      match FIFO_find (w.fifo p.eviction) req false with
      | some obj => .ok (w, some obj)
      | none => .ok (w, none)
  else
    (Shift_find_in w p.eviction req).bind fun r =>
      match r.2 with
      | some obj => .ok (r.1, some obj)
      | none => Shift_find_in r.1 r.1.cache.eviction_params.retention req

/-- Source `Shift_insert`. -/
def Shift_insert (w : ShiftState) (req : request_t) : Res (ShiftState × Ptr) :=
  let p := w.cache.eviction_params
  let b := if p.shift then p.retention else p.eviction
  (FIFO_insert (w.fifo b) req).bind fun r =>
    let w1 := w.setFifo b r.1
    .ok (w1.setHeap (setFreq w1.mem.heap r.2 0), r.2)

/-- Source `Shift_to_evict`: `assert(false)`. -/
def Shift_to_evict (_w : ShiftState) : Res (ShiftState × Ptr) := .fault

/-- Source `Shift_get_occupied_byte`. -/
def Shift_get_occupied_byte (w : ShiftState) : Int :=
  (w.cache.eviction_params.sub w.cache.eviction_params.eviction).occupied_byte +
  (w.cache.eviction_params.sub w.cache.eviction_params.retention).occupied_byte

/-- Source `Shift_get_n_obj`. -/
def Shift_get_n_obj (w : ShiftState) : Int :=
  (w.cache.eviction_params.sub w.cache.eviction_params.eviction).n_obj +
  (w.cache.eviction_params.sub w.cache.eviction_params.retention).n_obj

/-- The `while (!has_evicted && eviction->n_obj > 0)` loop of `Shift_evict`; `eviction`
is the local pointer taken before the loop. -/
def Shift_evict_loop (eviction : Bool) : Nat → ShiftState → Bool → Res ShiftState
  | fuel, w, has_evicted =>
    if !has_evicted ∧ (w.cache.eviction_params.sub eviction).n_obj > 0 then
      match fuel with
      | 0 => .timeout
      | fuel1 + 1 =>
        match FIFO_to_evict (w.fifo eviction) with
        | none => .fault
        | some obj_to_evict =>
          let w1 : ShiftState :=
            w.setParams { w.cache.eviction_params with
              req_local := copy_cache_obj_to_request w.cache.eviction_params.req_local
                (w.mem.heap obj_to_evict) }
          let shuttled : Res (ShiftState × Bool) :=
            if (w1.mem.heap obj_to_evict).freq ≥ 1 then
              let retention := w1.cache.eviction_params.retention
              (FIFO_insert (w1.fifo retention) w1.cache.eviction_params.req_local).bind fun r =>
                let w2 := w1.setFifo retention r.1
                .ok (w2.setHeap (setFreq w2.mem.heap r.2 ((w2.mem.heap r.2).freq / 2)),
                     has_evicted)
            else .ok (w1, true)
          shuttled.bind fun r =>
            let w3 := r.1
            let rm := FIFO_remove (w3.fifo eviction) (w3.mem.heap obj_to_evict).obj_id
            if !rm.2 then .fault
            else
              let w4 := w3.setFifo eviction rm.1
              let w5 : ShiftState :=
                if (w4.cache.eviction_params.sub eviction).n_obj ≤ 0 then
                  w4.setParams { w4.cache.eviction_params with
                    eviction := w4.cache.eviction_params.retention,
                    retention := eviction,
                    shift := false }
                else w4
              Shift_evict_loop eviction fuel1 w5 r.2
    else .ok w

/-- Source `Shift_evict`. -/
def Shift_evict (fuel : Nat) (w : ShiftState) : Res ShiftState :=
  (Shift_evict_loop w.cache.eviction_params.eviction fuel w false).bind fun w1 =>
    if (w1.cache.eviction_params.sub w1.cache.eviction_params.eviction).n_obj
        ≤ Int.tdiv (Shift_get_n_obj w1) 10 then
      .ok (w1.setParams { w1.cache.eviction_params with shift := true })
    else .ok w1

/-- Source `Shift_remove`. -/
def Shift_remove (w : ShiftState) (obj_id : Nat) : ShiftState × Bool :=
  let p := w.cache.eviction_params
  let r := FIFO_remove (w.fifo p.eviction) obj_id
  if r.2 then (w.setFifo p.eviction r.1, true)
  else
    let r2 := FIFO_remove (w.fifo p.retention) obj_id
    (w.setFifo p.retention r2.1, r2.2)

/-- The function table installed by `Shift_init`; `fuel` bounds the loop of `Shift_evict`. -/
def Shift_ops (fuel : Nat) : cache_ops ShiftState :=
  { find := Shift_find,
    insert := Shift_insert,
    evict := fun w _ => Shift_evict fuel w,
    get_occupied_byte := Shift_get_occupied_byte,
    cache_size := fun w => w.cache.cache_size,
    obj_md_size := fun w => w.cache.obj_md_size }

/-- Source `Shift_get`. -/
def Shift_get (fuel : Nat) (w : ShiftState) (req : request_t) : Res (ShiftState × Bool) :=
  cache_get_base (Shift_ops fuel) fuel w req

/-! ## Observations used to state the properties -/

/-- Follow `next` from `p`, at most `fuel` nodes. -/
def walkNext (h : Heap) : Nat → Option Ptr → List Ptr
  | 0, _ => []
  | _ + 1, none => []
  | fuel + 1, some p => p :: walkNext h fuel (h p).next

/-- Follow `prev` from `p`, at most `fuel` nodes. -/
def walkPrev (h : Heap) : Nat → Option Ptr → List Ptr
  | 0, _ => []
  | _ + 1, none => []
  | fuel + 1, some p => p :: walkPrev h fuel (h p).prev

/-- A request for key `k` of size one. -/
def unit_req (k : Nat) : request_t :=
  { obj_id := k, obj_size := 1, next_access_vtime := 0, valid := true }

/-- Issue `get` for each key of size one in turn; returns the final state and the
hit/miss answers in order. -/
def run_gets {S : Type} (get : S → request_t → Res (S × Bool)) :
    List Nat → S → Res (S × List Bool)
  | [], s => .ok (s, [])
  | k :: ks, s =>
    (get s (unit_req k)).bind fun r =>
      (run_gets get ks r.1).bind fun r2 => .ok (r2.1, r.2 :: r2.2)

/-- The nodes of a Lever cache from head to tail (at most `n_obj + brk` of them). -/
def Lever_nodes (w : LeverState) : List Ptr :=
  walkNext w.mem.heap w.mem.brk w.cache.eviction_params.q_head

/-- The keys resident in a Lever cache, head to tail. -/
def Lever_keys (w : LeverState) : List Nat :=
  (Lever_nodes w).map fun p => (w.mem.heap p).obj_id

/-- Marker validity: `m` is `NULL` or a node of the list `l`. -/
def marker_ok (l : List Ptr) (m : Option Ptr) : Prop :=
  match m with
  | none => True
  | some p => p ∈ l

instance (l : List Ptr) (m : Option Ptr) : Decidable (marker_ok l m) := by
  cases m <;> simp only [marker_ok] <;> infer_instance

/-- The nodes of a ShiftSieve cache from head to tail. -/
def Sieve_nodes (w : SieveState) : List Ptr :=
  walkNext w.mem.heap w.mem.brk w.cache.eviction_params.q_head

/-- The keys resident in a ShiftSieve cache, head to tail. -/
def Sieve_keys (w : SieveState) : List Nat :=
  (Sieve_nodes w).map fun p => (w.mem.heap p).obj_id

/-- The nodes of the FIFO cache behind pointer `b` of a Shift cache, head to tail. -/
def Shift_nodes (w : ShiftState) (b : Bool) : List Ptr :=
  walkNext w.mem.heap w.mem.brk (w.cache.eviction_params.sub b).eviction_params.q_head

/-- The keys, with their `freq`, of the FIFO cache behind pointer `b`, head to tail. -/
def Shift_keys (w : ShiftState) (b : Bool) : List (Nat × Nat) :=
  (Shift_nodes w b).map fun p => ((w.mem.heap p).obj_id, (w.mem.heap p).freq)

/-- The state in which `Shift_get` of `req` can make no progress: a miss on a full
cache whose eviction sub-cache is empty while `shift` is already set. -/
def Shift_stuck (w : ShiftState) (req : request_t) : Prop :=
  let p := w.cache.eviction_params
  (p.sub p.eviction).hashtable req.obj_id = none ∧
  (p.sub p.retention).hashtable req.obj_id = none ∧
  (p.sub p.eviction).n_obj ≤ 0 ∧
  (p.sub p.eviction).n_obj ≤ Int.tdiv (Shift_get_n_obj w) 10 ∧
  p.shift = true ∧
  Shift_get_occupied_byte w + req.obj_size + w.cache.obj_md_size > w.cache.cache_size

instance (w : ShiftState) (req : request_t) : Decidable (Shift_stuck w req) := by
  unfold Shift_stuck; infer_instance

/-- Two lists have the same members. -/
def same_set {α : Type} (l1 l2 : List α) : Prop :=
  (∀ x ∈ l1, x ∈ l2) ∧ (∀ x ∈ l2, x ∈ l1)

instance {α : Type} [DecidableEq α] (l1 l2 : List α) : Decidable (same_set l1 l2) := by
  unfold same_set; infer_instance

/-! ## Definitions used by the proofs -/

/-- The element following `x` in `l`. -/
def nextOf : List Ptr → Ptr → Option Ptr
  | [], _ => none
  | a :: t, x => if x = a then t.head? else nextOf t x

/-- The element preceding `x` in `l`. -/
def prevOf : List Ptr → Ptr → Option Ptr
  | [], _ => none
  | a :: t, x => if t.head? = some x then some a else prevOf t x

/-- Insert `x` immediately after `m` in `l`. -/
def insertAfter (m x : Ptr) : List Ptr → List Ptr
  | [] => []
  | a :: t => if a = m then a :: x :: t else a :: insertAfter m x t

/-- Representation predicate: the heap links exactly the nodes of `l`, in order,
between `head` and `tail`. -/
def IsList (q : dlist) (l : List Ptr) : Prop :=
  l.Nodup ∧ q.head = l.head? ∧ q.tail = l.getLast? ∧
  ∀ x ∈ l, (q.heap x).prev = prevOf l x ∧ (q.heap x).next = nextOf l x

/-- Only the link fields of the heap differ. -/
def same_data (h h2 : Heap) : Prop :=
  ∀ y, (h2 y).obj_id = (h y).obj_id ∧ (h2 y).obj_size = (h y).obj_size ∧
    (h2 y).next_access_vtime = (h y).next_access_vtime ∧
    (h2 y).freq = (h y).freq ∧ (h2 y).status = (h y).status

/-- The effect of a list primitive on the heap besides relinking: data fields are
kept everywhere and nodes outside `l` are untouched. -/
def links_only (q q2 : dlist) (l : List Ptr) : Prop :=
  same_data q.heap q2.heap ∧ ∀ y, y ∉ l → q2.heap y = q.heap y

/-- The list after `move_obj_after_mark`. -/
def moveAfter (m x : Ptr) (l : List Ptr) : List Ptr :=
  if x = m then l else insertAfter m x (l.erase x)

/-- Following the link `f` from `p` visits exactly the nodes of `l`, in order, and
then reaches `NULL`. -/
def path (f : Ptr → Option Ptr) : Option Ptr → List Ptr → Prop
  | p, [] => p = none
  | p, x :: xs => p = some x ∧ path f (f x) xs

instance path.dec (f : Ptr → Option Ptr) : ∀ p l, Decidable (path f p l)
  | p, [] => inferInstanceAs (Decidable (p = none))
  | _, x :: xs => @instDecidableAnd _ _ _ (path.dec f (f x) xs)

/-- The field `f` of the node `o` points to is `NULL` (vacuous for `o = NULL`). -/
def end_null (o : Option Ptr) (f : Ptr → Option Ptr) : Prop :=
  match o with
  | none => True
  | some p => f p = none

instance (o : Option Ptr) (f : Ptr → Option Ptr) : Decidable (end_null o f) := by
  cases o <;> simp only [end_null] <;> infer_instance

/-- Well-formedness of the list in `q` with node sequence `l`: head is null iff tail
is null, `head.prev` and `tail.next` are null, and following `next` from head
and `prev` from tail enumerates the same duplicate-free sequence `l` in
opposite orders. -/
def well_formed (q : dlist) (l : List Ptr) : Prop :=
  (q.head = none ↔ q.tail = none) ∧
  end_null q.head (fun p => (q.heap p).prev) ∧
  end_null q.tail (fun p => (q.heap p).next) ∧
  l.Nodup ∧
  path (fun p => (q.heap p).next) q.head l ∧
  path (fun p => (q.heap p).prev) q.tail l.reverse

instance (q : dlist) (l : List Ptr) : Decidable (well_formed q l) := by
  unfold well_formed; infer_instance

/-- A two-node list used to instantiate the statements: node 0 then node 1. -/
def two_nodes : dlist :=
  { heap := fun p =>
      if p = 0 then { zero_obj with next := some 1 }
      else if p = 1 then { zero_obj with prev := some 0 }
      else zero_obj,
    head := some 0, tail := some 1 }

/-- Invariant of a list-based cache: the heap represents the node sequence `l`, all
of whose nodes were allocated; the index maps exactly the keys of the nodes
of `l` to those nodes; `n_obj` counts them. -/
def Inv (h : Heap) (brk : Ptr) (ht : Nat → Option Ptr) (n : Int) (head tail : Option Ptr)
    (l : List Ptr) : Prop :=
  IsList { heap := h, head := head, tail := tail } l ∧
  (∀ p ∈ l, p < brk) ∧
  (∀ k p, ht k = some p ↔ (p ∈ l ∧ (h p).obj_id = k)) ∧
  n = l.length

/-- The heaps agree on links and keys. -/
def same_links (h h2 : Heap) : Prop :=
  ∀ y, (h2 y).prev = (h y).prev ∧ (h2 y).next = (h y).next ∧ (h2 y).obj_id = (h y).obj_id

/-- Invariant of a Lever cache with node sequence `l`. -/
def LeverInv (w : LeverState) (l : List Ptr) : Prop :=
  Inv w.mem.heap w.mem.brk w.cache.hashtable w.cache.n_obj
    w.cache.eviction_params.q_head w.cache.eviction_params.q_tail l

/-- State of a cache during the round trip: unit sizes, no metadata, capacity `N`,
and the keys `ds` resident (most recently inserted first). -/
def Filled (h : Heap) (occ cap md : Int) (l : List Ptr) (N : Nat)
    (ds : List Nat) : Prop :=
  l.map (fun p => (h p).obj_id) = ds ∧ occ = ds.length ∧ md = 0 ∧ cap = N

/-- Number of nodes of `l` strictly on the tail side of `x`. -/
def afterCount : List Ptr → Ptr → Nat
  | [], _ => 0
  | a :: t, x => if x = a then t.length else afterCount t x

/-- Validity of the scan pointer: null, or a node of `l` with at most `right` nodes
on its tail side. -/
def ptr_ok (l : List Ptr) (o : Option Ptr) (right : Int) : Prop :=
  match o with
  | none => True
  | some p => p ∈ l ∧ (afterCount l p : Int) ≤ right

/-- Invariant of a ShiftSieve cache with node sequence `l`. -/
def SieveInv (w : SieveState) (l : List Ptr) : Prop :=
  Inv w.mem.heap w.mem.brk w.cache.hashtable w.cache.n_obj
    w.cache.eviction_params.q_head w.cache.eviction_params.q_tail l ∧
  0 ≤ w.cache.eviction_params.hot ∧
  ptr_ok l w.cache.eviction_params.pointer w.cache.eviction_params.right

/-- Number of nodes of `l` whose VISITED bit is set. -/
def visCount (h : Heap) (l : List Ptr) : Nat :=
  l.countP (fun p => decide ((h p).status &&& VISITED_MASK ≠ 0))

/-- The heaps agree on every field except `status`. -/
def same_but_status (h h2 : Heap) : Prop :=
  ∀ y, (h2 y).prev = (h y).prev ∧ (h2 y).next = (h y).next ∧ (h2 y).obj_id = (h y).obj_id ∧
    (h2 y).obj_size = (h y).obj_size ∧ (h2 y).freq = (h y).freq ∧
    (h2 y).next_access_vtime = (h y).next_access_vtime

/-- What the victim scan guarantees about its result. -/
def scan_post (l : List Ptr) (h0 : Heap) (r : scan_t × Ptr) : Prop :=
  same_but_status h0 r.1.heap ∧ 0 ≤ r.1.hot ∧ r.2 ∈ l ∧ (afterCount l r.2 : Int) ≤ r.1.right ∧
    (r.1.heap r.2).status &&& VISITED_MASK = 0

/-- States reached from a freshly initialised ShiftSieve cache by `get` and `remove`
calls. -/
inductive SieveReach (cp : common_cache_params_t) : SieveState → Prop
  | init : SieveReach cp (ShiftSieve_init cp)
  | get {w w2 : SieveState} {b : Bool} (fuel : Nat) (req : request_t) :
      SieveReach cp w → ShiftSieve_get fuel w req = .ok (w2, b) → SieveReach cp w2
  | remove {w : SieveState} (obj_id : Nat) :
      SieveReach cp w → SieveReach cp (ShiftSieve_remove w obj_id).1

/-- States reached from a freshly initialised ShiftSieve cache by `get`,
`find` with `update_cache`, `evict` on a non-empty cache, and `remove` calls. -/
inductive SieveReachAll (cp : common_cache_params_t) : SieveState → Prop
  | init : SieveReachAll cp (ShiftSieve_init cp)
  | get {w w2 : SieveState} {b : Bool} (fuel : Nat) (req : request_t) :
      SieveReachAll cp w → ShiftSieve_get fuel w req = .ok (w2, b) → SieveReachAll cp w2
  | find {w : SieveState} {r : SieveState × Option Ptr} (req : request_t) :
      SieveReachAll cp w → ShiftSieve_find w req true = .ok r → SieveReachAll cp r.1
  | evict {w w2 : SieveState} (fuel : Nat) :
      SieveReachAll cp w → 0 < w.cache.n_obj → ShiftSieve_evict fuel w = .ok w2 →
      SieveReachAll cp w2
  | remove {w : SieveState} (obj_id : Nat) :
      SieveReachAll cp w → SieveReachAll cp (ShiftSieve_remove w obj_id).1

/-- Invariant of a Shift cache that has never evicted: the eviction sub-cache is `c0`
with node sequence `l`, the retention sub-cache `c1` is empty, `shift` is clear. -/
def ShiftFill (w : ShiftState) (l : List Ptr) : Prop :=
  w.cache.eviction_params.eviction = false ∧ w.cache.eviction_params.retention = true ∧
  w.cache.eviction_params.shift = false ∧
  Inv w.mem.heap w.mem.brk w.cache.eviction_params.c0.hashtable
    w.cache.eviction_params.c0.n_obj w.cache.eviction_params.c0.eviction_params.q_head
    w.cache.eviction_params.c0.eviction_params.q_tail l ∧
  (∀ k, w.cache.eviction_params.c1.hashtable k = none) ∧
  w.cache.eviction_params.c1.occupied_byte = 0 ∧ w.cache.eviction_params.c1.n_obj = 0

/-- The round-trip law of an engine with entry point `get` and fresh state `init`:
the gets of `ks` all miss and leave exactly those keys resident (`keys`, `n_obj`),
and the gets of `ks2` that follow all hit. -/
def round_trip {S : Type} (get : S → request_t → Res (S × Bool)) (init : S)
    (keys : S → List Nat) (n_obj : S → Int) (N : Nat) (ks ks2 : List Nat) : Prop :=
  ∃ w1 w2, run_gets get ks init = .ok (w1, List.replicate N false) ∧
    keys w1 = ks.reverse ∧ n_obj w1 = N ∧
    run_gets get ks2 w1 = .ok (w2, List.replicate ks2.length true)

/-- One call on a ShiftSieve cache, with unit-size requests. -/
inductive sieve_op where
  | get (k : Nat)
  | find (k : Nat)
  | evict
  | remove (k : Nat)

/-- The calls `get` and `remove`. -/
def sieve_op.basic : sieve_op → Bool
  | .get _ => true
  | .remove _ => true
  | _ => false

/-- The state after one call; a call that does not return, and `evict` on an empty
cache, leave the state as it is. -/
def Sieve_apply (fuel : Nat) (w : SieveState) : sieve_op → SieveState
  | .get k =>
    match ShiftSieve_get fuel w (unit_req k) with
    | .ok r => r.1
    | _ => w
  | .find k =>
    match ShiftSieve_find w (unit_req k) true with
    | .ok r => r.1
    | _ => w
  | .evict =>
    if 0 < w.cache.n_obj then
      match ShiftSieve_evict fuel w with
      | .ok w2 => w2
      | _ => w
    else w
  | .remove k => (ShiftSieve_remove w k).1

/-- The state after a sequence of calls. -/
def Sieve_script (fuel : Nat) (ops : List sieve_op) (w : SieveState) : SieveState :=
  ops.foldl (Sieve_apply fuel) w

/-- A run of all four kinds of call on a cache of capacity 3. -/
def Sieve_example_all : SieveState :=
  Sieve_script 3 [.get 1, .get 2, .get 3, .find 2, .evict, .get 4, .remove 4]
    (ShiftSieve_init { cache_size := 3, consider_obj_metadata := false })

/-- A sequence of `get` and `remove` calls. -/
def Sieve_calls_basic : List sieve_op :=
  [.get 1, .get 2, .get 1, .get 3, .remove 1, .get 4]

/-- A run of `get` and `remove` calls on a cache of capacity 2. -/
def Sieve_example_basic : SieveState :=
  Sieve_script 2 Sieve_calls_basic
    (ShiftSieve_init { cache_size := 2, consider_obj_metadata := false })

/-- A one-node list: node 0 alone. -/
def one_node : dlist :=
  { heap := fun _ => zero_obj, head := some 0, tail := some 0 }

/-- A three-node list: node 0, then node 1, then node 2. -/
def three_nodes : dlist :=
  { heap := fun p =>
      if p = 0 then { zero_obj with next := some 1 }
      else if p = 1 then { zero_obj with prev := some 0, next := some 2 }
      else if p = 2 then { zero_obj with prev := some 1 }
      else zero_obj,
    head := some 0, tail := some 2 }

/-- The two worlds agree on the index, the counters, the allocator and on the
`obj_id` and `obj_size` of every node. -/
def same_cache {P : Type} (w w2 : World P) : Prop :=
  w2.cache.hashtable = w.cache.hashtable ∧ w2.cache.n_obj = w.cache.n_obj ∧
  w2.cache.occupied_byte = w.cache.occupied_byte ∧ w2.cache.cache_size = w.cache.cache_size ∧
  w2.cache.obj_md_size = w.cache.obj_md_size ∧ w2.mem.brk = w.mem.brk ∧
  ∀ p, (w2.mem.heap p).obj_id = (w.mem.heap p).obj_id ∧
    (w2.mem.heap p).obj_size = (w.mem.heap p).obj_size

/-- List-level view of a Lever cache: node sequence from head to tail, the `freq` of
each node, and the two markers. -/
structure lever_abs where
  l : List Ptr
  freq : Ptr → Nat
  fast : Option Ptr
  slow : Option Ptr

/-- List-level effect of one pass of the `for` loop of `Lever_evict` with `slow = s`;
no pass is made once `fast` is null. -/
def abs_fast (s : Ptr) (a : lever_abs) : lever_abs :=
  match a.fast with
  | none => a
  | some f =>
    if a.freq f = 1 then
      { l := moveAfter s f a.l, freq := Function.update a.freq f 0, fast := prevOf a.l f,
        slow := a.slow }
    else { l := a.l, freq := a.freq, fast := prevOf a.l f, slow := a.slow }

/-- The victim of the slow step of `Lever_evict`: the tail when `slow` has `freq = 1`,
else `slow` itself. -/
def abs_victim (s : Ptr) (a : lever_abs) : Option Ptr :=
  if a.freq s = 1 then a.l.getLast? else some s

/-- List-level effect of `Lever_evict`: the state afterwards and the node evicted. -/
def abs_evict (a : lever_abs) : lever_abs × Option Ptr :=
  match a.slow <|> a.l.getLast? with
  | none => (a, none)
  | some s =>
    let a2 := abs_fast s (abs_fast s
      { l := a.l, freq := a.freq, fast := a.fast <|> a.l.getLast?, slow := some s })
    match abs_victim s a2 with
    | none => (a2, none)
    | some v =>
      ({ l := a2.l.erase v,
         freq := fun p => if p = s ∧ a2.freq s = 1 then 0 else a2.freq p,
         fast := a2.fast, slow := prevOf a2.l s }, some v)

/-- The list-level view `a` describes the Lever cache `w`. -/
def LeverRep (w : LeverState) (a : lever_abs) : Prop :=
  IsList (LeverState.q w) a.l ∧ (∀ p, (w.mem.heap p).freq = a.freq p) ∧
  w.cache.eviction_params.fast = a.fast ∧ w.cache.eviction_params.slow = a.slow

/-- The list-level view of the Lever cache `w` with node sequence `l`. -/
def Lever_abs (w : LeverState) (l : List Ptr) : lever_abs :=
  { l := l, freq := fun p => (w.mem.heap p).freq, fast := w.cache.eviction_params.fast,
    slow := w.cache.eviction_params.slow }

/-- The state after a unit-size get of key `k`; a get that does not return leaves the
state as it is. -/
def get_or_stay {S : Type} (get : S → request_t → Res (S × Bool)) (w : S) (k : Nat) : S :=
  match get w (unit_req k) with
  | .ok r => r.1
  | _ => w

/-- The Lever state after unit-size gets of the keys `ks`. -/
def Lever_run (fuel : Nat) (ks : List Nat) (w : LeverState) : LeverState :=
  ks.foldl (get_or_stay (Lever_get fuel)) w

/-- A Lever cache of capacity 3 after the gets 1 2 2 3 3 4: list of nodes 3, 2, 1 (keys
4, 3, 2), node 2 with `freq = 1`, and `fast = slow =` node 2. -/
def Lever_warm : LeverState :=
  Lever_run 1 [1, 2, 2, 3, 3, 4] (Lever_init { cache_size := 3, consider_obj_metadata := false })

/-- A Lever cache of capacity 3 after the gets 1 2 3: list of nodes 2, 1, 0, every
`freq` zero, both markers null. -/
def Lever_cold : LeverState :=
  Lever_run 1 [1, 2, 3] (Lever_init { cache_size := 3, consider_obj_metadata := false })

/-- A Lever cache of capacity 3 after the gets 1 2 3 4: list of nodes 3, 2, 1, every
`freq` zero, `slow` at node 1 and `fast` at node 2. -/
def Lever_next : LeverState :=
  Lever_run 1 [1, 2, 3, 4] (Lever_init { cache_size := 3, consider_obj_metadata := false })

/-- The heap after the scan has cleared VISITED on the nodes `ps`, in that order. -/
def clear_visited (h : Heap) (ps : List Ptr) : Heap :=
  ps.foldl (fun h p => setStatus h p ((h p).status &&& NOT_VISITED_MASK)) h

/-- A ShiftSieve cache of four nodes 3, 2, 1, 0 (head to tail), each with VISITED and
SURVIVED set, `pointer` null. -/
def Sieve_hot4 : SieveState :=
  { mem :=
      { heap := fun p =>
          if p = 0 then { zero_obj with obj_id := 1, obj_size := 1, prev := some 1, status := 3 }
          else if p = 1 then
            { zero_obj with obj_id := 2, obj_size := 1, prev := some 2, next := some 0,
                            status := 3 }
          else if p = 2 then
            { zero_obj with obj_id := 3, obj_size := 1, prev := some 3, next := some 1,
                            status := 3 }
          else if p = 3 then { zero_obj with obj_id := 4, obj_size := 1, next := some 2, status := 3 }
          else zero_obj,
        brk := 4 },
    cache :=
      { hashtable := fun k => if 1 ≤ k ∧ k ≤ 4 then some (k - 1) else none,
        n_obj := 4, occupied_byte := 4, cache_size := 4, obj_md_size := 0,
        eviction_params :=
          { q_head := some 3, q_tail := some 0, pointer := none, right := 0, hot := 0 } } }

/-- The list, index and counter part of the ShiftSieve invariant, with node sequence
`l`. -/
def SieveList (w : SieveState) (l : List Ptr) : Prop :=
  Inv w.mem.heap w.mem.brk w.cache.hashtable w.cache.n_obj
    w.cache.eviction_params.q_head w.cache.eviction_params.q_tail l

/-- Invariant of a FIFO cache with node sequence `l`: list, index and `n_obj` agree. -/
def FifoInv (f : FIFOState) (l : List Ptr) : Prop :=
  Inv f.mem.heap f.mem.brk f.cache.hashtable f.cache.n_obj
    f.cache.eviction_params.q_head f.cache.eviction_params.q_tail l

/-- The list of the FIFO cache behind pointer `b`, given the lists `l0` of `c0` and `l1`
of `c1`. -/
def pick (b : Bool) (l0 l1 : List Ptr) : List Ptr := if b then l1 else l0

/-- The two FIFO caches of a Shift cache are valid, with node sequences `l0` (of `c0`)
and `l1` (of `c1`), share no node, and count the same metadata per object. -/
def ShiftLists (w : ShiftState) (l0 l1 : List Ptr) : Prop :=
  FifoInv (w.fifo false) l0 ∧ FifoInv (w.fifo true) l1 ∧ (∀ p ∈ l0, p ∉ l1) ∧
  w.cache.eviction_params.c0.obj_md_size = w.cache.eviction_params.c1.obj_md_size

/-- Invariant of a Shift cache: valid FIFO caches, `eviction` and `retention` point to
different ones, and no key is in both. -/
def ShiftInv (w : ShiftState) (l0 l1 : List Ptr) : Prop :=
  ShiftLists w l0 l1 ∧
  w.cache.eviction_params.retention = !w.cache.eviction_params.eviction ∧
  ∀ k, w.cache.eviction_params.c0.hashtable k ≠ none →
    w.cache.eviction_params.c1.hashtable k = none

/-- The two Shift states agree on everything but the heap and the list slots: the
indexes and counters of both FIFO caches, the role pointers, the `shift` flag, the
capacity and the allocator. -/
def Shift_frame (w w2 : ShiftState) : Prop :=
  (∀ b, (w2.cache.eviction_params.sub b).hashtable = (w.cache.eviction_params.sub b).hashtable ∧
    (w2.cache.eviction_params.sub b).n_obj = (w.cache.eviction_params.sub b).n_obj ∧
    (w2.cache.eviction_params.sub b).occupied_byte =
      (w.cache.eviction_params.sub b).occupied_byte ∧
    (w2.cache.eviction_params.sub b).obj_md_size =
      (w.cache.eviction_params.sub b).obj_md_size) ∧
  w2.cache.eviction_params.eviction = w.cache.eviction_params.eviction ∧
  w2.cache.eviction_params.retention = w.cache.eviction_params.retention ∧
  w2.cache.eviction_params.shift = w.cache.eviction_params.shift ∧
  w2.cache.cache_size = w.cache.cache_size ∧ w2.cache.obj_md_size = w.cache.obj_md_size ∧
  w2.mem.brk = w.mem.brk

/-- The state after `copy_cache_obj_to_request(params->req_local, obj_to_evict)`. -/
def Shift_note (w : ShiftState) (t : Ptr) : ShiftState :=
  w.setParams { w.cache.eviction_params with
    req_local := copy_cache_obj_to_request w.cache.eviction_params.req_local (w.mem.heap t) }

/-- The role swap at the end of an iteration of the loop of `Shift_evict`, made when
the cache behind the local pointer `eviction` has become empty. -/
def Shift_swap (eviction : Bool) (w4 : ShiftState) : ShiftState :=
  if (w4.cache.eviction_params.sub eviction).n_obj ≤ 0 then
    w4.setParams { w4.cache.eviction_params with
      eviction := w4.cache.eviction_params.retention,
      retention := eviction,
      shift := false }
  else w4

/-- One iteration of the loop of `Shift_evict` with victim `t`, up to the recursive
call: the state after the iteration and the new value of `has_evicted`. -/
def Shift_body (e : Bool) (w : ShiftState) (t : Ptr) (has_evicted : Bool) :
    Res (ShiftState × Bool) :=
  let w1 := Shift_note w t
  let shuttled : Res (ShiftState × Bool) :=
    if (w1.mem.heap t).freq ≥ 1 then
      (FIFO_insert (w1.fifo w1.cache.eviction_params.retention)
          w1.cache.eviction_params.req_local).bind fun r =>
        let w2 := w1.setFifo w1.cache.eviction_params.retention r.1
        .ok (w2.setHeap (setFreq w2.mem.heap r.2 ((w2.mem.heap r.2).freq / 2)), has_evicted)
    else .ok (w1, true)
  shuttled.bind fun r =>
    let rm := FIFO_remove (r.1.fifo e) (r.1.mem.heap t).obj_id
    if !rm.2 then .fault else .ok (Shift_swap e (r.1.setFifo e rm.1), r.2)

/-- The first node from the tail of `l` with `freq = 0`: the node the loop of
`Shift_evict` evicts, if any. -/
def cold_victim (h : Heap) (l : List Ptr) : Option Ptr :=
  l.reverse.find? (fun p => decide ((h p).freq = 0))

/-- No key is in both indexes. -/
def keys_apart (t0 t1 : Nat → Option Ptr) : Prop := ∀ k, t0 k ≠ none → t1 k = none

/-- Number of objects in the two FIFO caches of a Shift cache. -/
def Shift_total_n (w : ShiftState) : Int :=
  w.cache.eviction_params.c0.n_obj + w.cache.eviction_params.c1.n_obj

/-- Bytes occupied in the two FIFO caches of a Shift cache. -/
def Shift_total_bytes (w : ShiftState) : Int :=
  w.cache.eviction_params.c0.occupied_byte + w.cache.eviction_params.c1.occupied_byte

/-- The key `k` is in neither FIFO cache. -/
def Shift_absent (w : ShiftState) (k : Nat) : Prop :=
  w.cache.eviction_params.c0.hashtable k = none ∧ w.cache.eviction_params.c1.hashtable k = none

/-- What the loop of `Shift_evict` does to the totals: one object less when it evicts
the victim `v` with `freq = 0`, nothing when it only shuttles. -/
def evict_effect (w w2 : ShiftState) (v : Option Ptr) : Prop :=
  match v with
  | some x =>
    Shift_total_n w2 = Shift_total_n w - 1 ∧
    Shift_total_bytes w2 = Shift_total_bytes w -
      ((w.mem.heap x).obj_size + w.cache.eviction_params.c0.obj_md_size)
  | none => Shift_total_n w2 = Shift_total_n w ∧ Shift_total_bytes w2 = Shift_total_bytes w

/-- What the loop of `Shift_evict` guarantees about its result `w2`. -/
def loop_post (w w2 : ShiftState) (v : Option Ptr) : Prop :=
  (∃ m0 m1, ShiftInv w2 m0 m1) ∧ evict_effect w w2 v ∧
  w2.cache.eviction_params.c0.obj_md_size = w.cache.eviction_params.c0.obj_md_size ∧
  w2.cache.cache_size = w.cache.cache_size ∧ w2.cache.obj_md_size = w.cache.obj_md_size ∧
  w.mem.brk ≤ w2.mem.brk ∧ (∀ k, Shift_absent w k → Shift_absent w2 k) ∧
  ∀ x, v = some x → Shift_absent w2 (w.mem.heap x).obj_id

/-- The Shift state after unit-size gets of the keys `ks`. -/
def Shift_run (fuel : Nat) (ks : List Nat) (w : ShiftState) : ShiftState :=
  ks.foldl (get_or_stay (Shift_get fuel)) w

/-- A Shift cache of capacity 3 after the gets 1 1 2 3: the eviction cache `c0` holds
nodes 2, 1, 0 (keys 3, 2, 1), node 0 at the tail with `freq = 1`, the others with
`freq = 0`; the retention cache `c1` is empty. -/
def Shift_mixed : ShiftState :=
  Shift_run 3 [1, 1, 2, 3] (Shift_init { cache_size := 3, consider_obj_metadata := false })

/-- A Shift cache of capacity 3 after the gets 1 2 3 1 2 3: the eviction cache `c0`
holds nodes 2, 1, 0, all with `freq = 1`; the retention cache `c1` is empty. -/
def Shift_hot : ShiftState :=
  Shift_run 3 [1, 2, 3, 1, 2, 3] (Shift_init { cache_size := 3, consider_obj_metadata := false })

/-- A Shift cache of capacity 3 after the gets 1 1 2 3 4: the eviction cache `c0` holds
nodes 4, 2 (keys 4, 3), the retention cache `c1` holds node 3 (key 1, shuttled there by
the eviction that made room for key 4). -/
def Shift_split : ShiftState :=
  Shift_run 3 [1, 1, 2, 3, 4] (Shift_init { cache_size := 3, consider_obj_metadata := false })

/-- An empty list: both slots null. -/
def no_nodes : dlist :=
  { heap := fun _ => zero_obj, head := none, tail := none }

/-- The part of `Lever_evict` before the slow step: the lazy initialisation of the two
markers and the `for` loop. -/
def Lever_evict_scan (w : LeverState) : Res LeverState :=
  let p := w.cache.eviction_params
  let p1 : Lever_params_t := if p.slow = none then { p with slow := p.q_tail } else p
  let p2 : Lever_params_t := if p1.fast = none then { p1 with fast := p1.q_tail } else p1
  let w2 : LeverState := w.setParams p2
  (Lever_evict_fast w2).bind fun w3 =>
    if w3.cache.eviction_params.fast = none then .ok w3 else Lever_evict_fast w3

/-- A Lever cache of capacity 3 after the gets 1 2 3 4 2: list of nodes 3, 2, 1 (keys
4, 3, 2), `slow` at the tail node 1, which has `freq = 1`, `fast` at node 2. -/
def Lever_tail_hit : LeverState :=
  Lever_run 1 [1, 2, 3, 4, 2] (Lever_init { cache_size := 3, consider_obj_metadata := false })

/-- A Lever cache of capacity 3 after the gets 1 2 3 4 2 3: list of nodes 3, 2, 1,
`slow` at node 1 and `fast` at node 2, both with `freq = 1`. -/
def Lever_two_hits : LeverState :=
  Lever_run 1 [1, 2, 3, 4, 2, 3]
    (Lever_init { cache_size := 3, consider_obj_metadata := false })

/-- A sequence of `get` calls that leaves VISITED set on two of three nodes and
`pointer` at the tail. -/
def Sieve_calls_scan : List sieve_op :=
  [.get 1, .get 2, .get 1, .get 3, .get 3, .get 4]

/-- The state after `Sieve_calls_scan` on a cache of capacity 3: nodes 3, 2, 0 (keys 4,
3, 1), VISITED set on nodes 2 and 0, `pointer` at node 0, `right = 0`. -/
def Sieve_example_scan : SieveState :=
  Sieve_script 3 Sieve_calls_scan
    (ShiftSieve_init { cache_size := 3, consider_obj_metadata := false })

/-- The SURVIVED bit of node `p` is set in heap `h`. -/
def survived (h : Heap) (p : Ptr) : Prop := (h p).status &&& SURVIVED_MASK ≠ 0

instance (h : Heap) (p : Ptr) : Decidable (survived h p) := by
  unfold survived; infer_instance

/-- Node `p` has been allocated and has SURVIVED set. -/
def survivor (w : SieveState) (p : Ptr) : Prop := p < w.mem.brk ∧ survived w.mem.heap p

/-- A ShiftSieve cache of capacity 3 after the gets 1 1 2 3 4: the eviction for key 4
scanned node 0 (key 1, VISITED), cleared VISITED and set SURVIVED on it, and evicted
node 1 (key 2); the nodes are 3, 2, 0. -/
def Sieve_example_survivor : SieveState :=
  Sieve_script 3 [.get 1, .get 1, .get 2, .get 3, .get 4]
    (ShiftSieve_init { cache_size := 3, consider_obj_metadata := false })

/-- States reached from a freshly initialised Shift cache by `get`, `evict` and `remove`
calls. -/
inductive ShiftReach (cp : common_cache_params_t) : ShiftState → Prop
  | init : ShiftReach cp (Shift_init cp)
  | get {w w2 : ShiftState} {b : Bool} (fuel : Nat) (req : request_t) :
      ShiftReach cp w → Shift_get fuel w req = .ok (w2, b) → ShiftReach cp w2
  | evict {w w2 : ShiftState} (fuel : Nat) :
      ShiftReach cp w → Shift_evict fuel w = .ok w2 → ShiftReach cp w2
  | remove {w : ShiftState} (obj_id : Nat) :
      ShiftReach cp w → ShiftReach cp (Shift_remove w obj_id).1

/-- A run of `get`, `evict` and `remove` calls on a Shift cache of capacity 3: after the
gets 1 1 2 3 4, an `evict` and the removal of key 4. -/
def Shift_example_all : ShiftState :=
  (Shift_remove (match Shift_evict 3 Shift_split with
    | .ok w => w
    | _ => Shift_split) 4).1

/-! ## Outcomes -/

theorem Res.holds_mono {α : Type} {r : Res α} {P Q : α → Prop} (h : r.holds P)
    (hpq : ∀ a, P a → Q a) : r.holds Q := by
  cases r <;> simp_all [Res.holds]

theorem Res.holds_and {α : Type} {r : Res α} {P Q : α → Prop} (h : r.holds P)
    (h2 : r.holds Q) : r.holds (fun a => P a ∧ Q a) := by
  cases r <;> simp_all [Res.holds]

theorem Res.holds_false {α : Type} {r : Res α} : ¬ r.holds (fun _ => False) := by
  cases r <;> simp [Res.holds]

theorem Res.holds_bind {α β : Type} {r : Res α} {f : α → Res β} {P : β → Prop}
    (h : r.holds fun a => (f a).holds P) : (r.bind f).holds P := by
  cases r <;> simp_all [Res.holds, Res.bind]

theorem Res.bind_timeout_of_holds {α β : Type} {r : Res α} {f : α → Res β} {P : α → Prop}
    (h : r.holds P) (hf : ∀ a, P a → f a = .timeout) : r.bind f = .timeout := by
  cases r <;> simp_all [Res.holds, Res.bind]

/-! ## Lemmas -/

@[simp] theorem nextOf_nil (x : Ptr) : nextOf [] x = none := rfl
@[simp] theorem prevOf_nil (x : Ptr) : prevOf [] x = none := rfl
theorem nextOf_cons (a : Ptr) (t : List Ptr) (x : Ptr) :
    nextOf (a :: t) x = if x = a then t.head? else nextOf t x := rfl
theorem prevOf_cons (a : Ptr) (t : List Ptr) (x : Ptr) :
    prevOf (a :: t) x = if t.head? = some x then some a else prevOf t x := rfl

theorem mem_of_head? {l : List Ptr} {x : Ptr} (h : l.head? = some x) : x ∈ l := by
  cases l with
  | nil => simp at h
  | cons a t => simp at h; simp [h]

theorem nextOf_not_mem {l : List Ptr} {x : Ptr} (h : x ∉ l) : nextOf l x = none := by
  induction l with
  | nil => rfl
  | cons a t ih =>
    simp only [List.mem_cons, not_or] at h
    rw [nextOf_cons, if_neg h.1, ih h.2]

theorem prevOf_not_mem {l : List Ptr} {x : Ptr} (h : x ∉ l) : prevOf l x = none := by
  induction l with
  | nil => rfl
  | cons a t ih =>
    simp only [List.mem_cons, not_or] at h
    rw [prevOf_cons, if_neg (fun hh => h.2 (mem_of_head? hh)), ih h.2]

theorem nextOf_mem {l : List Ptr} {x y : Ptr} (h : nextOf l x = some y) : x ∈ l ∧ y ∈ l := by
  induction l with
  | nil => simp at h
  | cons a t ih =>
    rw [nextOf_cons] at h
    split_ifs at h with hxa
    · exact ⟨by simp [hxa], List.mem_cons_of_mem _ (mem_of_head? h)⟩
    · have := ih h
      exact ⟨List.mem_cons_of_mem _ this.1, List.mem_cons_of_mem _ this.2⟩

theorem prevOf_mem {l : List Ptr} {x y : Ptr} (h : prevOf l y = some x) : x ∈ l ∧ y ∈ l := by
  induction l with
  | nil => simp at h
  | cons a t ih =>
    rw [prevOf_cons] at h
    split_ifs at h with hh
    · simp only [Option.some.injEq] at h
      exact ⟨by simp [h], List.mem_cons_of_mem _ (mem_of_head? hh)⟩
    · have := ih h
      exact ⟨List.mem_cons_of_mem _ this.1, List.mem_cons_of_mem _ this.2⟩

theorem nextOf_ne_head {l : List Ptr} (hl : l.Nodup) {x y : Ptr} (hy : l.head? = some y) :
    nextOf l x ≠ some y := by
  cases l with
  | nil => simp
  | cons b u =>
    simp only [List.head?_cons, Option.some.injEq] at hy
    subst hy
    have hb := (List.nodup_cons.1 hl).1
    intro h
    rw [nextOf_cons] at h
    split_ifs at h
    · exact hb (mem_of_head? h)
    · exact hb (nextOf_mem h).2

/-- Duality of predecessor and successor in a duplicate-free list. -/
theorem prevOf_eq_some_iff {l : List Ptr} (hl : l.Nodup) {x y : Ptr} :
    prevOf l y = some x ↔ nextOf l x = some y := by
  induction l with
  | nil => simp
  | cons a t ih =>
    have ha := (List.nodup_cons.1 hl).1
    have ht := (List.nodup_cons.1 hl).2
    rw [prevOf_cons, nextOf_cons]
    by_cases hy : t.head? = some y
    · rw [if_pos hy]
      by_cases hxa : x = a
      · simp [hxa, hy]
      · rw [if_neg hxa]
        constructor
        · intro h; simp at h; exact absurd h.symm hxa
        · intro h; exact absurd h (nextOf_ne_head ht hy)
    · rw [if_neg hy, ih ht]
      by_cases hxa : x = a
      · subst hxa
        rw [if_pos rfl, nextOf_not_mem ha]
        simp [hy]
      · rw [if_neg hxa]

theorem nextOf_ne_self {l : List Ptr} (hl : l.Nodup) {x : Ptr} : nextOf l x ≠ some x := by
  induction l with
  | nil => simp
  | cons a t ih =>
    have ha := (List.nodup_cons.1 hl).1
    have ht := (List.nodup_cons.1 hl).2
    rw [nextOf_cons]
    split_ifs with hxa
    · subst hxa; intro h; exact ha (mem_of_head? h)
    · exact ih ht

theorem prevOf_ne_self {l : List Ptr} (hl : l.Nodup) {x : Ptr} : prevOf l x ≠ some x := by
  rw [Ne, prevOf_eq_some_iff hl]; exact nextOf_ne_self hl

theorem head?_eq_some_iff {l : List Ptr} (hl : l.Nodup) {x : Ptr} :
    l.head? = some x ↔ x ∈ l ∧ prevOf l x = none := by
  induction l with
  | nil => simp
  | cons a t ih =>
    have ha := (List.nodup_cons.1 hl).1
    have ht := (List.nodup_cons.1 hl).2
    rw [prevOf_cons]
    simp only [List.head?_cons, Option.some.injEq, List.mem_cons]
    constructor
    · rintro rfl
      refine ⟨Or.inl rfl, ?_⟩
      rw [if_neg (fun hh => ha (mem_of_head? hh)), prevOf_not_mem ha]
    · rintro ⟨hx, hp⟩
      split_ifs at hp with hh
      rcases hx with rfl | hx
      · rfl
      · exact absurd ((ih ht).2 ⟨hx, hp⟩) hh

theorem getLast?_eq_some_iff {l : List Ptr} (hl : l.Nodup) {x : Ptr} :
    l.getLast? = some x ↔ x ∈ l ∧ nextOf l x = none := by
  induction l with
  | nil => simp
  | cons a t ih =>
    have ha := (List.nodup_cons.1 hl).1
    have ht := (List.nodup_cons.1 hl).2
    cases t with
    | nil => simp [nextOf_cons]; exact eq_comm
    | cons b u =>
      rw [List.getLast?_cons_cons, ih ht, nextOf_cons a (b :: u)]
      by_cases hxa : x = a
      · subst hxa
        simp only [if_pos, List.head?_cons]
        constructor
        · intro h; exact absurd h.1 ha
        · intro h; simp at h
      · rw [if_neg hxa]
        simp only [List.mem_cons (a := x) (b := a), hxa, false_or]

theorem head?_erase (l : List Ptr) (x : Ptr) :
    (l.erase x).head? = if l.head? = some x then nextOf l x else l.head? := by
  cases l with
  | nil => simp
  | cons a t =>
    by_cases hax : a = x
    · subst hax; simp [nextOf_cons]
    · rw [List.erase_cons_tail (by simpa using hax)]
      simp [hax]

theorem nextOf_erase {l : List Ptr} (hl : l.Nodup) {x y : Ptr} (hyx : y ≠ x) :
    nextOf (l.erase x) y = if prevOf l x = some y then nextOf l x else nextOf l y := by
  simp only [prevOf_eq_some_iff hl]
  induction l with
  | nil => simp
  | cons a t ih =>
    have ha := (List.nodup_cons.1 hl).1
    have ht := (List.nodup_cons.1 hl).2
    by_cases hax : a = x
    · subst hax
      rw [List.erase_cons_head, nextOf_cons, if_neg hyx, if_neg]
      intro h; exact ha (nextOf_mem h).2
    · rw [List.erase_cons_tail (by simpa using hax), nextOf_cons, head?_erase, nextOf_cons a t y,
        nextOf_cons a t x, if_neg (Ne.symm hax)]
      by_cases hya : y = a
      · simp only [if_pos hya]
      · simp only [if_neg hya]
        exact ih ht

theorem prevOf_head {l : List Ptr} (hl : l.Nodup) {x : Ptr} (h : l.head? = some x) :
    prevOf l x = none := ((head?_eq_some_iff hl).1 h).2

theorem prevOf_erase {l : List Ptr} (hl : l.Nodup) {x y : Ptr} (hyx : y ≠ x) :
    prevOf (l.erase x) y = if nextOf l x = some y then prevOf l x else prevOf l y := by
  simp only [← prevOf_eq_some_iff hl]
  induction l with
  | nil => simp
  | cons a t ih =>
    have ha := (List.nodup_cons.1 hl).1
    have ht := (List.nodup_cons.1 hl).2
    by_cases hax : a = x
    · subst hax
      rw [List.erase_cons_head, prevOf_cons a t y, prevOf_cons a t a,
        if_neg (fun hh => ha (mem_of_head? hh)), prevOf_not_mem ha]
      by_cases hy : t.head? = some y
      · simp only [if_pos hy, if_true]
        exact prevOf_head ht hy
      · simp only [if_neg hy]
        rw [if_neg]
        intro h; exact ha (prevOf_mem h).1
    · rw [List.erase_cons_tail (by simpa using hax), prevOf_cons, head?_erase, prevOf_cons a t y,
        prevOf_cons a t x]
      have ih' := ih ht
      by_cases hx : t.head? = some x
      · have hy : t.head? ≠ some y := by rw [hx]; simpa using Ne.symm hyx
        simp only [if_pos hx, if_neg hy]
        simp only [← prevOf_eq_some_iff ht]
        by_cases hp : prevOf t y = some x
        · simp only [if_pos hp]
        · simp only [if_neg hp]
          rw [ih', if_neg hp]
      · simp only [if_neg hx]
        by_cases hy : t.head? = some y
        · simp only [if_pos hy]
          rw [if_neg]
          simpa using hax
        · simp only [if_neg hy]
          exact ih'

theorem getLast?_erase {l : List Ptr} (hl : l.Nodup) (x : Ptr) :
    (l.erase x).getLast? = if l.getLast? = some x then prevOf l x else l.getLast? := by
  ext z
  have hle := hl.erase x
  simp only [Option.mem_def]
  rw [getLast?_eq_some_iff hle, hl.mem_erase_iff]
  by_cases hzx : z = x
  · subst hzx
    simp only [ne_eq, not_true_eq_false, false_and, false_iff]
    split_ifs with h
    · exact prevOf_ne_self hl
    · exact h
  · rw [nextOf_erase hl hzx]
    simp only [ne_eq, hzx, not_false_eq_true, true_and]
    by_cases hlast : l.getLast? = some x
    · rw [if_pos hlast]
      have hx := (getLast?_eq_some_iff hl).1 hlast
      constructor
      · rintro ⟨hz, h⟩
        by_contra hp
        rw [if_neg hp] at h
        have := (getLast?_eq_some_iff hl).2 ⟨hz, h⟩
        rw [hlast] at this
        exact hzx (Option.some.inj this).symm
      · intro hp
        exact ⟨(prevOf_mem hp).1, by rw [if_pos hp]; exact hx.2⟩
    · rw [if_neg hlast, getLast?_eq_some_iff hl]
      by_cases hp : prevOf l x = some z
      · rw [if_pos hp]
        have hxl := (prevOf_mem hp).2
        constructor
        · rintro ⟨_, h⟩
          exact absurd ((getLast?_eq_some_iff hl).2 ⟨hxl, h⟩) hlast
        · rintro ⟨_, h⟩
          rw [(prevOf_eq_some_iff hl).1 hp] at h
          simp at h
      · rw [if_neg hp]

theorem getLast?_cons_ne_nil (a : Ptr) {t : List Ptr} (h : t ≠ []) :
    (a :: t).getLast? = t.getLast? := by
  cases t with
  | nil => exact absurd rfl h
  | cons b u => rw [List.getLast?_cons_cons]

theorem head?_append_singleton (l : List Ptr) (x : Ptr) :
    (l ++ [x]).head? = if l.head? = none then some x else l.head? := by
  cases l <;> simp

theorem nextOf_append_singleton {l : List Ptr} (hl : l.Nodup) {x : Ptr} (y : Ptr) :
    nextOf (l ++ [x]) y = if l.getLast? = some y then some x else nextOf l y := by
  induction l with
  | nil => simp [nextOf_cons]
  | cons a t ih =>
    have ha := (List.nodup_cons.1 hl).1
    have ht := (List.nodup_cons.1 hl).2
    rw [List.cons_append, nextOf_cons, nextOf_cons a t y, ih ht]
    cases t with
    | nil => by_cases hya : y = a <;> simp [hya, eq_comm]
    | cons b u =>
      rw [List.getLast?_cons_cons]
      by_cases hya : y = a
      · subst hya
        have : (b :: u).getLast? ≠ some y := fun h => ha (List.mem_of_getLast?_eq_some h)
        simp [this]
      · simp [hya]

theorem prevOf_append_singleton {l : List Ptr} {x : Ptr} (hx : x ∉ l) (y : Ptr) :
    prevOf (l ++ [x]) y = if y = x then l.getLast? else prevOf l y := by
  induction l with
  | nil => by_cases hyx : y = x <;> simp [prevOf_cons, hyx, eq_comm]
  | cons a t ih =>
    simp only [List.mem_cons, not_or] at hx
    rw [List.cons_append, prevOf_cons, prevOf_cons a t y, ih hx.2]
    cases t with
    | nil =>
      by_cases hyx : y = x
      · simp [hyx]
      · simp [hyx, show ¬ x = y from fun h => hyx h.symm]
    | cons b u =>
      rw [List.getLast?_cons_cons]
      simp only [List.cons_append, List.head?_cons, Option.some.injEq]
      by_cases hyb : b = y
      · subst hyb
        have : b ≠ x := by
          intro h; apply hx.2; simp [h]
        simp [this]
      · simp [hyb]

theorem insertAfter_perm {l : List Ptr} {m : Ptr} (x : Ptr) (hm : m ∈ l) :
    (insertAfter m x l).Perm (x :: l) := by
  induction l with
  | nil => simp at hm
  | cons a t ih =>
    by_cases ham : a = m
    · simp only [insertAfter, if_pos ham]
      exact List.Perm.swap x a t
    · simp only [insertAfter, if_neg ham]
      have hmt : m ∈ t := by
        rcases List.mem_cons.1 hm with h | h
        · exact absurd h.symm ham
        · exact h
      exact ((ih hmt).cons a).trans (List.Perm.swap x a t)

theorem insertAfter_nodup {l : List Ptr} (hl : l.Nodup) {m x : Ptr} (hm : m ∈ l) (hx : x ∉ l) :
    (insertAfter m x l).Nodup :=
  (insertAfter_perm x hm).nodup_iff.2 (List.nodup_cons.2 ⟨hx, hl⟩)

theorem mem_insertAfter {l : List Ptr} {m x : Ptr} (hm : m ∈ l) (z : Ptr) :
    z ∈ insertAfter m x l ↔ z = x ∨ z ∈ l := by
  rw [(insertAfter_perm x hm).mem_iff, List.mem_cons]

theorem head?_insertAfter (m x : Ptr) (l : List Ptr) :
    (insertAfter m x l).head? = l.head? := by
  cases l with
  | nil => rfl
  | cons a t => by_cases ham : a = m <;> simp [insertAfter, ham]

theorem nextOf_insertAfter {l : List Ptr} {m x : Ptr} (hm : m ∈ l) (hx : x ∉ l)
    (y : Ptr) :
    nextOf (insertAfter m x l) y =
      if y = m then some x else if y = x then nextOf l m else nextOf l y := by
  induction l with
  | nil => simp at hm
  | cons a t ih =>
    simp only [List.mem_cons, not_or] at hx
    by_cases ham : a = m
    · subst ham
      simp only [insertAfter, if_pos, nextOf_cons, List.head?_cons]
      by_cases hya : y = a
      · simp [hya]
      · simp [hya]
    · have hmt : m ∈ t := by
        rcases List.mem_cons.1 hm with h | h
        · exact absurd h.symm ham
        · exact h
      simp only [insertAfter, if_neg ham]
      rw [nextOf_cons, head?_insertAfter, ih hmt hx.2, nextOf_cons a t m, nextOf_cons a t y,
        if_neg (Ne.symm ham)]
      by_cases hya : y = a
      · subst hya
        simp [ham, show ¬ y = x from fun h => hx.1 h.symm]
      · simp [hya]

theorem prevOf_insertAfter {l : List Ptr} (hl : l.Nodup) {m x : Ptr} (hm : m ∈ l) (hx : x ∉ l)
    (y : Ptr) :
    prevOf (insertAfter m x l) y =
      if y = x then some m else if nextOf l m = some y then some x else prevOf l y := by
  induction l with
  | nil => simp at hm
  | cons a t ih =>
    have ha := (List.nodup_cons.1 hl).1
    have ht := (List.nodup_cons.1 hl).2
    simp only [List.mem_cons, not_or] at hx
    by_cases ham : a = m
    · subst ham
      simp only [insertAfter, if_pos, prevOf_cons, nextOf_cons, List.head?_cons,
        Option.some.injEq]
      by_cases hyx : y = x
      · simp [hyx]
      · by_cases hy : t.head? = some y
        · simp [hyx, show ¬ x = y from fun h => hyx h.symm, hy]
        · simp [hyx, show ¬ x = y from fun h => hyx h.symm, hy]
    · have hmt : m ∈ t := by
        rcases List.mem_cons.1 hm with h | h
        · exact absurd h.symm ham
        · exact h
      simp only [insertAfter, if_neg ham]
      rw [prevOf_cons, head?_insertAfter, ih ht hmt hx.2, nextOf_cons a t m, prevOf_cons a t y,
        if_neg (Ne.symm ham)]
      by_cases hyx : y = x
      · subst hyx
        have : t.head? ≠ some y := fun h => hx.2 (mem_of_head? h)
        simp [this]
      · simp only [if_neg hyx]
        by_cases hy : t.head? = some y
        · simp only [if_pos hy]
          rw [if_neg (nextOf_ne_head ht hy)]
        · simp only [if_neg hy]

theorem getLast?_insertAfter {l : List Ptr} (hl : l.Nodup) {m x : Ptr} (hm : m ∈ l) :
    (insertAfter m x l).getLast? = if l.getLast? = some m then some x else l.getLast? := by
  induction l with
  | nil => simp at hm
  | cons a t ih =>
    have ha := (List.nodup_cons.1 hl).1
    have ht := (List.nodup_cons.1 hl).2
    by_cases ham : a = m
    · subst ham
      simp only [insertAfter, if_pos]
      cases t with
      | nil => simp
      | cons b u =>
        rw [List.getLast?_cons_cons, List.getLast?_cons_cons, List.getLast?_cons_cons, if_neg]
        intro h; exact ha (List.mem_of_getLast?_eq_some h)
    · have hmt : m ∈ t := by
        rcases List.mem_cons.1 hm with h | h
        · exact absurd h.symm ham
        · exact h
      have hne : t ≠ [] := List.ne_nil_of_mem hmt
      have hne2 : insertAfter m x t ≠ [] :=
        List.ne_nil_of_mem ((mem_insertAfter hmt m).2 (Or.inr hmt))
      simp only [insertAfter, if_neg ham]
      rw [getLast?_cons_ne_nil a hne, getLast?_cons_ne_nil a hne2, ih ht hmt]

@[simp] theorem setPrev_obj_id (h : Heap) (p : Ptr) (v : Option Ptr) (q : Ptr) :
    (setPrev h p v q).obj_id = (h q).obj_id := by
  unfold setPrev; by_cases hq : q = p <;> simp [Function.update, hq]

@[simp] theorem setPrev_obj_size (h : Heap) (p : Ptr) (v : Option Ptr) (q : Ptr) :
    (setPrev h p v q).obj_size = (h q).obj_size := by
  unfold setPrev; by_cases hq : q = p <;> simp [Function.update, hq]

@[simp] theorem setPrev_next_access_vtime (h : Heap) (p : Ptr) (v : Option Ptr) (q : Ptr) :
    (setPrev h p v q).next_access_vtime = (h q).next_access_vtime := by
  unfold setPrev; by_cases hq : q = p <;> simp [Function.update, hq]

@[simp] theorem setPrev_prev (h : Heap) (p : Ptr) (v : Option Ptr) (q : Ptr) :
    (setPrev h p v q).prev = if q = p then v else (h q).prev := by
  unfold setPrev; by_cases hq : q = p <;> simp [Function.update, hq]

@[simp] theorem setPrev_next (h : Heap) (p : Ptr) (v : Option Ptr) (q : Ptr) :
    (setPrev h p v q).next = (h q).next := by
  unfold setPrev; by_cases hq : q = p <;> simp [Function.update, hq]

@[simp] theorem setPrev_freq (h : Heap) (p : Ptr) (v : Option Ptr) (q : Ptr) :
    (setPrev h p v q).freq = (h q).freq := by
  unfold setPrev; by_cases hq : q = p <;> simp [Function.update, hq]

@[simp] theorem setPrev_status (h : Heap) (p : Ptr) (v : Option Ptr) (q : Ptr) :
    (setPrev h p v q).status = (h q).status := by
  unfold setPrev; by_cases hq : q = p <;> simp [Function.update, hq]

@[simp] theorem setNext_obj_id (h : Heap) (p : Ptr) (v : Option Ptr) (q : Ptr) :
    (setNext h p v q).obj_id = (h q).obj_id := by
  unfold setNext; by_cases hq : q = p <;> simp [Function.update, hq]

@[simp] theorem setNext_obj_size (h : Heap) (p : Ptr) (v : Option Ptr) (q : Ptr) :
    (setNext h p v q).obj_size = (h q).obj_size := by
  unfold setNext; by_cases hq : q = p <;> simp [Function.update, hq]

@[simp] theorem setNext_next_access_vtime (h : Heap) (p : Ptr) (v : Option Ptr) (q : Ptr) :
    (setNext h p v q).next_access_vtime = (h q).next_access_vtime := by
  unfold setNext; by_cases hq : q = p <;> simp [Function.update, hq]

@[simp] theorem setNext_prev (h : Heap) (p : Ptr) (v : Option Ptr) (q : Ptr) :
    (setNext h p v q).prev = (h q).prev := by
  unfold setNext; by_cases hq : q = p <;> simp [Function.update, hq]

@[simp] theorem setNext_next (h : Heap) (p : Ptr) (v : Option Ptr) (q : Ptr) :
    (setNext h p v q).next = if q = p then v else (h q).next := by
  unfold setNext; by_cases hq : q = p <;> simp [Function.update, hq]

@[simp] theorem setNext_freq (h : Heap) (p : Ptr) (v : Option Ptr) (q : Ptr) :
    (setNext h p v q).freq = (h q).freq := by
  unfold setNext; by_cases hq : q = p <;> simp [Function.update, hq]

@[simp] theorem setNext_status (h : Heap) (p : Ptr) (v : Option Ptr) (q : Ptr) :
    (setNext h p v q).status = (h q).status := by
  unfold setNext; by_cases hq : q = p <;> simp [Function.update, hq]

@[simp] theorem setFreq_obj_id (h : Heap) (p : Ptr) (v : Nat) (q : Ptr) :
    (setFreq h p v q).obj_id = (h q).obj_id := by
  unfold setFreq; by_cases hq : q = p <;> simp [Function.update, hq]

@[simp] theorem setFreq_obj_size (h : Heap) (p : Ptr) (v : Nat) (q : Ptr) :
    (setFreq h p v q).obj_size = (h q).obj_size := by
  unfold setFreq; by_cases hq : q = p <;> simp [Function.update, hq]

@[simp] theorem setFreq_next_access_vtime (h : Heap) (p : Ptr) (v : Nat) (q : Ptr) :
    (setFreq h p v q).next_access_vtime = (h q).next_access_vtime := by
  unfold setFreq; by_cases hq : q = p <;> simp [Function.update, hq]

@[simp] theorem setFreq_prev (h : Heap) (p : Ptr) (v : Nat) (q : Ptr) :
    (setFreq h p v q).prev = (h q).prev := by
  unfold setFreq; by_cases hq : q = p <;> simp [Function.update, hq]

@[simp] theorem setFreq_next (h : Heap) (p : Ptr) (v : Nat) (q : Ptr) :
    (setFreq h p v q).next = (h q).next := by
  unfold setFreq; by_cases hq : q = p <;> simp [Function.update, hq]

@[simp] theorem setFreq_freq (h : Heap) (p : Ptr) (v : Nat) (q : Ptr) :
    (setFreq h p v q).freq = if q = p then v else (h q).freq := by
  unfold setFreq; by_cases hq : q = p <;> simp [Function.update, hq]

@[simp] theorem setFreq_status (h : Heap) (p : Ptr) (v : Nat) (q : Ptr) :
    (setFreq h p v q).status = (h q).status := by
  unfold setFreq; by_cases hq : q = p <;> simp [Function.update, hq]

@[simp] theorem setStatus_obj_id (h : Heap) (p : Ptr) (v : Nat) (q : Ptr) :
    (setStatus h p v q).obj_id = (h q).obj_id := by
  unfold setStatus; by_cases hq : q = p <;> simp [Function.update, hq]

@[simp] theorem setStatus_obj_size (h : Heap) (p : Ptr) (v : Nat) (q : Ptr) :
    (setStatus h p v q).obj_size = (h q).obj_size := by
  unfold setStatus; by_cases hq : q = p <;> simp [Function.update, hq]

@[simp] theorem setStatus_next_access_vtime (h : Heap) (p : Ptr) (v : Nat) (q : Ptr) :
    (setStatus h p v q).next_access_vtime = (h q).next_access_vtime := by
  unfold setStatus; by_cases hq : q = p <;> simp [Function.update, hq]

@[simp] theorem setStatus_prev (h : Heap) (p : Ptr) (v : Nat) (q : Ptr) :
    (setStatus h p v q).prev = (h q).prev := by
  unfold setStatus; by_cases hq : q = p <;> simp [Function.update, hq]

@[simp] theorem setStatus_next (h : Heap) (p : Ptr) (v : Nat) (q : Ptr) :
    (setStatus h p v q).next = (h q).next := by
  unfold setStatus; by_cases hq : q = p <;> simp [Function.update, hq]

@[simp] theorem setStatus_freq (h : Heap) (p : Ptr) (v : Nat) (q : Ptr) :
    (setStatus h p v q).freq = (h q).freq := by
  unfold setStatus; by_cases hq : q = p <;> simp [Function.update, hq]

@[simp] theorem setStatus_status (h : Heap) (p : Ptr) (v : Nat) (q : Ptr) :
    (setStatus h p v q).status = if q = p then v else (h q).status := by
  unfold setStatus; by_cases hq : q = p <;> simp [Function.update, hq]

@[simp] theorem setPrevO_obj_id (h : Heap) (o : Option Ptr) (v : Option Ptr) (q : Ptr) :
    (setPrevO h o v q).obj_id = (h q).obj_id := by
  cases o <;> simp [setPrevO]

@[simp] theorem setPrevO_obj_size (h : Heap) (o : Option Ptr) (v : Option Ptr) (q : Ptr) :
    (setPrevO h o v q).obj_size = (h q).obj_size := by
  cases o <;> simp [setPrevO]

@[simp] theorem setPrevO_next_access_vtime (h : Heap) (o : Option Ptr) (v : Option Ptr) (q : Ptr) :
    (setPrevO h o v q).next_access_vtime = (h q).next_access_vtime := by
  cases o <;> simp [setPrevO]

@[simp] theorem setPrevO_prev (h : Heap) (o : Option Ptr) (v : Option Ptr) (q : Ptr) :
    (setPrevO h o v q).prev = if o = some q then v else (h q).prev := by
  cases o <;> simp [setPrevO, eq_comm]

@[simp] theorem setPrevO_next (h : Heap) (o : Option Ptr) (v : Option Ptr) (q : Ptr) :
    (setPrevO h o v q).next = (h q).next := by
  cases o <;> simp [setPrevO]

@[simp] theorem setPrevO_freq (h : Heap) (o : Option Ptr) (v : Option Ptr) (q : Ptr) :
    (setPrevO h o v q).freq = (h q).freq := by
  cases o <;> simp [setPrevO]

@[simp] theorem setPrevO_status (h : Heap) (o : Option Ptr) (v : Option Ptr) (q : Ptr) :
    (setPrevO h o v q).status = (h q).status := by
  cases o <;> simp [setPrevO]

@[simp] theorem setNextO_obj_id (h : Heap) (o : Option Ptr) (v : Option Ptr) (q : Ptr) :
    (setNextO h o v q).obj_id = (h q).obj_id := by
  cases o <;> simp [setNextO]

@[simp] theorem setNextO_obj_size (h : Heap) (o : Option Ptr) (v : Option Ptr) (q : Ptr) :
    (setNextO h o v q).obj_size = (h q).obj_size := by
  cases o <;> simp [setNextO]

@[simp] theorem setNextO_next_access_vtime (h : Heap) (o : Option Ptr) (v : Option Ptr) (q : Ptr) :
    (setNextO h o v q).next_access_vtime = (h q).next_access_vtime := by
  cases o <;> simp [setNextO]

@[simp] theorem setNextO_prev (h : Heap) (o : Option Ptr) (v : Option Ptr) (q : Ptr) :
    (setNextO h o v q).prev = (h q).prev := by
  cases o <;> simp [setNextO]

@[simp] theorem setNextO_next (h : Heap) (o : Option Ptr) (v : Option Ptr) (q : Ptr) :
    (setNextO h o v q).next = if o = some q then v else (h q).next := by
  cases o <;> simp [setNextO, eq_comm]

@[simp] theorem setNextO_freq (h : Heap) (o : Option Ptr) (v : Option Ptr) (q : Ptr) :
    (setNextO h o v q).freq = (h q).freq := by
  cases o <;> simp [setNextO]

@[simp] theorem setNextO_status (h : Heap) (o : Option Ptr) (v : Option Ptr) (q : Ptr) :
    (setNextO h o v q).status = (h q).status := by
  cases o <;> simp [setNextO]

theorem IsList.head_iff {q : dlist} {l : List Ptr} (h : IsList q l) {x : Ptr} (hx : x ∈ l) :
    some x = q.head ↔ prevOf l x = none := by
  rw [h.2.1, eq_comm, head?_eq_some_iff h.1]; simp [hx]

theorem IsList.tail_iff {q : dlist} {l : List Ptr} (h : IsList q l) {x : Ptr} (hx : x ∈ l) :
    some x = q.tail ↔ nextOf l x = none := by
  rw [h.2.2.1, eq_comm, getLast?_eq_some_iff h.1]; simp [hx]

theorem remove_isList {q : dlist} {l : List Ptr} (h : IsList q l) {x : Ptr} (hx : x ∈ l) :
    IsList (remove_obj_from_list q x) (l.erase x) := by
  have hh := h.head_iff hx
  have ht := h.tail_iff hx
  have hh' : q.head = some x ↔ prevOf l x = none := by rw [eq_comm]; exact hh
  have ht' : q.tail = some x ↔ nextOf l x = none := by rw [eq_comm]; exact ht
  obtain ⟨hnd, hhead, htail, hlinks⟩ := h
  have hxp := (hlinks x hx).1
  have hxn := (hlinks x hx).2
  refine ⟨hnd.erase x, ?_, ?_, ?_⟩
  · show (remove_obj_from_list q x).head = _
    rw [head?_erase, ← hhead]
    cases hP : prevOf l x <;> cases hN : nextOf l x <;>
      simp [remove_obj_from_list, hh, ht, hh', ht', hxp, hxn, hP, hN]
  · show (remove_obj_from_list q x).tail = _
    rw [getLast?_erase hnd, ← htail]
    cases hP : prevOf l x <;> cases hN : nextOf l x <;>
      simp [remove_obj_from_list, hh, ht, hh', ht', hxp, hxn, hP, hN]
  · intro y hy
    rw [hnd.mem_erase_iff] at hy
    obtain ⟨hyx, hyl⟩ := hy
    rw [prevOf_erase hnd hyx, nextOf_erase hnd hyx]
    have hyp := (hlinks y hyl).1
    have hyn := (hlinks y hyl).2
    cases hP : prevOf l x <;> cases hN : nextOf l x <;>
      simp [remove_obj_from_list, hh, ht, hxp, hxn, hP, hN, hyx, hyp, hyn]
    all_goals (intro h; simp [h])

theorem IsList.nil_iff {q : dlist} {l : List Ptr} (h : IsList q l) : q.head = none ↔ l = [] := by
  rw [h.2.1]; cases l <;> simp

theorem IsList.tail_none_iff {q : dlist} {l : List Ptr} (h : IsList q l) :
    q.tail = none ↔ l = [] := by
  rw [h.2.2.1]; exact List.getLast?_eq_none_iff

theorem IsList.congr {q : dlist} {l : List Ptr} (h : IsList q l) {h2 : Heap}
    (hh : ∀ y ∈ l, h2 y = q.heap y) : IsList { heap := h2, head := q.head, tail := q.tail } l := by
  refine ⟨h.1, h.2.1, h.2.2.1, ?_⟩
  intro x hx
  simp only [hh x hx]
  exact h.2.2.2 x hx

theorem remove_links_only (q : dlist) {l : List Ptr} (h : IsList q l) {x : Ptr} (hx : x ∈ l) :
    links_only q (remove_obj_from_list q x) l := by
  have hxp := (h.2.2.2 x hx).1
  have hxn := (h.2.2.2 x hx).2
  have hpm : ∀ p, prevOf l x = some p → p ∈ l := fun p hp => (prevOf_mem hp).1
  have hnm : ∀ n, nextOf l x = some n → n ∈ l := fun n hn => (nextOf_mem hn).2
  constructor
  · intro y
    simp only [remove_obj_from_list]
    split_ifs <;> simp
  · intro y hy
    have hyx : y ≠ x := fun e => hy (e ▸ hx)
    have h1 : prevOf l x ≠ some y := fun e => hy (hpm y e)
    have h2 : nextOf l x ≠ some y := fun e => hy (hnm y e)
    ext <;> simp only [remove_obj_from_list] <;> split_ifs <;> simp [hxp, hxn, h1, h2, hyx]

theorem remove_clears (q : dlist) (x : Ptr) :
    ((remove_obj_from_list q x).heap x).prev = none ∧
    ((remove_obj_from_list q x).heap x).next = none := by
  simp [remove_obj_from_list]

theorem prepend_spec {q : dlist} {l : List Ptr} (h : IsList q l) {x : Ptr} (hx : x ∉ l) :
    (prepend_obj_to_head q x).holds
      (fun q2 => IsList q2 (x :: l) ∧ links_only q q2 (x :: l)) := by
  have hn := h.nil_iff
  have htn := h.tail_none_iff
  obtain ⟨hnd, hhead, htail, hlinks⟩ := h
  cases l with
  | nil =>
    simp at hhead htail
    simp only [prepend_obj_to_head, hhead, htail, if_true, Res.bind, Res.holds]
    refine ⟨?_, ?_, ?_⟩
    · simp [IsList, prevOf_cons, nextOf_cons, setPrevO]
    · intro y; simp
    · intro y hy
      have hyx : y ≠ x := by simpa using hy
      ext <;> simp [hyx]
  | cons a t =>
    simp at hhead
    have htl : q.tail ≠ none := by rw [Ne, htn]; simp
    simp only [prepend_obj_to_head, hhead, htl, if_false, Res.bind, Res.holds]
    refine ⟨⟨List.nodup_cons.2 ⟨hx, hnd⟩, rfl, ?_, ?_⟩, ?_, ?_⟩
    · show q.tail = _
      rw [htail, List.getLast?_cons_cons]
    · intro y hy
      rw [prevOf_cons, nextOf_cons]
      rcases List.mem_cons.1 hy with rfl | hy
      · have : a ≠ y := by
          intro h; apply hx; simp [h]
        simp [this, prevOf_not_mem hx]
      · have hyx : y ≠ x := by
          intro h; apply hx; rw [← h]; exact hy
        have := hlinks y hy
        simp [hyx, this, prevOf_cons a t y]
    · intro y; simp
    · intro y hy
      simp only [List.mem_cons, not_or] at hy
      ext <;> simp [hy.1, Ne.symm hy.2.1]

theorem append_spec {q : dlist} {l : List Ptr} (h : IsList q l) {x : Ptr} (hx : x ∉ l) :
    (append_obj_to_tail q x).holds
      (fun q2 => IsList q2 (l ++ [x]) ∧ links_only q q2 (x :: l)) := by
  have hn := h.nil_iff
  have htn := h.tail_none_iff
  obtain ⟨hnd, hhead, htail, hlinks⟩ := h
  have hnd2 : (l ++ [x]).Nodup := by
    rw [List.nodup_append]
    exact ⟨hnd, List.nodup_singleton x, by simpa using hx⟩
  by_cases hl : l = []
  · subst hl
    simp at hhead htail
    simp only [append_obj_to_tail, hhead, htail, if_true, Res.bind, Res.holds]
    refine ⟨?_, ?_, ?_⟩
    · simp [IsList, prevOf_cons, nextOf_cons, setNextO]
    · intro y; simp
    · intro y hy
      have hyx : y ≠ x := by simpa using hy
      ext <;> simp [hyx]
  · have hhd : q.head ≠ none := by rw [Ne, hn]; exact hl
    obtain ⟨tl, htl⟩ : ∃ tl, l.getLast? = some tl := by
      cases hg : l.getLast? with
      | none => exact absurd (List.getLast?_eq_none_iff.1 hg) hl
      | some tl => exact ⟨tl, rfl⟩
    have htlm : tl ∈ l := List.mem_of_getLast?_eq_some htl
    have htlx : tl ≠ x := fun e => hx (e ▸ htlm)
    simp only [append_obj_to_tail, hhd, if_false, Res.bind, Res.holds]
    refine ⟨⟨hnd2, ?_, ?_, ?_⟩, ?_, ?_⟩
    · show q.head = _
      rw [head?_append_singleton, hhead]
      have : l.head? ≠ none := by rw [← hhead]; exact hhd
      simp [this]
    · simp
    · intro y hy
      rw [prevOf_append_singleton hx, nextOf_append_singleton hnd]
      rw [List.mem_append, List.mem_singleton] at hy
      rcases hy with hy | rfl
      · have hyx : y ≠ x := fun e => hx (e ▸ hy)
        have := hlinks y hy
        simp [hyx, this, htail, htl]
      · have : tl ≠ y := htlx
        simp [htail, htl, this, nextOf_not_mem hx]
    · intro y; simp
    · intro y hy
      simp only [List.mem_cons, not_or] at hy
      have : tl ≠ y := fun e => hy.2 (e ▸ htlm)
      ext <;> simp [hy.1, htail, htl, this]

theorem insert_after_spec {q : dlist} {l : List Ptr} (h : IsList q l) {m x : Ptr}
    (hm : m ∈ l) (hx : x ∉ l) :
    (insert_obj_after_mark q (some m) x).holds
      (fun q2 => IsList q2 (insertAfter m x l) ∧ links_only q q2 (x :: l)) := by
  have htm := h.tail_iff hm
  obtain ⟨hnd, hhead, htail, hlinks⟩ := h
  have hmx : m ≠ x := fun e => hx (e ▸ hm)
  have hmp := (hlinks m hm).1
  have hmn := (hlinks m hm).2
  have htm' : q.tail = some m ↔ nextOf l m = none := by rw [eq_comm]; exact htm
  simp only [insert_obj_after_mark, Res.holds]
  refine ⟨⟨insertAfter_nodup hnd hm hx, ?_, ?_, ?_⟩, ?_, ?_⟩
  · show _ = _
    rw [head?_insertAfter, ← hhead]
    cases hN : nextOf l m <;> simp [hmn, hN, hmx]
  · show _ = _
    rw [getLast?_insertAfter hnd hm, ← htail]
    cases hN : nextOf l m <;> simp [hmn, hN, hmx, htm']
  · intro y hy
    rw [mem_insertAfter hm] at hy
    rw [prevOf_insertAfter hnd hm hx, nextOf_insertAfter hm hx]
    rcases hy with rfl | hy
    · cases hN : nextOf l m <;> simp [hmn, hN, hmx, Ne.symm hmx]
      intro e; exact absurd (e ▸ (nextOf_mem hN).2) hx
    · have hyx : y ≠ x := fun e => hx (e ▸ hy)
      have := hlinks y hy
      cases hN : nextOf l m <;> simp [hmn, hN, hmx, hyx, this]
      rename_i n
      by_cases hny : n = y
      · simp [hny]
      · simp [hny, show ¬ y = n from fun e => hny e.symm]
  · intro y
    cases hN : nextOf l m <;> simp [hmn, hN, hmx]
  · intro y hy
    simp only [List.mem_cons, not_or] at hy
    have hym : y ≠ m := fun e => hy.2 (e ▸ hm)
    cases hN : nextOf l m
    · ext <;> simp [hmn, hN, hmx, hy.1, hym]
    · rename_i n
      have hyn : y ≠ n := fun e => hy.2 (e ▸ (nextOf_mem hN).2)
      ext <;> simp [hmn, hN, hmx, hy.1, hym, hyn, Ne.symm hyn]

theorem eq_singleton_of_head_eq_last {l : List Ptr} (hl : l.Nodup) {a : Ptr}
    (hh : l.head? = some a) (ht : l.getLast? = some a) : l = [a] := by
  cases l with
  | nil => simp at hh
  | cons b t =>
    simp only [List.head?_cons, Option.some.injEq] at hh
    subst hh
    have := ((getLast?_eq_some_iff hl).1 ht).2
    rw [nextOf_cons, if_pos rfl] at this
    cases t with
    | nil => rfl
    | cons c u => simp at this

theorem cons_erase_head {l : List Ptr} {x : Ptr} (h : l.head? = some x) : x :: l.erase x = l := by
  cases l with
  | nil => simp at h
  | cons b t =>
    simp only [List.head?_cons, Option.some.injEq] at h
    subst h
    simp

theorem erase_append_last {l : List Ptr} (hl : l.Nodup) {x : Ptr} (h : l.getLast? = some x) :
    l.erase x ++ [x] = l := by
  induction l with
  | nil => simp at h
  | cons b t ih =>
    have hb := (List.nodup_cons.1 hl).1
    have ht := (List.nodup_cons.1 hl).2
    cases t with
    | nil => simp at h; subst h; simp
    | cons c u =>
      rw [List.getLast?_cons_cons] at h
      have hx : x ∈ c :: u := List.mem_of_getLast?_eq_some h
      have hbx : b ≠ x := fun e => hb (e ▸ hx)
      rw [List.erase_cons_tail (by simpa using hbx), List.cons_append, ih ht h]

/-- Facts about the two ends of a non-empty list. -/
theorem IsList.ends {q : dlist} {l : List Ptr} (h : IsList q l) {x : Ptr} (hx : x ∈ l) :
    ∃ hd tl, q.head = some hd ∧ q.tail = some tl ∧ l.head? = some hd ∧ l.getLast? = some tl ∧
      hd ∈ l ∧ tl ∈ l ∧ prevOf l hd = none ∧ nextOf l tl = none ∧
      (hd = x ↔ prevOf l x = none) ∧ (tl = x ↔ nextOf l x = none) ∧ (hd = tl → l = [x]) := by
  have hne : l ≠ [] := List.ne_nil_of_mem hx
  obtain ⟨hd, hhd⟩ : ∃ hd, l.head? = some hd := by
    cases l with
    | nil => exact absurd rfl hne
    | cons a t => exact ⟨a, rfl⟩
  obtain ⟨tl, htl⟩ : ∃ tl, l.getLast? = some tl := by
    cases hg : l.getLast? with
    | none => exact absurd (List.getLast?_eq_none_iff.1 hg) hne
    | some tl => exact ⟨tl, rfl⟩
  have h1 := (head?_eq_some_iff h.1).1 hhd
  have h2 := (getLast?_eq_some_iff h.1).1 htl
  refine ⟨hd, tl, h.2.1.trans hhd, h.2.2.1.trans htl, hhd, htl, h1.1, h2.1, h1.2, h2.2, ?_, ?_, ?_⟩
  · constructor
    · rintro rfl; exact h1.2
    · intro hp
      have := (head?_eq_some_iff h.1).2 ⟨hx, hp⟩
      rw [hhd] at this; exact Option.some.inj this
  · constructor
    · rintro rfl; exact h2.2
    · intro hp
      have := (getLast?_eq_some_iff h.1).2 ⟨hx, hp⟩
      rw [htl] at this; exact Option.some.inj this
  · rintro rfl
    have := eq_singleton_of_head_eq_last h.1 hhd htl
    rw [this] at hx ⊢
    simp at hx
    rw [hx]

theorem move_to_head_spec {q : dlist} {l : List Ptr} (h : IsList q l) {x : Ptr} (hx : x ∈ l) :
    (move_obj_to_head q x).holds
      (fun q2 => IsList q2 (x :: l.erase x) ∧ links_only q q2 l) := by
  obtain ⟨hd, tl, hqh, hqt, hlh, hlt, hdm, tlm, hdp, tln, hhx, htx, hsing⟩ := h.ends hx
  have hcopy := h
  obtain ⟨hnd, hhead, htail, hlinks⟩ := h
  have hxp := (hlinks x hx).1
  have hxn := (hlinks x hx).2
  have hxe : x ∉ l.erase x := fun hm => (hnd.mem_erase_iff.1 hm).1 rfl
  by_cases hdt : hd = tl
  · have hl := hsing hdt
    have hxhd : hd = x := by
      rw [hl] at hlh; simpa using hlh.symm
    subst hxhd hdt
    have hP := hhx.1 rfl
    have hN := htx.1 rfl
    simp only [move_obj_to_head, hqh, hqt, hxp, hxn, hP, hN, and_self, if_true, Res.holds]
    rw [cons_erase_head hlh]
    exact ⟨hcopy, fun y => by simp, fun y _ => rfl⟩
  · have hne : q.head ≠ q.tail := by rw [hqh, hqt]; simpa using hdt
    by_cases hxhd : hd = x
    · subst hxhd
      simp only [move_obj_to_head, hqh, hqt, Option.some.injEq, hdt, if_false, if_true,
        Res.holds]
      rw [cons_erase_head hlh]
      exact ⟨hcopy, fun y => by simp, fun y _ => rfl⟩
    · have hxhd' : x ≠ hd := fun e => hxhd e.symm
      have hP : prevOf l x ≠ none := fun e => hxhd (hhx.2 e)
      obtain ⟨p, hp⟩ := Option.ne_none_iff_exists'.1 hP
      have hpm := (prevOf_mem hp).1
      have hpx : p ≠ x := fun e => prevOf_ne_self hnd (e ▸ hp)
      have hhe : (l.erase x).head? = some hd := by
        rw [head?_erase, hlh]; simp [hxhd]
      have hnd2 : (x :: l.erase x).Nodup := List.nodup_cons.2 ⟨hxe, hnd.erase x⟩
      by_cases hxtl : tl = x
      · subst hxtl
        have hN := htx.1 rfl
        simp only [move_obj_to_head, hqh, hqt, Option.some.injEq, hdt, if_false, hxhd', if_true,
          hxp, hp, Res.holds]
        refine ⟨⟨hnd2, rfl, ?_, ?_⟩, ?_, ?_⟩
        · show _ = _
          have hne2 : l.erase tl ≠ [] := by
            intro e; rw [e] at hhe; simp at hhe
          rw [getLast?_cons_ne_nil _ hne2, getLast?_erase hnd, hlt]
          simp [hxp, hp, hpx]
        · intro y hy
          rw [prevOf_cons, nextOf_cons, hhe]
          rcases List.mem_cons.1 hy with rfl | hy
          · simp [hxhd, prevOf_not_mem hxe]
          · have hy2 := hnd.mem_erase_iff.1 hy
            have := hlinks y hy2.2
            rw [prevOf_erase hnd hy2.1, nextOf_erase hnd hy2.1]
            simp [hy2.1, this, hxn, hN, hp]
            constructor
            · by_cases hyd : hd = y
              · simp [hyd]
              · simp [hyd, show ¬ y = hd from fun e => hyd e.symm]
            · by_cases hyp : p = y
              · simp [hyp]
              · simp [hyp, show ¬ y = p from fun e => hyp e.symm]
        · intro y; simp
        · intro y hy
          have h1 : y ≠ tl := fun e => hy (e ▸ hx)
          have h2 : y ≠ hd := fun e => hy (e ▸ hdm)
          have h3 : y ≠ p := fun e => hy (e ▸ hpm)
          ext <;> simp [h1, h2, h3]
      · have hxtl' : x ≠ tl := fun e => hxtl e.symm
        have hN : nextOf l x ≠ none := fun e => hxtl (htx.2 e)
        obtain ⟨n, hn⟩ := Option.ne_none_iff_exists'.1 hN
        have hnm := (nextOf_mem hn).2
        have hnx : n ≠ x := fun e => nextOf_ne_self hnd (e ▸ hn)
        simp only [move_obj_to_head, hqh, hqt, Option.some.injEq, hdt, if_false, hxhd', hxtl',
          hxp, hp, setNext_next, hpx, Ne.symm hpx, hxn, hn, setNext_prev, Res.holds]
        refine ⟨⟨hnd2, rfl, ?_, ?_⟩, ?_, ?_⟩
        · show _ = _
          have hne2 : l.erase x ≠ [] := by
            intro e; rw [e] at hhe; simp at hhe
          rw [getLast?_cons_ne_nil _ hne2, getLast?_erase hnd, hlt]
          simp [hxtl]
        · intro y hy
          rw [prevOf_cons, nextOf_cons, hhe]
          rcases List.mem_cons.1 hy with rfl | hy
          · simp [hxhd, prevOf_not_mem hxe]
          · have hy2 := hnd.mem_erase_iff.1 hy
            have := hlinks y hy2.2
            rw [prevOf_erase hnd hy2.1, nextOf_erase hnd hy2.1]
            simp [hy2.1, this, hxn, hn, hp]
            constructor
            · by_cases hyd : hd = y
              · simp [hyd]
              · by_cases hyn : n = y
                · simp [hyd, show ¬ y = hd from fun e => hyd e.symm, hyn]
                · simp [hyd, show ¬ y = hd from fun e => hyd e.symm, hyn,
                    show ¬ y = n from fun e => hyn e.symm]
            · by_cases hyp : p = y
              · simp [hyp]
              · simp [hyp, show ¬ y = p from fun e => hyp e.symm]
        · intro y; simp
        · intro y hy
          have h1 : y ≠ x := fun e => hy (e ▸ hx)
          have h2 : y ≠ hd := fun e => hy (e ▸ hdm)
          have h3 : y ≠ p := fun e => hy (e ▸ hpm)
          have h4 : y ≠ n := fun e => hy (e ▸ hnm)
          ext <;> simp [h1, h2, h3, h4]

theorem move_to_tail_spec {q : dlist} {l : List Ptr} (h : IsList q l) {x : Ptr} (hx : x ∈ l) :
    (move_obj_to_tail q x).holds
      (fun q2 => IsList q2 (l.erase x ++ [x]) ∧ links_only q q2 l) := by
  obtain ⟨hd, tl, hqh, hqt, hlh, hlt, hdm, tlm, hdp, tln, hhx, htx, hsing⟩ := h.ends hx
  have hcopy := h
  obtain ⟨hnd, hhead, htail, hlinks⟩ := h
  have hxp := (hlinks x hx).1
  have hxn := (hlinks x hx).2
  have hxe : x ∉ l.erase x := fun hm => (hnd.mem_erase_iff.1 hm).1 rfl
  have hnde := hnd.erase x
  by_cases hdt : hd = tl
  · have hl := hsing hdt
    have hxhd : hd = x := by
      rw [hl] at hlh; simpa using hlh.symm
    subst hxhd hdt
    have hP := hhx.1 rfl
    have hN := htx.1 rfl
    simp only [move_obj_to_tail, hqh, hqt, hxp, hxn, hP, hN, and_self, if_true, Res.holds]
    rw [erase_append_last hnd hlt]
    exact ⟨hcopy, fun y => by simp, fun y _ => rfl⟩
  · by_cases hxtl : tl = x
    · subst hxtl
      have hxhd : ¬ tl = hd := fun e => hdt e.symm
      simp only [move_obj_to_tail, hqh, hqt, Option.some.injEq, hdt, hxhd, if_false, if_true,
        Res.holds]
      rw [erase_append_last hnd hlt]
      exact ⟨hcopy, fun y => by simp, fun y _ => rfl⟩
    · have hxtl' : x ≠ tl := fun e => hxtl e.symm
      have hN : nextOf l x ≠ none := fun e => hxtl (htx.2 e)
      obtain ⟨n, hn⟩ := Option.ne_none_iff_exists'.1 hN
      have hnm := (nextOf_mem hn).2
      have hnx : n ≠ x := fun e => nextOf_ne_self hnd (e ▸ hn)
      have hle : (l.erase x).getLast? = some tl := by
        rw [getLast?_erase hnd, hlt]; simp [hxtl]
      have hnd2 : (l.erase x ++ [x]).Nodup := by
        rw [List.nodup_append]
        exact ⟨hnde, List.nodup_singleton x, by simpa using hxe⟩
      by_cases hxhd : hd = x
      · subst hxhd
        have hP := hhx.1 rfl
        simp only [move_obj_to_tail, hqh, hqt, Option.some.injEq, hdt, if_false, if_true,
          hxn, hn, Res.holds]
        refine ⟨⟨hnd2, ?_, ?_, ?_⟩, ?_, ?_⟩
        · show _ = _
          rw [head?_append_singleton, head?_erase, hlh]
          simp [hn]
        · simp
        · intro y hy
          rw [prevOf_append_singleton hxe, nextOf_append_singleton hnde, hle]
          rw [List.mem_append, List.mem_singleton] at hy
          rcases hy with hy | rfl
          · have hy2 := hnd.mem_erase_iff.1 hy
            have := hlinks y hy2.2
            rw [prevOf_erase hnd hy2.1, nextOf_erase hnd hy2.1]
            simp [hy2.1, this, hxp, hP, hn]
            constructor
            · by_cases hyn : n = y
              · simp [hyn]
              · simp [hyn, show ¬ y = n from fun e => hyn e.symm]
            · by_cases hyt : tl = y
              · simp [hyt]
              · simp [hyt, show ¬ y = tl from fun e => hyt e.symm]
          · simp [hxtl, nextOf_not_mem hxe]
        · intro y; simp
        · intro y hy
          have h1 : y ≠ hd := fun e => hy (e ▸ hx)
          have h2 : y ≠ tl := fun e => hy (e ▸ tlm)
          have h4 : y ≠ n := fun e => hy (e ▸ hnm)
          ext <;> simp [h1, h2, h4]
      · have hxhd' : x ≠ hd := fun e => hxhd e.symm
        have hP : prevOf l x ≠ none := fun e => hxhd (hhx.2 e)
        obtain ⟨p, hp⟩ := Option.ne_none_iff_exists'.1 hP
        have hpm := (prevOf_mem hp).1
        have hpx : p ≠ x := fun e => prevOf_ne_self hnd (e ▸ hp)
        simp only [move_obj_to_tail, hqh, hqt, Option.some.injEq, hdt, if_false, hxhd', hxtl',
          hxp, hp, setNext_next, hpx, Ne.symm hpx, hxn, hn, setNext_prev, Res.holds]
        refine ⟨⟨hnd2, ?_, ?_, ?_⟩, ?_, ?_⟩
        · show _ = _
          rw [head?_append_singleton, head?_erase, hlh]
          simp [hxhd]
        · simp
        · intro y hy
          rw [prevOf_append_singleton hxe, nextOf_append_singleton hnde, hle]
          rw [List.mem_append, List.mem_singleton] at hy
          rcases hy with hy | rfl
          · have hy2 := hnd.mem_erase_iff.1 hy
            have := hlinks y hy2.2
            rw [prevOf_erase hnd hy2.1, nextOf_erase hnd hy2.1]
            simp [hy2.1, this, hxp, hp, hn]
            constructor
            · by_cases hyn : n = y
              · simp [hyn]
              · simp [hyn, show ¬ y = n from fun e => hyn e.symm]
            · by_cases hyt : tl = y
              · simp [hyt]
              · by_cases hyp : p = y
                · simp [hyt, show ¬ y = tl from fun e => hyt e.symm, hyp]
                · simp [hyt, show ¬ y = tl from fun e => hyt e.symm, hyp,
                    show ¬ y = p from fun e => hyp e.symm]
          · simp [hxtl, nextOf_not_mem hxe]
        · intro y; simp
        · intro y hy
          have h1 : y ≠ x := fun e => hy (e ▸ hx)
          have h2 : y ≠ tl := fun e => hy (e ▸ tlm)
          have h3 : y ≠ p := fun e => hy (e ▸ hpm)
          have h4 : y ≠ n := fun e => hy (e ▸ hnm)
          ext <;> simp [h1, h2, h3, h4]

theorem move_after_mark_spec {q : dlist} {l : List Ptr} (h : IsList q l) {m x : Ptr}
    (hm : m ∈ l) (hx : x ∈ l) :
    (move_obj_after_mark q (some m) x).holds
      (fun q2 => IsList q2 (moveAfter m x l) ∧ links_only q q2 l) := by
  by_cases hxm : x = m
  · subst hxm
    simp only [move_obj_after_mark, if_true, Res.holds, moveAfter]
    exact ⟨h, fun y => by simp, fun y _ => rfl⟩
  obtain ⟨hd, tl, hqh, hqt, hlh, hlt, hdm, tlm, hdp, tln, hhx, htx, hsing⟩ := h.ends hx
  obtain ⟨hnd, hhead, htail, hlinks⟩ := h
  have hxp := (hlinks x hx).1
  have hxn := (hlinks x hx).2
  have hmp := (hlinks m hm).1
  have hmn := (hlinks m hm).2
  have hxe : x ∉ l.erase x := fun hm => (hnd.mem_erase_iff.1 hm).1 rfl
  have hnde := hnd.erase x
  have hmx : m ≠ x := fun e => hxm e.symm
  have hme : m ∈ l.erase x := hnd.mem_erase_iff.2 ⟨hmx, hm⟩
  have hnd2 := insertAfter_nodup hnde hme hxe
  have hxm' : ¬ some x = some m := by simpa using hxm
  have htlm : tl = m ↔ nextOf l m = none := by
    constructor
    · rintro rfl; exact tln
    · intro e
      have := (getLast?_eq_some_iff hnd).2 ⟨hm, e⟩
      rw [hlt] at this; exact Option.some.inj this
  simp only [moveAfter, if_neg hxm]
  by_cases hxhd : hd = x
  · -- the moved node is the head
    subst hxhd
    have hP := hhx.1 rfl
    have hN : nextOf l hd ≠ none := by
      intro e
      have h1 := htx.2 e
      have := hsing h1.symm
      rw [this] at hm
      simp at hm
      exact hmx hm
    obtain ⟨n, hn⟩ := Option.ne_none_iff_exists'.1 hN
    have hnm := (nextOf_mem hn).2
    have hnx : n ≠ hd := fun e => nextOf_ne_self hnd (e ▸ hn)
    have hxtl : ¬ tl = hd := fun e => hN (htx.1 e)
    cases hM : nextOf l m with
    | none =>
      have htlm' := htlm.2 hM
      subst htlm'
      simp only [move_obj_after_mark, hxm', if_false, hqh, if_true, hxn, hn, setPrevO, Res.bind,
        setPrev_next, setNext_next, hmx, hmn, hM, hqt, Res.holds]
      refine ⟨⟨hnd2, ?_, ?_, ?_⟩, ?_, ?_⟩
      · show _ = _
        rw [head?_insertAfter, head?_erase, hlh]; simp [hn]
      · show _ = _
        rw [getLast?_insertAfter hnde hme, getLast?_erase hnd, hlt]; simp [hxtl]
      · intro y hy
        rw [mem_insertAfter hme] at hy
        rw [prevOf_insertAfter hnde hme hxe, nextOf_insertAfter hme hxe,
          nextOf_erase hnd hmx, hP]
        rcases hy with rfl | hy
        · simp [hM, hmx]
        · have hy2 := hnd.mem_erase_iff.1 hy
          have := hlinks y hy2.2
          rw [prevOf_erase hnd hy2.1, nextOf_erase hnd hy2.1]
          simp [hy2.1, this, hP, hn, hM]
          all_goals (split_ifs <;> first | rfl | (subst_vars; contradiction))
      · intro y; simp
      · intro y hy
        have h1 : y ≠ hd := fun e => hy (e ▸ hx)
        have h2 : y ≠ tl := fun e => hy (e ▸ tlm)
        have h4 : y ≠ n := fun e => hy (e ▸ hnm)
        ext <;> simp [h1, h2, h4, Ne.symm h4]
    | some mn =>
      have hmnm := (nextOf_mem hM).2
      have hmnx : mn ≠ hd := by
        intro e
        have := (prevOf_eq_some_iff hnd).2 hM
        rw [e, hP] at this
        simp at this
      have htlm' : ¬ tl = m := fun e => by simpa [hM] using htlm.1 e
      simp only [move_obj_after_mark, hxm', if_false, hqh, if_true, hxn, hn, setPrevO, Res.bind,
        setPrev_next, setNext_next, hmx, hmn, hM, hqt, Res.holds]
      refine ⟨⟨hnd2, ?_, ?_, ?_⟩, ?_, ?_⟩
      · show _ = _
        rw [head?_insertAfter, head?_erase, hlh]; simp [hn]
      · show _ = _
        rw [getLast?_insertAfter hnde hme, getLast?_erase hnd, hlt]; simp [hxtl, htlm']
      · intro y hy
        rw [mem_insertAfter hme] at hy
        rw [prevOf_insertAfter hnde hme hxe, nextOf_insertAfter hme hxe,
          nextOf_erase hnd hmx, hP]
        rcases hy with rfl | hy
        · simp [hM, hmx, Ne.symm hmnx]
        · have hy2 := hnd.mem_erase_iff.1 hy
          have := hlinks y hy2.2
          rw [prevOf_erase hnd hy2.1, nextOf_erase hnd hy2.1]
          simp [hy2.1, this, hP, hn, hM]
          all_goals (split_ifs <;> first | rfl | (subst_vars; contradiction))
      · intro y; simp
      · intro y hy
        have h1 : y ≠ hd := fun e => hy (e ▸ hx)
        have h2 : y ≠ m := fun e => hy (e ▸ hm)
        have h3 : y ≠ mn := fun e => hy (e ▸ hmnm)
        have h4 : y ≠ n := fun e => hy (e ▸ hnm)
        ext <;> simp [h1, h2, h3, h4, Ne.symm h4]
  · -- the moved node is not the head
    have hxhd' : ¬ x = hd := fun e => hxhd e.symm
    have hP : prevOf l x ≠ none := fun e => hxhd (hhx.2 e)
    obtain ⟨p, hp⟩ := Option.ne_none_iff_exists'.1 hP
    have hpm := (prevOf_mem hp).1
    have hpx : p ≠ x := fun e => prevOf_ne_self hnd (e ▸ hp)
    have hxp' : ¬ x = p := fun e => hpx e.symm
    have hpn : nextOf l p = some x := (prevOf_eq_some_iff hnd).1 hp
    have hhe : (l.erase x).head? = some hd := by
      rw [head?_erase, hlh]; simp [hxhd]
    have hM' : nextOf (l.erase x) m = if m = p then nextOf l x else nextOf l m := by
      rw [nextOf_erase hnd hmx, hp]
      by_cases hpm : p = m
      · simp [hpm]
      · simp [hpm, show ¬ m = p from fun e => hpm e.symm]
    have hlinks' : ∀ y, y ∈ l.erase x → y ≠ x ∧
        (q.heap y).prev = prevOf l y ∧ (q.heap y).next = nextOf l y ∧
        prevOf (l.erase x) y = (if nextOf l x = some y then prevOf l x else prevOf l y) ∧
        nextOf (l.erase x) y = (if y = p then nextOf l x else nextOf l y) := by
      intro y hy
      have hy2 := hnd.mem_erase_iff.1 hy
      refine ⟨hy2.1, (hlinks y hy2.2).1, (hlinks y hy2.2).2, prevOf_erase hnd hy2.1, ?_⟩
      rw [nextOf_erase hnd hy2.1, hp]
      by_cases hpy : p = y
      · simp [hpy]
      · simp [hpy, show ¬ y = p from fun e => hpy e.symm]
    cases hN : nextOf l x with
    | none =>
      have hxtl : tl = x := htx.2 hN
      subst hxtl
      have hle : (l.erase tl).getLast? = some p := by
        rw [getLast?_erase hnd, hlt]; simp [hp]
      cases hM : nextOf (l.erase tl) m with
      | none =>
        have hM2 := hM
        rw [hM', hN] at hM2
        have hmp' : m = p := by
          by_contra hne
          rw [if_neg hne] at hM2
          exact hmx (htlm.2 hM2).symm
        subst hmp'
        simp only [move_obj_after_mark, hxm', if_false, hqh, Option.some.injEq, hxhd', hxp, hp,
          setNext_next, hxp', hxn, hN, setNext_prev, Res.bind, setPrev_next, hmx, if_true,
          Res.holds]
        refine ⟨⟨hnd2, ?_, ?_, ?_⟩, ?_, ?_⟩
        · show _ = _
          rw [head?_insertAfter, hhe]
        · show _ = _
          rw [getLast?_insertAfter hnde hme, hle]; simp
        · intro y hy
          rw [mem_insertAfter hme] at hy
          rw [prevOf_insertAfter hnde hme hxe, nextOf_insertAfter hme hxe, hM]
          rcases hy with rfl | hy
          · simp [hmx]
          · obtain ⟨h1, h2, h3, h4, h5⟩ := hlinks' y hy
            rw [h4, h5]
            simp [h1, h2, h3, hN, hp]
        · intro y; simp
        · intro y hy
          have h1 : y ≠ tl := fun e => hy (e ▸ hx)
          have h2 : y ≠ m := fun e => hy (e ▸ hm)
          ext <;> simp [h1, h2]
      | some mn =>
        have hM2 := hM
        rw [hM', hN] at hM2
        have hmp' : ¬ m = p := by
          intro e; rw [if_pos e] at hM2; simp at hM2
        rw [if_neg hmp'] at hM2
        have hmnm := (nextOf_mem hM2).2
        have hmnx : mn ≠ tl := by
          intro e
          have := (prevOf_eq_some_iff hnd).2 hM2
          rw [e, hp] at this
          exact hmp' (Option.some.inj this).symm
        simp only [move_obj_after_mark, hxm', if_false, hqh, Option.some.injEq, hxhd', hxp, hp,
          setNext_next, hxp', hxn, hN, setNext_prev, Res.bind, setPrev_next, hmx, hmp', hmn, hM2,
          if_true, Res.holds]
        refine ⟨⟨hnd2, ?_, ?_, ?_⟩, ?_, ?_⟩
        · show _ = _
          rw [head?_insertAfter, hhe]
        · show _ = _
          rw [getLast?_insertAfter hnde hme, hle]
          simp [show ¬ p = m from fun e => hmp' e.symm]
        · intro y hy
          rw [mem_insertAfter hme] at hy
          rw [prevOf_insertAfter hnde hme hxe, nextOf_insertAfter hme hxe, hM]
          rcases hy with rfl | hy
          · simp [hmx, Ne.symm hmnx, hxp']
          · obtain ⟨h1, h2, h3, h4, h5⟩ := hlinks' y hy
            rw [h4, h5]
            simp [h1, h2, h3, hN, hp]
            all_goals (split_ifs <;> first | rfl | (subst_vars; contradiction))
        · intro y; simp
        · intro y hy
          have h1 : y ≠ tl := fun e => hy (e ▸ hx)
          have h2 : y ≠ m := fun e => hy (e ▸ hm)
          have h3 : y ≠ mn := fun e => hy (e ▸ hmnm)
          have h4 : y ≠ p := fun e => hy (e ▸ hpm)
          ext <;> simp [h1, h2, h3, h4]
    | some n =>
      have hnm := (nextOf_mem hN).2
      have hnx : n ≠ x := fun e => nextOf_ne_self hnd (e ▸ hN)
      have hxtl : ¬ tl = x := fun e => by simpa [hN] using htx.1 e
      have hle : (l.erase x).getLast? = some tl := by
        rw [getLast?_erase hnd, hlt]; simp [hxtl]
      cases hM : nextOf (l.erase x) m with
      | none =>
        have hM2 := hM
        rw [hM', hN] at hM2
        have hmp' : ¬ m = p := by
          intro e; rw [if_pos e] at hM2; simp at hM2
        rw [if_neg hmp'] at hM2
        have htlm' : tl = m := htlm.2 hM2
        subst htlm'
        simp only [move_obj_after_mark, hxm', if_false, hqh, Option.some.injEq, hxhd', hxp, hp,
          setNext_next, hxp', hxn, hN, setNext_prev, Res.bind, setPrev_next, hmx, hmp', hmn, hM2,
          if_true, Res.holds]
        refine ⟨⟨hnd2, ?_, ?_, ?_⟩, ?_, ?_⟩
        · show _ = _
          rw [head?_insertAfter, hhe]
        · show _ = _
          rw [getLast?_insertAfter hnde hme, hle]
          simp
        · intro y hy
          rw [mem_insertAfter hme] at hy
          rw [prevOf_insertAfter hnde hme hxe, nextOf_insertAfter hme hxe, hM]
          rcases hy with rfl | hy
          · simp [hmx, hxp']
          · obtain ⟨h1, h2, h3, h4, h5⟩ := hlinks' y hy
            rw [h4, h5]
            simp [h1, h2, h3, hN, hp]
            all_goals (split_ifs <;> first | rfl | (subst_vars; contradiction))
        · intro y; simp
        · intro y hy
          have h1 : y ≠ x := fun e => hy (e ▸ hx)
          have h2 : y ≠ tl := fun e => hy (e ▸ hm)
          have h3 : y ≠ n := fun e => hy (e ▸ hnm)
          have h4 : y ≠ p := fun e => hy (e ▸ hpm)
          ext <;> simp [h1, h2, h3, h4]
      | some mn =>
        have hM2 := hM
        rw [hM', hN] at hM2
        have hmnx : mn ≠ x := by
          intro e
          have := (nextOf_mem hM).2
          rw [e] at this
          exact hxe this
        have hmnm : mn ∈ l := (hnd.mem_erase_iff.1 (nextOf_mem hM).2).2
        have htlm' : ¬ tl = m := by
          intro e
          have := htlm.1 e
          rw [← e] at hM
          have h2 := (getLast?_eq_some_iff hnde).1 hle
          rw [h2.2] at hM
          simp at hM
        by_cases hmp' : m = p
        · subst hmp'
          rw [if_pos rfl] at hM2
          have hnmn : n = mn := Option.some.inj hM2
          subst hnmn
          simp only [move_obj_after_mark, hxm', if_false, hqh, Option.some.injEq, hxhd', hxp, hp,
            setNext_next, hxp', hxn, hN, setNext_prev, Res.bind, setPrev_next, hmx, hmn,
            if_true, Res.holds]
          refine ⟨⟨hnd2, ?_, ?_, ?_⟩, ?_, ?_⟩
          · show _ = _
            rw [head?_insertAfter, hhe]
          · show _ = _
            rw [getLast?_insertAfter hnde hme, hle]
            simp [htlm', hqt]
          · intro y hy
            rw [mem_insertAfter hme] at hy
            rw [prevOf_insertAfter hnde hme hxe, nextOf_insertAfter hme hxe, hM]
            rcases hy with rfl | hy
            · simp [hmx, hxp', Ne.symm hnx]
            · obtain ⟨h1, h2, h3, h4, h5⟩ := hlinks' y hy
              rw [h4, h5]
              simp [h1, h2, h3, hN, hp]
              all_goals (split_ifs <;> first | rfl | (subst_vars; contradiction))
          · intro y; simp
          · intro y hy
            have h1 : y ≠ x := fun e => hy (e ▸ hx)
            have h2 : y ≠ m := fun e => hy (e ▸ hm)
            have h3 : y ≠ n := fun e => hy (e ▸ hnm)
            ext <;> simp [h1, h2, h3]
        · rw [if_neg hmp'] at hM2
          simp only [move_obj_after_mark, hxm', if_false, hqh, Option.some.injEq, hxhd', hxp, hp,
            setNext_next, hxp', hxn, hN, setNext_prev, Res.bind, setPrev_next, hmx, hmp', hmn,
            hM2, if_true, Res.holds]
          refine ⟨⟨hnd2, ?_, ?_, ?_⟩, ?_, ?_⟩
          · show _ = _
            rw [head?_insertAfter, hhe]
          · show _ = _
            rw [getLast?_insertAfter hnde hme, hle]
            simp [htlm', hqt]
          · intro y hy
            rw [mem_insertAfter hme] at hy
            rw [prevOf_insertAfter hnde hme hxe, nextOf_insertAfter hme hxe, hM]
            rcases hy with rfl | hy
            · simp [hmx, hxp', Ne.symm hnx, Ne.symm hmnx]
            · obtain ⟨h1, h2, h3, h4, h5⟩ := hlinks' y hy
              rw [h4, h5]
              simp [h1, h2, h3, hN, hp]
              all_goals (split_ifs <;> first | rfl | (subst_vars; contradiction))
          · intro y; simp
          · intro y hy
            have h1 : y ≠ x := fun e => hy (e ▸ hx)
            have h2 : y ≠ m := fun e => hy (e ▸ hm)
            have h3 : y ≠ n := fun e => hy (e ▸ hnm)
            have h4 : y ≠ p := fun e => hy (e ▸ hpm)
            have h5 : y ≠ mn := fun e => hy (e ▸ hmnm)
            ext <;> simp [h1, h2, h3, h4, h5]

theorem path_iff (f : Ptr → Option Ptr) {l : List Ptr} (hl : l.Nodup) (p : Option Ptr) :
    path f p l ↔ p = l.head? ∧ ∀ x ∈ l, f x = nextOf l x := by
  induction l generalizing p with
  | nil => simp [path]
  | cons a t ih =>
    have ha := (List.nodup_cons.1 hl).1
    have ht := (List.nodup_cons.1 hl).2
    simp only [path, ih ht, List.head?_cons, List.mem_cons, forall_eq_or_imp, nextOf_cons,
      if_true]
    constructor
    · rintro ⟨h1, h2, h3⟩
      refine ⟨h1, h2, fun x hx => ?_⟩
      have hxa : ¬ x = a := fun e => ha (e ▸ hx)
      rw [if_neg hxa]
      exact h3 x hx
    · rintro ⟨h1, h2, h3⟩
      refine ⟨h1, h2, fun x hx => ?_⟩
      have hxa : ¬ x = a := fun e => ha (e ▸ hx)
      have := h3 x hx
      rwa [if_neg hxa] at this

theorem nextOf_reverse {l : List Ptr} (hl : l.Nodup) (x : Ptr) :
    nextOf l.reverse x = prevOf l x := by
  induction l with
  | nil => rfl
  | cons a t ih =>
    have ht := (List.nodup_cons.1 hl).2
    rw [List.reverse_cons, nextOf_append_singleton (List.nodup_reverse.2 ht), ih ht,
      List.getLast?_reverse, prevOf_cons]

theorem well_formed_iff_isList (q : dlist) (l : List Ptr) : well_formed q l ↔ IsList q l := by
  constructor
  · rintro ⟨-, -, -, hnd, hn, hp⟩
    rw [path_iff _ hnd] at hn
    rw [path_iff _ (List.nodup_reverse.2 hnd), List.head?_reverse] at hp
    refine ⟨hnd, hn.1, hp.1, fun x hx => ⟨?_, hn.2 x hx⟩⟩
    rw [← nextOf_reverse hnd]
    exact hp.2 x (List.mem_reverse.2 hx)
  · intro h
    have hcopy := h
    obtain ⟨hnd, hhead, htail, hlinks⟩ := h
    refine ⟨?_, ?_, ?_, hnd, ?_, ?_⟩
    · rw [hcopy.nil_iff, hcopy.tail_none_iff]
    · cases hq : q.head with
      | none => trivial
      | some p =>
        have hp : l.head? = some p := by rw [← hhead, hq]
        have := (head?_eq_some_iff hnd).1 hp
        show (q.heap p).prev = none
        rw [(hlinks p this.1).1, this.2]
    · cases hq : q.tail with
      | none => trivial
      | some p =>
        have hp : l.getLast? = some p := by rw [← htail, hq]
        have := (getLast?_eq_some_iff hnd).1 hp
        show (q.heap p).next = none
        rw [(hlinks p this.1).2, this.2]
    · rw [path_iff _ hnd]
      exact ⟨hhead, fun x hx => (hlinks x hx).2⟩
    · rw [path_iff _ (List.nodup_reverse.2 hnd), List.head?_reverse]
      refine ⟨htail, fun x hx => ?_⟩
      rw [nextOf_reverse hnd]
      exact (hlinks x (List.mem_reverse.1 hx)).1

/-- C1: each of the seven list primitives, applied to a well-formed list and a node
meeting its precondition, returns normally with a list that is again
well-formed. -/
theorem C1_primitives_preserve_well_formed (q : dlist) (l : List Ptr) (hwf : well_formed q l)
    (x m : Ptr) :
    (x ∉ l → (prepend_obj_to_head q x).holds (fun q2 => ∃ l2, well_formed q2 l2)) ∧
    (x ∉ l → (append_obj_to_tail q x).holds (fun q2 => ∃ l2, well_formed q2 l2)) ∧
    (x ∉ l → m ∈ l →
      (insert_obj_after_mark q (some m) x).holds (fun q2 => ∃ l2, well_formed q2 l2)) ∧
    (x ∈ l → ∃ l2, well_formed (remove_obj_from_list q x) l2) ∧
    (x ∈ l → (move_obj_to_head q x).holds (fun q2 => ∃ l2, well_formed q2 l2)) ∧
    (x ∈ l → (move_obj_to_tail q x).holds (fun q2 => ∃ l2, well_formed q2 l2)) ∧
    (x ∈ l → m ∈ l →
      (move_obj_after_mark q (some m) x).holds (fun q2 => ∃ l2, well_formed q2 l2)) := by
  rw [well_formed_iff_isList] at hwf
  simp only [well_formed_iff_isList]
  refine ⟨fun hx => ?_, fun hx => ?_, fun hx hm => ?_, fun hx => ?_, fun hx => ?_, fun hx => ?_,
    fun hx hm => ?_⟩
  · exact Res.holds_mono (prepend_spec hwf hx) fun q2 h => ⟨_, h.1⟩
  · exact Res.holds_mono (append_spec hwf hx) fun q2 h => ⟨_, h.1⟩
  · exact Res.holds_mono (insert_after_spec hwf hm hx) fun q2 h => ⟨_, h.1⟩
  · exact ⟨_, remove_isList hwf hx⟩
  · exact Res.holds_mono (move_to_head_spec hwf hx) fun q2 h => ⟨_, h.1⟩
  · exact Res.holds_mono (move_to_tail_spec hwf hx) fun q2 h => ⟨_, h.1⟩
  · exact Res.holds_mono (move_after_mark_spec hwf hm hx) fun q2 h => ⟨_, h.1⟩

theorem C1_witness :
    well_formed two_nodes [0, 1] ∧
    (prepend_obj_to_head two_nodes 2).holds (fun q2 => ∃ l2, well_formed q2 l2) ∧
    (append_obj_to_tail two_nodes 2).holds (fun q2 => ∃ l2, well_formed q2 l2) ∧
    (insert_obj_after_mark two_nodes (some 0) 2).holds (fun q2 => ∃ l2, well_formed q2 l2) ∧
    (∃ l2, well_formed (remove_obj_from_list two_nodes 1) l2) ∧
    (move_obj_to_head two_nodes 1).holds (fun q2 => ∃ l2, well_formed q2 l2) ∧
    (move_obj_to_tail two_nodes 0).holds (fun q2 => ∃ l2, well_formed q2 l2) ∧
    (move_obj_after_mark two_nodes (some 1) 0).holds (fun q2 => ∃ l2, well_formed q2 l2) :=
  have hwf : well_formed two_nodes [0, 1] := by decide
  have a := C1_primitives_preserve_well_formed two_nodes [0, 1] hwf 2 0
  have b := C1_primitives_preserve_well_formed two_nodes [0, 1] hwf 1 0
  have c := C1_primitives_preserve_well_formed two_nodes [0, 1] hwf 0 1
  ⟨hwf, a.1 (by decide), a.2.1 (by decide), a.2.2.1 (by decide) (by decide),
    b.2.2.2.1 (by decide), b.2.2.2.2.1 (by decide), c.2.2.2.2.2.1 (by decide),
    c.2.2.2.2.2.2 (by decide) (by decide)⟩

theorem IsList.relink {q : dlist} {l : List Ptr} (h : IsList q l) {h2 : Heap}
    (hs : ∀ y ∈ l, (h2 y).prev = (q.heap y).prev ∧ (h2 y).next = (q.heap y).next) :
    IsList { heap := h2, head := q.head, tail := q.tail } l := by
  refine ⟨h.1, h.2.1, h.2.2.1, fun x hx => ?_⟩
  have := hs x hx
  have h3 := h.2.2.2 x hx
  exact ⟨this.1.trans h3.1, this.2.trans h3.2⟩

theorem Inv.of_same_links {h : Heap} {brk : Ptr} {ht : Nat → Option Ptr} {n : Int}
    {head tail : Option Ptr} {l : List Ptr} (hi : Inv h brk ht n head tail l) {h2 : Heap}
    (hs : same_links h h2) : Inv h2 brk ht n head tail l := by
  obtain ⟨h1, hb, hht, hn⟩ := hi
  refine ⟨h1.relink (fun y _ => ⟨(hs y).1, (hs y).2.1⟩), hb, fun k p => ?_, hn⟩
  rw [hht, (hs p).2.2]

theorem same_links_setFreq (h : Heap) (p : Ptr) (v : Nat) : same_links h (setFreq h p v) := by
  intro y; simp

theorem same_links_setStatus (h : Heap) (p : Ptr) (v : Nat) : same_links h (setStatus h p v) := by
  intro y; simp

theorem Inv.length_le {h : Heap} {brk : Ptr} {ht : Nat → Option Ptr} {n : Int}
    {head tail : Option Ptr} {l : List Ptr} (hi : Inv h brk ht n head tail l) :
    l.length ≤ brk := by
  have hsub : l ⊆ List.range brk := fun p hp => List.mem_range.2 (hi.2.1 p hp)
  have := (List.subperm_of_subset hi.1.1 hsub).length_le
  simpa using this

theorem walkNext_eq {q : dlist} {l : List Ptr} (h : IsList q l) {fuel : Nat}
    (hf : l.length ≤ fuel) : walkNext q.heap fuel q.head = l := by
  have hp := ((well_formed_iff_isList q l).2 h).2.2.2.2.1
  generalize q.head = p at hp
  clear h
  induction l generalizing fuel p with
  | nil =>
    simp only [path] at hp
    subst hp
    cases fuel <;> rfl
  | cons a t ih =>
    obtain ⟨h1, h2⟩ := hp
    subst h1
    cases fuel with
    | zero => simp at hf
    | succ f =>
      simp only [walkNext]
      rw [ih (by simpa using hf) _ h2]

theorem walkPrev_eq {q : dlist} {l : List Ptr} (h : IsList q l) {fuel : Nat}
    (hf : l.length ≤ fuel) : walkPrev q.heap fuel q.tail = l.reverse := by
  have hp := ((well_formed_iff_isList q l).2 h).2.2.2.2.2
  have hf' : l.reverse.length ≤ fuel := by simpa using hf
  generalize q.tail = p at hp
  generalize l.reverse = r at hp hf'
  clear h hf
  induction r generalizing fuel p with
  | nil =>
    simp only [path] at hp
    subst hp
    cases fuel <;> rfl
  | cons a t ih =>
    obtain ⟨h1, h2⟩ := hp
    subst h1
    cases fuel with
    | zero => simp at hf'
    | succ f =>
      simp only [walkPrev]
      rw [ih _ h2 (by simpa using hf')]

/-- Allocation of a node for `req` followed by `prepend_obj_to_head`. -/
theorem Inv.insert {h : Heap} {brk : Ptr} {ht : Nat → Option Ptr} {n : Int}
    {head tail : Option Ptr} {l : List Ptr} (hi : Inv h brk ht n head tail l)
    (req : request_t) (hk : ht req.obj_id = none) :
    (prepend_obj_to_head
        { heap := Function.update h brk (create_cache_obj_from_request (some req)),
          head := head, tail := tail } brk).holds
      (fun q2 => Inv q2.heap (brk + 1) (Function.update ht req.obj_id (some brk)) (n + 1)
        q2.head q2.tail (brk :: l) ∧
        same_data (Function.update h brk (create_cache_obj_from_request (some req))) q2.heap ∧
        ∀ y, y ∉ l → y ≠ brk → q2.heap y = h y) := by
  obtain ⟨h1, hb, hht, hn⟩ := hi
  have hbl : brk ∉ l := fun hm => Nat.lt_irrefl _ (hb brk hm)
  have h2 : IsList (dlist.mk (Function.update h brk (create_cache_obj_from_request (some req)))
      head tail) l := by
    refine h1.relink (fun y hy => ?_)
    have : y ≠ brk := fun e => hbl (e ▸ hy)
    simp [Function.update, this]
  refine Res.holds_mono (prepend_spec h2 hbl) ?_
  rintro q2 ⟨hl2, hsd, hfr⟩
  refine ⟨⟨hl2, ?_, ?_, ?_⟩, hsd, fun y hy hyb => ?_⟩
  rotate_left 3
  · rw [hfr y (by simp [hy, hyb])]
    simp [Function.update, hyb]
  · intro p hp
    rcases List.mem_cons.1 hp with rfl | hp
    · exact Nat.lt_succ_self _
    · exact Nat.lt_succ_of_lt (hb p hp)
  · intro k p
    have hid : (q2.heap p).obj_id = if p = brk then req.obj_id else (h p).obj_id := by
      rw [(hsd p).1]
      by_cases hp : p = brk
      · subst hp
        simp [create_cache_obj_from_request, copy_request_to_cache_obj]
      · simp [Function.update, hp]
    rw [hid, List.mem_cons]
    by_cases hkk : k = req.obj_id
    · subst hkk
      simp only [Function.update_same, Option.some.injEq]
      constructor
      · rintro rfl; simp
      · rintro ⟨hp | hp, h3⟩
        · exact hp.symm
        · have hpb : p ≠ brk := fun e => hbl (e ▸ hp)
          rw [if_neg hpb] at h3
          have := (hht req.obj_id p).2 ⟨hp, h3⟩
          rw [hk] at this
          simp at this
    · rw [Function.update_noteq hkk, hht]
      constructor
      · rintro ⟨hp, h3⟩
        have hpb : p ≠ brk := fun e => hbl (e ▸ hp)
        exact ⟨Or.inr hp, by rw [if_neg hpb]; exact h3⟩
      · rintro ⟨hp | hp, h3⟩
        · subst hp
          rw [if_pos rfl] at h3
          exact absurd h3.symm hkk
        · have hpb : p ≠ brk := fun e => hbl (e ▸ hp)
          rw [if_neg hpb] at h3
          exact ⟨hp, h3⟩
  · simp [hn]

/-- Effect of `move_obj_to_head` on a node of the list. -/
theorem Inv.move_to_head {h : Heap} {brk : Ptr} {ht : Nat → Option Ptr} {n : Int}
    {head tail : Option Ptr} {l : List Ptr} (hi : Inv h brk ht n head tail l) {x : Ptr}
    (hx : x ∈ l) :
    (move_obj_to_head { heap := h, head := head, tail := tail } x).holds
      (fun q2 => Inv q2.heap brk ht n q2.head q2.tail (x :: l.erase x) ∧
        same_data h q2.heap ∧ ∀ y, y ∉ l → q2.heap y = h y) := by
  obtain ⟨h1, hb, hht, hn⟩ := hi
  refine Res.holds_mono (move_to_head_spec h1 hx) ?_
  rintro q2 ⟨hl2, hsd, hfr⟩
  have hmem : ∀ p, p ∈ x :: l.erase x ↔ p ∈ l := by
    intro p
    rw [List.mem_cons, h1.1.mem_erase_iff]
    constructor
    · rintro (rfl | h3)
      · exact hx
      · exact h3.2
    · intro hp
      by_cases hpx : p = x
      · exact Or.inl hpx
      · exact Or.inr ⟨hpx, hp⟩
  refine ⟨⟨hl2, fun p hp => hb p ((hmem p).1 hp), fun k p => ?_, ?_⟩, hsd, hfr⟩
  · rw [hht, hmem, (hsd p).1]
  · rw [hn]
    simp [List.length_erase_of_mem hx]
    have : 0 < l.length := List.length_pos_of_mem hx
    omega

/-- Effect of `remove_obj_from_list` followed by the index and counter update of the base
hook. -/
theorem Inv.remove {h : Heap} {brk : Ptr} {ht : Nat → Option Ptr} {n : Int}
    {head tail : Option Ptr} {l : List Ptr} (hi : Inv h brk ht n head tail l) {x : Ptr}
    (hx : x ∈ l) :
    Inv (remove_obj_from_list { heap := h, head := head, tail := tail } x).heap brk
      (Function.update ht
        ((remove_obj_from_list { heap := h, head := head, tail := tail } x).heap x).obj_id none)
      (n - 1)
      (remove_obj_from_list { heap := h, head := head, tail := tail } x).head
      (remove_obj_from_list { heap := h, head := head, tail := tail } x).tail (l.erase x) := by
  obtain ⟨h1, hb, hht, hn⟩ := hi
  have hl2 := remove_isList h1 hx
  obtain ⟨hsd, -⟩ := remove_links_only _ h1 hx
  refine ⟨hl2, fun p hp => hb p (List.mem_of_mem_erase hp), fun k p => ?_, ?_⟩
  · rw [(hsd x).1, (hsd p).1, h1.1.mem_erase_iff]
    show Function.update ht (h x).obj_id none k = some p ↔ _
    by_cases hk : k = (h x).obj_id
    · subst hk
      simp only [Function.update_same]
      constructor
      · intro h3; simp at h3
      · rintro ⟨⟨hpx, hp⟩, h3⟩
        have e1 := (hht (h x).obj_id p).2 ⟨hp, h3⟩
        have e2 := (hht (h x).obj_id x).2 ⟨hx, rfl⟩
        rw [e1] at e2
        exact absurd (Option.some.inj e2) hpx
    · rw [Function.update_noteq hk, hht]
      constructor
      · rintro ⟨hp, h3⟩
        refine ⟨⟨?_, hp⟩, h3⟩
        rintro rfl
        exact hk h3.symm
      · rintro ⟨⟨-, hp⟩, h3⟩
        exact ⟨hp, h3⟩
  · rw [hn, List.length_erase_of_mem hx]
    have : 0 < l.length := List.length_pos_of_mem hx
    omega

theorem Inv.frame {h : Heap} {brk : Ptr} {ht : Nat → Option Ptr} {n : Int}
    {head tail : Option Ptr} {l : List Ptr} (hi : Inv h brk ht n head tail l) {h2 : Heap}
    {brk2 : Ptr} (hb : brk ≤ brk2) (hs : ∀ y ∈ l, h2 y = h y) :
    Inv h2 brk2 ht n head tail l := by
  obtain ⟨h1, hlt, hht, hn⟩ := hi
  refine ⟨h1.congr hs, fun p hp => lt_of_lt_of_le (hlt p hp) hb, fun k p => ?_, hn⟩
  rw [hht]
  constructor
  · rintro ⟨hp, e⟩
    exact ⟨hp, by rw [hs p hp]; exact e⟩
  · rintro ⟨hp, e⟩
    exact ⟨hp, by rw [← hs p hp]; exact e⟩

theorem remove_frame {h : Heap} {brk : Ptr} {ht : Nat → Option Ptr} {n : Int}
    {head tail : Option Ptr} {l : List Ptr} (hi : Inv h brk ht n head tail l) {x : Ptr}
    (hx : x ∈ l) :
    same_data h (remove_obj_from_list { heap := h, head := head, tail := tail } x).heap ∧
    ∀ y, y ∉ l →
      (remove_obj_from_list { heap := h, head := head, tail := tail } x).heap y = h y :=
  remove_links_only _ hi.1 hx

theorem evict_until_fits_fits {S : Type} (ops : cache_ops S) (req : request_t) (fuel : Nat)
    (s : S)
    (h : ¬ ops.get_occupied_byte s + req.obj_size + ops.obj_md_size s > ops.cache_size s) :
    evict_until_fits ops req fuel s = .ok s := by
  cases fuel <;> simp only [evict_until_fits, if_neg h]

theorem Inv.resident_iff {h : Heap} {brk : Ptr} {ht : Nat → Option Ptr} {n : Int}
    {head tail : Option Ptr} {l : List Ptr} (hi : Inv h brk ht n head tail l) (k : Nat) :
    ht k ≠ none ↔ k ∈ l.map (fun p => (h p).obj_id) := by
  rw [List.mem_map, Option.ne_none_iff_exists']
  constructor
  · rintro ⟨p, hp⟩
    exact ⟨p, (hi.2.2.1 k p).1 hp⟩
  · rintro ⟨p, hp⟩
    exact ⟨p, (hi.2.2.1 k p).2 hp⟩

theorem Lever_keys_eq {w : LeverState} {l : List Ptr} (hi : LeverInv w l) :
    Lever_nodes w = l ∧ Lever_keys w = l.map (fun p => (w.mem.heap p).obj_id) := by
  have h1 : Lever_nodes w = l := walkNext_eq (q := LeverState.q w) hi.1 hi.length_le
  exact ⟨h1, by rw [Lever_keys, h1]⟩

theorem Lever_get_miss {w : LeverState} {l : List Ptr} (hi : LeverInv w l) (k : Nat)
    (hk : w.cache.hashtable k = none)
    (hfit : ¬ w.cache.occupied_byte + 1 + w.cache.obj_md_size > w.cache.cache_size)
    (fuel : Nat) :
    ∃ w2, Lever_get fuel w (unit_req k) = .ok (w2, false) ∧ LeverInv w2 (w.mem.brk :: l) ∧
      (w2.mem.heap w.mem.brk).obj_id = k ∧
      (∀ p ∈ l, (w2.mem.heap p).obj_id = (w.mem.heap p).obj_id) ∧
      w2.cache.occupied_byte = w.cache.occupied_byte + (1 + w.cache.obj_md_size) ∧
      w2.cache.obj_md_size = w.cache.obj_md_size ∧ w2.cache.cache_size = w.cache.cache_size := by
  have hfind : Lever_find w (unit_req k) true = (w, none) := by
    simp [Lever_find, cache_find_base, unit_req, hk]
  have hfit' : ¬ Lever_ops.get_occupied_byte w + (unit_req k).obj_size + Lever_ops.obj_md_size w
      > Lever_ops.cache_size w := hfit
  have hins := hi.insert (unit_req k) hk
  simp only [Lever_get, cache_get_base]
  rw [show Lever_ops.find w (unit_req k) true = .ok (Lever_find w (unit_req k) true) from rfl,
    hfind]
  simp only [Res.bind]
  rw [evict_until_fits_fits _ _ _ _ hfit']
  simp only [Res.bind, Lever_ops, Lever_insert, cache_insert_base, LeverState.q]
  cases hp : prepend_obj_to_head
      (dlist.mk (Function.update w.mem.heap w.mem.brk
        (create_cache_obj_from_request (some (unit_req k))))
        w.cache.eviction_params.q_head w.cache.eviction_params.q_tail) w.mem.brk with
  | ok q2 =>
    rw [hp] at hins
    obtain ⟨hinv, hsd, -⟩ := hins
    simp only [Res.bind]
    refine ⟨_, rfl, ?_, ?_, ?_, ?_, ?_, ?_⟩
    · exact hinv.of_same_links (same_links_setFreq _ _ _)
    · simp [LeverState.setQ, World.setHeap, World.setParams, (hsd _).1,
        create_cache_obj_from_request, copy_request_to_cache_obj, unit_req]
    · intro p hp
      have hpb : p ≠ w.mem.brk := fun e => Nat.lt_irrefl _ (e ▸ hi.2.1 p hp)
      simp [LeverState.setQ, World.setHeap, World.setParams, (hsd _).1, Function.update, hpb]
    · simp [LeverState.setQ, World.setHeap, World.setParams, unit_req]
    · rfl
    · rfl
  | fault => rw [hp] at hins; exact hins.elim
  | timeout => rw [hp] at hins; exact hins.elim

theorem Lever_get_hit {w : LeverState} {l : List Ptr} (hi : LeverInv w l) (k : Nat)
    (hk : w.cache.hashtable k ≠ none) (fuel : Nat) :
    ∃ w2, Lever_get fuel w (unit_req k) = .ok (w2, true) ∧ LeverInv w2 l ∧
      w2.cache.hashtable = w.cache.hashtable := by
  obtain ⟨p, hp⟩ := Option.ne_none_iff_exists'.1 hk
  have hfind : Lever_find w (unit_req k) true =
      (w.setHeap (setFreq w.mem.heap p 1), some p) := by
    simp [Lever_find, cache_find_base, unit_req, hp]
  simp only [Lever_get, cache_get_base]
  rw [show Lever_ops.find w (unit_req k) true = .ok (Lever_find w (unit_req k) true) from rfl,
    hfind]
  simp only [Res.bind]
  exact ⟨_, rfl, Inv.of_same_links hi (same_links_setFreq _ _ _), rfl⟩

/-- Filling phase of the round trip: gets of fresh keys that fit are all misses. -/
theorem run_gets_fill {S : Type} (get : S → request_t → Res (S × Bool))
    (J : S → List Nat → Prop) (N : Nat)
    (hmiss : ∀ s ds k, J s ds → k ∉ ds → ds.length < N →
      ∃ s2, get s (unit_req k) = .ok (s2, false) ∧ J s2 (k :: ds)) :
    ∀ (todo ds : List Nat) (s : S), J s ds → todo.Nodup → (∀ k ∈ todo, k ∉ ds) →
      ds.length + todo.length ≤ N →
      ∃ s2, run_gets get todo s = .ok (s2, List.replicate todo.length false) ∧
        J s2 (todo.reverse ++ ds) := by
  intro todo
  induction todo with
  | nil => intro ds s hJ _ _ _; exact ⟨s, rfl, by simpa using hJ⟩
  | cons k t ih =>
    intro ds s hJ hnd hfresh hlen
    have hk := (List.nodup_cons.1 hnd).1
    have ht := (List.nodup_cons.1 hnd).2
    simp only [List.length_cons] at hlen
    obtain ⟨s1, h1, hJ1⟩ := hmiss s ds k hJ (hfresh k (List.mem_cons_self _ _)) (by omega)
    obtain ⟨s2, h2, hJ2⟩ := ih (k :: ds) s1 hJ1 ht
      (fun k2 hk2 hm => by
        rcases List.mem_cons.1 hm with rfl | hm
        · exact hk hk2
        · exact hfresh k2 (List.mem_cons_of_mem _ hk2) hm)
      (by simp only [List.length_cons]; omega)
    refine ⟨s2, ?_, ?_⟩
    · simp only [run_gets, h1, Res.bind, h2, List.length_cons, List.replicate_succ]
    · simpa using hJ2

/-- Second phase of the round trip: gets of resident keys are all hits. -/
theorem run_gets_hits {S : Type} (get : S → request_t → Res (S × Bool))
    (K : S → Prop) (ks : List Nat)
    (hhit : ∀ s k, K s → k ∈ ks → ∃ s2, get s (unit_req k) = .ok (s2, true) ∧ K s2) :
    ∀ (todo : List Nat) (s : S), K s → (∀ k ∈ todo, k ∈ ks) →
      ∃ s2, run_gets get todo s = .ok (s2, List.replicate todo.length true) ∧ K s2 := by
  intro todo
  induction todo with
  | nil => intro s hK _; exact ⟨s, rfl, hK⟩
  | cons k t ih =>
    intro s hK hsub
    obtain ⟨s1, h1, hK1⟩ := hhit s k hK (hsub k (List.mem_cons_self _ _))
    obtain ⟨s2, h2, hK2⟩ := ih s1 hK1 (fun k2 hk2 => hsub k2 (List.mem_cons_of_mem _ hk2))
    refine ⟨s2, ?_, hK2⟩
    simp only [run_gets, h1, Res.bind, h2, List.length_cons, List.replicate_succ]

theorem Lever_round_trip (N : Nat) (ks ks2 : List Nat) (hnd : ks.Nodup) (hlen : ks.length = N)
    (hsub : ∀ k ∈ ks2, k ∈ ks) (fuel : Nat) :
    ∃ w1 w2,
      run_gets (Lever_get fuel) ks
        (Lever_init { cache_size := N, consider_obj_metadata := false })
        = .ok (w1, List.replicate N false) ∧
      Lever_keys w1 = ks.reverse ∧ w1.cache.n_obj = N ∧
      run_gets (Lever_get fuel) ks2 w1 = .ok (w2, List.replicate ks2.length true) := by
  have hfill := run_gets_fill (Lever_get fuel)
    (fun w ds => ∃ l, LeverInv w l ∧
      Filled w.mem.heap w.cache.occupied_byte w.cache.cache_size
        w.cache.obj_md_size l N ds) N
    (by
      rintro w ds k ⟨l, hi, hkeys, hocc, hmd, hcap⟩ hk hlt
      have hres : w.cache.hashtable k = none := by
        by_contra hne
        exact hk (hkeys ▸ (hi.resident_iff k).1 hne)
      obtain ⟨w2, hg, hi2, hid, hids, ho, hm, hc⟩ := Lever_get_miss hi k hres
        (by rw [hocc, hmd, hcap]; omega) fuel
      refine ⟨w2, hg, _, hi2, ?_, ?_, by rw [hm, hmd], by rw [hc, hcap]⟩
      · rw [List.map_cons, hid, ← hkeys]
        congr 1
        exact List.map_congr_left hids
      · rw [ho, hocc, hmd]; simp)
    ks [] (Lever_init { cache_size := N, consider_obj_metadata := false })
    ⟨[], ⟨⟨List.nodup_nil, rfl, rfl, by simp⟩, by simp, by simp [Lever_init, cache_struct_init],
        rfl⟩,
      rfl, rfl, rfl, rfl⟩
    hnd (by simp) (by simp [hlen])
  obtain ⟨w1, hr1, l, hi1, hkeys, hocc, hmd, hcap⟩ := hfill
  simp only [List.append_nil] at hkeys
  have hhits := run_gets_hits (Lever_get fuel)
    (fun w => (∃ l, LeverInv w l) ∧ ∀ k ∈ ks, w.cache.hashtable k ≠ none) ks
    (by
      rintro w k ⟨⟨l, hi⟩, hres⟩ hk
      obtain ⟨w2, hg, hi2, hht⟩ := Lever_get_hit hi k (hres k hk) fuel
      exact ⟨w2, hg, ⟨l, hi2⟩, by rw [hht]; exact hres⟩)
    ks2 w1
    ⟨⟨l, hi1⟩, fun k hk => (hi1.resident_iff k).2 (by rw [hkeys]; simpa using hk)⟩ hsub
  obtain ⟨w2, hr2, -⟩ := hhits
  refine ⟨w1, w2, by rw [hr1, hlen], ?_, ?_, hr2⟩
  · rw [(Lever_keys_eq hi1).2, hkeys]
  · rw [hi1.2.2.2, ← hlen]
    have := congrArg List.length hkeys
    simp at this
    simp [this]

theorem afterCount_cons (a : Ptr) (t : List Ptr) (x : Ptr) :
    afterCount (a :: t) x = if x = a then t.length else afterCount t x := rfl

theorem afterCount_erase_le (l : List Ptr) {x y : Ptr} (hyx : y ≠ x) :
    afterCount (l.erase x) y ≤ afterCount l y := by
  induction l with
  | nil => simp [afterCount]
  | cons a t ih =>
    by_cases hax : a = x
    · subst hax
      rw [List.erase_cons_head, afterCount_cons, if_neg hyx]
    · rw [List.erase_cons_tail (by simpa using hax), afterCount_cons, afterCount_cons]
      by_cases hya : y = a
      · simp only [if_pos hya]
        exact List.length_erase_le x t
      · simp only [if_neg hya]
        exact ih

theorem afterCount_erase_prev {l : List Ptr} (hl : l.Nodup) {x p : Ptr}
    (hp : prevOf l x = some p) : afterCount (l.erase x) p = afterCount l x := by
  induction l with
  | nil => simp at hp
  | cons a t ih =>
    have ha := (List.nodup_cons.1 hl).1
    have ht := (List.nodup_cons.1 hl).2
    rw [prevOf_cons] at hp
    by_cases hh : t.head? = some x
    · rw [if_pos hh] at hp
      have hpa : a = p := Option.some.inj hp
      subst hpa
      have hxt : x ∈ t := mem_of_head? hh
      have hax : a ≠ x := fun e => ha (e ▸ hxt)
      rw [List.erase_cons_tail (by simpa using hax), afterCount_cons, if_pos rfl, afterCount_cons,
        if_neg (Ne.symm hax)]
      cases t with
      | nil => simp at hh
      | cons b u =>
        simp only [List.head?_cons, Option.some.injEq] at hh
        subst hh
        simp [afterCount_cons]
    · rw [if_neg hh] at hp
      have hm := prevOf_mem hp
      have hax : a ≠ x := fun e => ha (e ▸ hm.2)
      have hpa : p ≠ a := fun e => ha (e ▸ hm.1)
      rw [List.erase_cons_tail (by simpa using hax), afterCount_cons, if_neg hpa, afterCount_cons,
        if_neg (Ne.symm hax)]
      exact ih ht hp

theorem afterCount_prev {l : List Ptr} (hl : l.Nodup) {x p : Ptr}
    (hp : prevOf l x = some p) : afterCount l p = afterCount l x + 1 := by
  induction l with
  | nil => simp at hp
  | cons a t ih =>
    have ha := (List.nodup_cons.1 hl).1
    have ht := (List.nodup_cons.1 hl).2
    rw [prevOf_cons] at hp
    by_cases hh : t.head? = some x
    · rw [if_pos hh] at hp
      have hpa : a = p := Option.some.inj hp
      subst hpa
      have hxt : x ∈ t := mem_of_head? hh
      have hax : a ≠ x := fun e => ha (e ▸ hxt)
      rw [afterCount_cons, if_pos rfl, afterCount_cons, if_neg (Ne.symm hax)]
      cases t with
      | nil => simp at hh
      | cons b u =>
        simp only [List.head?_cons, Option.some.injEq] at hh
        subst hh
        simp [afterCount_cons]
    · rw [if_neg hh] at hp
      have hm := prevOf_mem hp
      have hax : a ≠ x := fun e => ha (e ▸ hm.2)
      have hpa : p ≠ a := fun e => ha (e ▸ hm.1)
      rw [afterCount_cons, if_neg hpa, afterCount_cons, if_neg (Ne.symm hax)]
      exact ih ht hp

theorem afterCount_head {l : List Ptr} {x : Ptr} (h : l.head? = some x) :
    afterCount l x + 1 = l.length := by
  cases l with
  | nil => simp at h
  | cons a t =>
    simp only [List.head?_cons, Option.some.injEq] at h
    subst h
    simp [afterCount_cons]

theorem afterCount_last {l : List Ptr} (hl : l.Nodup) {x : Ptr} (h : l.getLast? = some x) :
    afterCount l x = 0 := by
  induction l with
  | nil => simp at h
  | cons a t ih =>
    have ha := (List.nodup_cons.1 hl).1
    have ht := (List.nodup_cons.1 hl).2
    cases t with
    | nil =>
      simp at h
      subst h
      simp [afterCount_cons]
    | cons b u =>
      rw [List.getLast?_cons_cons] at h
      have hx : x ∈ b :: u := List.mem_of_getLast?_eq_some h
      have hxa : x ≠ a := fun e => ha (e ▸ hx)
      rw [afterCount_cons, if_neg hxa]
      exact ih ht h

theorem and_not_visited_visited (s : Nat) : (s &&& NOT_VISITED_MASK) &&& VISITED_MASK = 0 := by
  rw [Nat.land_assoc]
  show s &&& (4294967294 &&& 1) = 0
  simp

theorem or_survived_visited (s : Nat) :
    (s ||| SURVIVED_MASK) &&& VISITED_MASK = s &&& VISITED_MASK := by
  apply Nat.eq_of_testBit_eq
  intro i
  simp only [Nat.testBit_and, Nat.testBit_or, SURVIVED_MASK, VISITED_MASK]
  cases i with
  | zero => simp
  | succ j =>
    have : Nat.testBit 1 (j + 1) = false := by
      simp [Nat.testBit_succ]
    simp [this]

theorem same_but_status.refl (h : Heap) : same_but_status h h := fun _ => by simp

theorem same_but_status.trans {h h2 h3 : Heap} (a : same_but_status h h2)
    (b : same_but_status h2 h3) : same_but_status h h3 := by
  intro y
  obtain ⟨a1, a2, a3, a4, a5, a6⟩ := a y
  obtain ⟨b1, b2, b3, b4, b5, b6⟩ := b y
  exact ⟨b1.trans a1, b2.trans a2, b3.trans a3, b4.trans a4, b5.trans a5, b6.trans a6⟩

theorem same_but_status.links {h h2 : Heap} (a : same_but_status h h2) : same_links h h2 :=
  fun y => ⟨(a y).1, (a y).2.1, (a y).2.2.1⟩

theorem same_but_status_setStatus (h : Heap) (p : Ptr) (v : Nat) :
    same_but_status h (setStatus h p v) := by
  intro y; simp

theorem visCount_cons (h : Heap) (a : Ptr) (t : List Ptr) :
    visCount h (a :: t) =
      visCount h t + if (h a).status &&& VISITED_MASK ≠ 0 then 1 else 0 := by
  simp [visCount, List.countP_cons]

theorem visCount_le {h hh : Heap} (l : List Ptr) {o : Ptr}
    (hb : (hh o).status &&& VISITED_MASK = 0)
    (hc : ∀ y, y ≠ o → (hh y).status = (h y).status) : visCount hh l ≤ visCount h l := by
  induction l with
  | nil => simp [visCount]
  | cons a t ih =>
    rw [visCount_cons, visCount_cons]
    by_cases hao : a = o
    · subst hao
      rw [if_neg (by simpa using hb)]
      omega
    · rw [hc a hao]
      omega

theorem visCount_lt {h hh : Heap} {l : List Ptr} {o : Ptr} (ho : o ∈ l)
    (hv : (h o).status &&& VISITED_MASK ≠ 0) (hb : (hh o).status &&& VISITED_MASK = 0)
    (hc : ∀ y, y ≠ o → (hh y).status = (h y).status) : visCount hh l < visCount h l := by
  induction l with
  | nil => simp at ho
  | cons a t ih =>
    have hle := visCount_le (h := h) t hb hc
    rw [visCount_cons, visCount_cons]
    by_cases hao : a = o
    · subst hao
      rw [if_neg (by simpa using hb), if_pos hv]
      omega
    · have hot : o ∈ t := by
        rcases List.mem_cons.1 ho with e | e
        · exact absurd e.symm hao
        · exact e
      have := ih hot
      rw [hc a hao]
      omega

theorem scan_spec {l : List Ptr} {h0 : Heap} {hd tl : Option Ptr}
    (hl : IsList { heap := h0, head := hd, tail := tl } l) (n : Int) (hn : n = l.length) :
    ∀ (fuel : Nat) (s : scan_t), same_but_status h0 s.heap → 0 ≤ s.hot →
      ptr_ok l s.obj s.right → s.obj ≠ none →
      (∃ r, ShiftSieve_scan n tl fuel s = .ok r ∧ scan_post l h0 r) ∨
      (ShiftSieve_scan n tl fuel s = .timeout ∧ fuel < visCount s.heap l) := by
  intro fuel
  induction fuel with
  | zero =>
    intro s hs hhot hptr hobj
    obtain ⟨o, ho⟩ := Option.ne_none_iff_exists'.1 hobj
    rw [ho] at hptr
    rw [ShiftSieve_scan]
    simp only [ho]
    by_cases hv : (s.heap o).status &&& VISITED_MASK ≠ 0
    · right
      rw [if_pos hv]
      refine ⟨rfl, ?_⟩
      exact List.countP_pos_iff.2 ⟨o, hptr.1, by simpa using hv⟩
    · left
      rw [if_neg hv]
      exact ⟨_, rfl, hs, hhot, hptr.1, hptr.2, by simpa using hv⟩
  | succ f ih =>
    intro s hs hhot hptr hobj
    obtain ⟨o, ho⟩ := Option.ne_none_iff_exists'.1 hobj
    rw [ho] at hptr
    obtain ⟨hol, hcnt⟩ := hptr
    rw [ShiftSieve_scan]
    simp only [ho]
    by_cases hv : (s.heap o).status &&& VISITED_MASK ≠ 0
    swap
    · left
      rw [if_neg hv]
      exact ⟨_, rfl, hs, hhot, hol, hcnt, by simpa using hv⟩
    rw [if_pos hv]
    -- the heap after the status updates of the visited node
    obtain ⟨hh, hot2, hs2eq, hsb, hbit, hoth, hhot2⟩ :
        ∃ hh hot2,
          (if (setStatus s.heap o ((s.heap o).status &&& NOT_VISITED_MASK) o).status
                &&& SURVIVED_MASK = 0 then
              (scan_t.mk
                  (setStatus (setStatus s.heap o ((s.heap o).status &&& NOT_VISITED_MASK)) o
                    ((setStatus s.heap o ((s.heap o).status &&& NOT_VISITED_MASK) o).status
                      ||| SURVIVED_MASK))
                  (some o) s.right (s.hot + 1))
            else scan_t.mk (setStatus s.heap o ((s.heap o).status &&& NOT_VISITED_MASK))
              (some o) s.right s.hot)
            = scan_t.mk hh (some o) s.right hot2 ∧
          same_but_status s.heap hh ∧ (hh o).status &&& VISITED_MASK = 0 ∧
          (∀ y, y ≠ o → (hh y).status = (s.heap y).status) ∧ 0 ≤ hot2 := by
      split_ifs with hsv
      · refine ⟨_, _, rfl, ?_, ?_, ?_, by omega⟩
        · intro y; simp
        · simp only [setStatus_status, if_true]
          rw [or_survived_visited, and_not_visited_visited]
        · intro y hy; simp [hy]
      · refine ⟨_, _, rfl, ?_, ?_, ?_, hhot⟩
        · intro y; simp
        · simp only [setStatus_status, if_true]
          rw [and_not_visited_visited]
        · intro y hy; simp [hy]
    simp only [hs2eq]
    have hlt := visCount_lt hol hv hbit hoth
    have hs2 : same_but_status h0 hh := hs.trans hsb
    have hprev : (hh o).prev = prevOf l o := by
      rw [(hs2 o).1]; exact (hl.2.2.2 o hol).1
    have hne : l ≠ [] := List.ne_nil_of_mem hol
    have key : ∀ s4 : scan_t, s4.heap = hh → 0 ≤ s4.hot → ptr_ok l s4.obj s4.right →
        s4.obj ≠ none →
        (∃ r, ShiftSieve_scan n tl f s4 = .ok r ∧ scan_post l h0 r) ∨
        (ShiftSieve_scan n tl f s4 = .timeout ∧ f + 1 < visCount s.heap l) := by
      intro s4 e1 e2 e3 e4
      rcases ih s4 (e1 ▸ hs2) e2 e3 e4 with h | ⟨h1, h2⟩
      · exact Or.inl h
      · refine Or.inr ⟨h1, ?_⟩
        rw [e1] at h2
        omega
    split_ifs with hre
    · -- restart at the tail
      obtain ⟨t, ht⟩ : ∃ t, l.getLast? = some t := by
        cases hg : l.getLast? with
        | none => exact absurd (List.getLast?_eq_none_iff.1 hg) hne
        | some t => exact ⟨t, rfl⟩
      have htl : tl = some t := hl.2.2.1.trans ht
      apply key
      · rfl
      · exact le_refl _
      · show ptr_ok l tl 0
        rw [htl]
        exact ⟨List.mem_of_getLast?_eq_some ht, by rw [afterCount_last hl.1 ht]; simp⟩
      · show tl ≠ none
        rw [htl]; simp
    · -- one step towards the head
      have hcase : ∃ p, prevOf l o = some p := by
        cases hp : prevOf l o with
        | some p => exact ⟨p, rfl⟩
        | none =>
          exfalso
          apply hre
          have hhead := (head?_eq_some_iff hl.1).2 ⟨hol, hp⟩
          have := afterCount_head hhead
          have h2 : 0 ≤ Int.tdiv hot2 2 := Int.tdiv_nonneg hhot2 (by omega)
          show n - (s.right + 1) ≤ Int.tdiv hot2 2
          omega
      obtain ⟨p, hp⟩ := hcase
      apply key
      · rfl
      · exact hhot2
      · show ptr_ok l (hh o).prev (s.right + 1)
        rw [hprev, hp]
        refine ⟨(prevOf_mem hp).1, ?_⟩
        rw [afterCount_prev hl.1 hp]
        push_cast
        omega
      · show (hh o).prev ≠ none
        rw [hprev, hp]; simp

theorem ptr_ok_unlink {l : List Ptr} (hnd : l.Nodup) {x : Ptr} {o : Option Ptr}
    {r : Int} (h : ptr_ok l o r) :
    ptr_ok (l.erase x) (if some x = o then prevOf l x else o) r := by
  by_cases hxo : some x = o
  · rw [if_pos hxo]
    subst hxo
    cases hp : prevOf l x with
    | none => trivial
    | some p =>
      have hm := prevOf_mem hp
      have hpx : p ≠ x := fun e => prevOf_ne_self hnd (e ▸ hp)
      refine ⟨hnd.mem_erase_iff.2 ⟨hpx, hm.1⟩, ?_⟩
      rw [afterCount_erase_prev hnd hp]
      exact h.2
  · rw [if_neg hxo]
    cases o with
    | none => trivial
    | some p =>
      have hpx : p ≠ x := fun e => hxo (by rw [e])
      refine ⟨hnd.mem_erase_iff.2 ⟨hpx, h.1⟩, ?_⟩
      have := afterCount_erase_le l hpx
      have h2 := h.2
      omega

theorem ptr_ok_cons {l : List Ptr} {a : Ptr} (ha : a ∉ l) {o : Option Ptr} {r : Int}
    (h : ptr_ok l o r) : ptr_ok (a :: l) o r := by
  cases o with
  | none => trivial
  | some p =>
    have hpa : p ≠ a := fun e => ha (e ▸ h.1)
    refine ⟨List.mem_cons_of_mem _ h.1, ?_⟩
    rw [afterCount_cons, if_neg hpa]
    exact h.2

theorem not_mem_erase_self {l : List Ptr} (hnd : l.Nodup) (x : Ptr) : x ∉ l.erase x :=
  fun hm => (hnd.mem_erase_iff.1 hm).1 rfl

/-- Effect of `ShiftSieve_find` with `update_cache`: a miss changes nothing; a hit returns the
node of the key, keeps the index and the set of nodes, and re-establishes the
invariant. -/
theorem Sieve_find_spec {w : SieveState} {l : List Ptr} (hi : SieveInv w l) (req : request_t) :
    (ShiftSieve_find w req true).holds (fun r =>
      r.2 = w.cache.hashtable req.obj_id ∧
      (r.2 = none → r.1 = w) ∧
      ∃ l2, SieveInv r.1 l2 ∧ l2.Perm l ∧ r.1.cache.hashtable = w.cache.hashtable ∧
        r.1.cache.occupied_byte = w.cache.occupied_byte ∧
        r.1.cache.cache_size = w.cache.cache_size ∧
        r.1.cache.obj_md_size = w.cache.obj_md_size ∧ r.1.mem.brk = w.mem.brk) := by
  obtain ⟨hinv, hhot, hptr⟩ := hi
  cases hf : w.cache.hashtable req.obj_id with
  | none =>
    have e : ShiftSieve_find w req true = .ok (w, none) := by
      simp [ShiftSieve_find, cache_find_base, hf]
    rw [e]
    exact ⟨rfl, fun _ => rfl, l, ⟨hinv, hhot, hptr⟩, List.Perm.refl _, rfl, rfl, rfl, rfl, rfl⟩
  | some obj =>
    have hol : obj ∈ l := ((hinv.2.2.1 _ _).1 hf).1
    have hprev : (w.mem.heap obj).prev = prevOf l obj := (hinv.1.2.2.2 obj hol).1
    by_cases hsv : (w.mem.heap obj).status &&& SURVIVED_MASK = 0
    · have hmv := hinv.move_to_head hol
      have hperm : (obj :: l.erase obj).Perm l := (List.perm_cons_erase hol).symm
      cases hm : move_obj_to_head (dlist.mk w.mem.heap w.cache.eviction_params.q_head
            w.cache.eviction_params.q_tail) obj with
      | ok q2 =>
        rw [hm] at hmv
        by_cases hpo : some obj = w.cache.eviction_params.pointer
        · have e : ShiftSieve_find w req true =
              .ok ((SieveState.setQ
                (w.setParams { w.cache.eviction_params with pointer := (w.mem.heap obj).prev })
                q2).setHeap (setStatus q2.heap obj ((q2.heap obj).status ||| VISITED_MASK)),
                some obj) := by
            simp [ShiftSieve_find, cache_find_base, hf, hsv, hpo.symm, SieveState.q,
              World.setParams, hm, Res.bind, SieveState.setQ, World.setHeap]
          rw [e]
          refine ⟨rfl, fun h => by simp at h, _, ⟨?_, hhot, ?_⟩, hperm, rfl, rfl, rfl, rfl, rfl⟩
          · exact hmv.1.of_same_links (same_links_setStatus _ _ _)
          · have := ptr_ok_unlink hinv.1.1 (x := obj) hptr
            rw [if_pos hpo] at this
            show ptr_ok _ (w.mem.heap obj).prev _
            rw [hprev]
            exact ptr_ok_cons (not_mem_erase_self hinv.1.1 obj) this
        · have e : ShiftSieve_find w req true =
              .ok ((SieveState.setQ w q2).setHeap
                (setStatus q2.heap obj ((q2.heap obj).status ||| VISITED_MASK)), some obj) := by
            simp [ShiftSieve_find, cache_find_base, hf, hsv, hpo, SieveState.q,
              World.setParams, hm, Res.bind, SieveState.setQ, World.setHeap]
          rw [e]
          refine ⟨rfl, fun h => by simp at h, _, ⟨?_, hhot, ?_⟩, hperm, rfl, rfl, rfl, rfl, rfl⟩
          · exact hmv.1.of_same_links (same_links_setStatus _ _ _)
          · have := ptr_ok_unlink hinv.1.1 (x := obj) hptr
            rw [if_neg hpo] at this
            exact ptr_ok_cons (not_mem_erase_self hinv.1.1 obj) this
      | fault => rw [hm] at hmv; exact hmv.elim
      | timeout => rw [hm] at hmv; exact hmv.elim
    · have e : ShiftSieve_find w req true =
          .ok (w.setHeap (setStatus w.mem.heap obj ((w.mem.heap obj).status ||| VISITED_MASK)),
            some obj) := by
        simp [ShiftSieve_find, cache_find_base, hf, hsv, Res.bind]
      rw [e]
      exact ⟨rfl, fun h => by simp at h, l,
        ⟨hinv.of_same_links (same_links_setStatus _ _ _), hhot, hptr⟩, List.Perm.refl _,
        rfl, rfl, rfl, rfl, rfl⟩

theorem Sieve_insert_spec {w : SieveState} {l : List Ptr} (hi : SieveInv w l) (req : request_t)
    (hk : w.cache.hashtable req.obj_id = none) :
    ∃ w2, ShiftSieve_insert w req = .ok (w2, w.mem.brk) ∧ SieveInv w2 (w.mem.brk :: l) ∧
      (w2.mem.heap w.mem.brk).obj_id = req.obj_id ∧
      (∀ p ∈ l, (w2.mem.heap p).obj_id = (w.mem.heap p).obj_id) ∧
      w2.cache.occupied_byte = w.cache.occupied_byte + (req.obj_size + w.cache.obj_md_size) ∧
      w2.cache.obj_md_size = w.cache.obj_md_size ∧ w2.cache.cache_size = w.cache.cache_size := by
  obtain ⟨hinv, hhot, hptr⟩ := hi
  have hins := hinv.insert req hk
  have hbl : w.mem.brk ∉ l := fun hm => Nat.lt_irrefl _ (hinv.2.1 _ hm)
  simp only [ShiftSieve_insert, cache_insert_base, SieveState.q]
  cases hp : prepend_obj_to_head
      (dlist.mk (Function.update w.mem.heap w.mem.brk
        (create_cache_obj_from_request (some req)))
        w.cache.eviction_params.q_head w.cache.eviction_params.q_tail) w.mem.brk with
  | ok q2 =>
    rw [hp] at hins
    obtain ⟨hinv2, hsd, -⟩ := hins
    simp only [Res.bind]
    refine ⟨_, rfl, ⟨?_, hhot, ?_⟩, ?_, ?_, ?_, ?_, ?_⟩
    · exact hinv2.of_same_links (same_links_setStatus _ _ _)
    · exact ptr_ok_cons hbl hptr
    · simp [SieveState.setQ, World.setHeap, World.setParams, (hsd _).1,
        create_cache_obj_from_request, copy_request_to_cache_obj]
    · intro p hp
      have hpb : p ≠ w.mem.brk := fun e => hbl (e ▸ hp)
      simp [SieveState.setQ, World.setHeap, World.setParams, (hsd _).1, Function.update, hpb]
    · simp [SieveState.setQ, World.setHeap, World.setParams]
    · rfl
    · rfl
  | fault => rw [hp] at hins; exact hins.elim
  | timeout => rw [hp] at hins; exact hins.elim

/-- Outcome of the victim selection of ShiftSieve on a valid state: it never faults
on a non-empty list, times out only when the fuel is below the number of
VISITED nodes, and otherwise returns a node of the list whose VISITED bit is
clear, with `pointer` at its predecessor. -/
theorem Sieve_select_spec {w : SieveState} {l : List Ptr} (hi : SieveInv w l) (fuel : Nat) :
    (∃ h2 ri ho v,
        ShiftSieve_select fuel w =
          .ok ((w.setHeap h2).setParams
            { w.cache.eviction_params with right := ri, hot := ho, pointer := prevOf l v }, v) ∧
        v ∈ l ∧ same_but_status w.mem.heap h2 ∧ 0 ≤ ho ∧ (afterCount l v : Int) ≤ ri ∧
        (h2 v).status &&& VISITED_MASK = 0) ∨
    (ShiftSieve_select fuel w = .timeout ∧ fuel < visCount w.mem.heap l) ∨
    (ShiftSieve_select fuel w = .fault ∧ l = []) := by
  obtain ⟨hinv, hhot, hptr⟩ := hi
  by_cases hl : l = []
  · right; right
    refine ⟨?_, hl⟩
    subst hl
    have hp : w.cache.eviction_params.pointer = none := by
      cases hpp : w.cache.eviction_params.pointer with
      | none => rfl
      | some p => rw [hpp] at hptr; exact absurd hptr.1 (List.not_mem_nil _)
    have ht : w.cache.eviction_params.q_tail = none := hinv.1.2.2.1
    simp only [ShiftSieve_select, hp, ht]
    rw [ShiftSieve_scan]
    rfl
  · obtain ⟨t, ht⟩ : ∃ t, l.getLast? = some t := by
      cases hg : l.getLast? with
      | none => exact absurd (List.getLast?_eq_none_iff.1 hg) hl
      | some t => exact ⟨t, rfl⟩
    have htl : w.cache.eviction_params.q_tail = some t := hinv.1.2.2.1.trans ht
    have hstart : ∃ s0 : scan_t, ShiftSieve_select fuel w =
        (ShiftSieve_scan w.cache.n_obj w.cache.eviction_params.q_tail fuel s0).bind (fun r =>
          .ok ((w.setHeap r.1.heap).setParams
            (ShiftSieve_params_t.mk w.cache.eviction_params.q_head
              w.cache.eviction_params.q_tail (r.1.heap r.2).prev r.1.right r.1.hot), r.2)) ∧
        s0.heap = w.mem.heap ∧ 0 ≤ s0.hot ∧ ptr_ok l s0.obj s0.right ∧ s0.obj ≠ none := by
      cases hpp : w.cache.eviction_params.pointer with
      | none =>
        refine ⟨scan_t.mk w.mem.heap w.cache.eviction_params.q_tail 0 0,
          by simp only [ShiftSieve_select, hpp], rfl, le_refl _, ?_, ?_⟩
        · show ptr_ok l w.cache.eviction_params.q_tail 0
          rw [htl]
          exact ⟨List.mem_of_getLast?_eq_some ht, by rw [afterCount_last hinv.1.1 ht]; simp⟩
        · show w.cache.eviction_params.q_tail ≠ none
          rw [htl]; simp
      | some p =>
        rw [hpp] at hptr
        refine ⟨scan_t.mk w.mem.heap (some p) w.cache.eviction_params.right
          w.cache.eviction_params.hot, by simp only [ShiftSieve_select, hpp], rfl, hhot, hptr, ?_⟩
        simp
    obtain ⟨s0, hsel, hs0, hhot0, hptr0, hobj0⟩ := hstart
    rcases scan_spec hinv.1 w.cache.n_obj hinv.2.2.2 fuel s0 (hs0 ▸ same_but_status.refl _)
      hhot0 hptr0 hobj0 with ⟨r, hr, hsb, hho, hv, hcnt, hbit⟩ | ⟨hr, hlt⟩
    · left
      refine ⟨r.1.heap, r.1.right, r.1.hot, r.2, ?_, hv, hsb, hho, hcnt, hbit⟩
      rw [hsel, hr]
      simp only [Res.bind]
      rw [(hsb r.2).1, (hinv.1.2.2.2 r.2 hv).1]
    · right; left
      rw [hs0] at hlt
      exact ⟨by rw [hsel, hr]; rfl, hlt⟩

theorem update_none_of_none {ht : Nat → Option Ptr} {k : Nat} (h : ht k = none) (j : Nat) :
    Function.update ht j none k = none := by
  by_cases hkj : k = j
  · subst hkj; simp
  · rw [Function.update_noteq hkj]; exact h

/-- Outcome of `ShiftSieve_evict` on a valid state: on a non-empty list with enough
fuel it removes one node of the list and re-establishes the invariant. -/
theorem Sieve_evict_spec {w : SieveState} {l : List Ptr} (hi : SieveInv w l) (fuel : Nat) :
    (∃ v w2, ShiftSieve_evict fuel w = .ok w2 ∧ v ∈ l ∧ SieveInv w2 (l.erase v) ∧
        (∀ k, w.cache.hashtable k = none → w2.cache.hashtable k = none) ∧
        w2.mem.brk = w.mem.brk ∧ w2.cache.cache_size = w.cache.cache_size ∧
        w2.cache.obj_md_size = w.cache.obj_md_size) ∨
    (ShiftSieve_evict fuel w = .timeout ∧ fuel < visCount w.mem.heap l) ∨
    (ShiftSieve_evict fuel w = .fault ∧ l = []) := by
  rcases Sieve_select_spec hi fuel with ⟨h2, ri, ho, v, hsel, hv, hsb, hho, hcnt, -⟩ | ⟨h, hlt⟩
    | ⟨h, hl⟩
  · left
    obtain ⟨hinv, hhot, hptr⟩ := hi
    have hinv2 : Inv h2 w.mem.brk w.cache.hashtable w.cache.n_obj
        w.cache.eviction_params.q_head w.cache.eviction_params.q_tail l :=
      hinv.of_same_links hsb.links
    have hrm := hinv2.remove hv
    generalize hW : (w.setHeap h2).setParams
      { w.cache.eviction_params with right := ri, hot := ho, pointer := prevOf l v } = W at hsel
    refine ⟨v, cache_evict_base (SieveState.setQ W (remove_obj_from_list (SieveState.q W) v)) v
      true, by simp only [ShiftSieve_evict, hsel, Res.bind], hv, ?_⟩
    subst hW
    refine ⟨⟨hrm, hho, ?_⟩, ?_, rfl, rfl, rfl⟩
    · have := ptr_ok_unlink hinv.1.1 (x := v) (o := some v) (r := ri) ⟨hv, hcnt⟩
      rw [if_pos rfl] at this
      exact this
    · intro k hk
      exact update_none_of_none hk _
  · right; left
    exact ⟨by simp only [ShiftSieve_evict, h, Res.bind], hlt⟩
  · right; right
    exact ⟨by simp only [ShiftSieve_evict, h, Res.bind], hl⟩

/-- Effect of `ShiftSieve_remove` on a valid state. -/
theorem Sieve_remove_spec {w : SieveState} {l : List Ptr} (hi : SieveInv w l) (obj_id : Nat) :
    (w.cache.hashtable obj_id = none ∧ ShiftSieve_remove w obj_id = (w, false)) ∨
    (∃ v, w.cache.hashtable obj_id = some v ∧ v ∈ l ∧ (ShiftSieve_remove w obj_id).2 = true ∧
      SieveInv (ShiftSieve_remove w obj_id).1 (l.erase v)) := by
  obtain ⟨hinv, hhot, hptr⟩ := hi
  cases hf : w.cache.hashtable obj_id with
  | none =>
    left
    exact ⟨rfl, by simp only [ShiftSieve_remove, hashtable_find_obj_id, hf]⟩
  | some v =>
    right
    have hv : v ∈ l := ((hinv.2.2.1 _ _).1 hf).1
    have hprev : (w.mem.heap v).prev = prevOf l v := (hinv.1.2.2.2 v hv).1
    have hrm := hinv.remove hv
    have hp := ptr_ok_unlink hinv.1.1 (x := v) hptr
    refine ⟨v, rfl, hv, by simp only [ShiftSieve_remove, hashtable_find_obj_id, hf], ?_⟩
    simp only [ShiftSieve_remove, hashtable_find_obj_id, hf, ShiftSieve_remove_obj]
    by_cases hpo : some v = w.cache.eviction_params.pointer
    · rw [if_pos hpo] at hp ⊢
      refine ⟨hrm, hhot, ?_⟩
      show ptr_ok _ (w.mem.heap v).prev _
      rw [hprev]; exact hp
    · rw [if_neg hpo] at hp ⊢
      exact ⟨hrm, hhot, hp⟩

/-- The evict loop of `get` keeps the invariant and never re-enters a key. -/
theorem Sieve_evict_loop_inv (f : Nat) (req : request_t) (k : Nat) :
    ∀ (fuel : Nat) (w w2 : SieveState) (l : List Ptr), SieveInv w l →
      w.cache.hashtable k = none →
      evict_until_fits (ShiftSieve_ops f) req fuel w = .ok w2 →
      ∃ l2, SieveInv w2 l2 ∧ w2.cache.hashtable k = none ∧ l2.Sublist l := by
  intro fuel
  induction fuel with
  | zero =>
    intro w w2 l hi hk h
    simp only [evict_until_fits] at h
    split_ifs at h
    cases h
    exact ⟨l, hi, hk, List.Sublist.refl _⟩
  | succ n ih =>
    intro w w2 l hi hk h
    simp only [evict_until_fits] at h
    split_ifs at h
    · rcases Sieve_evict_spec hi f with ⟨v, w1, he, hv, hi1, hht, -⟩ | ⟨he, -⟩ | ⟨he, -⟩
      · simp only [ShiftSieve_ops, he, Res.bind] at h
        obtain ⟨l2, h1, h2, h3⟩ := ih w1 w2 _ hi1 (hht k hk) h
        exact ⟨l2, h1, h2, h3.trans (List.erase_sublist v l)⟩
      · simp only [ShiftSieve_ops, he, Res.bind] at h
        cases h
      · simp only [ShiftSieve_ops, he, Res.bind] at h
        cases h
    · cases h
      exact ⟨l, hi, hk, List.Sublist.refl _⟩

/-- The call `ShiftSieve_get` keeps the invariant whenever it returns. -/
theorem Sieve_get_inv {w : SieveState} {l : List Ptr} (hi : SieveInv w l) (fuel : Nat)
    (req : request_t) {w2 : SieveState} {b : Bool}
    (h : ShiftSieve_get fuel w req = .ok (w2, b)) : ∃ l2, SieveInv w2 l2 := by
  have hf := Sieve_find_spec hi req
  simp only [ShiftSieve_get, cache_get_base] at h
  rw [show (ShiftSieve_ops fuel).find w req true = ShiftSieve_find w req true from rfl] at h
  cases hfr : ShiftSieve_find w req true with
  | ok r =>
    rw [hfr] at hf h
    obtain ⟨hr2, hnone, l1, hi1, -, hht, -⟩ := hf
    simp only [Res.bind] at h
    cases hr : r.2 with
    | some p =>
      rw [hr] at h
      cases h
      exact ⟨l1, hi1⟩
    | none =>
      rw [hr] at h
      simp only at h
      have hk : r.1.cache.hashtable req.obj_id = none := by
        rw [hht, ← hr2, hr]
      cases he : evict_until_fits (ShiftSieve_ops fuel) req fuel r.1 with
      | ok s2 =>
        rw [he] at h
        simp only [Res.bind] at h
        obtain ⟨l2, hi2, hk2, -⟩ := Sieve_evict_loop_inv fuel req req.obj_id fuel r.1 s2 l1 hi1 hk he
        obtain ⟨w3, hins, hi3, -⟩ := Sieve_insert_spec hi2 req hk2
        rw [show (ShiftSieve_ops fuel).insert s2 req = ShiftSieve_insert s2 req from rfl,
          hins] at h
        cases h
        exact ⟨_, hi3⟩
      | fault => rw [he] at h; cases h
      | timeout => rw [he] at h; cases h
  | fault => rw [hfr] at hf; exact hf.elim
  | timeout => rw [hfr] at hf; exact hf.elim

theorem Sieve_init_inv (cp : common_cache_params_t) : SieveInv (ShiftSieve_init cp) [] :=
  ⟨⟨⟨List.nodup_nil, rfl, rfl, by simp⟩, by simp, by simp [ShiftSieve_init, cache_struct_init],
    rfl⟩, le_refl _, trivial⟩

theorem Sieve_remove_inv {w : SieveState} {l : List Ptr} (hi : SieveInv w l) (obj_id : Nat) :
    ∃ l2, SieveInv (ShiftSieve_remove w obj_id).1 l2 := by
  rcases Sieve_remove_spec hi obj_id with ⟨-, h⟩ | ⟨v, -, -, -, h⟩
  · rw [h]; exact ⟨l, hi⟩
  · exact ⟨_, h⟩

theorem SieveReachAll.inv {cp : common_cache_params_t} {w : SieveState}
    (h : SieveReachAll cp w) : ∃ l, SieveInv w l := by
  induction h with
  | init => exact ⟨[], Sieve_init_inv cp⟩
  | get fuel req _ hg ih =>
    obtain ⟨l, hi⟩ := ih
    exact Sieve_get_inv hi fuel req hg
  | find req _ hf ih =>
    obtain ⟨l, hi⟩ := ih
    have := Sieve_find_spec hi req
    rw [hf] at this
    obtain ⟨-, -, l2, hi2, -⟩ := this
    exact ⟨l2, hi2⟩
  | evict fuel _ _ he ih =>
    obtain ⟨l, hi⟩ := ih
    rcases Sieve_evict_spec hi fuel with ⟨v, w3, he3, -, hi3, -⟩ | ⟨he3, -⟩ | ⟨he3, -⟩
    · rw [he] at he3; cases he3; exact ⟨_, hi3⟩
    · rw [he] at he3; cases he3
    · rw [he] at he3; cases he3
  | remove obj_id _ ih =>
    obtain ⟨l, hi⟩ := ih
    exact Sieve_remove_inv hi obj_id

theorem SieveReach.all {cp : common_cache_params_t} {w : SieveState} (h : SieveReach cp w) :
    SieveReachAll cp w := by
  induction h with
  | init => exact .init
  | get fuel req _ hg ih => exact .get fuel req ih hg
  | remove obj_id _ ih => exact .remove obj_id ih

theorem Sieve_nodes_eq {w : SieveState} {l : List Ptr} (hi : SieveInv w l) :
    Sieve_nodes w = l :=
  walkNext_eq (q := SieveState.q w) hi.1.1 hi.1.length_le

/-- On a valid non-empty state `evict` returns when given `n_obj` units of fuel. -/
theorem Sieve_evict_total {w : SieveState} {l : List Ptr} (hi : SieveInv w l) (hl : l ≠ []) :
    ∃ w2, ShiftSieve_evict l.length w = .ok w2 := by
  rcases Sieve_evict_spec hi l.length with ⟨v, w3, he3, -⟩ | ⟨-, hlt⟩ | ⟨-, he⟩
  · exact ⟨w3, he3⟩
  · exfalso
    have : visCount w.mem.heap l ≤ l.length := List.countP_le_length _
    omega
  · exact absurd he hl

/-- C9: in every state reached from a fresh ShiftSieve cache by get, find with
update, evict on a non-empty cache and remove calls, `pointer` is null or a node
of the list. -/
theorem C9_sieve_pointer_valid (cp : common_cache_params_t) (w : SieveState)
    (h : SieveReachAll cp w) :
    marker_ok (Sieve_nodes w) w.cache.eviction_params.pointer := by
  obtain ⟨l, hi⟩ := h.inv
  rw [Sieve_nodes_eq hi]
  have := hi.2.2
  cases hp : w.cache.eviction_params.pointer with
  | none => trivial
  | some p =>
    rw [hp] at this
    exact this.1

/-- C10: in every state reached from a fresh ShiftSieve cache by get and remove
calls the list is well-formed with some node sequence `l` of length `n_obj`, and
the forward traversal from `q_head` and the backward traversal from `q_tail`
visit exactly the nodes of `l`, however long they are allowed to run. -/
theorem C10_sieve_list_integrity (cp : common_cache_params_t) (w : SieveState)
    (h : SieveReach cp w) :
    ∃ l, well_formed (SieveState.q w) l ∧ w.cache.n_obj = l.length ∧
      ∀ fuel, l.length ≤ fuel →
        walkNext w.mem.heap fuel w.cache.eviction_params.q_head = l ∧
        walkPrev w.mem.heap fuel w.cache.eviction_params.q_tail = l.reverse := by
  obtain ⟨l, hi⟩ := h.all.inv
  refine ⟨l, (well_formed_iff_isList _ l).2 hi.1.1, hi.1.2.2.2, fun fuel hf => ?_⟩
  exact ⟨walkNext_eq (q := SieveState.q w) hi.1.1 hf, walkPrev_eq (q := SieveState.q w) hi.1.1 hf⟩

theorem Sieve_get_miss {w : SieveState} {l : List Ptr} (hi : SieveInv w l) (k : Nat)
    (hk : w.cache.hashtable k = none)
    (hfit : ¬ w.cache.occupied_byte + 1 + w.cache.obj_md_size > w.cache.cache_size)
    (fuel : Nat) :
    ∃ w2, ShiftSieve_get fuel w (unit_req k) = .ok (w2, false) ∧
      SieveInv w2 (w.mem.brk :: l) ∧
      (w2.mem.heap w.mem.brk).obj_id = k ∧
      (∀ p ∈ l, (w2.mem.heap p).obj_id = (w.mem.heap p).obj_id) ∧
      w2.cache.occupied_byte = w.cache.occupied_byte + (1 + w.cache.obj_md_size) ∧
      w2.cache.obj_md_size = w.cache.obj_md_size ∧ w2.cache.cache_size = w.cache.cache_size := by
  have hfind : ShiftSieve_find w (unit_req k) true = .ok (w, none) := by
    simp [ShiftSieve_find, cache_find_base, unit_req, hk]
  have hfit2 : ¬ (ShiftSieve_ops fuel).get_occupied_byte w + (unit_req k).obj_size +
      (ShiftSieve_ops fuel).obj_md_size w > (ShiftSieve_ops fuel).cache_size w := hfit
  obtain ⟨w2, hins, hi2, hid, hids, ho, hm, hc⟩ := Sieve_insert_spec hi (unit_req k) hk
  simp only [ShiftSieve_get, cache_get_base]
  rw [show (ShiftSieve_ops fuel).find w (unit_req k) true = ShiftSieve_find w (unit_req k) true
    from rfl, hfind]
  simp only [Res.bind]
  rw [evict_until_fits_fits _ _ _ _ hfit2]
  simp only [Res.bind]
  rw [show (ShiftSieve_ops fuel).insert w (unit_req k) = ShiftSieve_insert w (unit_req k)
    from rfl, hins]
  exact ⟨w2, rfl, hi2, hid, hids, ho, hm, hc⟩

theorem Sieve_get_hit {w : SieveState} {l : List Ptr} (hi : SieveInv w l) (k : Nat)
    (hk : w.cache.hashtable k ≠ none) (fuel : Nat) :
    ∃ w2 l2, ShiftSieve_get fuel w (unit_req k) = .ok (w2, true) ∧ SieveInv w2 l2 ∧
      w2.cache.hashtable = w.cache.hashtable := by
  have hf := Sieve_find_spec hi (unit_req k)
  simp only [ShiftSieve_get, cache_get_base]
  rw [show (ShiftSieve_ops fuel).find w (unit_req k) true = ShiftSieve_find w (unit_req k) true
    from rfl]
  cases hfr : ShiftSieve_find w (unit_req k) true with
  | ok r =>
    rw [hfr] at hf
    obtain ⟨hr2, -, l1, hi1, -, hht, -⟩ := hf
    simp only [Res.bind]
    cases hr : r.2 with
    | some p => exact ⟨r.1, l1, rfl, hi1, hht⟩
    | none =>
      exfalso
      apply hk
      rw [← hr, hr2]
      rfl
  | fault => rw [hfr] at hf; exact hf.elim
  | timeout => rw [hfr] at hf; exact hf.elim

/-- Round trip for ShiftSieve: `N` distinct unit keys all miss and stay resident, and
any later gets of those keys all hit. -/
theorem Sieve_round_trip (N : Nat) (ks ks2 : List Nat) (hnd : ks.Nodup) (hlen : ks.length = N)
    (hsub : ∀ k ∈ ks2, k ∈ ks) (fuel : Nat) :
    ∃ w1 w2,
      run_gets (ShiftSieve_get fuel) ks
        (ShiftSieve_init { cache_size := N, consider_obj_metadata := false })
        = .ok (w1, List.replicate N false) ∧
      Sieve_keys w1 = ks.reverse ∧ w1.cache.n_obj = N ∧
      run_gets (ShiftSieve_get fuel) ks2 w1 = .ok (w2, List.replicate ks2.length true) := by
  have hfill := run_gets_fill (ShiftSieve_get fuel)
    (fun w ds => ∃ l, SieveInv w l ∧
      Filled w.mem.heap w.cache.occupied_byte w.cache.cache_size
        w.cache.obj_md_size l N ds) N
    (by
      rintro w ds k ⟨l, hi, hkeys, hocc, hmd, hcap⟩ hk hlt
      have hres : w.cache.hashtable k = none := by
        by_contra hne
        exact hk (hkeys ▸ (hi.1.resident_iff k).1 hne)
      obtain ⟨w2, hg, hi2, hid, hids, ho, hm, hc⟩ := Sieve_get_miss hi k hres
        (by rw [hocc, hmd, hcap]; omega) fuel
      refine ⟨w2, hg, _, hi2, ?_, ?_, by rw [hm, hmd], by rw [hc, hcap]⟩
      · rw [List.map_cons, hid, ← hkeys]
        congr 1
        exact List.map_congr_left hids
      · rw [ho, hocc, hmd]; simp)
    ks [] (ShiftSieve_init { cache_size := N, consider_obj_metadata := false })
    ⟨[], Sieve_init_inv _, rfl, rfl, rfl, rfl⟩
    hnd (by simp) (by simp [hlen])
  obtain ⟨w1, hr1, l, hi1, hkeys, hocc, hmd, hcap⟩ := hfill
  rw [List.append_nil] at hkeys
  have hhits := run_gets_hits (ShiftSieve_get fuel)
    (fun w => (∃ l, SieveInv w l) ∧ ∀ k ∈ ks, w.cache.hashtable k ≠ none) ks
    (by
      rintro w k ⟨⟨l, hi⟩, hres⟩ hk
      obtain ⟨w2, l2, hg, hi2, hht⟩ := Sieve_get_hit hi k (hres k hk) fuel
      exact ⟨w2, hg, ⟨l2, hi2⟩, by rw [hht]; exact hres⟩)
    ks2 w1
    ⟨⟨l, hi1⟩, fun k hk => (hi1.1.resident_iff k).2 (by rw [hkeys]; simpa using hk)⟩ hsub
  obtain ⟨w2, hr2, -⟩ := hhits
  refine ⟨w1, w2, by rw [hr1, hlen], ?_, ?_, hr2⟩
  · rw [Sieve_keys, Sieve_nodes_eq hi1, hkeys]
  · rw [hi1.1.2.2.2, ← hlen]
    have := congrArg List.length hkeys
    simp at this
    simp [this]

theorem Shift_find_in_miss (w : ShiftState) (b : Bool) (req : request_t)
    (h : (w.cache.eviction_params.sub b).hashtable req.obj_id = none) :
    Shift_find_in w b req = .ok (w, none) := by
  simp [Shift_find_in, FIFO_find, cache_find_base, ShiftState.fifo, h]

theorem Shift_init_fill (cp : common_cache_params_t) : ShiftFill (Shift_init cp) [] :=
  ⟨rfl, rfl, rfl, ⟨⟨List.nodup_nil, rfl, rfl, by simp⟩, by simp,
    by simp [Shift_init, FIFO_init, cache_struct_init], rfl⟩, fun _ => rfl, rfl, rfl⟩

theorem Shift_get_miss {w : ShiftState} {l : List Ptr} (hi : ShiftFill w l) (k : Nat)
    (hk : w.cache.eviction_params.c0.hashtable k = none)
    (hfit : ¬ w.cache.eviction_params.c0.occupied_byte + 1 + w.cache.obj_md_size
      > w.cache.cache_size)
    (fuel : Nat) :
    ∃ w2, Shift_get fuel w (unit_req k) = .ok (w2, false) ∧ ShiftFill w2 (w.mem.brk :: l) ∧
      (w2.mem.heap w.mem.brk).obj_id = k ∧
      (∀ p ∈ l, (w2.mem.heap p).obj_id = (w.mem.heap p).obj_id) ∧
      w2.cache.eviction_params.c0.occupied_byte =
        w.cache.eviction_params.c0.occupied_byte + (1 + w.cache.eviction_params.c0.obj_md_size) ∧
      w2.cache.eviction_params.c0.obj_md_size = w.cache.eviction_params.c0.obj_md_size ∧
      w2.cache.obj_md_size = w.cache.obj_md_size ∧ w2.cache.cache_size = w.cache.cache_size := by
  obtain ⟨he, hr, hs, hinv, hc1, hc1o, hc1n⟩ := hi
  have hfind : Shift_find w (unit_req k) true = .ok (w, none) := by
    simp only [Shift_find, Bool.not_true, Bool.false_eq_true, if_false]
    rw [Shift_find_in_miss w _ _ (by rw [he]; exact hk)]
    simp only [Res.bind]
    exact Shift_find_in_miss w _ _ (by rw [hr]; exact hc1 _)
  have hfit2 : ¬ (Shift_ops fuel).get_occupied_byte w + (unit_req k).obj_size +
      (Shift_ops fuel).obj_md_size w > (Shift_ops fuel).cache_size w := by
    show ¬ Shift_get_occupied_byte w + 1 + w.cache.obj_md_size > w.cache.cache_size
    simp only [Shift_get_occupied_byte, he, hr, Shift_params_t.sub, if_true, Bool.false_eq_true,
      if_false, hc1o, add_zero]
    exact hfit
  have hins := hinv.insert (unit_req k) hk
  simp only [Shift_get, cache_get_base]
  rw [show (Shift_ops fuel).find w (unit_req k) true = Shift_find w (unit_req k) true from rfl,
    hfind]
  simp only [Res.bind]
  rw [evict_until_fits_fits _ _ _ _ hfit2]
  simp only [Res.bind, Shift_ops, Shift_insert, hs, he, Bool.false_eq_true, if_false,
    FIFO_insert, cache_insert_base, FIFOState.q, ShiftState.fifo, Shift_params_t.sub]
  cases hp : prepend_obj_to_head
      (dlist.mk (Function.update w.mem.heap w.mem.brk
        (create_cache_obj_from_request (some (unit_req k))))
        w.cache.eviction_params.c0.eviction_params.q_head
        w.cache.eviction_params.c0.eviction_params.q_tail) w.mem.brk with
  | ok q2 =>
    rw [hp] at hins
    obtain ⟨hinv2, hsd, -⟩ := hins
    simp only [Res.bind]
    refine ⟨_, rfl, ⟨he, hr, hs, ?_, hc1, hc1o, hc1n⟩, ?_, ?_, ?_, ?_, ?_, ?_⟩
    · exact hinv2.of_same_links (same_links_setFreq _ _ _)
    · simp [FIFOState.setQ, ShiftState.setFifo, World.setHeap, World.setParams, (hsd _).1,
        create_cache_obj_from_request, copy_request_to_cache_obj, unit_req]
    · intro p hp
      have hpb : p ≠ w.mem.brk := fun e => Nat.lt_irrefl _ (e ▸ hinv.2.1 p hp)
      simp [FIFOState.setQ, ShiftState.setFifo, World.setHeap, World.setParams, (hsd _).1,
        Function.update, hpb]
    · simp [FIFOState.setQ, ShiftState.setFifo, World.setHeap, World.setParams, unit_req,
        Shift_params_t.setSub]
    · rfl
    · rfl
    · rfl
  | fault => rw [hp] at hins; exact hins.elim
  | timeout => rw [hp] at hins; exact hins.elim

theorem Shift_get_hit {w : ShiftState} {l : List Ptr} (hi : ShiftFill w l) (k : Nat)
    (hk : w.cache.eviction_params.c0.hashtable k ≠ none) (fuel : Nat) :
    ∃ w2 l2, Shift_get fuel w (unit_req k) = .ok (w2, true) ∧ ShiftFill w2 l2 ∧
      w2.cache.eviction_params.c0.hashtable = w.cache.eviction_params.c0.hashtable := by
  obtain ⟨he, hr, hs, hinv, hc1, hc1o, hc1n⟩ := hi
  obtain ⟨p, hp⟩ := Option.ne_none_iff_exists'.1 hk
  have hpl : p ∈ l := ((hinv.2.2.1 _ _).1 hp).1
  have hmv := hinv.move_to_head hpl
  simp only [Shift_get, cache_get_base]
  rw [show (Shift_ops fuel).find w (unit_req k) true = Shift_find w (unit_req k) true from rfl]
  simp only [Shift_find, Bool.not_true, Bool.false_eq_true, if_false, he, Shift_find_in,
    FIFO_find, cache_find_base, ShiftState.fifo, Shift_params_t.sub, unit_req, hp, FIFOState.q]
  by_cases hf : (w.mem.heap p).freq = 0
  · rw [if_pos hf]
    cases hm : move_obj_to_head (dlist.mk w.mem.heap
        w.cache.eviction_params.c0.eviction_params.q_head
        w.cache.eviction_params.c0.eviction_params.q_tail) p with
    | ok q2 =>
      rw [hm] at hmv
      obtain ⟨hinv2, -, -⟩ := hmv
      simp only [Res.bind]
      exact ⟨_, _, rfl, ⟨he, hr, hs, hinv2.of_same_links (same_links_setFreq _ _ _), hc1, hc1o,
        hc1n⟩, rfl⟩
    | fault => rw [hm] at hmv; exact hmv.elim
    | timeout => rw [hm] at hmv; exact hmv.elim
  · rw [if_neg hf]
    simp only [Res.bind]
    exact ⟨_, _, rfl, ⟨he, hr, hs, hinv.of_same_links (same_links_setFreq _ _ _), hc1, hc1o,
      hc1n⟩, rfl⟩

/-- Round trip for Shift: `N` distinct unit keys all miss and stay resident in the
eviction sub-cache, and any later gets of those keys all hit. -/
theorem Shift_round_trip (N : Nat) (ks ks2 : List Nat) (hnd : ks.Nodup) (hlen : ks.length = N)
    (hsub : ∀ k ∈ ks2, k ∈ ks) (fuel : Nat) :
    ∃ w1 w2,
      run_gets (Shift_get fuel) ks
        (Shift_init { cache_size := N, consider_obj_metadata := false })
        = .ok (w1, List.replicate N false) ∧
      (Shift_keys w1 w1.cache.eviction_params.eviction).map Prod.fst = ks.reverse ∧
      Shift_get_n_obj w1 = N ∧
      run_gets (Shift_get fuel) ks2 w1 = .ok (w2, List.replicate ks2.length true) := by
  have hfill := run_gets_fill (Shift_get fuel)
    (fun w ds => ∃ l, ShiftFill w l ∧
      Filled w.mem.heap w.cache.eviction_params.c0.occupied_byte w.cache.cache_size
        w.cache.obj_md_size l N ds ∧ w.cache.eviction_params.c0.obj_md_size = 0) N
    (by
      rintro w ds k ⟨l, hi, ⟨hkeys, hocc, hmd, hcap⟩, hmd0⟩ hk hlt
      have hres : w.cache.eviction_params.c0.hashtable k = none := by
        by_contra hne
        exact hk (hkeys ▸ (hi.2.2.2.1.resident_iff k).1 hne)
      obtain ⟨w2, hg, hi2, hid, hids, ho, hm0, hm, hc⟩ := Shift_get_miss hi k hres
        (by rw [hocc, hmd, hcap]; omega) fuel
      refine ⟨w2, hg, _, hi2, ⟨?_, ?_, by rw [hm, hmd], by rw [hc, hcap]⟩, by rw [hm0, hmd0]⟩
      · rw [List.map_cons, hid, ← hkeys]
        congr 1
        exact List.map_congr_left hids
      · rw [ho, hocc, hmd0]; simp)
    ks [] (Shift_init { cache_size := N, consider_obj_metadata := false })
    ⟨[], Shift_init_fill _, ⟨rfl, rfl, rfl, rfl⟩, rfl⟩
    hnd (by simp) (by simp [hlen])
  obtain ⟨w1, hr1, l, hi1, ⟨hkeys, hocc, hmd, hcap⟩, -⟩ := hfill
  rw [List.append_nil] at hkeys
  have hhits := run_gets_hits (Shift_get fuel)
    (fun w => (∃ l, ShiftFill w l) ∧ ∀ k ∈ ks, w.cache.eviction_params.c0.hashtable k ≠ none) ks
    (by
      rintro w k ⟨⟨l, hi⟩, hres⟩ hk
      obtain ⟨w2, l2, hg, hi2, hht⟩ := Shift_get_hit hi k (hres k hk) fuel
      exact ⟨w2, hg, ⟨l2, hi2⟩, by rw [hht]; exact hres⟩)
    ks2 w1
    ⟨⟨l, hi1⟩, fun k hk => (hi1.2.2.2.1.resident_iff k).2 (by rw [hkeys]; simpa using hk)⟩ hsub
  obtain ⟨w2, hr2, -⟩ := hhits
  obtain ⟨he, hr, hs, hinv, hc1, hc1o, hc1n⟩ := hi1
  have hnodes : Shift_nodes w1 false = l :=
    walkNext_eq (q := dlist.mk w1.mem.heap w1.cache.eviction_params.c0.eviction_params.q_head
      w1.cache.eviction_params.c0.eviction_params.q_tail) hinv.1 hinv.length_le
  refine ⟨w1, w2, by rw [hr1, hlen], ?_, ?_, hr2⟩
  · rw [he, Shift_keys, hnodes, List.map_map, ← hkeys]
    rfl
  · simp only [Shift_get_n_obj, he, hr, Shift_params_t.sub, if_true, Bool.false_eq_true,
      if_false, hc1n, add_zero]
    rw [hinv.2.2.2, ← hlen]
    have := congrArg List.length hkeys
    simp at this
    simp [this]

theorem SieveReachAll_apply {cp : common_cache_params_t} {w : SieveState}
    (h : SieveReachAll cp w) (fuel : Nat) (op : sieve_op) :
    SieveReachAll cp (Sieve_apply fuel w op) := by
  cases op with
  | get k =>
    simp only [Sieve_apply]
    cases hg : ShiftSieve_get fuel w (unit_req k) with
    | ok r => exact .get fuel (unit_req k) h (show _ = Res.ok (r.1, r.2) from hg)
    | fault => exact h
    | timeout => exact h
  | find k =>
    simp only [Sieve_apply]
    cases hg : ShiftSieve_find w (unit_req k) true with
    | ok r => exact .find (unit_req k) h hg
    | fault => exact h
    | timeout => exact h
  | evict =>
    simp only [Sieve_apply]
    split_ifs with hn
    · cases hg : ShiftSieve_evict fuel w with
      | ok r => exact .evict fuel h hn hg
      | fault => exact h
      | timeout => exact h
    · exact h
  | remove k => exact .remove k h

theorem SieveReachAll_script {cp : common_cache_params_t} (fuel : Nat) (ops : List sieve_op) :
    ∀ {w : SieveState}, SieveReachAll cp w → SieveReachAll cp (Sieve_script fuel ops w) := by
  induction ops with
  | nil => intro w h; exact h
  | cons op t ih => intro w h; exact ih (SieveReachAll_apply h fuel op)

theorem SieveReach_apply {cp : common_cache_params_t} {w : SieveState}
    (h : SieveReach cp w) (fuel : Nat) (op : sieve_op) (hb : op.basic = true) :
    SieveReach cp (Sieve_apply fuel w op) := by
  cases op with
  | get k =>
    simp only [Sieve_apply]
    cases hg : ShiftSieve_get fuel w (unit_req k) with
    | ok r => exact .get fuel (unit_req k) h (show _ = Res.ok (r.1, r.2) from hg)
    | fault => exact h
    | timeout => exact h
  | find k => cases hb
  | evict => cases hb
  | remove k => exact .remove k h

theorem SieveReach_script {cp : common_cache_params_t} (fuel : Nat) (ops : List sieve_op)
    (hb : ops.all sieve_op.basic = true) :
    ∀ {w : SieveState}, SieveReach cp w → SieveReach cp (Sieve_script fuel ops w) := by
  induction ops with
  | nil => intro w h; exact h
  | cons op t ih =>
    intro w h
    rw [List.all_cons, Bool.and_eq_true] at hb
    exact ih hb.2 (SieveReach_apply h fuel op hb.1)

/-- Claim C4.  Round-trip law for the Lever, ShiftSieve and Shift engines: on a fresh
cache of capacity `N` without per-object metadata, the gets of `N` distinct keys of
size one all return false and evict nothing (all `N` keys are resident afterwards),
and further gets of those keys, in any order, all return true.  No fuel is needed,
so every one of these gets returns. -/
theorem C4_round_trip (N : Nat) (ks ks2 : List Nat) (fuel : Nat) (hN : 1 ≤ N) (hnd : ks.Nodup)
    (hlen : ks.length = N) (hperm : ks2.Perm ks) :
    round_trip (Lever_get fuel) (Lever_init { cache_size := N, consider_obj_metadata := false })
      Lever_keys (fun w => w.cache.n_obj) N ks ks2 ∧
    round_trip (ShiftSieve_get fuel)
      (ShiftSieve_init { cache_size := N, consider_obj_metadata := false })
      Sieve_keys (fun w => w.cache.n_obj) N ks ks2 ∧
    round_trip (Shift_get fuel) (Shift_init { cache_size := N, consider_obj_metadata := false })
      (fun w => (Shift_keys w w.cache.eviction_params.eviction).map Prod.fst)
      Shift_get_n_obj N ks ks2 := by
  have _ := hN
  have hsub : ∀ k ∈ ks2, k ∈ ks := fun k hk => hperm.subset hk
  exact ⟨Lever_round_trip N ks ks2 hnd hlen hsub fuel,
    Sieve_round_trip N ks ks2 hnd hlen hsub fuel,
    Shift_round_trip N ks ks2 hnd hlen hsub fuel⟩

theorem C4_witness :
    round_trip (Lever_get 0) (Lever_init { cache_size := 3, consider_obj_metadata := false })
      Lever_keys (fun w => w.cache.n_obj) 3 [7, 9, 4] [9, 4, 7] ∧
    round_trip (ShiftSieve_get 0)
      (ShiftSieve_init { cache_size := 3, consider_obj_metadata := false })
      Sieve_keys (fun w => w.cache.n_obj) 3 [7, 9, 4] [9, 4, 7] ∧
    round_trip (Shift_get 0) (Shift_init { cache_size := 3, consider_obj_metadata := false })
      (fun w => (Shift_keys w w.cache.eviction_params.eviction).map Prod.fst)
      Shift_get_n_obj 3 [7, 9, 4] [9, 4, 7] :=
  C4_round_trip 3 [7, 9, 4] [9, 4, 7] 0 (by decide) (by decide) rfl (by decide)

theorem C9_witness :
    SieveReachAll { cache_size := 3, consider_obj_metadata := false } Sieve_example_all ∧
    Sieve_keys Sieve_example_all = [2, 3] ∧
    Sieve_example_all.cache.eviction_params.pointer = some 2 ∧
    marker_ok (Sieve_nodes Sieve_example_all)
      Sieve_example_all.cache.eviction_params.pointer :=
  ⟨SieveReachAll_script 3 _ .init, by decide!, by decide!,
    C9_sieve_pointer_valid _ Sieve_example_all (SieveReachAll_script 3 _ .init)⟩

theorem C10_witness :
    SieveReach { cache_size := 2, consider_obj_metadata := false } Sieve_example_basic ∧
    Sieve_keys Sieve_example_basic = [4, 3] ∧
    ∃ l, well_formed (SieveState.q Sieve_example_basic) l ∧
      Sieve_example_basic.cache.n_obj = l.length ∧
      ∀ fuel, l.length ≤ fuel →
        walkNext Sieve_example_basic.mem.heap fuel
          Sieve_example_basic.cache.eviction_params.q_head = l ∧
        walkPrev Sieve_example_basic.mem.heap fuel
          Sieve_example_basic.cache.eviction_params.q_tail = l.reverse :=
  ⟨SieveReach_script 2 Sieve_calls_basic rfl .init, by decide!,
    C10_sieve_list_integrity _ Sieve_example_basic
      (SieveReach_script 2 Sieve_calls_basic rfl .init)⟩

theorem insertAfter_split (m x : Ptr) :
    ∀ l : List Ptr, m ∈ l → ∃ a b, l = a ++ m :: b ∧ insertAfter m x l = a ++ m :: x :: b
  | [], h => by simp at h
  | c :: t, h => by
    by_cases hc : c = m
    · subst hc
      exact ⟨[], t, rfl, by simp [insertAfter]⟩
    · have ht : m ∈ t := by
        rcases List.mem_cons.1 h with e | e
        · exact absurd e.symm hc
        · exact e
      obtain ⟨a, b, e1, e2⟩ := insertAfter_split m x t ht
      exact ⟨c :: a, b, by rw [e1]; rfl, by simp [insertAfter, hc, e2]⟩

/-- C13: `remove_obj_from_list` on a node `x` of a well-formed list with node sequence
`l` (head, tail, interior or only node alike) leaves a well-formed list whose node
sequence is `l` with `x` erased, with head and tail the first and last node of that
sequence (both null if it is empty), and with `x.prev = x.next = NULL`. -/
theorem C13_remove_obj_from_list (q : dlist) (l : List Ptr) (x : Ptr)
    (hwf : well_formed q l) (hx : x ∈ l) :
    well_formed (remove_obj_from_list q x) (l.erase x) ∧
    (remove_obj_from_list q x).head = (l.erase x).head? ∧
    (remove_obj_from_list q x).tail = (l.erase x).getLast? ∧
    ((remove_obj_from_list q x).heap x).prev = none ∧
    ((remove_obj_from_list q x).heap x).next = none := by
  have h := remove_isList ((well_formed_iff_isList q l).1 hwf) hx
  exact ⟨(well_formed_iff_isList _ _).2 h, h.2.1, h.2.2.1, remove_clears q x⟩

theorem C13_witness :
    (well_formed (remove_obj_from_list three_nodes 0) [1, 2] ∧
      (remove_obj_from_list three_nodes 0).head = some 1 ∧
      (remove_obj_from_list three_nodes 0).tail = some 2 ∧
      ((remove_obj_from_list three_nodes 0).heap 0).prev = none ∧
      ((remove_obj_from_list three_nodes 0).heap 0).next = none) ∧
    (well_formed (remove_obj_from_list three_nodes 1) [0, 2] ∧
      (remove_obj_from_list three_nodes 1).head = some 0 ∧
      (remove_obj_from_list three_nodes 1).tail = some 2 ∧
      ((remove_obj_from_list three_nodes 1).heap 1).prev = none ∧
      ((remove_obj_from_list three_nodes 1).heap 1).next = none) ∧
    (well_formed (remove_obj_from_list three_nodes 2) [0, 1] ∧
      (remove_obj_from_list three_nodes 2).head = some 0 ∧
      (remove_obj_from_list three_nodes 2).tail = some 1 ∧
      ((remove_obj_from_list three_nodes 2).heap 2).prev = none ∧
      ((remove_obj_from_list three_nodes 2).heap 2).next = none) ∧
    (well_formed (remove_obj_from_list one_node 0) [] ∧
      (remove_obj_from_list one_node 0).head = none ∧
      (remove_obj_from_list one_node 0).tail = none ∧
      ((remove_obj_from_list one_node 0).heap 0).prev = none ∧
      ((remove_obj_from_list one_node 0).heap 0).next = none) :=
  ⟨C13_remove_obj_from_list three_nodes [0, 1, 2] 0 (by decide) (by decide),
    C13_remove_obj_from_list three_nodes [0, 1, 2] 1 (by decide) (by decide),
    C13_remove_obj_from_list three_nodes [0, 1, 2] 2 (by decide) (by decide),
    C13_remove_obj_from_list one_node [0] 0 (by decide) (by decide)⟩

/-- C12: `move_obj_after_mark` on a well-formed list with node sequence `l` and nodes
`mark` and `x` of it: for `x = mark` the list is returned unchanged; otherwise it
returns a well-formed list whose node sequence is `l` with `x` erased and `x` put
back immediately after `mark` (all other nodes in their order), head and tail are
the ends of that sequence, and `x` is the tail exactly when `mark` is the last
node once `x` is erased. -/
theorem C12_move_obj_after_mark (q : dlist) (l : List Ptr) (mark x : Ptr)
    (hwf : well_formed q l) (hm : mark ∈ l) (hx : x ∈ l) :
    (x = mark → move_obj_after_mark q (some mark) x = .ok q) ∧
    (x ≠ mark → ∃ a b, l.erase x = a ++ mark :: b ∧
      (move_obj_after_mark q (some mark) x).holds (fun q2 =>
        well_formed q2 (a ++ mark :: x :: b) ∧
        q2.head = (a ++ mark :: x :: b).head? ∧
        q2.tail = (a ++ mark :: x :: b).getLast? ∧
        (q2.tail = some x ↔ (l.erase x).getLast? = some mark))) := by
  have hl := (well_formed_iff_isList q l).1 hwf
  constructor
  · intro e
    simp [move_obj_after_mark, e]
  · intro hne
    have hme : mark ∈ l.erase x := (List.mem_erase_of_ne (Ne.symm hne)).2 hm
    obtain ⟨a, b, e1, e2⟩ := insertAfter_split mark x (l.erase x) hme
    refine ⟨a, b, e1, Res.holds_mono (move_after_mark_spec hl hm hx) ?_⟩
    rintro q2 ⟨h2, -⟩
    rw [moveAfter, if_neg hne, e2] at h2
    refine ⟨(well_formed_iff_isList _ _).2 h2, h2.2.1, h2.2.2.1, ?_⟩
    have hnd : (a ++ mark :: x :: b).Nodup := h2.1
    rw [h2.2.2.1, e1]
    have hxb : x ∉ b := by
      intro hb
      have := List.nodup_append.1 hnd
      have h3 := this.2.1
      simp only [List.nodup_cons] at h3
      exact h3.2.1 hb
    rcases List.eq_nil_or_concat b with hb | ⟨b1, z, hb⟩
    · subst hb
      simp
    · rw [List.concat_eq_append] at hb
      subst hb
      have hzx : z ≠ x := fun e => hxb (by simp [e])
      have hzm : z ≠ mark := by
        intro e
        have := List.nodup_append.1 hnd
        have h3 := this.2.1
        simp only [List.nodup_cons] at h3
        exact h3.1 (by simp [e])
      have e3 : a ++ mark :: x :: (b1 ++ [z]) = (a ++ mark :: x :: b1) ++ [z] := by simp
      have e4 : a ++ mark :: (b1 ++ [z]) = (a ++ mark :: b1) ++ [z] := by simp
      have hlast : ∀ u : List Ptr, (u ++ [z]).getLast? = some z := fun u => by simp
      rw [e3, e4, hlast, hlast]
      simp [hzx, hzm]

theorem C12_witness :
    (move_obj_after_mark three_nodes (some 1) 1 = .ok three_nodes) ∧
    (∃ a b, [0, 1, 2].erase 0 = a ++ 2 :: b ∧
      (move_obj_after_mark three_nodes (some 2) 0).holds (fun q2 =>
        well_formed q2 (a ++ 2 :: 0 :: b) ∧
        q2.head = (a ++ 2 :: 0 :: b).head? ∧
        q2.tail = (a ++ 2 :: 0 :: b).getLast? ∧
        (q2.tail = some 0 ↔ ([0, 1, 2].erase 0).getLast? = some 2))) :=
  ⟨(C12_move_obj_after_mark three_nodes [0, 1, 2] 1 1 (by decide) (by decide) (by decide)).1 rfl,
    (C12_move_obj_after_mark three_nodes [0, 1, 2] 2 0 (by decide) (by decide) (by decide)).2
      (by decide)⟩

theorem Lever_fast_spec {w : LeverState} {l : List Ptr} {f s : Ptr}
    (hl : IsList (LeverState.q w) l)
    (hf : w.cache.eviction_params.fast = some f) (hfl : f ∈ l)
    (hs : w.cache.eviction_params.slow = some s) (hsl : s ∈ l) :
    ∃ w2, Lever_evict_fast w = .ok w2 ∧
      IsList (LeverState.q w2) (if (w.mem.heap f).freq = 1 then moveAfter s f l else l) ∧
      w2.cache.eviction_params.slow = some s ∧
      w2.cache.eviction_params.fast = prevOf l f ∧
      same_cache w w2 ∧
      ∀ p, (w2.mem.heap p).freq =
        if p = f ∧ (w.mem.heap f).freq = 1 then 0 else (w.mem.heap p).freq := by
  have hprev : (w.mem.heap f).prev = prevOf l f := (hl.2.2.2 f hfl).1
  by_cases hfr : (w.mem.heap f).freq = 1
  · have hl1 : IsList (dlist.mk (setFreq w.mem.heap f 0) w.cache.eviction_params.q_head
        w.cache.eviction_params.q_tail) l :=
      IsList.relink (q := LeverState.q w) hl (fun y _ => by simp [LeverState.q])
    have hmv := move_after_mark_spec hl1 hsl hfl
    cases hm : move_obj_after_mark (dlist.mk (setFreq w.mem.heap f 0)
        w.cache.eviction_params.q_head w.cache.eviction_params.q_tail) (some s) f with
    | ok q2 =>
      rw [hm] at hmv
      obtain ⟨hl2, hsd, -⟩ := hmv
      have e : Lever_evict_fast w = .ok (LeverState.setQ
          ((w.setParams { w.cache.eviction_params with fast := (w.mem.heap f).prev }).setHeap
            (setFreq w.mem.heap f 0)) q2) := by
        simp [Lever_evict_fast, hf, hfr, World.setParams, World.setHeap, LeverState.q, hs, hm,
          Res.bind]
      refine ⟨_, e, ?_, ?_, ?_, ?_, ?_⟩
      · rw [if_pos hfr]; exact hl2
      · simp [LeverState.setQ, World.setParams, World.setHeap, hs]
      · simp [LeverState.setQ, World.setParams, World.setHeap, hprev]
      · refine ⟨rfl, rfl, rfl, rfl, rfl, rfl, fun p => ?_⟩
        have := hsd p
        simp only [LeverState.setQ, World.setParams, World.setHeap]
        exact ⟨by rw [this.1]; simp, by rw [this.2.1]; simp⟩
      · intro p
        have := (hsd p).2.2.2.1
        simp only [LeverState.setQ, World.setParams, World.setHeap]
        rw [this]
        by_cases hp : p = f
        · subst hp; simp [hfr]
        · simp [hp]
    | fault => rw [hm] at hmv; exact hmv.elim
    | timeout => rw [hm] at hmv; exact hmv.elim
  · have e : Lever_evict_fast w = .ok
        (w.setParams { w.cache.eviction_params with fast := (w.mem.heap f).prev }) := by
      simp [Lever_evict_fast, hf, hfr, World.setParams]
    refine ⟨_, e, ?_, ?_, ?_, ?_, ?_⟩
    · rw [if_neg hfr]; exact hl
    · simp [World.setParams, hs]
    · simp [World.setParams, hprev]
    · exact ⟨rfl, rfl, rfl, rfl, rfl, rfl, fun p => ⟨rfl, rfl⟩⟩
    · intro p
      simp [World.setParams, hfr]

/-- Unlinking the tail as the FIFO demotion of `Lever_evict` does it. -/
theorem drop_tail_isList {q : dlist} {l : List Ptr} (h : IsList q l) {x : Ptr}
    (hx : q.tail = some x) :
    x ∈ l ∧ l.getLast? = some x ∧
    (∀ t, (q.heap x).prev = some t →
      IsList (dlist.mk (setNext q.heap t none) q.head (some t)) (l.erase x)) ∧
    ((q.heap x).prev = none → l = [x]) := by
  have hlast : l.getLast? = some x := by rw [← h.2.2.1, hx]
  have hxl : x ∈ l := List.mem_of_getLast?_eq_some hlast
  obtain ⟨hd, tl, hqh, hqt, hlh, hlt, hdm, tlm, hdp, tln, hhx, htx, hsing⟩ := h.ends hxl
  have htl : tl = x := by rw [hqt] at hx; exact Option.some.inj hx
  subst htl
  have hxp := (h.2.2.2 tl hxl).1
  have hxn := (h.2.2.2 tl hxl).2
  refine ⟨hxl, hlast, fun t ht => ?_, fun hp => ?_⟩
  · have hpt : prevOf l tl = some t := by rw [← hxp, ht]
    have hne : hd ≠ tl := fun e => by
      have := hhx.1 e
      rw [hpt] at this
      cases this
    refine ⟨h.1.erase tl, ?_, ?_, fun y hy => ?_⟩
    · show q.head = _
      rw [head?_erase, hlh, if_neg (fun e => hne (Option.some.inj e)), hqh]
    · show some t = _
      rw [getLast?_erase h.1, hlt, if_pos rfl, hpt]
    · rw [h.1.mem_erase_iff] at hy
      obtain ⟨hyx, hyl⟩ := hy
      rw [prevOf_erase h.1 hyx, nextOf_erase h.1 hyx, tln, hpt]
      have hyp := (h.2.2.2 y hyl).1
      have hyn := (h.2.2.2 y hyl).2
      constructor
      · show ((setNext q.heap t none) y).prev = _
        rw [setNext_prev, hyp, if_neg (by simp)]
      · show ((setNext q.heap t none) y).next = _
        rw [setNext_next]
        by_cases hyt : y = t
        · subst hyt; simp
        · rw [if_neg hyt, if_neg (fun e => hyt (Option.some.inj e).symm), hyn]
  · exact hsing ((hhx).2 (by rw [← hxp, hp]))

/-- Effect of the slow step of `Lever_evict` on a state whose list is `l`. -/
theorem Lever_slow_spec {w : LeverState} {l : List Ptr} {s : Ptr}
    (hl : IsList (LeverState.q w) l)
    (hs : w.cache.eviction_params.slow = some s) (hsl : s ∈ l)
    (hn : w.cache.n_obj = l.length) :
    ∃ w2 v, Lever_evict_slow w = .ok w2 ∧ v ∈ l ∧
      ((w.mem.heap s).freq = 1 → l.getLast? = some v) ∧
      ((w.mem.heap s).freq ≠ 1 → v = s) ∧
      IsList (LeverState.q w2) (l.erase v) ∧
      w2.cache.eviction_params.slow = prevOf l s ∧
      w2.cache.eviction_params.fast = w.cache.eviction_params.fast ∧
      w2.cache.n_obj = w.cache.n_obj - 1 ∧
      w2.cache.hashtable = Function.update w.cache.hashtable (w.mem.heap v).obj_id none ∧
      w2.cache.occupied_byte =
        w.cache.occupied_byte - ((w.mem.heap v).obj_size + w.cache.obj_md_size) ∧
      w2.cache.cache_size = w.cache.cache_size ∧ w2.cache.obj_md_size = w.cache.obj_md_size ∧
      w2.mem.brk = w.mem.brk ∧
      (∀ p, (w2.mem.heap p).obj_id = (w.mem.heap p).obj_id ∧
        (w2.mem.heap p).obj_size = (w.mem.heap p).obj_size) ∧
      ∀ p, (w2.mem.heap p).freq =
        if p = s ∧ (w.mem.heap s).freq = 1 then 0 else (w.mem.heap p).freq := by
  have hprev : (w.mem.heap s).prev = prevOf l s := (hl.2.2.2 s hsl).1
  by_cases hfr : (w.mem.heap s).freq = 1
  · have hl1 : IsList (dlist.mk (setFreq w.mem.heap s 0) w.cache.eviction_params.q_head
        w.cache.eviction_params.q_tail) l :=
      IsList.relink (q := LeverState.q w) hl (fun y _ => by simp [LeverState.q])
    obtain ⟨hd, tl, hqh, hqt, -⟩ := hl1.ends hsl
    have hqt2 : w.cache.eviction_params.q_tail = some tl := hqt
    obtain ⟨htl, hlast, hsome, hnone⟩ := drop_tail_isList hl1 hqt
    have hfreq : ∀ p, (setFreq w.mem.heap s 0 p).freq =
        if p = s ∧ (w.mem.heap s).freq = 1 then 0 else (w.mem.heap p).freq := by
      intro p
      by_cases hp : p = s
      · subst hp; simp [hfr]
      · simp [hp]
    have hpe : (setFreq w.mem.heap s 0 tl).prev = (w.mem.heap tl).prev := by simp
    cases hp : (w.mem.heap tl).prev with
    | some t =>
      have e : Lever_evict_slow w = .ok (cache_evict_base (LeverState.setQ
          ((w.setParams { w.cache.eviction_params with slow := (w.mem.heap s).prev }).setHeap
            (setFreq w.mem.heap s 0))
          (dlist.mk (setNext (setFreq w.mem.heap s 0) t none) w.cache.eviction_params.q_head
            (some t))) tl true) := by
        simp [Lever_evict_slow, hs, hfr, World.setParams, World.setHeap, hqt2, hp]
      refine ⟨_, tl, e, htl, fun _ => hlast, fun h => absurd hfr h, hsome t (hpe.trans hp), ?_, rfl, rfl,
        ?_, ?_, rfl, rfl, rfl, fun p => ?_, fun p => ?_⟩
      · simp [cache_evict_base, cache_remove_obj_base, LeverState.setQ, World.setParams,
          World.setHeap, hprev]
      · simp [cache_evict_base, cache_remove_obj_base, LeverState.setQ, World.setParams,
          World.setHeap]
      · simp [cache_evict_base, cache_remove_obj_base, LeverState.setQ, World.setParams,
          World.setHeap]
      · simp [cache_evict_base, cache_remove_obj_base, LeverState.setQ, World.setParams,
          World.setHeap]
      · simp only [cache_evict_base, cache_remove_obj_base, LeverState.setQ, World.setParams,
          World.setHeap, setNext_freq]
        exact hfreq p
    | none =>
      have hl1x := hnone (hpe.trans hp)
      have hn1 : w.cache.n_obj = 1 := by rw [hn, hl1x]; rfl
      have e : Lever_evict_slow w = .ok (cache_evict_base (LeverState.setQ
          ((w.setParams { w.cache.eviction_params with slow := (w.mem.heap s).prev }).setHeap
            (setFreq w.mem.heap s 0))
          (dlist.mk (setFreq w.mem.heap s 0) none none)) tl true) := by
        simp [Lever_evict_slow, hs, hfr, World.setParams, World.setHeap, hqt2, hp, hn1]
      refine ⟨_, tl, e, htl, fun _ => hlast, fun h => absurd hfr h, ?_, ?_, rfl, rfl,
        ?_, ?_, rfl, rfl, rfl, fun p => ?_, fun p => ?_⟩
      · rw [hl1x]
        simp only [List.erase_cons_head]
        exact ⟨List.nodup_nil, rfl, rfl, by simp⟩
      · simp [cache_evict_base, cache_remove_obj_base, LeverState.setQ, World.setParams,
          World.setHeap, hprev]
      · simp [cache_evict_base, cache_remove_obj_base, LeverState.setQ, World.setParams,
          World.setHeap]
      · simp [cache_evict_base, cache_remove_obj_base, LeverState.setQ, World.setParams,
          World.setHeap]
      · simp [cache_evict_base, cache_remove_obj_base, LeverState.setQ, World.setParams,
          World.setHeap]
      · simp only [cache_evict_base, cache_remove_obj_base, LeverState.setQ, World.setParams,
          World.setHeap]
        exact hfreq p
  · have e : Lever_evict_slow w = .ok (cache_evict_base (LeverState.setQ
        (w.setParams { w.cache.eviction_params with slow := (w.mem.heap s).prev })
        (remove_obj_from_list (LeverState.q w) s)) s true) := by
      simp [Lever_evict_slow, hs, hfr, World.setParams, LeverState.q]
    have hrm := remove_isList hl hsl
    obtain ⟨hsd, -⟩ := remove_links_only _ hl hsl
    refine ⟨_, s, e, hsl, fun h => absurd h hfr, fun _ => rfl, hrm, ?_, rfl, rfl,
      ?_, ?_, rfl, rfl, rfl, fun p => ?_, fun p => ?_⟩
    · simp [cache_evict_base, cache_remove_obj_base, LeverState.setQ, World.setParams,
        World.setHeap, hprev]
    · have h1 := (hsd s).1
      simp only [LeverState.q] at h1
      simp [cache_evict_base, cache_remove_obj_base, LeverState.setQ, World.setParams,
        World.setHeap, h1, LeverState.q]
    · have h1 := (hsd s).2.1
      simp only [LeverState.q] at h1
      simp [cache_evict_base, cache_remove_obj_base, LeverState.setQ, World.setParams,
        World.setHeap, h1, LeverState.q]
    · exact ⟨(hsd p).1, (hsd p).2.1⟩
    · rw [if_neg (fun h => hfr h.2)]
      exact (hsd p).2.2.2.1

theorem moveAfter_perm {l : List Ptr} {m x : Ptr} (hm : m ∈ l) (hx : x ∈ l) :
    (moveAfter m x l).Perm l := by
  unfold moveAfter
  split_ifs with h
  · exact List.Perm.refl _
  · have hme : m ∈ l.erase x := (List.mem_erase_of_ne (Ne.symm h)).2 hm
    exact (insertAfter_perm x hme).trans (List.perm_cons_erase hx).symm

theorem same_cache_refl {P : Type} (w : World P) : same_cache w w :=
  ⟨rfl, rfl, rfl, rfl, rfl, rfl, fun _ => ⟨rfl, rfl⟩⟩

theorem same_cache_trans {P : Type} {w w2 w3 : World P} (a : same_cache w w2)
    (b : same_cache w2 w3) : same_cache w w3 := by
  obtain ⟨a1, a2, a3, a4, a5, a6, a7⟩ := a
  obtain ⟨b1, b2, b3, b4, b5, b6, b7⟩ := b
  exact ⟨b1.trans a1, b2.trans a2, b3.trans a3, b4.trans a4, b5.trans a5, b6.trans a6,
    fun p => ⟨(b7 p).1.trans (a7 p).1, (b7 p).2.trans (a7 p).2⟩⟩

theorem Lever_fast_rep {w : LeverState} {a : lever_abs} {s : Ptr} (hr : LeverRep w a)
    (hs : a.slow = some s) (hsl : s ∈ a.l) (hfl : marker_ok a.l a.fast) (hf : a.fast ≠ none) :
    ∃ w2, Lever_evict_fast w = .ok w2 ∧ LeverRep w2 (abs_fast s a) ∧ same_cache w w2 ∧
      (abs_fast s a).l.Perm a.l ∧ (abs_fast s a).slow = some s ∧
      marker_ok (abs_fast s a).l (abs_fast s a).fast := by
  obtain ⟨hl, hfreq, hfast, hslow⟩ := hr
  obtain ⟨f, hf2⟩ := Option.ne_none_iff_exists'.1 hf
  rw [hf2] at hfl
  have hfm : f ∈ a.l := hfl
  obtain ⟨w2, e, hl2, hs2, hf3, hsc, hfr2⟩ :=
    Lever_fast_spec hl (hfast.trans hf2) hfm (hslow.trans hs) hsl
  have hmark : ∀ l2 : List Ptr, l2.Perm a.l → marker_ok l2 (prevOf a.l f) := by
    intro l2 hp
    cases hpv : prevOf a.l f with
    | none => trivial
    | some g => exact hp.symm.subset (prevOf_mem hpv).1
  refine ⟨w2, e, ?_, hsc, ?_, ?_, ?_⟩
  · simp only [abs_fast, hf2]
    rw [hfreq f] at hl2
    by_cases h1 : a.freq f = 1
    · rw [if_pos h1] at hl2 ⊢
      refine ⟨hl2, fun p => ?_, hf3, hs2.trans hs.symm⟩
      rw [hfr2 p, hfreq f, hfreq p]
      by_cases hp : p = f
      · subst hp; simp [h1]
      · simp [hp]
    · rw [if_neg h1] at hl2 ⊢
      refine ⟨hl2, fun p => ?_, hf3, hs2.trans hs.symm⟩
      rw [hfr2 p, hfreq f, hfreq p, if_neg (fun h => h1 h.2)]
  · simp only [abs_fast, hf2]
    split_ifs
    · exact moveAfter_perm hsl hfm
    · exact List.Perm.refl _
  · simp only [abs_fast, hf2]
    split_ifs <;> exact hs
  · simp only [abs_fast, hf2]
    split_ifs
    · exact hmark _ (moveAfter_perm hsl hfm)
    · exact hmark _ (List.Perm.refl _)

theorem abs_fast_none {s : Ptr} {a : lever_abs} (h : a.fast = none) : abs_fast s a = a := by
  simp [abs_fast, h]

theorem Lever_evict_unfold (w : LeverState) :
    Lever_evict w =
      (Lever_evict_fast (w.setParams
          { q_head := w.cache.eviction_params.q_head, q_tail := w.cache.eviction_params.q_tail,
            fast := w.cache.eviction_params.fast <|> w.cache.eviction_params.q_tail,
            slow := w.cache.eviction_params.slow <|> w.cache.eviction_params.q_tail })).bind
        fun w3 =>
          (if w3.cache.eviction_params.fast = none then .ok w3
            else Lever_evict_fast w3).bind Lever_evict_slow := by
  unfold Lever_evict
  rcases w with ⟨mem, ⟨ht, n, occ, cs, md, ⟨qh, qt, fast, slow⟩⟩⟩
  cases slow <;> cases fast <;> simp

/-- Refinement: on a state whose list is `l`, non-empty, with `n_obj` its length and
both markers null or in `l`, `Lever_evict` returns, and its result is described
by `abs_evict`. -/
theorem Lever_evict_refines {w : LeverState} {l : List Ptr}
    (hl : IsList (LeverState.q w) l) (hne : l ≠ []) (hn : w.cache.n_obj = l.length)
    (hfast : marker_ok l w.cache.eviction_params.fast)
    (hslow : marker_ok l w.cache.eviction_params.slow) :
    ∃ w2 v, Lever_evict w = .ok w2 ∧ (abs_evict (Lever_abs w l)).2 = some v ∧ v ∈ l ∧
      LeverRep w2 (abs_evict (Lever_abs w l)).1 ∧
      (abs_evict (Lever_abs w l)).1.l.Perm (l.erase v) ∧
      w2.cache.n_obj = w.cache.n_obj - 1 ∧
      w2.cache.hashtable = Function.update w.cache.hashtable (w.mem.heap v).obj_id none ∧
      w2.cache.occupied_byte =
        w.cache.occupied_byte - ((w.mem.heap v).obj_size + w.cache.obj_md_size) ∧
      w2.cache.cache_size = w.cache.cache_size ∧ w2.cache.obj_md_size = w.cache.obj_md_size ∧
      w2.mem.brk = w.mem.brk ∧
      ∀ p, (w2.mem.heap p).obj_id = (w.mem.heap p).obj_id ∧
        (w2.mem.heap p).obj_size = (w.mem.heap p).obj_size := by
  obtain ⟨x, hx⟩ := List.exists_mem_of_ne_nil l hne
  obtain ⟨hd, tl, hqh, hqt, hlh, hlt, hdm, tlm, -⟩ := hl.ends hx
  have hqt2 : w.cache.eviction_params.q_tail = some tl := hqt
  -- the markers after the lazy initialisation
  obtain ⟨s, hs, hsl⟩ : ∃ s, (w.cache.eviction_params.slow <|> l.getLast?) = some s ∧ s ∈ l := by
    cases h : w.cache.eviction_params.slow with
    | none => exact ⟨tl, by simp [hlt], tlm⟩
    | some s => rw [h] at hslow; exact ⟨s, by simp, hslow⟩
  obtain ⟨f, hf, hfl⟩ : ∃ f, (w.cache.eviction_params.fast <|> l.getLast?) = some f ∧ f ∈ l := by
    cases h : w.cache.eviction_params.fast with
    | none => exact ⟨tl, by simp [hlt], tlm⟩
    | some f => rw [h] at hfast; exact ⟨f, by simp, hfast⟩
  set a0 : lever_abs := lever_abs.mk l (fun p => (w.mem.heap p).freq) (some f) (some s) with ha0
  have hr0 : LeverRep (w.setParams
      { q_head := w.cache.eviction_params.q_head, q_tail := w.cache.eviction_params.q_tail,
        fast := w.cache.eviction_params.fast <|> w.cache.eviction_params.q_tail,
        slow := w.cache.eviction_params.slow <|> w.cache.eviction_params.q_tail })
      a0 := by
    refine ⟨hl, fun p => rfl, ?_, ?_⟩
    · show (w.cache.eviction_params.fast <|> w.cache.eviction_params.q_tail) = some f
      rw [hqt2, ← hlt]; exact hf
    · show (w.cache.eviction_params.slow <|> w.cache.eviction_params.q_tail) = some s
      rw [hqt2, ← hlt]; exact hs
  have hsc0 : same_cache w (w.setParams
      { q_head := w.cache.eviction_params.q_head, q_tail := w.cache.eviction_params.q_tail,
        fast := w.cache.eviction_params.fast <|> w.cache.eviction_params.q_tail,
        slow := w.cache.eviction_params.slow <|> w.cache.eviction_params.q_tail }) :=
    ⟨rfl, rfl, rfl, rfl, rfl, rfl, fun _ => ⟨rfl, rfl⟩⟩
  obtain ⟨w1, e1, hr1, hsc1, hp1, hs1, hm1⟩ :=
    Lever_fast_rep hr0 rfl hsl (show marker_ok l (some f) from hfl) (by simp)
  -- the second pass
  set a2 : lever_abs := abs_fast s (abs_fast s a0) with ha2
  obtain ⟨w2, e2, hr2, hsc2, hp2, hs2⟩ : ∃ w2,
      (if w1.cache.eviction_params.fast = none then Res.ok w1 else Lever_evict_fast w1)
        = .ok w2 ∧
      LeverRep w2 a2 ∧
      same_cache w1 w2 ∧
      a2.l.Perm
        l ∧
      a2.slow
        = some s := by
    by_cases hfn : w1.cache.eviction_params.fast = none
    · have hfa := hr1.2.2.1.symm.trans hfn
      rw [if_pos hfn, ha2, abs_fast_none hfa]
      exact ⟨w1, rfl, hr1, same_cache_refl _, hp1, hs1⟩
    · have hfa : (abs_fast s a0).fast ≠ none := fun h => hfn (hr1.2.2.1.trans h)
      rw [if_neg hfn, ha2]
      obtain ⟨w2, e2, hr2, hsc2, hp2, hs2, -⟩ :=
        Lever_fast_rep hr1 hs1 (hp1.symm.subset hsl) hm1 hfa
      exact ⟨w2, e2, hr2, hsc2, hp2.trans hp1, hs2⟩
  have hsc := same_cache_trans (same_cache_trans hsc0 hsc1) hsc2
  obtain ⟨hl2, hfq2, hfa2, hsl2⟩ := hr2
  have hn2 : w2.cache.n_obj = a2.l.length := by
    rw [hsc.2.1, hn, hp2.length_eq]
  obtain ⟨w3, v, e3, hv, hv1, hv2, hl3, hslow3, hfast3, hn3, hht3, hocc3, hcs3, hmd3, hbrk3, hid3,
    hfq3⟩ := Lever_slow_spec hl2 (hsl2.trans hs2) (hp2.symm.subset hsl) hn2
  have hvic : abs_victim s a2 = some v := by
    unfold abs_victim
    rw [← hfq2 s]
    split_ifs with h
    · exact hv1 h
    · rw [hv2 h]
  have habs : abs_evict (Lever_abs w l) =
      ({ l := a2.l.erase v,
         freq := fun p => if p = s ∧ a2.freq s = 1
            then 0
            else a2.freq p,
         fast := a2.fast,
         slow := prevOf a2.l s },
        some v) := by
    have hvic2 : abs_victim s (abs_fast s (abs_fast s
        (lever_abs.mk l (fun p => (w.mem.heap p).freq) (some f) (some s)))) = some v := hvic
    simp only [abs_evict, Lever_abs, hs, hf, hvic2]
  refine ⟨w3, v, ?_, ?_, hp2.subset hv, ?_, ?_, ?_, ?_, ?_, ?_, ?_, ?_, ?_⟩
  · rw [Lever_evict_unfold, e1]
    simp only [Res.bind]
    rw [e2]
    exact e3
  · rw [habs]
  · rw [habs]
    refine ⟨hl3, fun p => ?_, hfast3.trans hfa2, hslow3⟩
    rw [hfq3 p, hfq2 s, hfq2 p]
  · rw [habs]
    exact hp2.erase v
  · rw [hn3, hsc.2.1]
  · rw [hht3, hsc.1, (hsc.2.2.2.2.2.2 v).1]
  · rw [hocc3, hsc.2.2.1, (hsc.2.2.2.2.2.2 v).2, hsc.2.2.2.2.1]
  · rw [hcs3, hsc.2.2.2.1]
  · rw [hmd3, hsc.2.2.2.2.1]
  · rw [hbrk3, hsc.2.2.2.2.2.1]
  · intro p
    exact ⟨(hid3 p).1.trans (hsc.2.2.2.2.2.2 p).1, (hid3 p).2.trans (hsc.2.2.2.2.2.2 p).2⟩

theorem abs_fast_freq (s : Ptr) (a : lever_abs) (p : Ptr) :
    (abs_fast s a).freq p = a.freq p ∨ (abs_fast s a).freq p = 0 := by
  unfold abs_fast
  cases a.fast with
  | none => exact Or.inl rfl
  | some f =>
    simp only
    split_ifs
    · by_cases hp : p = f
      · subst hp; right; simp
      · left; simp [hp]
    · exact Or.inl rfl

theorem abs_fast_freq_ne_one {s : Ptr} {a : lever_abs} {p : Ptr} (h : a.freq p ≠ 1) :
    (abs_fast s a).freq p ≠ 1 := by
  rcases abs_fast_freq s a p with e | e
  · rw [e]; exact h
  · rw [e]; decide

theorem abs_fast_touch {s : Ptr} {a : lever_abs} {f : Ptr} (h : a.fast = some f) :
    (abs_fast s a).freq f ≠ 1 := by
  unfold abs_fast
  rw [h]
  simp only
  split_ifs with h1
  · simp
  · exact h1

theorem abs_fast_cold {s : Ptr} {a : lever_abs} (hc : ∀ p ∈ a.l, a.freq p ≠ 1)
    (hm : marker_ok a.l a.fast) :
    (abs_fast s a).l = a.l ∧ (abs_fast s a).freq = a.freq ∧ (abs_fast s a).slow = a.slow ∧
    marker_ok a.l (abs_fast s a).fast := by
  unfold abs_fast
  cases hf : a.fast with
  | none => rw [hf] at hm; exact ⟨rfl, rfl, rfl, by rw [hf]; exact hm⟩
  | some f =>
    rw [hf] at hm
    simp only [if_neg (hc f hm), true_and]
    cases hp : prevOf a.l f with
    | none => trivial
    | some g => exact (prevOf_mem hp).1

theorem abs_evict_freq (a : lever_abs) (p : Ptr) :
    (abs_evict a).1.freq p = a.freq p ∨ (abs_evict a).1.freq p = 0 := by
  unfold abs_evict
  cases hs : (a.slow <|> a.l.getLast?) with
  | none => exact Or.inl rfl
  | some s =>
    simp only
    have h2 : ∀ b : lever_abs, b.freq = a.freq →
        (abs_fast s (abs_fast s b)).freq p = a.freq p ∨ (abs_fast s (abs_fast s b)).freq p = 0 := by
      intro b hb
      rcases abs_fast_freq s (abs_fast s b) p with e | e
      · rcases abs_fast_freq s b p with e2 | e2
        · left; rw [e, e2, hb]
        · right; rw [e, e2]
      · exact Or.inr e
    cases hv : abs_victim s (abs_fast s (abs_fast s
        ⟨a.l, a.freq, a.fast <|> a.l.getLast?, some s⟩)) with
    | none => exact h2 _ rfl
    | some v =>
      simp only
      split_ifs
      · exact Or.inr rfl
      · exact h2 _ rfl

/-- When the node at `slow` does not have `freq = 1`, or `fast` starts on the same node
as `slow`, the victim of `abs_evict` is the node at `slow`. -/
theorem abs_evict_victim {a : lever_abs} {s : Ptr} (hs : (a.slow <|> a.l.getLast?) = some s)
    (h : a.freq s ≠ 1 ∨ (a.fast <|> a.l.getLast?) = some s) :
    (abs_evict a).2 = some s := by
  have hne : (abs_fast s (abs_fast s
      ⟨a.l, a.freq, a.fast <|> a.l.getLast?, some s⟩)).freq s ≠ 1 := by
    rcases h with h | h
    · exact abs_fast_freq_ne_one (abs_fast_freq_ne_one h)
    · exact abs_fast_freq_ne_one (abs_fast_touch h)
  simp only [abs_evict, hs, abs_victim, if_neg hne]

/-- With no node at `freq = 1` and both markers null, `abs_evict` removes the tail and
keeps the order of the others. -/
theorem abs_evict_cold {a : lever_abs} {t : Ptr} (ht : a.l.getLast? = some t)
    (hc : ∀ p ∈ a.l, a.freq p ≠ 1) (hf : a.fast = none) (hs : a.slow = none) :
    (abs_evict a).2 = some t ∧ (abs_evict a).1.l = a.l.erase t := by
  have htl : t ∈ a.l := List.mem_of_getLast?_eq_some ht
  have hs2 : (a.slow <|> a.l.getLast?) = some t := by rw [hs, ht]; rfl
  have hf2 : (a.fast <|> a.l.getLast?) = some t := by rw [hf, ht]; rfl
  obtain ⟨h1, h2, h3, h4⟩ := abs_fast_cold (s := t)
    (a := ⟨a.l, a.freq, a.fast <|> a.l.getLast?, some t⟩) hc (by rw [hf2]; exact htl)
  obtain ⟨k1, k2, k3, k4⟩ := abs_fast_cold (s := t)
    (a := abs_fast t ⟨a.l, a.freq, a.fast <|> a.l.getLast?, some t⟩)
    (by rw [h1, h2]; exact hc) (by rw [h1]; exact h4)
  have hne : (abs_fast t (abs_fast t
      ⟨a.l, a.freq, a.fast <|> a.l.getLast?, some t⟩)).freq t ≠ 1 := by
    rw [k2, h2]; exact hc t htl
  simp only [abs_evict, hs2, abs_victim, if_neg hne, k1, h1, and_self]

theorem erase_getLast {l : List Ptr} (hnd : l.Nodup) {t : Ptr} (ht : l.getLast? = some t) :
    l.erase t = l.dropLast := by
  rcases List.eq_nil_or_concat l with h | ⟨l1, z, h⟩
  · subst h; simp at ht
  · rw [List.concat_eq_append] at h
    subst h
    have hz : z = t := by simpa using ht
    subst hz
    have hnm : z ∉ l1 := by
      intro hm
      have := List.nodup_append.1 hnd
      exact this.2.2 hm (List.mem_singleton_self z)
    rw [List.dropLast_concat, List.erase_append_right _ hnm]
    simp

/-- C11: from a Lever state whose list is well-formed with node sequence `l`,
non-empty, `n_obj` its length, and `fast` and `slow` each null or in `l`,
`Lever_evict` returns (no null marker is dereferenced, no assertion fails) and
removes exactly one node `v`: the remaining nodes form a well-formed list,
`n_obj` has decreased by one, every `freq` is what it was or 0, so all remaining
nodes have `freq` in {0, 1} when all nodes had before. -/
theorem C11_lever_evict_step (w : LeverState) (l : List Ptr)
    (hwf : well_formed (LeverState.q w) l) (hne : l ≠ []) (hn : w.cache.n_obj = l.length)
    (hfast : marker_ok l w.cache.eviction_params.fast)
    (hslow : marker_ok l w.cache.eviction_params.slow) :
    ∃ w2 v l2, Lever_evict w = .ok w2 ∧ v ∈ l ∧ l2.Perm (l.erase v) ∧
      well_formed (LeverState.q w2) l2 ∧
      w2.cache.n_obj = w.cache.n_obj - 1 ∧ w2.cache.n_obj = l2.length ∧
      (∀ p, (w2.mem.heap p).freq = (w.mem.heap p).freq ∨ (w2.mem.heap p).freq = 0) ∧
      ((∀ p ∈ l, (w.mem.heap p).freq ≤ 1) → ∀ p ∈ l2, (w2.mem.heap p).freq ≤ 1) := by
  have hl := (well_formed_iff_isList _ l).1 hwf
  obtain ⟨w2, v, e, -, hv, hr, hp, hn2, -⟩ := Lever_evict_refines hl hne hn hfast hslow
  have hfq : ∀ p, (w2.mem.heap p).freq = (w.mem.heap p).freq ∨ (w2.mem.heap p).freq = 0 := by
    intro p
    rw [hr.2.1 p]
    exact abs_evict_freq (Lever_abs w l) p
  have hlen : (l.erase v).length = l.length - 1 := List.length_erase_of_mem hv
  have hpos : 0 < l.length := List.length_pos.2 hne
  refine ⟨w2, v, _, e, hv, hp, (well_formed_iff_isList _ _).2 hr.1, hn2, ?_, hfq, ?_⟩
  · rw [hn2, hn, hp.length_eq, hlen]
    omega
  · intro hle p hp2
    have hpl : p ∈ l := List.mem_of_mem_erase (hp.subset hp2)
    rcases hfq p with h | h
    · rw [h]; exact hle p hpl
    · rw [h]; exact Nat.zero_le _

theorem C11_witness :
    ∃ w2 v l2, Lever_evict Lever_warm = .ok w2 ∧ v ∈ [3, 2, 1] ∧
      l2.Perm (([3, 2, 1] : List Ptr).erase v) ∧
      well_formed (LeverState.q w2) l2 ∧
      w2.cache.n_obj = Lever_warm.cache.n_obj - 1 ∧ w2.cache.n_obj = l2.length ∧
      ∀ p ∈ l2, (w2.mem.heap p).freq ≤ 1 := by
  obtain ⟨w2, v, l2, h1, h2, h3, h4, h5, h6, -, h8⟩ :=
    C11_lever_evict_step Lever_warm [3, 2, 1] (by decide!) (by decide) (by decide!)
      (by decide!) (by decide!)
  exact ⟨w2, v, l2, h1, h2, h3, h4, h5, h6, h8 (by decide!)⟩

/-- C14: from a Lever state whose list holds `N >= 1` nodes (node sequence `l`), all
with `freq = 0`, and whose `fast` and `slow` are null, `Lever_evict` returns and
removes exactly the tail node: the list afterwards is `l` without its last node, in
the same order; and at capacity 3 with unit sizes the gets A B C D (keys 1 2 3 4)
all miss and leave the list D, C, B from head to tail. -/
theorem C14_lever_quick_demotion (w : LeverState) (l : List Ptr)
    (hwf : well_formed (LeverState.q w) l) (hne : l ≠ []) (hn : w.cache.n_obj = l.length)
    (hfreq : ∀ p ∈ l, (w.mem.heap p).freq = 0)
    (hfast : w.cache.eviction_params.fast = none)
    (hslow : w.cache.eviction_params.slow = none) :
    (∃ w2 t, l.getLast? = some t ∧ Lever_evict w = .ok w2 ∧
      well_formed (LeverState.q w2) l.dropLast ∧ w2.cache.n_obj = w.cache.n_obj - 1 ∧
      w2.cache.hashtable = Function.update w.cache.hashtable (w.mem.heap t).obj_id none) ∧
    (run_gets (Lever_get 1) [1, 2, 3, 4]
        (Lever_init { cache_size := 3, consider_obj_metadata := false })).holds
      (fun r => r.2 = [false, false, false, false] ∧ Lever_keys r.1 = [4, 3, 2]) := by
  refine ⟨?_, by decide!⟩
  have hl := (well_formed_iff_isList _ l).1 hwf
  obtain ⟨x, hx⟩ := List.exists_mem_of_ne_nil l hne
  obtain ⟨hd, tl, -, -, -, hlt, -⟩ := hl.ends hx
  obtain ⟨w2, v, e, hv2, hv, hr, hp, hn2, hht, -⟩ :=
    Lever_evict_refines hl hne hn (by rw [hfast]; trivial) (by rw [hslow]; trivial)
  obtain ⟨c1, c2⟩ := abs_evict_cold (a := Lever_abs w l) hlt
    (fun p hp => by
      show (w.mem.heap p).freq ≠ 1
      rw [hfreq p hp]; decide)
    hfast hslow
  have hvt : v = tl := by
    rw [c1] at hv2
    exact (Option.some.inj hv2).symm
  subst hvt
  have hl2 := hr.1
  rw [c2] at hl2
  have e2 : (Lever_abs w l).l.erase v = l.dropLast := erase_getLast hl.1 hlt
  rw [e2] at hl2
  exact ⟨w2, v, hlt, e, (well_formed_iff_isList _ _).2 hl2, hn2, hht⟩

theorem C14_witness :
    (∃ w2 t, ([2, 1, 0] : List Ptr).getLast? = some t ∧ Lever_evict Lever_cold = .ok w2 ∧
      well_formed (LeverState.q w2) ([2, 1, 0] : List Ptr).dropLast ∧
      w2.cache.n_obj = Lever_cold.cache.n_obj - 1 ∧
      w2.cache.hashtable =
        Function.update Lever_cold.cache.hashtable (Lever_cold.mem.heap t).obj_id none) ∧
    (run_gets (Lever_get 1) [1, 2, 3, 4]
        (Lever_init { cache_size := 3, consider_obj_metadata := false })).holds
      (fun r => r.2 = [false, false, false, false] ∧ Lever_keys r.1 = [4, 3, 2]) :=
  C14_lever_quick_demotion Lever_cold [2, 1, 0] (by decide!) (by decide) (by decide!)
    (by decide!) (by decide!) (by decide!)

/-- C17 (as stated, refuted): at capacity 3 after the gets 1 2 2 3 3 4 the list is
well-formed with nodes 3, 2, 1 (keys 4, 3, 2) and both markers are at node 2, which
has `freq = 1`; `Lever_to_evict` returns the tail, node 1, but `Lever_evict`
removes node 2 and node 1 stays in the list. -/
theorem C17_lever_to_evict_refuted :
    well_formed (LeverState.q Lever_warm) [3, 2, 1] ∧
    marker_ok [3, 2, 1] Lever_warm.cache.eviction_params.fast ∧
    marker_ok [3, 2, 1] Lever_warm.cache.eviction_params.slow ∧
    Lever_to_evict Lever_warm = some 1 ∧
    (Lever_evict Lever_warm).holds (fun w2 => Lever_nodes w2 = [3, 1]) := by
  decide!

/-- C17 (amended): `Lever_to_evict` writes nothing and returns `slow` if it is non-null
with `freq = 0`, else `q_tail`.  On a well-formed non-empty list with `n_obj` its
length and valid markers, that node is the one an immediately following
`Lever_evict` removes whenever `slow` is non-null with `freq = 0`, and whenever
`fast` and `slow` are both null. -/
theorem C17_lever_to_evict_amended (w : LeverState) (l : List Ptr)
    (hwf : well_formed (LeverState.q w) l) (hne : l ≠ []) (hn : w.cache.n_obj = l.length)
    (hfast : marker_ok l w.cache.eviction_params.fast)
    (hslow : marker_ok l w.cache.eviction_params.slow)
    (hcase : (∃ s, w.cache.eviction_params.slow = some s ∧ (w.mem.heap s).freq = 0) ∨
      (w.cache.eviction_params.slow = none ∧ w.cache.eviction_params.fast = none)) :
    ∃ v w2 l2, Lever_to_evict w = some v ∧ v ∈ l ∧ Lever_evict w = .ok w2 ∧
      well_formed (LeverState.q w2) l2 ∧ l2.Perm (l.erase v) ∧ v ∉ l2 := by
  have hl := (well_formed_iff_isList _ l).1 hwf
  obtain ⟨x, hx⟩ := List.exists_mem_of_ne_nil l hne
  obtain ⟨hd, tl, -, hqt, -, hlt, -⟩ := hl.ends hx
  have hqt2 : w.cache.eviction_params.q_tail = some tl := hqt
  obtain ⟨w2, v, e, hv2, hv, hr, hp, -⟩ := Lever_evict_refines hl hne hn hfast hslow
  have hnot : v ∉ (abs_evict (Lever_abs w l)).1.l := fun hm =>
    not_mem_erase_self hl.1 v (hp.subset hm)
  rcases hcase with ⟨s, hs, hf0⟩ | ⟨hs, hf⟩
  · have hvic := abs_evict_victim (a := Lever_abs w l) (s := s)
      (by show (w.cache.eviction_params.slow <|> l.getLast?) = some s; rw [hs]; rfl)
      (Or.inl (by show (w.mem.heap s).freq ≠ 1; rw [hf0]; decide))
    rw [hvic] at hv2
    have hvs : s = v := Option.some.inj hv2
    subst hvs
    refine ⟨s, w2, _, ?_, hv, e, (well_formed_iff_isList _ _).2 hr.1, hp, hnot⟩
    simp [Lever_to_evict, hs, hf0]
  · have hvic := abs_evict_victim (a := Lever_abs w l) (s := tl)
      (by show (w.cache.eviction_params.slow <|> l.getLast?) = some tl; rw [hs, hlt]; rfl)
      (Or.inr (by show (w.cache.eviction_params.fast <|> l.getLast?) = some tl; rw [hf, hlt]; rfl))
    rw [hvic] at hv2
    have hvs : tl = v := Option.some.inj hv2
    subst hvs
    refine ⟨tl, w2, _, ?_, hv, e, (well_formed_iff_isList _ _).2 hr.1, hp, hnot⟩
    simp [Lever_to_evict, hs, hqt2]

theorem C17_witness :
    (∃ v w2 l2, Lever_to_evict Lever_next = some v ∧ v ∈ [3, 2, 1] ∧
      Lever_evict Lever_next = .ok w2 ∧
      well_formed (LeverState.q w2) l2 ∧ l2.Perm (([3, 2, 1] : List Ptr).erase v) ∧ v ∉ l2) ∧
    Lever_to_evict Lever_next = some 1 :=
  ⟨C17_lever_to_evict_amended Lever_next [3, 2, 1] (by decide!) (by decide) (by decide!)
    (by decide!) (by decide!) (Or.inl ⟨1, by decide!, by decide!⟩), by decide!⟩

/-- C15: at capacity 3 with unit sizes the gets A B C A D (keys 1 2 3 1 4) return
miss, miss, miss, hit, miss; before the get of D the residents are A, C, B, and
the eviction triggered by D removes B, leaving the resident set {A, C, D}. -/
theorem C15_sieve_survivorship :
    (run_gets (ShiftSieve_get 3) [1, 2, 3, 1]
        (ShiftSieve_init { cache_size := 3, consider_obj_metadata := false })).holds
      (fun r => Sieve_keys r.1 = [1, 3, 2] ∧
        (ShiftSieve_get 3 r.1 (unit_req 4)).holds (fun r2 =>
          r2.2 = false ∧ same_set (Sieve_keys r2.1) [1, 3, 4] ∧ r2.1.cache.n_obj = 3 ∧
          r2.1.cache.hashtable 2 = none)) ∧
    (run_gets (ShiftSieve_get 3) [1, 2, 3, 1, 4]
        (ShiftSieve_init { cache_size := 3, consider_obj_metadata := false })).holds
      (fun r => r.2 = [false, false, false, true, false] ∧
        same_set (Sieve_keys r.1) [1, 3, 4]) := by
  decide!

theorem status_survived_keep (s : Nat) :
    (s &&& NOT_VISITED_MASK) &&& SURVIVED_MASK = s &&& SURVIVED_MASK := by
  rw [Nat.land_assoc]
  show s &&& (4294967294 &&& 2) = s &&& 2
  rfl

theorem clear_visited_cons (h : Heap) (x : Ptr) (ps : List Ptr) :
    clear_visited h (x :: ps) =
      clear_visited (setStatus h x ((h x).status &&& NOT_VISITED_MASK)) ps := rfl

theorem clear_visited_not_mem (ps : List Ptr) :
    ∀ (h : Heap) (p : Ptr), p ∉ ps → clear_visited h ps p = h p := by
  induction ps with
  | nil => intro h p _; rfl
  | cons x t ih =>
    intro h p hp
    rw [clear_visited_cons, ih _ _ (fun hm => hp (List.mem_cons_of_mem _ hm))]
    have hpx : p ≠ x := fun e => hp (e ▸ List.mem_cons_self _ _)
    simp [setStatus, Function.update, hpx]

theorem clear_visited_mem (ps : List Ptr) :
    ∀ (h : Heap) (p : Ptr), ps.Nodup → p ∈ ps →
      (clear_visited h ps p).status = (h p).status &&& NOT_VISITED_MASK := by
  induction ps with
  | nil => intro h p _ hp; simp at hp
  | cons x t ih =>
    intro h p hnd hp
    have hx := (List.nodup_cons.1 hnd).1
    have ht := (List.nodup_cons.1 hnd).2
    rw [clear_visited_cons]
    rcases List.mem_cons.1 hp with e | e
    · subst e
      rw [clear_visited_not_mem t _ _ hx]
      simp
    · rw [ih _ _ ht e]
      have hpx : p ≠ x := fun e2 => hx (e2 ▸ e)
      simp [hpx]

theorem clear_visited_same (ps : List Ptr) :
    ∀ h : Heap, same_but_status h (clear_visited h ps) := by
  induction ps with
  | nil => intro h; exact same_but_status.refl h
  | cons x t ih =>
    intro h
    rw [clear_visited_cons]
    exact (same_but_status_setStatus h x _).trans (ih _)

theorem path_congr {f g : Ptr → Option Ptr} (hfg : ∀ p, f p = g p) :
    ∀ (l : List Ptr) (o : Option Ptr), path f o l → path g o l
  | [], _, h => h
  | x :: t, o, h => ⟨h.1, by rw [← hfg x]; exact path_congr hfg t _ h.2⟩

/-- One iteration of the scan on a node with VISITED and SURVIVED set while `hot = 0`. -/
theorem scan_step_hot (n : Int) (tl : Option Ptr) (fuel : Nat) (h : Heap) (x : Ptr) (k : Int)
    (hv : (h x).status &&& VISITED_MASK ≠ 0) (hs : (h x).status &&& SURVIVED_MASK ≠ 0) :
    ShiftSieve_scan n tl (fuel + 1) (scan_t.mk h (some x) k 0) =
      ShiftSieve_scan n tl fuel
        (if n - (k + 1) ≤ 0 then
          scan_t.mk (setStatus h x ((h x).status &&& NOT_VISITED_MASK)) tl 0 0
        else scan_t.mk (setStatus h x ((h x).status &&& NOT_VISITED_MASK)) (h x).prev (k + 1) 0) := by
  have hs2 : ¬ ((setStatus h x ((h x).status &&& NOT_VISITED_MASK)) x).status
      &&& SURVIVED_MASK = 0 := by
    simp only [setStatus_status, if_true]
    rw [status_survived_keep]
    exact hs
  rw [ShiftSieve_scan]
  simp only [if_pos hv, if_neg hs2, setStatus_prev]
  congr 1

/-- Walking over a run of nodes that all have VISITED and SURVIVED set, up to and
including the head, ends with the restart at `q_tail`. -/
theorem scan_all_hot (n : Int) (tl : Option Ptr) :
    ∀ (rl : List Ptr) (h : Heap) (obj : Option Ptr) (k : Nat), rl ≠ [] → rl.Nodup →
      path (fun p => (h p).prev) obj rl →
      (∀ p ∈ rl, (h p).status &&& VISITED_MASK ≠ 0 ∧ (h p).status &&& SURVIVED_MASK ≠ 0) →
      n = k + rl.length →
      ∀ fuel, ShiftSieve_scan n tl (fuel + rl.length) (scan_t.mk h obj k 0) =
        ShiftSieve_scan n tl fuel (scan_t.mk (clear_visited h rl) tl 0 0) := by
  intro rl
  induction rl with
  | nil => intro h obj k hne; exact absurd rfl hne
  | cons x t ih =>
    intro h obj k _ hnd hpath hst hn fuel
    have hx := (List.nodup_cons.1 hnd).1
    have ht := (List.nodup_cons.1 hnd).2
    obtain ⟨ho, hp2⟩ := hpath
    subst ho
    have hbits := hst x (List.mem_cons_self _ _)
    rw [List.length_cons, ← Nat.add_assoc, scan_step_hot n tl _ h x k hbits.1 hbits.2,
      clear_visited_cons]
    by_cases hte : t = []
    · subst hte
      have : n - ((k : Int) + 1) ≤ 0 := by
        rw [hn]; simp
      rw [if_pos this]
      rfl
    · have hpos : 0 < t.length := List.length_pos.2 hte
      have : ¬ n - ((k : Int) + 1) ≤ 0 := by
        rw [hn]; simp only [List.length_cons]; push_cast; omega
      rw [if_neg this]
      have := ih (setStatus h x ((h x).status &&& NOT_VISITED_MASK)) (h x).prev (k + 1) hte ht
        (path_congr (fun p => by simp) t _ hp2)
        (fun p hp => by
          have hpx : p ≠ x := fun e => hx (e ▸ hp)
          have := hst p (List.mem_cons_of_mem _ hp)
          simpa [hpx] using this)
        (by rw [hn]; simp only [List.length_cons]; push_cast; omega) fuel
      rw [← this]
      rfl

theorem scan_stop (n : Int) (tl : Option Ptr) (fuel : Nat) (h : Heap) (x : Ptr) (k hot : Int)
    (hv : (h x).status &&& VISITED_MASK = 0) :
    ShiftSieve_scan n tl fuel (scan_t.mk h (some x) k hot) =
      .ok (scan_t.mk h (some x) k hot, x) := by
  rw [ShiftSieve_scan]
  simp only [hv, ne_eq, not_true_eq_false, if_false]

/-- C16: from a ShiftSieve state whose list is well-formed with `n_obj = n >= 1` nodes,
`pointer` null and VISITED and SURVIVED set on every node, the scan walks all `n`
nodes from the tail clearing VISITED; only then (the walk has passed the head) does
`n_obj - right <= hot / 2` hold, so the scan is back at `q_tail` with
`right = hot = 0`; the victim is the original tail, and `evict` removes it. -/
theorem C16_sieve_restart (w : SieveState) (l : List Ptr) (fuel : Nat)
    (hwf : well_formed (SieveState.q w) l) (hne : l ≠ []) (hn : w.cache.n_obj = l.length)
    (hp : w.cache.eviction_params.pointer = none)
    (hst : ∀ p ∈ l, (w.mem.heap p).status &&& VISITED_MASK ≠ 0 ∧
      (w.mem.heap p).status &&& SURVIVED_MASK ≠ 0)
    (hfuel : l.length ≤ fuel) :
    ∃ t, l.getLast? = some t ∧ w.cache.eviction_params.q_tail = some t ∧
      ShiftSieve_scan w.cache.n_obj (some t) fuel (scan_t.mk w.mem.heap (some t) 0 0) =
        ShiftSieve_scan w.cache.n_obj (some t) (fuel - l.length)
          (scan_t.mk (clear_visited w.mem.heap l.reverse) (some t) 0 0) ∧
      (∀ p ∈ l, (clear_visited w.mem.heap l.reverse p).status =
          (w.mem.heap p).status &&& NOT_VISITED_MASK ∧
        (clear_visited w.mem.heap l.reverse p).status &&& VISITED_MASK = 0) ∧
      (∃ w2, ShiftSieve_select fuel w = .ok (w2, t) ∧
        w2.mem.heap = clear_visited w.mem.heap l.reverse ∧
        w2.cache.eviction_params.right = 0 ∧ w2.cache.eviction_params.hot = 0) ∧
      ∃ w3, ShiftSieve_evict fuel w = .ok w3 ∧ well_formed (SieveState.q w3) l.dropLast ∧
        w3.cache.n_obj = w.cache.n_obj - 1 := by
  have hl := (well_formed_iff_isList _ l).1 hwf
  obtain ⟨x, hx⟩ := List.exists_mem_of_ne_nil l hne
  obtain ⟨hd, t, -, hqt, -, hlt, -, htl, -⟩ := hl.ends hx
  have hqt2 : w.cache.eviction_params.q_tail = some t := hqt
  have hpath : path (fun p => (w.mem.heap p).prev) (some t) l.reverse := by
    have := hwf.2.2.2.2.2
    rw [show (SieveState.q w).tail = some t from hqt] at this
    exact this
  have hrne : l.reverse ≠ [] := fun e => hne (List.reverse_eq_nil_iff.1 e)
  have hrnd : l.reverse.Nodup := List.nodup_reverse.2 hl.1
  have hclear : ∀ p ∈ l, (clear_visited w.mem.heap l.reverse p).status =
      (w.mem.heap p).status &&& NOT_VISITED_MASK ∧
      (clear_visited w.mem.heap l.reverse p).status &&& VISITED_MASK = 0 := by
    intro p hpl
    have := clear_visited_mem l.reverse w.mem.heap p hrnd (List.mem_reverse.2 hpl)
    exact ⟨this, by rw [this, and_not_visited_visited]⟩
  have hscan : ShiftSieve_scan w.cache.n_obj (some t) fuel (scan_t.mk w.mem.heap (some t) 0 0) =
      ShiftSieve_scan w.cache.n_obj (some t) (fuel - l.length)
        (scan_t.mk (clear_visited w.mem.heap l.reverse) (some t) 0 0) := by
    have := scan_all_hot w.cache.n_obj (some t) l.reverse w.mem.heap (some t) 0 hrne hrnd hpath
      (fun p hp => hst p (List.mem_reverse.1 hp)) (by rw [hn]; simp) (fuel - l.length)
    rw [List.length_reverse, Nat.sub_add_cancel hfuel] at this
    exact this
  have hsel : ShiftSieve_select fuel w = .ok
      ((w.setHeap (clear_visited w.mem.heap l.reverse)).setParams
        { w.cache.eviction_params with
          right := 0, hot := 0, pointer := (clear_visited w.mem.heap l.reverse t).prev }, t) := by
    simp only [ShiftSieve_select, hp, hqt2]
    have e := hscan
    rw [scan_stop _ _ _ _ _ _ _ (hclear t htl).2] at e
    rw [e]
    rfl
  refine ⟨t, hlt, hqt2, hscan, hclear, ⟨_, hsel, rfl, rfl, rfl⟩, ?_⟩
  have hl2 : IsList (dlist.mk (clear_visited w.mem.heap l.reverse)
      w.cache.eviction_params.q_head w.cache.eviction_params.q_tail) l :=
    IsList.relink (q := SieveState.q w) hl (fun y _ =>
      ⟨(clear_visited_same l.reverse w.mem.heap y).1, (clear_visited_same l.reverse w.mem.heap y).2.1⟩)
  have hrm := remove_isList hl2 htl
  rw [erase_getLast hl.1 hlt] at hrm
  simp only [ShiftSieve_evict, hsel, Res.bind]
  exact ⟨_, rfl, (well_formed_iff_isList _ _).2 hrm, rfl⟩

theorem C16_witness :
    ∃ t, ([3, 2, 1, 0] : List Ptr).getLast? = some t ∧
      Sieve_hot4.cache.eviction_params.q_tail = some t ∧
      ShiftSieve_scan Sieve_hot4.cache.n_obj (some t) 4
          (scan_t.mk Sieve_hot4.mem.heap (some t) 0 0) =
        ShiftSieve_scan Sieve_hot4.cache.n_obj (some t) (4 - ([3, 2, 1, 0] : List Ptr).length)
          (scan_t.mk (clear_visited Sieve_hot4.mem.heap ([3, 2, 1, 0] : List Ptr).reverse)
            (some t) 0 0) ∧
      (∀ p ∈ ([3, 2, 1, 0] : List Ptr),
        (clear_visited Sieve_hot4.mem.heap ([3, 2, 1, 0] : List Ptr).reverse p).status =
          (Sieve_hot4.mem.heap p).status &&& NOT_VISITED_MASK ∧
        (clear_visited Sieve_hot4.mem.heap ([3, 2, 1, 0] : List Ptr).reverse p).status
          &&& VISITED_MASK = 0) ∧
      (∃ w2, ShiftSieve_select 4 Sieve_hot4 = .ok (w2, t) ∧
        w2.mem.heap = clear_visited Sieve_hot4.mem.heap ([3, 2, 1, 0] : List Ptr).reverse ∧
        w2.cache.eviction_params.right = 0 ∧ w2.cache.eviction_params.hot = 0) ∧
      ∃ w3, ShiftSieve_evict 4 Sieve_hot4 = .ok w3 ∧
        well_formed (SieveState.q w3) ([3, 2, 1, 0] : List Ptr).dropLast ∧
        w3.cache.n_obj = Sieve_hot4.cache.n_obj - 1 :=
  C16_sieve_restart Sieve_hot4 [3, 2, 1, 0] 4 (by decide) (by decide) (by decide) (by decide)
    (by decide) (by decide)

theorem Inv.ht_update_self {h : Heap} {brk : Ptr} {ht : Nat → Option Ptr} {n : Int}
    {head tail : Option Ptr} {l : List Ptr} (hi : Inv h brk ht n head tail l) {k : Nat} {v : Ptr}
    (hk : ht k = some v) : v ∈ l ∧ (h v).obj_id = k :=
  (hi.2.2.1 k v).1 hk

theorem Lever_remove_hit {w : LeverState} {l : List Ptr} (hi : LeverInv w l) {k : Nat} {v : Ptr}
    (hk : w.cache.hashtable k = some v) :
    v ∈ l ∧ (Lever_remove w k).2 = true ∧ LeverInv (Lever_remove w k).1 (l.erase v) ∧
    (Lever_remove w k).1.cache.hashtable = Function.update w.cache.hashtable k none ∧
    (Lever_remove w k).1.cache.n_obj = w.cache.n_obj - 1 ∧
    (Lever_remove w k).1.cache.occupied_byte =
      w.cache.occupied_byte - ((w.mem.heap v).obj_size + w.cache.obj_md_size) ∧
    (Lever_remove w k).1.cache.cache_size = w.cache.cache_size ∧
    (Lever_remove w k).1.cache.obj_md_size = w.cache.obj_md_size := by
  obtain ⟨hv, hid⟩ := Inv.ht_update_self hi hk
  have hrm := Inv.remove hi hv
  obtain ⟨hsd, -⟩ := remove_frame hi hv
  have hid2 : ((remove_obj_from_list (dlist.mk w.mem.heap w.cache.eviction_params.q_head
      w.cache.eviction_params.q_tail) v).heap v).obj_id = k := by
    rw [(hsd v).1]; exact hid
  have e : Lever_remove w k = (Lever_remove_obj w v, true) := by
    simp only [Lever_remove, hashtable_find_obj_id, hk]
  rw [e]
  have hq : ∀ p2 : Lever_params_t, p2.q_head = w.cache.eviction_params.q_head →
      p2.q_tail = w.cache.eviction_params.q_tail →
      LeverState.q (w.setParams p2) = dlist.mk w.mem.heap w.cache.eviction_params.q_head
        w.cache.eviction_params.q_tail := by
    intro p2 h1 h2
    simp [LeverState.q, World.setParams, h1, h2]
  refine ⟨hv, rfl, ?_, ?_, ?_, ?_, ?_, ?_⟩
  all_goals
    simp only [Lever_remove_obj]
    rw [hq _ (by split_ifs <;> rfl) (by split_ifs <;> rfl)]
  · exact hrm
  · simp only [cache_remove_obj_base, LeverState.setQ, World.setParams, World.setHeap, hid2]
  · rfl
  · simp only [cache_remove_obj_base, LeverState.setQ, World.setParams, World.setHeap,
      (hsd v).2.1]
  · rfl
  · rfl

theorem Sieve_remove_hit {w : SieveState} {l : List Ptr} (hi : SieveList w l) {k : Nat} {v : Ptr}
    (hk : w.cache.hashtable k = some v) :
    v ∈ l ∧ (ShiftSieve_remove w k).2 = true ∧ SieveList (ShiftSieve_remove w k).1 (l.erase v) ∧
    (ShiftSieve_remove w k).1.cache.hashtable = Function.update w.cache.hashtable k none ∧
    (ShiftSieve_remove w k).1.cache.n_obj = w.cache.n_obj - 1 ∧
    (ShiftSieve_remove w k).1.cache.occupied_byte =
      w.cache.occupied_byte - ((w.mem.heap v).obj_size + w.cache.obj_md_size) ∧
    (ShiftSieve_remove w k).1.cache.cache_size = w.cache.cache_size ∧
    (ShiftSieve_remove w k).1.cache.obj_md_size = w.cache.obj_md_size := by
  obtain ⟨hv, hid⟩ := Inv.ht_update_self hi hk
  have hrm := Inv.remove hi hv
  obtain ⟨hsd, -⟩ := remove_frame hi hv
  have hid2 : ((remove_obj_from_list (dlist.mk w.mem.heap w.cache.eviction_params.q_head
      w.cache.eviction_params.q_tail) v).heap v).obj_id = k := by
    rw [(hsd v).1]; exact hid
  have e : ShiftSieve_remove w k = (ShiftSieve_remove_obj w v, true) := by
    simp only [ShiftSieve_remove, hashtable_find_obj_id, hk]
  rw [e]
  have hq : ∀ p2 : ShiftSieve_params_t, p2.q_head = w.cache.eviction_params.q_head →
      p2.q_tail = w.cache.eviction_params.q_tail →
      SieveState.q (w.setParams p2) = dlist.mk w.mem.heap w.cache.eviction_params.q_head
        w.cache.eviction_params.q_tail := by
    intro p2 h1 h2
    simp [SieveState.q, World.setParams, h1, h2]
  have hq2 : SieveState.q (if some v = w.cache.eviction_params.pointer then
        w.setParams { w.cache.eviction_params with pointer := (w.mem.heap v).prev }
      else w) = dlist.mk w.mem.heap w.cache.eviction_params.q_head
        w.cache.eviction_params.q_tail := by
    split_ifs
    · exact hq _ rfl rfl
    · rfl
  refine ⟨hv, rfl, ?_, ?_, ?_, ?_, ?_, ?_⟩
  all_goals
    simp only [ShiftSieve_remove_obj]
    rw [hq2]
  · split_ifs <;> exact hrm
  · split_ifs <;>
      simp only [cache_remove_obj_base, SieveState.setQ, World.setParams, World.setHeap, hid2]
  · split_ifs <;> rfl
  · split_ifs <;>
      simp only [cache_remove_obj_base, SieveState.setQ, World.setParams, World.setHeap,
        (hsd v).2.1]
  · split_ifs <;> rfl
  · split_ifs <;> rfl

theorem run_gets_foldl {S : Type} (get : S → request_t → Res (S × Bool)) :
    ∀ (ks : List Nat) (s s2 : S) (bs : List Bool), run_gets get ks s = .ok (s2, bs) →
      ks.foldl (get_or_stay get) s = s2 := by
  intro ks
  induction ks with
  | nil =>
    intro s s2 bs h
    simp only [run_gets, Res.ok.injEq, Prod.mk.injEq] at h
    exact h.1
  | cons k t ih =>
    intro s s2 bs h
    simp only [run_gets] at h
    cases hg : get s (unit_req k) with
    | ok r =>
      rw [hg] at h
      simp only [Res.bind] at h
      cases hr : run_gets get t r.1 with
      | ok r2 =>
        rw [hr] at h
        simp only [Res.bind, Res.ok.injEq, Prod.mk.injEq] at h
        simp only [List.foldl_cons, get_or_stay, hg]
        rw [ih r.1 r2.1 r2.2 hr]
        exact h.1
      | fault => rw [hr] at h; cases h
      | timeout => rw [hr] at h; cases h
    | fault => rw [hg] at h; cases h
    | timeout => rw [hg] at h; cases h

/-- Filling a fresh Lever cache with distinct unit keys, no more than its capacity,
gives a state that satisfies the invariant. -/
theorem Lever_fill_inv (N : Nat) (ks : List Nat) (hnd : ks.Nodup) (hlen : ks.length ≤ N)
    (fuel : Nat) :
    LeverInv (Lever_run fuel ks (Lever_init { cache_size := N, consider_obj_metadata := false }))
      (Lever_nodes (Lever_run fuel ks
        (Lever_init { cache_size := N, consider_obj_metadata := false }))) := by
  have hfill := run_gets_fill (Lever_get fuel)
    (fun w ds => ∃ l, LeverInv w l ∧
      Filled w.mem.heap w.cache.occupied_byte w.cache.cache_size
        w.cache.obj_md_size l N ds) N
    (by
      rintro w ds k ⟨l, hi, hkeys, hocc, hmd, hcap⟩ hk hlt
      have hres : w.cache.hashtable k = none := by
        by_contra hne
        exact hk (hkeys ▸ (hi.resident_iff k).1 hne)
      obtain ⟨w2, hg, hi2, hid, hids, ho, hm, hc⟩ := Lever_get_miss hi k hres
        (by rw [hocc, hmd, hcap]; omega) fuel
      refine ⟨w2, hg, _, hi2, ?_, ?_, by rw [hm, hmd], by rw [hc, hcap]⟩
      · rw [List.map_cons, hid, ← hkeys]
        congr 1
        exact List.map_congr_left hids
      · rw [ho, hocc, hmd]; simp)
    ks [] (Lever_init { cache_size := N, consider_obj_metadata := false })
    ⟨[], ⟨⟨List.nodup_nil, rfl, rfl, by simp⟩, by simp, by simp [Lever_init, cache_struct_init],
        rfl⟩,
      rfl, rfl, rfl, rfl⟩
    hnd (by simp) (by simpa using hlen)
  obtain ⟨w1, hr1, l, hi1, -⟩ := hfill
  have e : Lever_run fuel ks (Lever_init { cache_size := N, consider_obj_metadata := false })
      = w1 := run_gets_foldl (Lever_get fuel) ks _ _ _ hr1
  rw [e, (Lever_keys_eq hi1).1]
  exact hi1

theorem Sieve_reach_list {cp : common_cache_params_t} {w : SieveState}
    (h : SieveReachAll cp w) : SieveList w (Sieve_nodes w) := by
  obtain ⟨l, hi⟩ := h.inv
  rw [Sieve_nodes_eq hi]
  exact hi.1

/-- C19: `remove` on a Lever or ShiftSieve state whose list, index and `n_obj` agree
(node sequence `ll`, `ls`).  If the key is resident at node `v`, `remove` returns
true, afterwards `find` without update returns null, `n_obj` is one less,
`occupied_byte` is less by `obj_size + obj_md_size` of `v`, and the list is the old
sequence with `v` erased; if the key is not resident, `remove` returns false and
the state is unchanged. -/
theorem C19_remove (wl : LeverState) (ll : List Ptr) (ws : SieveState) (ls : List Ptr)
    (req : request_t) (hl : LeverInv wl ll) (hs : SieveList ws ls) :
    (∀ v, wl.cache.hashtable req.obj_id = some v →
      v ∈ ll ∧ (Lever_remove wl req.obj_id).2 = true ∧
      (Lever_find (Lever_remove wl req.obj_id).1 req false).2 = none ∧
      (Lever_remove wl req.obj_id).1.cache.n_obj = wl.cache.n_obj - 1 ∧
      (Lever_remove wl req.obj_id).1.cache.occupied_byte =
        wl.cache.occupied_byte - ((wl.mem.heap v).obj_size + wl.cache.obj_md_size) ∧
      well_formed (LeverState.q (Lever_remove wl req.obj_id).1) (ll.erase v)) ∧
    (wl.cache.hashtable req.obj_id = none → Lever_remove wl req.obj_id = (wl, false)) ∧
    (∀ v, ws.cache.hashtable req.obj_id = some v →
      v ∈ ls ∧ (ShiftSieve_remove ws req.obj_id).2 = true ∧
      ShiftSieve_find (ShiftSieve_remove ws req.obj_id).1 req false =
        .ok ((ShiftSieve_remove ws req.obj_id).1, none) ∧
      (ShiftSieve_remove ws req.obj_id).1.cache.n_obj = ws.cache.n_obj - 1 ∧
      (ShiftSieve_remove ws req.obj_id).1.cache.occupied_byte =
        ws.cache.occupied_byte - ((ws.mem.heap v).obj_size + ws.cache.obj_md_size) ∧
      well_formed (SieveState.q (ShiftSieve_remove ws req.obj_id).1) (ls.erase v)) ∧
    (ws.cache.hashtable req.obj_id = none →
      ShiftSieve_remove ws req.obj_id = (ws, false)) := by
  refine ⟨fun v hv => ?_, fun hn => ?_, fun v hv => ?_, fun hn => ?_⟩
  · obtain ⟨h1, h2, h3, h4, h5, h6, -⟩ := Lever_remove_hit hl hv
    refine ⟨h1, h2, ?_, h5, h6, (well_formed_iff_isList _ _).2 h3.1⟩
    simp [Lever_find, cache_find_base, h4]
  · simp only [Lever_remove, hashtable_find_obj_id, hn]
  · obtain ⟨h1, h2, h3, h4, h5, h6, -⟩ := Sieve_remove_hit hs hv
    refine ⟨h1, h2, ?_, h5, h6, (well_formed_iff_isList _ _).2 h3.1⟩
    simp [ShiftSieve_find, cache_find_base, h4]
  · simp only [ShiftSieve_remove, hashtable_find_obj_id, hn]

theorem C19_witness :
    (2 ∈ Lever_nodes Lever_cold ∧ (Lever_remove Lever_cold 3).2 = true ∧
      (Lever_find (Lever_remove Lever_cold 3).1 (unit_req 3) false).2 = none ∧
      (Lever_remove Lever_cold 3).1.cache.n_obj = Lever_cold.cache.n_obj - 1 ∧
      (Lever_remove Lever_cold 3).1.cache.occupied_byte =
        Lever_cold.cache.occupied_byte -
          ((Lever_cold.mem.heap 2).obj_size + Lever_cold.cache.obj_md_size) ∧
      well_formed (LeverState.q (Lever_remove Lever_cold 3).1)
        ((Lever_nodes Lever_cold).erase 2)) ∧
    (2 ∈ Sieve_nodes Sieve_example_basic ∧ (ShiftSieve_remove Sieve_example_basic 3).2 = true ∧
      ShiftSieve_find (ShiftSieve_remove Sieve_example_basic 3).1 (unit_req 3) false =
        .ok ((ShiftSieve_remove Sieve_example_basic 3).1, none) ∧
      (ShiftSieve_remove Sieve_example_basic 3).1.cache.n_obj =
        Sieve_example_basic.cache.n_obj - 1 ∧
      (ShiftSieve_remove Sieve_example_basic 3).1.cache.occupied_byte =
        Sieve_example_basic.cache.occupied_byte -
          ((Sieve_example_basic.mem.heap 2).obj_size + Sieve_example_basic.cache.obj_md_size) ∧
      well_formed (SieveState.q (ShiftSieve_remove Sieve_example_basic 3).1)
        ((Sieve_nodes Sieve_example_basic).erase 2)) ∧
    ShiftSieve_remove Sieve_example_basic 7 = (Sieve_example_basic, false) ∧
    Lever_remove Lever_cold 7 = (Lever_cold, false) :=
  have hl : LeverInv Lever_cold (Lever_nodes Lever_cold) :=
    Lever_fill_inv 3 [1, 2, 3] (by decide) (by decide) 1
  have hs : SieveList Sieve_example_basic (Sieve_nodes Sieve_example_basic) :=
    Sieve_reach_list (SieveReach_script 2 Sieve_calls_basic rfl .init).all
  have h3 := C19_remove Lever_cold (Lever_nodes Lever_cold) Sieve_example_basic
    (Sieve_nodes Sieve_example_basic) (unit_req 3) hl hs
  have h7 := C19_remove Lever_cold (Lever_nodes Lever_cold) Sieve_example_basic
    (Sieve_nodes Sieve_example_basic) (unit_req 7) hl hs
  ⟨h3.1 2 (by decide!), h3.2.2.1 2 (by decide!), h7.2.2.2 (by decide!), h7.2.1 (by decide!)⟩

theorem FIFO_insert_spec {f : FIFOState} {l : List Ptr} (hi : FifoInv f l) (req : request_t)
    (hk : f.cache.hashtable req.obj_id = none) :
    ∃ f2, FIFO_insert f req = .ok (f2, f.mem.brk) ∧ FifoInv f2 (f.mem.brk :: l) ∧
      f2.mem.brk = f.mem.brk + 1 ∧
      f2.cache.hashtable = Function.update f.cache.hashtable req.obj_id (some f.mem.brk) ∧
      f2.cache.n_obj = f.cache.n_obj + 1 ∧
      f2.cache.occupied_byte = f.cache.occupied_byte + (req.obj_size + f.cache.obj_md_size) ∧
      f2.cache.cache_size = f.cache.cache_size ∧ f2.cache.obj_md_size = f.cache.obj_md_size ∧
      same_data (Function.update f.mem.heap f.mem.brk (create_cache_obj_from_request (some req)))
        f2.mem.heap ∧
      ∀ y, y ∉ l → y ≠ f.mem.brk → f2.mem.heap y = f.mem.heap y := by
  have hins := Inv.insert hi req hk
  simp only [FIFO_insert, cache_insert_base, FIFOState.q]
  cases hp : prepend_obj_to_head
      (dlist.mk (Function.update f.mem.heap f.mem.brk
        (create_cache_obj_from_request (some req)))
        f.cache.eviction_params.q_head f.cache.eviction_params.q_tail) f.mem.brk with
  | ok q2 =>
    rw [hp] at hins
    obtain ⟨hinv, hsd, hfr⟩ := hins
    simp only [Res.bind]
    exact ⟨_, rfl, hinv, rfl, rfl, rfl, rfl, rfl, rfl, hsd, hfr⟩
  | fault => rw [hp] at hins; exact hins.elim
  | timeout => rw [hp] at hins; exact hins.elim

theorem FIFO_remove_spec {f : FIFOState} {l : List Ptr} (hi : FifoInv f l) {k : Nat} {v : Ptr}
    (hk : f.cache.hashtable k = some v) :
    v ∈ l ∧ (f.mem.heap v).obj_id = k ∧ (FIFO_remove f k).2 = true ∧
    FifoInv (FIFO_remove f k).1 (l.erase v) ∧
    (FIFO_remove f k).1.mem.brk = f.mem.brk ∧
    (FIFO_remove f k).1.cache.hashtable = Function.update f.cache.hashtable k none ∧
    (FIFO_remove f k).1.cache.n_obj = f.cache.n_obj - 1 ∧
    (FIFO_remove f k).1.cache.occupied_byte =
      f.cache.occupied_byte - ((f.mem.heap v).obj_size + f.cache.obj_md_size) ∧
    (FIFO_remove f k).1.cache.cache_size = f.cache.cache_size ∧
    (FIFO_remove f k).1.cache.obj_md_size = f.cache.obj_md_size ∧
    same_data f.mem.heap (FIFO_remove f k).1.mem.heap ∧
    ∀ y, y ∉ l → (FIFO_remove f k).1.mem.heap y = f.mem.heap y := by
  obtain ⟨hv, hid⟩ := Inv.ht_update_self hi hk
  have hrm := Inv.remove hi hv
  obtain ⟨hsd, hfr⟩ := remove_frame hi hv
  have hid2 : ((remove_obj_from_list (dlist.mk f.mem.heap f.cache.eviction_params.q_head
      f.cache.eviction_params.q_tail) v).heap v).obj_id = k := by
    rw [(hsd v).1]; exact hid
  have e : FIFO_remove f k = (cache_remove_obj_base (FIFOState.setQ f
      (remove_obj_from_list (FIFOState.q f) v)) v true, true) := by
    simp only [FIFO_remove, hashtable_find_obj_id, hk]
  rw [e]
  refine ⟨hv, hid, rfl, hrm, rfl, ?_, rfl, ?_, rfl, rfl, hsd, hfr⟩
  · simp only [cache_remove_obj_base, FIFOState.setQ, World.setParams, World.setHeap,
      FIFOState.q, hid2]
  · simp only [cache_remove_obj_base, FIFOState.setQ, World.setParams, World.setHeap,
      FIFOState.q, (hsd v).2.1]

theorem ShiftLists.side {w : ShiftState} {l0 l1 : List Ptr} (hi : ShiftLists w l0 l1)
    (b : Bool) : FifoInv (w.fifo b) (pick b l0 l1) := by
  cases b
  · exact hi.1
  · exact hi.2.1

theorem pick_disjoint {l0 l1 : List Ptr} (h : ∀ p ∈ l0, p ∉ l1) (b : Bool) :
    ∀ p ∈ pick b l0 l1, p ∉ pick (!b) l0 l1 := by
  cases b
  · exact h
  · exact fun p hp hq => h p hq hp

/-- Installing the result of an operation on the FIFO cache behind `b` that leaves the
nodes of the other FIFO cache untouched. -/
theorem ShiftLists.set {w : ShiftState} {l0 l1 : List Ptr} (hi : ShiftLists w l0 l1)
    (b : Bool) {f : FIFOState} {l2 : List Ptr} (h2 : FifoInv f l2)
    (hbrk : w.mem.brk ≤ f.mem.brk)
    (hframe : ∀ y ∈ pick (!b) l0 l1, f.mem.heap y = w.mem.heap y)
    (hdisj : ∀ p ∈ l2, p ∉ pick (!b) l0 l1)
    (hmd : f.cache.obj_md_size = (w.cache.eviction_params.sub b).obj_md_size) :
    ShiftLists (w.setFifo b f) (if b then l0 else l2) (if b then l2 else l1) := by
  obtain ⟨h0, h1, hd, hm⟩ := hi
  cases b
  · refine ⟨h2, Inv.frame h1 hbrk hframe, hdisj, ?_⟩
    show f.cache.obj_md_size = _
    rw [hmd]; exact hm
  · refine ⟨Inv.frame h0 hbrk hframe, h2, fun p hp hq => hdisj p hq hp, ?_⟩
    show _ = f.cache.obj_md_size
    rw [hmd]; exact hm

theorem ShiftLists.heap {w : ShiftState} {l0 l1 : List Ptr} (hi : ShiftLists w l0 l1)
    {h2 : Heap} (hs : same_links w.mem.heap h2) : ShiftLists (w.setHeap h2) l0 l1 :=
  ⟨Inv.of_same_links hi.1 hs, Inv.of_same_links hi.2.1 hs, hi.2.2.1, hi.2.2.2⟩

theorem Shift_frame_refl (w : ShiftState) : Shift_frame w w :=
  ⟨fun _ => ⟨rfl, rfl, rfl, rfl⟩, rfl, rfl, rfl, rfl, rfl, rfl⟩

theorem Shift_frame_trans {w w2 w3 : ShiftState} (a : Shift_frame w w2) (b : Shift_frame w2 w3) :
    Shift_frame w w3 := by
  obtain ⟨a1, a2, a3, a4, a5, a6, a7⟩ := a
  obtain ⟨b1, b2, b3, b4, b5, b6, b7⟩ := b
  refine ⟨fun c => ⟨(b1 c).1.trans (a1 c).1, (b1 c).2.1.trans (a1 c).2.1,
    (b1 c).2.2.1.trans (a1 c).2.2.1, (b1 c).2.2.2.trans (a1 c).2.2.2⟩,
    b2.trans a2, b3.trans a3, b4.trans a4, b5.trans a5, b6.trans a6, b7.trans a7⟩

/-- A hit of `Shift_find` with update in the FIFO cache behind `b`. -/
theorem Shift_find_in_hit {w : ShiftState} {l0 l1 : List Ptr} (hi : ShiftLists w l0 l1)
    (b : Bool) (req : request_t) {v : Ptr}
    (hk : (w.cache.eviction_params.sub b).hashtable req.obj_id = some v) :
    ∃ w2 l0' l1', Shift_find_in w b req = .ok (w2, some v) ∧ ShiftLists w2 l0' l1' ∧
      l0'.Perm l0 ∧ l1'.Perm l1 ∧ Shift_frame w w2 ∧
      ∀ p, (w2.mem.heap p).obj_id = (w.mem.heap p).obj_id ∧
        (w2.mem.heap p).obj_size = (w.mem.heap p).obj_size := by
  have hb := hi.side b
  obtain ⟨hv, -⟩ := Inv.ht_update_self hb hk
  have hfind : FIFO_find (w.fifo b) req true = some v := hk
  simp only [Shift_find_in, hfind]
  by_cases hf : (w.mem.heap v).freq = 0
  · rw [if_pos hf]
    have hmv := Inv.move_to_head hb hv
    cases hm : move_obj_to_head (FIFOState.q (w.fifo b)) v with
    | ok q2 =>
      rw [show move_obj_to_head (dlist.mk (w.fifo b).mem.heap
        (w.fifo b).cache.eviction_params.q_head (w.fifo b).cache.eviction_params.q_tail) v
        = .ok q2 from hm] at hmv
      obtain ⟨hinv2, hsd, hfr⟩ := hmv
      have hperm : (v :: (pick b l0 l1).erase v).Perm (pick b l0 l1) :=
        (List.perm_cons_erase hv).symm
      have hset := hi.set b (f := FIFOState.setQ (w.fifo b) q2) hinv2 (le_refl _)
        (fun y hy => hfr y (fun h => pick_disjoint hi.2.2.1 b y h hy))
        (fun p hp => pick_disjoint hi.2.2.1 b p (hperm.subset hp))
        (by cases b <;> rfl)
      simp only [Res.bind]
      refine ⟨_, _, _, rfl, hset.heap (same_links_setFreq _ _ _), ?_, ?_, ?_, ?_⟩
      · cases b
        · exact hperm
        · exact List.Perm.refl _
      · cases b
        · exact List.Perm.refl _
        · exact hperm
      · cases b <;>
          exact ⟨fun c => by cases c <;> exact ⟨rfl, rfl, rfl, rfl⟩, rfl, rfl, rfl, rfl, rfl, rfl⟩
      · intro p
        have := hsd p
        cases b <;>
          simp [World.setHeap, ShiftState.setFifo, FIFOState.setQ, World.setParams, this.1,
            this.2.1, ShiftState.fifo]
    | fault =>
      rw [show move_obj_to_head (dlist.mk (w.fifo b).mem.heap
        (w.fifo b).cache.eviction_params.q_head (w.fifo b).cache.eviction_params.q_tail) v
        = .fault from hm] at hmv
      exact hmv.elim
    | timeout =>
      rw [show move_obj_to_head (dlist.mk (w.fifo b).mem.heap
        (w.fifo b).cache.eviction_params.q_head (w.fifo b).cache.eviction_params.q_tail) v
        = .timeout from hm] at hmv
      exact hmv.elim
  · rw [if_neg hf]
    simp only [Res.bind]
    refine ⟨_, l0, l1, rfl, hi.heap (same_links_setFreq _ _ _), List.Perm.refl _,
      List.Perm.refl _, ⟨fun c => ⟨rfl, rfl, rfl, rfl⟩, rfl, rfl, rfl, rfl, rfl, rfl⟩, fun p => ?_⟩
    simp [World.setHeap]

theorem setFifo_sub_same (w : ShiftState) (b : Bool) (f : FIFOState) :
    (w.setFifo b f).cache.eviction_params.sub b = f.cache := by
  cases b <;> rfl

theorem setFifo_sub_other (w : ShiftState) (b : Bool) (f : FIFOState) :
    (w.setFifo b f).cache.eviction_params.sub (!b) = w.cache.eviction_params.sub (!b) := by
  cases b <;> rfl

theorem setFifo_fifo_same (w : ShiftState) (b : Bool) (f : FIFOState) :
    (w.setFifo b f).fifo b = f := by
  cases b <;> rfl

theorem pick_same (b : Bool) (l0 l1 l2 : List Ptr) :
    pick b (if b then l0 else l2) (if b then l2 else l1) = l2 := by
  cases b <;> rfl

theorem pick_other (b : Bool) (l0 l1 l2 : List Ptr) :
    pick (!b) (if b then l0 else l2) (if b then l2 else l1) = pick (!b) l0 l1 := by
  cases b <;> rfl

/-- Insertion into the FIFO cache behind `r` of a Shift cache. -/
theorem Shift_sub_insert {w : ShiftState} {l0 l1 : List Ptr} (hi : ShiftLists w l0 l1)
    (r : Bool) (req : request_t)
    (hk : (w.cache.eviction_params.sub r).hashtable req.obj_id = none) :
    ∃ f2, FIFO_insert (w.fifo r) req = .ok (f2, w.mem.brk) ∧
      ShiftLists (w.setFifo r f2) (if r then l0 else w.mem.brk :: pick r l0 l1)
        (if r then w.mem.brk :: pick r l0 l1 else l1) ∧
      f2.mem.brk = w.mem.brk + 1 ∧
      f2.cache.hashtable =
        Function.update (w.cache.eviction_params.sub r).hashtable req.obj_id (some w.mem.brk) ∧
      f2.cache.n_obj = (w.cache.eviction_params.sub r).n_obj + 1 ∧
      f2.cache.occupied_byte = (w.cache.eviction_params.sub r).occupied_byte +
        (req.obj_size + (w.cache.eviction_params.sub r).obj_md_size) ∧
      f2.cache.obj_md_size = (w.cache.eviction_params.sub r).obj_md_size ∧
      same_data (Function.update w.mem.heap w.mem.brk (create_cache_obj_from_request (some req)))
        f2.mem.heap ∧
      (∀ y, y ∉ pick r l0 l1 → y ≠ w.mem.brk → f2.mem.heap y = w.mem.heap y) ∧
      w.mem.brk ∉ l0 ∧ w.mem.brk ∉ l1 := by
  have hb := hi.side r
  obtain ⟨f2, e, hinv, hbrk, hht, hn, hocc, -, hmd, hsd, hfr⟩ := FIFO_insert_spec hb req hk
  have hlt : ∀ c, ∀ y ∈ pick c l0 l1, y < w.mem.brk := fun c y hy => (hi.side c).2.1 y hy
  have hnb : ∀ c, w.mem.brk ∉ pick c l0 l1 := fun c hm => Nat.lt_irrefl _ (hlt c _ hm)
  have hset := hi.set r (f := f2) hinv (by rw [hbrk]; exact Nat.le_succ _)
    (fun y hy => hfr y (fun h => pick_disjoint hi.2.2.1 r y h hy)
      (fun e2 => hnb (!r) (e2 ▸ hy)))
    (fun p hp => by
      rcases List.mem_cons.1 hp with e2 | e2
      · rw [e2]; exact hnb (!r)
      · exact pick_disjoint hi.2.2.1 r p e2)
    hmd
  exact ⟨f2, e, hset, hbrk, hht, hn, hocc, hmd, hsd, hfr, hnb false, hnb true⟩

/-- Removal of a resident key from the FIFO cache behind `e` of a Shift cache. -/
theorem Shift_sub_remove {w : ShiftState} {l0 l1 : List Ptr} (hi : ShiftLists w l0 l1)
    (e : Bool) {k : Nat} {v : Ptr}
    (hk : (w.cache.eviction_params.sub e).hashtable k = some v) :
    v ∈ pick e l0 l1 ∧ (w.mem.heap v).obj_id = k ∧ (FIFO_remove (w.fifo e) k).2 = true ∧
    ShiftLists (w.setFifo e (FIFO_remove (w.fifo e) k).1)
      (if e then l0 else (pick e l0 l1).erase v) (if e then (pick e l0 l1).erase v else l1) ∧
    (FIFO_remove (w.fifo e) k).1.mem.brk = w.mem.brk ∧
    (FIFO_remove (w.fifo e) k).1.cache.hashtable =
      Function.update (w.cache.eviction_params.sub e).hashtable k none ∧
    (FIFO_remove (w.fifo e) k).1.cache.n_obj = (w.cache.eviction_params.sub e).n_obj - 1 ∧
    (FIFO_remove (w.fifo e) k).1.cache.occupied_byte =
      (w.cache.eviction_params.sub e).occupied_byte -
        ((w.mem.heap v).obj_size + (w.cache.eviction_params.sub e).obj_md_size) ∧
    (FIFO_remove (w.fifo e) k).1.cache.obj_md_size =
      (w.cache.eviction_params.sub e).obj_md_size ∧
    same_data w.mem.heap (FIFO_remove (w.fifo e) k).1.mem.heap ∧
    ∀ y, y ∉ pick e l0 l1 → (FIFO_remove (w.fifo e) k).1.mem.heap y = w.mem.heap y := by
  have hb := hi.side e
  obtain ⟨hv, hid, hr, hinv, hbrk, hht, hn, hocc, -, hmd, hsd, hfr⟩ := FIFO_remove_spec hb hk
  have hset := hi.set e (f := (FIFO_remove (w.fifo e) k).1) hinv (by rw [hbrk]; exact le_refl _)
    (fun y hy => hfr y (fun h => pick_disjoint hi.2.2.1 e y h hy))
    (fun p hp => pick_disjoint hi.2.2.1 e p (List.mem_of_mem_erase hp))
    hmd
  exact ⟨hv, hid, hr, hset, hbrk, hht, hn, hocc, hmd, hsd, hfr⟩

theorem Shift_evict_loop_done (ev : Bool) (fuel : Nat) (w : ShiftState) (he : Bool)
    (h : (w.cache.eviction_params.sub ev).n_obj ≤ 0) :
    Shift_evict_loop ev fuel w he = .ok w := by
  unfold Shift_evict_loop
  rw [if_neg]
  rintro ⟨-, h2⟩
  omega

theorem Shift_evict_loop_evicted (ev : Bool) (fuel : Nat) (w : ShiftState) :
    Shift_evict_loop ev fuel w true = .ok w := by
  unfold Shift_evict_loop
  rw [if_neg]
  rintro ⟨h1, -⟩
  simp at h1

theorem Res.bind_assoc {α β γ : Type} (x : Res α) (f : α → Res β) (g : β → Res γ) :
    (x.bind f).bind g = x.bind (fun a => (f a).bind g) := by
  cases x <;> rfl

theorem Shift_evict_loop_succ (e : Bool) (fuel : Nat) (w : ShiftState) {t : Ptr}
    (hpos : (w.cache.eviction_params.sub e).n_obj > 0)
    (ht : FIFO_to_evict (w.fifo e) = some t) :
    Shift_evict_loop e (fuel + 1) w false =
      (Shift_body e w t false).bind fun r => Shift_evict_loop e fuel r.1 r.2 := by
  rw [Shift_evict_loop]
  have hc : ((!false) = true) ∧ (w.cache.eviction_params.sub e).n_obj > 0 := ⟨rfl, hpos⟩
  rw [if_pos hc]
  simp only [ht]
  unfold Shift_body
  simp only []
  rw [Res.bind_assoc]
  congr 1
  funext r
  by_cases hr : (FIFO_remove (r.1.fifo e) (r.1.mem.heap t).obj_id).2 = true
  · simp only [hr, Bool.not_true, Bool.false_eq_true, if_false, Res.bind]
    rfl
  · simp only [Bool.not_eq_true] at hr
    simp only [hr, Bool.not_false, if_true, Res.bind]

theorem keys_apart.symm {t0 t1 : Nat → Option Ptr} (h : keys_apart t0 t1) : keys_apart t1 t0 :=
  fun k hk => by
    by_contra hne
    exact hk (h k hne)

theorem keys_apart_remove {t0 t1 : Nat → Option Ptr} (h : keys_apart t0 t1) (k : Nat) :
    keys_apart (Function.update t0 k none) t1 := by
  intro k2 hk2
  by_cases e : k2 = k
  · subst e; simp at hk2
  · rw [Function.update_noteq e] at hk2
    exact h k2 hk2

theorem keys_apart_move {t0 t1 : Nat → Option Ptr} (h : keys_apart t0 t1) (k : Nat) (v : Ptr) :
    keys_apart (Function.update t0 k none) (Function.update t1 k (some v)) := by
  intro k2 hk2
  by_cases e : k2 = k
  · subst e; simp at hk2
  · rw [Function.update_noteq e] at hk2 ⊢
    exact h k2 hk2

theorem keys_apart_insert {t0 t1 : Nat → Option Ptr} (h : keys_apart t0 t1) (k : Nat) (v : Ptr)
    (hk : t1 k = none) : keys_apart (Function.update t0 k (some v)) t1 := by
  intro k2 hk2
  by_cases e : k2 = k
  · subst e; exact hk
  · rw [Function.update_noteq e] at hk2
    exact h k2 hk2

theorem ShiftInv.keys {w : ShiftState} {l0 l1 : List Ptr} (hi : ShiftInv w l0 l1) (b : Bool) :
    keys_apart (w.cache.eviction_params.sub b).hashtable
      (w.cache.eviction_params.sub (!b)).hashtable := by
  cases b
  · exact hi.2.2
  · exact keys_apart.symm hi.2.2

/-- Re-establishing the invariant from the list part and facts stated for the cache
behind `b` and the other one. -/
theorem ShiftInv.mk_of {w : ShiftState} {l0 l1 : List Ptr} (hl : ShiftLists w l0 l1)
    (hp : w.cache.eviction_params.retention = !w.cache.eviction_params.eviction) (b : Bool)
    (hk : keys_apart (w.cache.eviction_params.sub b).hashtable
      (w.cache.eviction_params.sub (!b)).hashtable) : ShiftInv w l0 l1 := by
  refine ⟨hl, hp, ?_⟩
  cases b
  · exact hk
  · exact keys_apart.symm hk

theorem Shift_swap_spec (e : Bool) {w : ShiftState} {l0 l1 : List Ptr} (hi : ShiftInv w l0 l1)
    (he : w.cache.eviction_params.eviction = e) :
    ShiftInv (Shift_swap e w) l0 l1 ∧
    (Shift_swap e w).cache.eviction_params.c0 = w.cache.eviction_params.c0 ∧
    (Shift_swap e w).cache.eviction_params.c1 = w.cache.eviction_params.c1 ∧
    (Shift_swap e w).mem = w.mem ∧
    (Shift_swap e w).cache.cache_size = w.cache.cache_size ∧
    (Shift_swap e w).cache.obj_md_size = w.cache.obj_md_size ∧
    ((w.cache.eviction_params.sub e).n_obj > 0 →
      (Shift_swap e w).cache.eviction_params.eviction = e) := by
  unfold Shift_swap
  split_ifs with h
  · refine ⟨⟨hi.1, ?_, hi.2.2⟩, rfl, rfl, rfl, rfl, rfl, fun hp => ?_⟩
    · show e = !w.cache.eviction_params.retention
      rw [hi.2.1, he]; simp
    · omega
  · exact ⟨hi, rfl, rfl, rfl, rfl, rfl, fun _ => he⟩

theorem Shift_total_n_split (w : ShiftState) (b : Bool) :
    Shift_total_n w = (w.cache.eviction_params.sub b).n_obj +
      (w.cache.eviction_params.sub (!b)).n_obj := by
  cases b
  · rfl
  · exact add_comm _ _

theorem Shift_total_bytes_split (w : ShiftState) (b : Bool) :
    Shift_total_bytes w = (w.cache.eviction_params.sub b).occupied_byte +
      (w.cache.eviction_params.sub (!b)).occupied_byte := by
  cases b
  · rfl
  · exact add_comm _ _

theorem ShiftLists.md {w : ShiftState} {l0 l1 : List Ptr} (hl : ShiftLists w l0 l1) (b : Bool) :
    (w.cache.eviction_params.sub b).obj_md_size = w.cache.eviction_params.c0.obj_md_size := by
  cases b
  · rfl
  · exact hl.2.2.2.symm

theorem setFifo_c0_md (w : ShiftState) (b : Bool) (f : FIFOState)
    (h : f.cache.obj_md_size = (w.cache.eviction_params.sub b).obj_md_size) :
    (w.setFifo b f).cache.eviction_params.c0.obj_md_size =
      w.cache.eviction_params.c0.obj_md_size := by
  cases b
  · exact h
  · rfl

theorem Shift_absent_iff (w : ShiftState) (k : Nat) (b : Bool) :
    Shift_absent w k ↔ (w.cache.eviction_params.sub b).hashtable k = none ∧
      (w.cache.eviction_params.sub (!b)).hashtable k = none := by
  cases b
  · exact Iff.rfl
  · exact and_comm

theorem Shift_absent_congr {w w2 : ShiftState}
    (h0 : w2.cache.eviction_params.c0 = w.cache.eviction_params.c0)
    (h1 : w2.cache.eviction_params.c1 = w.cache.eviction_params.c1) (k : Nat) :
    Shift_absent w2 k ↔ Shift_absent w k := by
  unfold Shift_absent
  rw [h0, h1]

/-- One iteration of the loop of `Shift_evict` whose victim `t` has `freq = 0`. -/
theorem Shift_body_cold {w : ShiftState} {l0 l1 : List Ptr} (hi : ShiftInv w l0 l1) (e : Bool)
    (he : w.cache.eviction_params.eviction = e) {t : Ptr}
    (hlt : (pick e l0 l1).getLast? = some t) (hf : (w.mem.heap t).freq = 0) :
    ∃ w5 m0 m1, Shift_body e w t false = .ok (w5, true) ∧
      ShiftInv w5 m0 m1 ∧ pick e m0 m1 = (pick e l0 l1).erase t ∧
      pick (!e) m0 m1 = pick (!e) l0 l1 ∧
      ((pick e l0 l1).erase t ≠ [] → w5.cache.eviction_params.eviction = e) ∧
      Shift_total_n w5 = Shift_total_n w - 1 ∧
      Shift_total_bytes w5 = Shift_total_bytes w -
        ((w.mem.heap t).obj_size + w.cache.eviction_params.c0.obj_md_size) ∧
      w5.cache.eviction_params.c0.obj_md_size = w.cache.eviction_params.c0.obj_md_size ∧
      w5.cache.cache_size = w.cache.cache_size ∧ w5.cache.obj_md_size = w.cache.obj_md_size ∧
      w.mem.brk ≤ w5.mem.brk ∧
      (∀ p, (w5.mem.heap p).freq = (w.mem.heap p).freq ∧
        (w5.mem.heap p).obj_size = (w.mem.heap p).obj_size ∧
        (w5.mem.heap p).obj_id = (w.mem.heap p).obj_id) ∧
      ∀ k, Shift_absent w k → Shift_absent w5 k := by
  obtain ⟨hl, hret, hkeys⟩ := hi
  have hl1 : ShiftLists (Shift_note w t) l0 l1 := hl
  have hbe := hl.side e
  have htl : t ∈ pick e l0 l1 := List.mem_of_getLast?_eq_some hlt
  have hid : ((Shift_note w t).cache.eviction_params.sub e).hashtable (w.mem.heap t).obj_id
      = some t := (hbe.2.2.1 _ _).2 ⟨htl, rfl⟩
  obtain ⟨-, -, hr, hset, hbrk, hht, hn, hocc, hmd, hsd, hfr⟩ := Shift_sub_remove hl1 e hid
  have hbody : Shift_body e w t false = .ok (Shift_swap e ((Shift_note w t).setFifo e
      (FIFO_remove ((Shift_note w t).fifo e) (w.mem.heap t).obj_id).1), true) := by
    unfold Shift_body
    have hnf : ¬ ((Shift_note w t).mem.heap t).freq ≥ 1 := by
      show ¬ (w.mem.heap t).freq ≥ 1
      rw [hf]; decide
    simp only [if_neg hnf, Res.bind]
    have hr2 : (FIFO_remove ((Shift_note w t).fifo e) ((Shift_note w t).mem.heap t).obj_id).2
        = true := hr
    rw [hr2]
    rfl
  have hinv4 : ShiftInv ((Shift_note w t).setFifo e
      (FIFO_remove ((Shift_note w t).fifo e) (w.mem.heap t).obj_id).1)
      (if e then l0 else (pick e l0 l1).erase t) (if e then (pick e l0 l1).erase t else l1) := by
    refine ShiftInv.mk_of hset (by cases e <;> exact hret) e ?_
    rw [setFifo_sub_same, setFifo_sub_other, hht]
    exact keys_apart_remove (ShiftInv.keys ⟨hl, hret, hkeys⟩ e) _
  obtain ⟨s1, s2, s3, s4, s5, s6, s7⟩ := Shift_swap_spec e hinv4 (by cases e <;> exact he)
  refine ⟨_, _, _, hbody, s1, pick_same e _ _ _, pick_other e _ _ _, fun hne => ?_, ?_, ?_, ?_,
    s5, s6, ?_, fun p => ?_, fun k hk => ?_⟩
  rotate_right 1
  · rw [Shift_absent_congr s2 s3, Shift_absent_iff _ k e, setFifo_sub_same, setFifo_sub_other, hht]
    have := (Shift_absent_iff w k e).1 hk
    refine ⟨?_, this.2⟩
    by_cases hkk : k = (w.mem.heap t).obj_id
    · rw [hkk]; simp
    · rw [Function.update_noteq hkk]; exact this.1
  · apply s7
    rw [setFifo_sub_same]
    have := hset.side e
    rw [pick_same] at this
    have h4 := this.2.2.2
    rw [setFifo_fifo_same] at h4
    rw [h4]
    have := List.length_pos.2 hne
    omega
  · have e1 : Shift_total_n (Shift_swap e ((Shift_note w t).setFifo e
        (FIFO_remove ((Shift_note w t).fifo e) (w.mem.heap t).obj_id).1)) =
        Shift_total_n ((Shift_note w t).setFifo e
        (FIFO_remove ((Shift_note w t).fifo e) (w.mem.heap t).obj_id).1) := by
      unfold Shift_total_n; rw [s2, s3]
    rw [e1, Shift_total_n_split _ e, Shift_total_n_split w e, setFifo_sub_same,
      setFifo_sub_other, hn]
    show (w.cache.eviction_params.sub e).n_obj - 1 + (w.cache.eviction_params.sub (!e)).n_obj = _
    omega
  · have e1 : Shift_total_bytes (Shift_swap e ((Shift_note w t).setFifo e
        (FIFO_remove ((Shift_note w t).fifo e) (w.mem.heap t).obj_id).1)) =
        Shift_total_bytes ((Shift_note w t).setFifo e
        (FIFO_remove ((Shift_note w t).fifo e) (w.mem.heap t).obj_id).1) := by
      unfold Shift_total_bytes; rw [s2, s3]
    rw [e1, Shift_total_bytes_split _ e, Shift_total_bytes_split w e, setFifo_sub_same,
      setFifo_sub_other, hocc, ← hl.md e]
    show (w.cache.eviction_params.sub e).occupied_byte -
      ((w.mem.heap t).obj_size + (w.cache.eviction_params.sub e).obj_md_size) +
      (w.cache.eviction_params.sub (!e)).occupied_byte = _
    omega
  · rw [s2]
    exact setFifo_c0_md _ e _ hmd
  · rw [s4]
    show w.mem.brk ≤ (FIFO_remove ((Shift_note w t).fifo e) (w.mem.heap t).obj_id).1.mem.brk
    rw [hbrk]
    exact le_refl _
  · rw [s4]
    have := hsd p
    exact ⟨this.2.2.2.1, this.2.1, this.1⟩

/-- One iteration of the loop of `Shift_evict` whose victim `t` has `freq >= 1`: the
victim is shuttled to the retention cache as a new node with `freq = 0`. -/
theorem Shift_body_warm {w : ShiftState} {l0 l1 : List Ptr} (hi : ShiftInv w l0 l1) (e : Bool)
    (he : w.cache.eviction_params.eviction = e) {t : Ptr}
    (hlt : (pick e l0 l1).getLast? = some t) (hf : (w.mem.heap t).freq ≠ 0) :
    ∃ w5 m0 m1, Shift_body e w t false = .ok (w5, false) ∧
      ShiftInv w5 m0 m1 ∧ pick e m0 m1 = (pick e l0 l1).erase t ∧
      pick (!e) m0 m1 = w.mem.brk :: pick (!e) l0 l1 ∧
      ((pick e l0 l1).erase t ≠ [] → w5.cache.eviction_params.eviction = e) ∧
      Shift_total_n w5 = Shift_total_n w ∧
      Shift_total_bytes w5 = Shift_total_bytes w ∧
      w5.cache.eviction_params.c0.obj_md_size = w.cache.eviction_params.c0.obj_md_size ∧
      w5.cache.cache_size = w.cache.cache_size ∧ w5.cache.obj_md_size = w.cache.obj_md_size ∧
      w.mem.brk ≤ w5.mem.brk ∧
      (∀ p, p ≠ w.mem.brk → (w5.mem.heap p).freq = (w.mem.heap p).freq ∧
        (w5.mem.heap p).obj_size = (w.mem.heap p).obj_size ∧
        (w5.mem.heap p).obj_id = (w.mem.heap p).obj_id) ∧
      (w5.mem.heap w.mem.brk).freq = 0 ∧
      (w5.mem.heap w.mem.brk).obj_id = (w.mem.heap t).obj_id ∧
      (w5.mem.heap w.mem.brk).obj_size = (w.mem.heap t).obj_size ∧
      ∀ k, Shift_absent w k → Shift_absent w5 k := by
  obtain ⟨hl, hret, hkeys⟩ := hi
  have hl1 : ShiftLists (Shift_note w t) l0 l1 := hl
  have hbe := hl.side e
  have htl : t ∈ pick e l0 l1 := List.mem_of_getLast?_eq_some hlt
  have htb : t ≠ w.mem.brk := fun h => Nat.lt_irrefl _ (h ▸ hbe.2.1 t htl)
  have hid : (w.cache.eviction_params.sub e).hashtable (w.mem.heap t).obj_id = some t :=
    (hbe.2.2.1 _ _).2 ⟨htl, rfl⟩
  have hr : (Shift_note w t).cache.eviction_params.retention = !e := by
    show w.cache.eviction_params.retention = !e
    rw [hret, he]
  have hk : ((Shift_note w t).cache.eviction_params.sub (!e)).hashtable
      (copy_cache_obj_to_request w.cache.eviction_params.req_local (w.mem.heap t)).obj_id
      = none :=
    ShiftInv.keys ⟨hl, hret, hkeys⟩ e _ (by
      show (w.cache.eviction_params.sub e).hashtable (w.mem.heap t).obj_id ≠ none
      rw [hid]; simp)
  obtain ⟨f2, hI, hset2, hbrk2, hht2, hn2, hocc2, hmd2, hsd2, hfr2, hb0, hb1⟩ :=
    Shift_sub_insert hl1 (!e)
      (copy_cache_obj_to_request w.cache.eviction_params.req_local (w.mem.heap t)) hk
  -- the state after the shuttle
  obtain ⟨w3, hw3⟩ : ∃ w3 : ShiftState, w3 = (((Shift_note w t).setFifo (!e) f2).setHeap
      (setFreq f2.mem.heap w.mem.brk ((f2.mem.heap w.mem.brk).freq / 2))) := ⟨_, rfl⟩
  have hl3 : ShiftLists w3 (if (!e) = true then l0 else w.mem.brk :: pick (!e) l0 l1)
      (if (!e) = true then w.mem.brk :: pick (!e) l0 l1 else l1) := by
    rw [hw3]; exact hset2.heap (same_links_setFreq _ _ _)
  have hdat : ∀ p, p ≠ w.mem.brk → (w3.mem.heap p).freq = (w.mem.heap p).freq ∧
      (w3.mem.heap p).obj_size = (w.mem.heap p).obj_size ∧
      (w3.mem.heap p).obj_id = (w.mem.heap p).obj_id := by
    intro p hp
    have := hsd2 p
    rw [hw3]
    simp only [World.setHeap, setFreq_freq, setFreq_obj_size, setFreq_obj_id, if_neg hp]
    show (f2.mem.heap p).freq = _ ∧ (f2.mem.heap p).obj_size = _ ∧ (f2.mem.heap p).obj_id = _
    rw [this.2.2.2.1, this.2.1, this.1]
    simp [Function.update, hp, Shift_note, World.setParams]
  have hnew : (w3.mem.heap w.mem.brk).freq = 0 ∧
      (w3.mem.heap w.mem.brk).obj_id = (w.mem.heap t).obj_id ∧
      (w3.mem.heap w.mem.brk).obj_size = (w.mem.heap t).obj_size := by
    have := hsd2 w.mem.brk
    rw [hw3]
    simp only [World.setHeap, setFreq_freq, setFreq_obj_size, setFreq_obj_id, if_true]
    show (f2.mem.heap w.mem.brk).freq / 2 = 0 ∧ (f2.mem.heap w.mem.brk).obj_id = _ ∧
      (f2.mem.heap w.mem.brk).obj_size = _
    rw [this.2.2.2.1, this.2.1, this.1]
    simp [Function.update, Shift_note, World.setParams, create_cache_obj_from_request,
      copy_request_to_cache_obj, copy_cache_obj_to_request, zero_obj]
  have hsub_e : w3.cache.eviction_params.sub e = w.cache.eviction_params.sub e := by
    rw [hw3]
    have := setFifo_sub_other (Shift_note w t) (!e) f2
    rw [Bool.not_not] at this
    exact this
  have hsub_r : w3.cache.eviction_params.sub (!e) = f2.cache := by
    rw [hw3]
    exact setFifo_sub_same (Shift_note w t) (!e) f2
  have hid3 : (w3.cache.eviction_params.sub e).hashtable (w.mem.heap t).obj_id = some t := by
    rw [hsub_e]; exact hid
  obtain ⟨-, -, hrm, hset4, hbrk4, hht4, hn4, hocc4, hmd4, hsd4, hfr4⟩ :=
    Shift_sub_remove hl3 e hid3
  have hbody : Shift_body e w t false = .ok (Shift_swap e (w3.setFifo e
      (FIFO_remove (w3.fifo e) (w.mem.heap t).obj_id).1), false) := by
    unfold Shift_body
    have hpf : ((Shift_note w t).mem.heap t).freq ≥ 1 := Nat.one_le_iff_ne_zero.2 hf
    simp only [if_pos hpf, hr]
    have hI2 : FIFO_insert ((Shift_note w t).fifo (!e))
        (Shift_note w t).cache.eviction_params.req_local = .ok (f2, w.mem.brk) := hI
    rw [hI2]
    simp only [Res.bind]
    have hw3b : World.setHeap ((Shift_note w t).setFifo (!e) f2)
        (setFreq ((Shift_note w t).setFifo (!e) f2).mem.heap w.mem.brk
          ((((Shift_note w t).setFifo (!e) f2).mem.heap w.mem.brk).freq / 2))
        = w3 := hw3.symm
    rw [hw3b]
    simp only [(hdat t htb).2.2, hrm, Bool.not_true, Bool.false_eq_true, if_false]
  have hp3 : w3.cache.eviction_params.retention = !w3.cache.eviction_params.eviction := by
    rw [hw3]; cases e <;> exact hret
  have he3 : w3.cache.eviction_params.eviction = e := by
    rw [hw3]; cases e <;> exact he
  have hinv4 : ShiftInv (w3.setFifo e (FIFO_remove (w3.fifo e) (w.mem.heap t).obj_id).1)
      (if e = true then (if (!e) = true then l0 else w.mem.brk :: pick (!e) l0 l1)
        else (pick e (if (!e) = true then l0 else w.mem.brk :: pick (!e) l0 l1)
          (if (!e) = true then w.mem.brk :: pick (!e) l0 l1 else l1)).erase t)
      (if e = true then (pick e (if (!e) = true then l0 else w.mem.brk :: pick (!e) l0 l1)
          (if (!e) = true then w.mem.brk :: pick (!e) l0 l1 else l1)).erase t
        else (if (!e) = true then w.mem.brk :: pick (!e) l0 l1 else l1)) := by
    refine ShiftInv.mk_of hset4 (by cases e <;> exact hp3) e ?_
    rw [setFifo_sub_same, setFifo_sub_other, hht4, hsub_e, hsub_r, hht2]
    exact keys_apart_move (ShiftInv.keys ⟨hl, hret, hkeys⟩ e) _ _
  obtain ⟨s1, s2, s3, s4, s5, s6, s7⟩ := Shift_swap_spec e hinv4 (by cases e <;> exact he3)
  have hcs : w3.cache.cache_size = w.cache.cache_size ∧
      w3.cache.obj_md_size = w.cache.obj_md_size := by
    rw [hw3]; cases e <;> exact ⟨rfl, rfl⟩
  refine ⟨_, _, _, hbody, s1, ?_, ?_, fun hne => ?_, ?_, ?_, ?_, ?_, ?_, ?_, fun p hp => ?_, ?_⟩
  rotate_right 1
  · rw [s4]
    have := hsd4 w.mem.brk
    refine ⟨this.2.2.2.1.trans hnew.1, this.1.trans hnew.2.1, this.2.1.trans hnew.2.2,
      fun k hk => ?_⟩
    rw [Shift_absent_congr s2 s3, Shift_absent_iff _ k e, setFifo_sub_same, setFifo_sub_other,
      hht4, hsub_e, hsub_r, hht2]
    have hab := (Shift_absent_iff w k e).1 hk
    have hkk : k ≠ (w.mem.heap t).obj_id := fun h => by
      rw [h, hid] at hab
      exact absurd hab.1 (by simp)
    constructor
    · rw [Function.update_noteq hkk]; exact hab.1
    · rw [Function.update_noteq (by exact hkk)]; exact hab.2
  · cases e <;> rfl
  · cases e <;> rfl
  · apply s7
    rw [setFifo_sub_same]
    have := hset4.side e
    rw [pick_same] at this
    have h4 := this.2.2.2
    rw [setFifo_fifo_same] at h4
    rw [h4]
    have h6 : pick e (if (!e) = true then l0 else w.mem.brk :: pick (!e) l0 l1)
          (if (!e) = true then w.mem.brk :: pick (!e) l0 l1 else l1) = pick e l0 l1 := by
      cases e <;> rfl
    rw [h6]
    have := List.length_pos.2 hne
    omega
  · have e1 : Shift_total_n (Shift_swap e (w3.setFifo e
        (FIFO_remove (w3.fifo e) (w.mem.heap t).obj_id).1)) =
        Shift_total_n (w3.setFifo e (FIFO_remove (w3.fifo e) (w.mem.heap t).obj_id).1) := by
      unfold Shift_total_n; rw [s2, s3]
    rw [e1, Shift_total_n_split _ e, Shift_total_n_split w e, setFifo_sub_same,
      setFifo_sub_other, hn4, hsub_e, hsub_r, hn2]
    show (w.cache.eviction_params.sub e).n_obj - 1 +
      ((w.cache.eviction_params.sub (!e)).n_obj + 1) = _
    omega
  · have e1 : Shift_total_bytes (Shift_swap e (w3.setFifo e
        (FIFO_remove (w3.fifo e) (w.mem.heap t).obj_id).1)) =
        Shift_total_bytes (w3.setFifo e (FIFO_remove (w3.fifo e) (w.mem.heap t).obj_id).1) := by
      unfold Shift_total_bytes; rw [s2, s3]
    rw [e1, Shift_total_bytes_split _ e, Shift_total_bytes_split w e, setFifo_sub_same,
      setFifo_sub_other, hocc4, hsub_e, hsub_r, hocc2, (hdat t htb).2.1]
    have hm1 := hl.md e
    have hm2 := hl.md (!e)
    show (w.cache.eviction_params.sub e).occupied_byte -
      ((w.mem.heap t).obj_size + (w.cache.eviction_params.sub e).obj_md_size) +
      ((w.cache.eviction_params.sub (!e)).occupied_byte +
        ((w.mem.heap t).obj_size + (w.cache.eviction_params.sub (!e)).obj_md_size)) = _
    rw [hm1, hm2]
    omega
  · rw [s2, setFifo_c0_md _ e _ hmd4, hw3]
    exact setFifo_c0_md (Shift_note w t) (!e) f2 hmd2
  · rw [s5]; cases e <;> exact hcs.1
  · rw [s6]; cases e <;> exact hcs.2
  · rw [s4]
    show w.mem.brk ≤ (FIFO_remove (w3.fifo e) (w.mem.heap t).obj_id).1.mem.brk
    rw [hbrk4, hw3]
    show w.mem.brk ≤ f2.mem.brk
    rw [hbrk2]
    exact Nat.le_succ _
  · rw [s4]
    have := hsd4 p
    have h3 := hdat p hp
    exact ⟨this.2.2.2.1.trans h3.1, this.2.1.trans h3.2.1, this.1.trans h3.2.2⟩

theorem cold_victim_nil (h : Heap) : cold_victim h [] = none := rfl

theorem cold_victim_concat (h : Heap) (l : List Ptr) (t : Ptr) :
    cold_victim h (l ++ [t]) = if (h t).freq = 0 then some t else cold_victim h l := by
  unfold cold_victim
  rw [List.reverse_append, List.reverse_singleton, List.singleton_append, List.find?_cons]
  by_cases hf : (h t).freq = 0
  · simp [hf]
  · simp [hf]

theorem cold_victim_congr {h h2 : Heap} {l : List Ptr}
    (hc : ∀ p ∈ l, (h2 p).freq = (h p).freq) : cold_victim h2 l = cold_victim h l := by
  unfold cold_victim
  have hc2 : ∀ p ∈ l.reverse, (h2 p).freq = (h p).freq :=
    fun p hp => hc p (List.mem_reverse.1 hp)
  generalize l.reverse = r at hc2
  induction r with
  | nil => rfl
  | cons a t ih =>
    rw [List.find?_cons, List.find?_cons, hc2 a (List.mem_cons_self _ _),
      ih (fun p hp => hc2 p (List.mem_cons_of_mem _ hp))]

theorem cold_victim_mem {h : Heap} {l : List Ptr} {v : Ptr} (hv : cold_victim h l = some v) :
    v ∈ l ∧ (h v).freq = 0 := by
  unfold cold_victim at hv
  exact ⟨List.mem_reverse.1 (List.mem_of_find?_eq_some hv), by
    simpa using List.find?_some hv⟩

theorem Shift_get_n_obj_eq {w : ShiftState}
    (h : w.cache.eviction_params.retention = !w.cache.eviction_params.eviction) :
    Shift_get_n_obj w = Shift_total_n w := by
  unfold Shift_get_n_obj
  rw [h, Shift_total_n_split w w.cache.eviction_params.eviction]

theorem Shift_get_occupied_byte_eq {w : ShiftState}
    (h : w.cache.eviction_params.retention = !w.cache.eviction_params.eviction) :
    Shift_get_occupied_byte w = Shift_total_bytes w := by
  unfold Shift_get_occupied_byte
  rw [h, Shift_total_bytes_split w w.cache.eviction_params.eviction]

theorem Shift_evict_loop_zero (e : Bool) (w : ShiftState)
    (hpos : (w.cache.eviction_params.sub e).n_obj > 0) :
    Shift_evict_loop e 0 w false = .timeout := by
  rw [Shift_evict_loop]
  have hc : ((!false) = true) ∧ (w.cache.eviction_params.sub e).n_obj > 0 := ⟨rfl, hpos⟩
  rw [if_pos hc]

/-- The key of the node removed from the eviction cache by an iteration that does not
shuttle it is in neither FIFO cache afterwards. -/
theorem Shift_cold_gone {w w5 : ShiftState} {l0 l1 m0 m1 : List Ptr} (hi : ShiftInv w l0 l1)
    (hi5 : ShiftInv w5 m0 m1) (e : Bool) {t : Ptr} (ht : t ∈ pick e l0 l1)
    (hpe : pick e m0 m1 = (pick e l0 l1).erase t) (hpo : pick (!e) m0 m1 = pick (!e) l0 l1)
    (hid : ∀ p, (w5.mem.heap p).obj_id = (w.mem.heap p).obj_id) :
    Shift_absent w5 (w.mem.heap t).obj_id := by
  have hkt : (w.cache.eviction_params.sub e).hashtable (w.mem.heap t).obj_id = some t :=
    ((hi.1.side e).2.2.1 _ _).2 ⟨ht, rfl⟩
  rw [Shift_absent_iff _ _ e]
  constructor
  · cases h : (w5.cache.eviction_params.sub e).hashtable (w.mem.heap t).obj_id with
    | none => rfl
    | some p =>
      exfalso
      have hp := ((hi5.1.side e).2.2.1 _ _).1 h
      rw [hpe, (hi.1.side e).1.1.mem_erase_iff] at hp
      have hp2 : (w.mem.heap p).obj_id = (w.mem.heap t).obj_id := (hid p).symm.trans hp.2
      have := hkt.symm.trans (((hi.1.side e).2.2.1 _ _).2 ⟨hp.1.2, hp2⟩)
      exact hp.1.1 (Option.some.inj this).symm
  · cases h : (w5.cache.eviction_params.sub (!e)).hashtable (w.mem.heap t).obj_id with
    | none => rfl
    | some p =>
      exfalso
      have hp := ((hi5.1.side (!e)).2.2.1 _ _).1 h
      rw [hpo] at hp
      have hp2 : (w.mem.heap p).obj_id = (w.mem.heap t).obj_id := (hid p).symm.trans hp.2
      have := (hi.keys e _ (by rw [hkt]; simp)).symm.trans
        (((hi.1.side (!e)).2.2.1 _ _).2 ⟨hp.1, hp2⟩)
      cases this

/-- The loop of `Shift_evict` keeps the invariant and changes the totals by the victim
it evicts; it returns when given as much fuel as the eviction cache has nodes. -/
theorem Shift_loop_spec :
    ∀ (n : Nat) (w : ShiftState) (l0 l1 : List Ptr), ShiftInv w l0 l1 →
      (pick w.cache.eviction_params.eviction l0 l1).length = n → ∀ fuel,
      (∃ w2, Shift_evict_loop w.cache.eviction_params.eviction fuel w false = .ok w2 ∧
        loop_post w w2
          (cold_victim w.mem.heap (pick w.cache.eviction_params.eviction l0 l1))) ∨
      (Shift_evict_loop w.cache.eviction_params.eviction fuel w false = .timeout ∧ fuel < n) := by
  intro n
  induction n with
  | zero =>
    intro w l0 l1 hi hlen fuel
    left
    have hnil : pick w.cache.eviction_params.eviction l0 l1 = [] := List.length_eq_zero.1 hlen
    have hn := (hi.1.side w.cache.eviction_params.eviction).2.2.2
    rw [hnil] at hn
    refine ⟨w, Shift_evict_loop_done _ _ _ _ (le_of_eq hn), ⟨l0, l1, hi⟩, ?_, rfl, rfl, rfl,
      le_refl _, fun _ h => h, ?_⟩
    · rw [hnil, cold_victim_nil]
      exact ⟨rfl, rfl⟩
    · rw [hnil, cold_victim_nil]
      intro x hx
      cases hx
  | succ n ih =>
    intro w l0 l1 hi hlen fuel
    obtain ⟨e, he⟩ : ∃ e, w.cache.eviction_params.eviction = e := ⟨_, rfl⟩
    rw [he] at hlen ⊢
    have hne : pick e l0 l1 ≠ [] := fun h => by rw [h] at hlen; cases hlen
    have hbe := hi.1.side e
    obtain ⟨x, hx⟩ := List.exists_mem_of_ne_nil _ hne
    obtain ⟨hd, t, -, hqt, -, hlt, -, htl, -⟩ := hbe.1.ends hx
    have hte : FIFO_to_evict (w.fifo e) = some t := hqt
    have hpos : (w.cache.eviction_params.sub e).n_obj > 0 := by
      have := hbe.2.2.2
      show (w.fifo e).cache.n_obj > 0
      rw [this, hlen]
      push_cast; omega
    cases fuel with
    | zero => exact Or.inr ⟨Shift_evict_loop_zero e w hpos, Nat.succ_pos _⟩
    | succ f =>
    have hsplit : (pick e l0 l1).erase t ++ [t] = pick e l0 l1 := erase_append_last hbe.1.1 hlt
    have hlen2 : ((pick e l0 l1).erase t).length = n := by
      rw [List.length_erase_of_mem htl, hlen]; rfl
    rw [Shift_evict_loop_succ e f w hpos hte]
    by_cases hfr : (w.mem.heap t).freq = 0
    · obtain ⟨w5, m0, m1, hb, hi5, hpe5, hpo5, -, hn5, hb5, hmd5, hcs5, hom5, hbrk5, hdat5,
        habs5⟩ := Shift_body_cold hi e he hlt hfr
      rw [hb]
      simp only [Res.bind]
      left
      have hcv : cold_victim w.mem.heap (pick e l0 l1) = some t := by
        rw [← hsplit, cold_victim_concat, if_pos hfr]
      refine ⟨w5, Shift_evict_loop_evicted _ _ _, ⟨m0, m1, hi5⟩, ?_, hmd5, hcs5, hom5, hbrk5,
        habs5, ?_⟩
      · rw [hcv]
        exact ⟨hn5, hb5⟩
      · rw [hcv]
        intro x hx
        cases hx
        exact Shift_cold_gone hi hi5 e htl hpe5 hpo5 (fun p => (hdat5 p).2.2)
    · obtain ⟨w5, m0, m1, hb, hi5, hp5, -, he5, hn5, hb5, hmd5, hcs5, hom5, hbrk5, hdat, -, -, -,
        habs5⟩ := Shift_body_warm hi e he hlt hfr
      rw [hb]
      simp only [Res.bind]
      have hcv : cold_victim w.mem.heap (pick e l0 l1) =
          cold_victim w.mem.heap ((pick e l0 l1).erase t) := by
        rw [← hsplit, cold_victim_concat, if_neg hfr, hsplit]
      have hlt2 : ∀ p ∈ (pick e l0 l1).erase t, p ≠ w.mem.brk := fun p hp h =>
        Nat.lt_irrefl _ (h ▸ hbe.2.1 p (List.mem_of_mem_erase hp))
      by_cases hem : (pick e l0 l1).erase t = []
      · have hn0 : (w5.cache.eviction_params.sub e).n_obj ≤ 0 := by
          have := (hi5.1.side e).2.2.2
          rw [hp5, hem] at this
          exact le_of_eq this
        left
        refine ⟨w5, Shift_evict_loop_done _ _ _ _ hn0, ⟨m0, m1, hi5⟩, ?_, hmd5, hcs5, hom5,
          hbrk5, habs5, ?_⟩
        · rw [hcv, hem, cold_victim_nil]
          exact ⟨hn5, hb5⟩
        · rw [hcv, hem, cold_victim_nil]
          intro x hx
          cases hx
      · have he5b := he5 hem
        have hih := ih w5 m0 m1 hi5 (by rw [he5b, hp5]; exact hlen2) f
        rw [he5b] at hih
        rcases hih with ⟨w2, hloop, hi2, heff, hmd2, hcs2, hom2, hbrk2, habs2, hgone2⟩ |
          ⟨hto, hlt3⟩
        swap
        · exact Or.inr ⟨hto, Nat.succ_lt_succ hlt3⟩
        left
        rw [hp5, cold_victim_congr (fun p hp => (hdat p (hlt2 p hp)).1)] at heff hgone2
        refine ⟨w2, hloop, hi2, ?_, hmd2.trans hmd5, hcs2.trans hcs5, hom2.trans hom5,
          le_trans hbrk5 hbrk2, fun k hk => habs2 k (habs5 k hk), ?_⟩
        swap
        · rw [hcv]
          intro x hx
          have := hgone2 x hx
          rw [(hdat x (hlt2 x (cold_victim_mem hx).1)).2.2] at this
          exact this
        rw [hcv]
        cases hv : cold_victim w.mem.heap ((pick e l0 l1).erase t) with
        | none =>
          rw [hv] at heff
          exact ⟨heff.1.trans hn5, heff.2.trans hb5⟩
        | some v =>
          rw [hv] at heff
          have hvm := (cold_victim_mem hv).1
          refine ⟨by rw [heff.1, hn5], ?_⟩
          rw [heff.2, hb5, hmd5, (hdat v (hlt2 v hvm)).2.1]

/-- Effect of `Shift_evict`: the same as that of its loop; the threshold test at the
end only sets the `shift` flag. -/
theorem Shift_evict_spec {w : ShiftState} {l0 l1 : List Ptr} (hi : ShiftInv w l0 l1)
    (fuel : Nat) :
    (∃ w2, Shift_evict fuel w = .ok w2 ∧
      loop_post w w2
        (cold_victim w.mem.heap (pick w.cache.eviction_params.eviction l0 l1))) ∨
    (Shift_evict fuel w = .timeout ∧
      fuel < (pick w.cache.eviction_params.eviction l0 l1).length) := by
  rcases Shift_loop_spec _ w l0 l1 hi rfl fuel with ⟨w1, hloop, hpost⟩ | ⟨hto, hlt⟩
  · left
    unfold Shift_evict
    rw [hloop]
    simp only [Res.bind]
    split_ifs
    · exact ⟨_, rfl, hpost⟩
    · exact ⟨_, rfl, hpost⟩
  · right
    unfold Shift_evict
    rw [hto]
    exact ⟨rfl, hlt⟩

theorem ShiftInv.of_frame {w w2 : ShiftState} {l0 l1 m0 m1 : List Ptr} (hi : ShiftInv w l0 l1)
    (hl : ShiftLists w2 m0 m1) (hf : Shift_frame w w2) : ShiftInv w2 m0 m1 := by
  obtain ⟨hsub, he, hr, -⟩ := hf
  refine ⟨hl, by rw [hr, he]; exact hi.2.1, fun k hk => ?_⟩
  have h0 : w2.cache.eviction_params.c0.hashtable = w.cache.eviction_params.c0.hashtable :=
    (hsub false).1
  have h1 : w2.cache.eviction_params.c1.hashtable = w.cache.eviction_params.c1.hashtable :=
    (hsub true).1
  rw [h1]
  rw [h0] at hk
  exact hi.2.2 k hk

theorem Shift_frame.totals {w w2 : ShiftState} (hf : Shift_frame w w2) :
    Shift_get_n_obj w2 = Shift_get_n_obj w ∧
    Shift_get_occupied_byte w2 = Shift_get_occupied_byte w := by
  obtain ⟨hsub, he, hr, -⟩ := hf
  unfold Shift_get_n_obj Shift_get_occupied_byte
  rw [he, hr, (hsub _).2.1, (hsub _).2.1, (hsub _).2.2.1, (hsub _).2.2.1]
  exact ⟨rfl, rfl⟩

/-- A hit of `Shift_find` with update on a key resident in the FIFO cache behind `b`. -/
theorem Shift_find_hit {w : ShiftState} {l0 l1 : List Ptr} (hi : ShiftInv w l0 l1)
    (b : Bool) (req : request_t) {v : Ptr}
    (hk : (w.cache.eviction_params.sub b).hashtable req.obj_id = some v) :
    ∃ w2 m0 m1, Shift_find w req true = .ok (w2, some v) ∧ ShiftInv w2 m0 m1 ∧
      m0.Perm l0 ∧ m1.Perm l1 ∧ Shift_frame w w2 ∧
      ∀ p, (w2.mem.heap p).obj_id = (w.mem.heap p).obj_id ∧
        (w2.mem.heap p).obj_size = (w.mem.heap p).obj_size := by
  unfold Shift_find
  simp only [Bool.not_true, Bool.false_eq_true, if_false]
  by_cases hb : b = w.cache.eviction_params.eviction
  · subst hb
    obtain ⟨w2, m0, m1, hf, hl2, hp0, hp1, hfr, hid⟩ := Shift_find_in_hit hi.1 _ req hk
    rw [hf]
    simp only [Res.bind]
    exact ⟨w2, m0, m1, rfl, hi.of_frame hl2 hfr, hp0, hp1, hfr, hid⟩
  · have hbr : b = w.cache.eviction_params.retention := by
      rw [hi.2.1]
      revert hb
      cases b <;> cases w.cache.eviction_params.eviction <;> simp
    have hnb : (!b) = w.cache.eviction_params.eviction := by
      rw [hbr, hi.2.1]; simp
    have hmiss : (w.cache.eviction_params.sub w.cache.eviction_params.eviction).hashtable
        req.obj_id = none := by
      rw [← hnb]
      exact hi.keys b _ (by rw [hk]; simp)
    rw [Shift_find_in_miss w _ req hmiss]
    simp only [Res.bind]
    rw [← hbr]
    obtain ⟨w2, m0, m1, hf, hl2, hp0, hp1, hfr, hid⟩ := Shift_find_in_hit hi.1 b req hk
    exact ⟨w2, m0, m1, hf, hi.of_frame hl2 hfr, hp0, hp1, hfr, hid⟩

theorem Shift_find_miss (w : ShiftState) (req : request_t)
    (hk : Shift_absent w req.obj_id) : Shift_find w req true = .ok (w, none) := by
  have h : ∀ b, (w.cache.eviction_params.sub b).hashtable req.obj_id = none := by
    intro b
    cases b
    · exact hk.1
    · exact hk.2
  unfold Shift_find
  simp only [Bool.not_true, Bool.false_eq_true, if_false]
  rw [Shift_find_in_miss w _ req (h _)]
  simp only [Res.bind]
  exact Shift_find_in_miss w _ req (h _)

/-- A key is resident in a Shift cache or absent from both FIFO caches. -/
theorem Shift_resident_or_absent (w : ShiftState) (k : Nat) :
    (∃ b v, (w.cache.eviction_params.sub b).hashtable k = some v) ∨ Shift_absent w k := by
  cases h0 : w.cache.eviction_params.c0.hashtable k with
  | some v => exact Or.inl ⟨false, v, h0⟩
  | none =>
    cases h1 : w.cache.eviction_params.c1.hashtable k with
    | some v => exact Or.inl ⟨true, v, h1⟩
    | none => exact Or.inr ⟨h0, h1⟩

/-- A hit of `Shift_get`: returns true; only the heap and the list slots can change. -/
theorem Shift_get_hit_inv {w : ShiftState} {l0 l1 : List Ptr} (hi : ShiftInv w l0 l1)
    (b : Bool) (req : request_t) {v : Ptr}
    (hk : (w.cache.eviction_params.sub b).hashtable req.obj_id = some v) (fuel : Nat) :
    ∃ w2 m0 m1, Shift_get fuel w req = .ok (w2, true) ∧ ShiftInv w2 m0 m1 ∧
      m0.Perm l0 ∧ m1.Perm l1 ∧ Shift_frame w w2 ∧
      ∀ p, (w2.mem.heap p).obj_id = (w.mem.heap p).obj_id ∧
        (w2.mem.heap p).obj_size = (w.mem.heap p).obj_size := by
  obtain ⟨w2, m0, m1, hf, hi2, hp0, hp1, hfr, hid⟩ := Shift_find_hit hi b req hk
  refine ⟨w2, m0, m1, ?_, hi2, hp0, hp1, hfr, hid⟩
  simp only [Shift_get, cache_get_base]
  rw [show (Shift_ops fuel).find w req true = Shift_find w req true from rfl, hf]
  simp only [Res.bind]

/-- Effect of `Shift_insert` of a key absent from both FIFO caches. -/
theorem Shift_insert_spec {w : ShiftState} {l0 l1 : List Ptr} (hi : ShiftInv w l0 l1)
    (req : request_t) (hk : Shift_absent w req.obj_id) :
    ∃ w2 m0 m1, Shift_insert w req = .ok (w2, w.mem.brk) ∧ ShiftInv w2 m0 m1 ∧
      Shift_total_n w2 = Shift_total_n w + 1 ∧
      Shift_total_bytes w2 = Shift_total_bytes w +
        (req.obj_size + w.cache.eviction_params.c0.obj_md_size) ∧
      w2.cache.cache_size = w.cache.cache_size ∧ w2.cache.obj_md_size = w.cache.obj_md_size := by
  obtain ⟨b, hb⟩ : ∃ b, (if w.cache.eviction_params.shift then w.cache.eviction_params.retention
      else w.cache.eviction_params.eviction) = b := ⟨_, rfl⟩
  have hkb := (Shift_absent_iff w req.obj_id b).1 hk
  obtain ⟨f2, hins, hl2, hbrk, hht, hn, hocc, hmd, hsd, hfr, hn0, hn1⟩ :=
    Shift_sub_insert hi.1 b req hkb.1
  have hret : (w.setFifo b f2).cache.eviction_params.retention =
      !(w.setFifo b f2).cache.eviction_params.eviction := by
    cases b <;> exact hi.2.1
  have hinv : ShiftInv (w.setFifo b f2) (if b then l0 else w.mem.brk :: pick b l0 l1)
      (if b then w.mem.brk :: pick b l0 l1 else l1) := by
    refine ShiftInv.mk_of hl2 hret b ?_
    rw [setFifo_sub_same, setFifo_sub_other, hht]
    exact keys_apart_insert (hi.keys b) _ _ hkb.2
  have hinv2 : ShiftInv ((w.setFifo b f2).setHeap
      (setFreq (w.setFifo b f2).mem.heap w.mem.brk 0))
      (if b then l0 else w.mem.brk :: pick b l0 l1)
      (if b then w.mem.brk :: pick b l0 l1 else l1) :=
    ⟨hinv.1.heap (same_links_setFreq _ _ _), hinv.2.1, hinv.2.2⟩
  refine ⟨_, _, _, ?_, hinv2, ?_, ?_, ?_, ?_⟩
  · simp only [Shift_insert, hb, hins, Res.bind]
  · show Shift_total_n (w.setFifo b f2) = _
    rw [Shift_total_n_split _ b, Shift_total_n_split w b, setFifo_sub_same, setFifo_sub_other, hn]
    omega
  · show Shift_total_bytes (w.setFifo b f2) = _
    rw [Shift_total_bytes_split _ b, Shift_total_bytes_split w b, setFifo_sub_same,
      setFifo_sub_other, hocc, hi.1.md b]
    omega
  · cases b <;> rfl
  · cases b <;> rfl

/-- The eviction loop of `cache_get_base` keeps the invariant of a Shift cache and does
not bring back a key that is absent. -/
theorem Shift_evict_until_fits_inv (f : Nat) (req : request_t) (k : Nat) :
    ∀ (fuel : Nat) (w w2 : ShiftState) (l0 l1 : List Ptr), ShiftInv w l0 l1 →
      Shift_absent w k → evict_until_fits (Shift_ops f) req fuel w = .ok w2 →
      (∃ m0 m1, ShiftInv w2 m0 m1) ∧ Shift_absent w2 k := by
  intro fuel
  induction fuel with
  | zero =>
    intro w w2 l0 l1 hi hk h
    unfold evict_until_fits at h
    split_ifs at h
    cases h
    exact ⟨⟨l0, l1, hi⟩, hk⟩
  | succ n ih =>
    intro w w2 l0 l1 hi hk h
    unfold evict_until_fits at h
    split_ifs at h
    · rw [show (Shift_ops f).evict w req = Shift_evict f w from rfl] at h
      rcases Shift_evict_spec hi f with ⟨w1, he, ⟨m0, m1, hi1⟩, -, -, -, -, -, habs, -⟩ | ⟨hto, -⟩
      · rw [he] at h
        simp only [Res.bind] at h
        exact ih w1 w2 m0 m1 hi1 (habs k hk) h
      · rw [hto] at h
        cases h
    · cases h
      exact ⟨⟨l0, l1, hi⟩, hk⟩

/-- The invariant of a Shift cache is kept by every `Shift_get` that returns. -/
theorem Shift_get_inv {w : ShiftState} {l0 l1 : List Ptr} (hi : ShiftInv w l0 l1) (fuel : Nat)
    (req : request_t) {w2 : ShiftState} {b : Bool}
    (h : Shift_get fuel w req = .ok (w2, b)) : ∃ m0 m1, ShiftInv w2 m0 m1 := by
  rcases Shift_resident_or_absent w req.obj_id with ⟨c, v, hk⟩ | hk
  · obtain ⟨w3, m0, m1, hg, hi3, -⟩ := Shift_get_hit_inv hi c req hk fuel
    rw [hg] at h
    cases h
    exact ⟨m0, m1, hi3⟩
  · simp only [Shift_get, cache_get_base] at h
    rw [show (Shift_ops fuel).find w req true = Shift_find w req true from rfl,
      Shift_find_miss w req hk] at h
    simp only [Res.bind] at h
    cases he : evict_until_fits (Shift_ops fuel) req fuel w with
    | ok s2 =>
      rw [he] at h
      simp only [Res.bind] at h
      obtain ⟨⟨m0, m1, hi2⟩, hk2⟩ := Shift_evict_until_fits_inv fuel req req.obj_id fuel w s2
        l0 l1 hi hk he
      obtain ⟨w3, n0, n1, hins, hi3, -⟩ := Shift_insert_spec hi2 req hk2
      rw [show (Shift_ops fuel).insert s2 req = Shift_insert s2 req from rfl, hins] at h
      cases h
      exact ⟨n0, n1, hi3⟩
    | fault => rw [he] at h; cases h
    | timeout => rw [he] at h; cases h

theorem Shift_init_inv (cp : common_cache_params_t) : ShiftInv (Shift_init cp) [] [] := by
  have h : FifoInv ((Shift_init cp).fifo false) [] :=
    ⟨⟨List.nodup_nil, rfl, rfl, by simp⟩, by simp,
      by simp [Shift_init, FIFO_init, cache_struct_init, ShiftState.fifo, Shift_params_t.sub],
      rfl⟩
  exact ⟨⟨h, h, by simp, rfl⟩, rfl, fun _ _ => rfl⟩

/-- The node sequences of a valid Shift cache are the walks from the two heads. -/
theorem Shift_nodes_eq {w : ShiftState} {l0 l1 : List Ptr} (hi : ShiftInv w l0 l1) :
    Shift_nodes w false = l0 ∧ Shift_nodes w true = l1 :=
  ⟨walkNext_eq (q := dlist.mk w.mem.heap w.cache.eviction_params.c0.eviction_params.q_head
      w.cache.eviction_params.c0.eviction_params.q_tail) hi.1.1.1 hi.1.1.length_le,
   walkNext_eq (q := dlist.mk w.mem.heap w.cache.eviction_params.c1.eviction_params.q_head
      w.cache.eviction_params.c1.eviction_params.q_tail) hi.1.2.1.1 hi.1.2.1.length_le⟩

theorem Shift_run_valid (fuel : Nat) (ks : List Nat) :
    ∀ (w : ShiftState) (l0 l1 : List Ptr), ShiftInv w l0 l1 →
      ∃ m0 m1, ShiftInv (Shift_run fuel ks w) m0 m1 := by
  induction ks with
  | nil =>
    intro w l0 l1 hi
    exact ⟨l0, l1, hi⟩
  | cons k ks ih =>
    intro w l0 l1 hi
    show ∃ m0 m1, ShiftInv (Shift_run fuel ks (get_or_stay (Shift_get fuel) w k)) m0 m1
    cases hg : Shift_get fuel w (unit_req k) with
    | ok r =>
      have hg2 : Shift_get fuel w (unit_req k) = .ok (r.1, r.2) := hg
      obtain ⟨m0, m1, hi2⟩ := Shift_get_inv hi fuel (unit_req k) hg2
      have e : get_or_stay (Shift_get fuel) w k = r.1 := by
        simp only [get_or_stay, hg]
      rw [e]
      exact ih r.1 m0 m1 hi2
    | fault =>
      have e : get_or_stay (Shift_get fuel) w k = w := by
        simp only [get_or_stay, hg]
      rw [e]
      exact ih w l0 l1 hi
    | timeout =>
      have e : get_or_stay (Shift_get fuel) w k = w := by
        simp only [get_or_stay, hg]
      rw [e]
      exact ih w l0 l1 hi

/-- Every state reached from a fresh Shift cache by unit-size gets is valid, with the
node sequences read off the two heads. -/
theorem Shift_run_inv (cp : common_cache_params_t) (fuel : Nat) (ks : List Nat) :
    ShiftInv (Shift_run fuel ks (Shift_init cp))
      (Shift_nodes (Shift_run fuel ks (Shift_init cp)) false)
      (Shift_nodes (Shift_run fuel ks (Shift_init cp)) true) := by
  obtain ⟨m0, m1, hi⟩ := Shift_run_valid fuel ks _ _ _ (Shift_init_inv cp)
  have := Shift_nodes_eq hi
  rw [this.1, this.2]
  exact hi

theorem Shift_swap_totals (e : Bool) (w : ShiftState)
    (he : w.cache.eviction_params.eviction = e) :
    Shift_get_n_obj (Shift_swap e w) = Shift_get_n_obj w ∧
    Shift_get_occupied_byte (Shift_swap e w) = Shift_get_occupied_byte w := by
  subst he
  unfold Shift_swap
  split_ifs
  · exact ⟨add_comm _ _, add_comm _ _⟩
  · exact ⟨rfl, rfl⟩

/-- C18: `Shift_get_n_obj` is the sum of the `n_obj` of the eviction and the retention
cache, and in a valid Shift cache it is the number of nodes of the two queues.  A call
of `Shift_evict` on a valid Shift cache (with fuel for one pass over the eviction
queue) returns; if the eviction queue holds a node with `freq = 0`, the one nearest
the tail, `v`, is the victim: its key is in neither cache afterwards,
`Shift_get_n_obj` has dropped by one and `Shift_get_occupied_byte` by the size of
`v` plus the per-object metadata; if there is no such node both totals are unchanged.
One loop iteration that shuttles a tail node with `freq >= 1` into the retention cache
(role swap included when it drains the eviction cache) and the role swap by itself
leave `Shift_get_n_obj` and `Shift_get_occupied_byte` unchanged. -/
theorem C18_shift_count_conservation (w : ShiftState) (l0 l1 : List Ptr) (fuel : Nat)
    (hi : ShiftInv w l0 l1)
    (hfuel : (pick w.cache.eviction_params.eviction l0 l1).length ≤ fuel) :
    Shift_get_n_obj w =
      (w.cache.eviction_params.sub w.cache.eviction_params.eviction).n_obj +
      (w.cache.eviction_params.sub w.cache.eviction_params.retention).n_obj ∧
    Shift_get_n_obj w = (l0.length : Int) + (l1.length : Int) ∧
    (∃ w2, Shift_evict fuel w = .ok w2 ∧
      (∀ v, cold_victim w.mem.heap (pick w.cache.eviction_params.eviction l0 l1) = some v →
        v ∈ pick w.cache.eviction_params.eviction l0 l1 ∧ (w.mem.heap v).freq = 0 ∧
        Shift_absent w2 (w.mem.heap v).obj_id ∧
        Shift_get_n_obj w2 = Shift_get_n_obj w - 1 ∧
        Shift_get_occupied_byte w2 = Shift_get_occupied_byte w -
          ((w.mem.heap v).obj_size + w.cache.eviction_params.c0.obj_md_size)) ∧
      (cold_victim w.mem.heap (pick w.cache.eviction_params.eviction l0 l1) = none →
        Shift_get_n_obj w2 = Shift_get_n_obj w ∧
        Shift_get_occupied_byte w2 = Shift_get_occupied_byte w)) ∧
    (∀ t, (pick w.cache.eviction_params.eviction l0 l1).getLast? = some t →
      (w.mem.heap t).freq ≠ 0 →
      ∃ w5, Shift_body w.cache.eviction_params.eviction w t false = .ok (w5, false) ∧
        Shift_get_n_obj w5 = Shift_get_n_obj w ∧
        Shift_get_occupied_byte w5 = Shift_get_occupied_byte w) ∧
    Shift_get_n_obj (Shift_swap w.cache.eviction_params.eviction w) = Shift_get_n_obj w ∧
    Shift_get_occupied_byte (Shift_swap w.cache.eviction_params.eviction w) =
      Shift_get_occupied_byte w := by
  have hn := Shift_get_n_obj_eq hi.2.1
  have hb := Shift_get_occupied_byte_eq hi.2.1
  refine ⟨rfl, ?_, ?_, ?_, Shift_swap_totals _ w rfl⟩
  · rw [hn]
    unfold Shift_total_n
    have h0 : w.cache.eviction_params.c0.n_obj = l0.length := hi.1.1.2.2.2
    have h1 : w.cache.eviction_params.c1.n_obj = l1.length := hi.1.2.1.2.2.2
    rw [h0, h1]
  · rcases Shift_evict_spec hi fuel with
      ⟨w2, he, ⟨m0, m1, hi2⟩, heff, -, -, -, -, -, hgone⟩ | ⟨-, hlt⟩
    · refine ⟨w2, he, fun v hv => ?_, fun hv => ?_⟩
      · rw [hv] at heff
        have h2 : Shift_total_n w2 = Shift_total_n w - 1 ∧
            Shift_total_bytes w2 = Shift_total_bytes w -
              ((w.mem.heap v).obj_size + w.cache.eviction_params.c0.obj_md_size) := heff
        rw [Shift_get_n_obj_eq hi2.2.1, Shift_get_occupied_byte_eq hi2.2.1, hn, hb]
        exact ⟨(cold_victim_mem hv).1, (cold_victim_mem hv).2, hgone v hv, h2.1, h2.2⟩
      · rw [hv] at heff
        have h2 : Shift_total_n w2 = Shift_total_n w ∧
            Shift_total_bytes w2 = Shift_total_bytes w := heff
        rw [Shift_get_n_obj_eq hi2.2.1, Shift_get_occupied_byte_eq hi2.2.1, hn, hb]
        exact h2
    · omega
  · intro t hlt hf
    obtain ⟨w5, m0, m1, hbody, hi5, -, -, -, hn5, hb5, -⟩ := Shift_body_warm hi _ rfl hlt hf
    refine ⟨w5, hbody, ?_, ?_⟩
    · rw [Shift_get_n_obj_eq hi5.2.1, hn, hn5]
    · rw [Shift_get_occupied_byte_eq hi5.2.1, hb, hb5]

set_option maxRecDepth 100000 in
theorem C18_witness :
    (ShiftInv Shift_mixed [2, 1, 0] [] ∧
      (pick Shift_mixed.cache.eviction_params.eviction [2, 1, 0] []).length ≤ 3 ∧
      ∃ w2, Shift_evict 3 Shift_mixed = .ok w2 ∧ Shift_absent w2 2 ∧
        Shift_get_n_obj w2 = Shift_get_n_obj Shift_mixed - 1 ∧
        Shift_get_occupied_byte w2 = Shift_get_occupied_byte Shift_mixed - 1) ∧
    (ShiftInv Shift_hot [2, 1, 0] [] ∧
      (pick Shift_hot.cache.eviction_params.eviction [2, 1, 0] []).length ≤ 3 ∧
      ∃ w2, Shift_evict 3 Shift_hot = .ok w2 ∧
        Shift_get_n_obj w2 = Shift_get_n_obj Shift_hot ∧
        Shift_get_occupied_byte w2 = Shift_get_occupied_byte Shift_hot) := by
  have hm : ShiftInv Shift_mixed [2, 1, 0] [] := by
    have h : ShiftInv Shift_mixed (Shift_nodes Shift_mixed false) (Shift_nodes Shift_mixed true) :=
      Shift_run_inv _ _ _
    have e : Shift_nodes Shift_mixed false = [2, 1, 0] ∧ Shift_nodes Shift_mixed true = [] := by
      decide!
    rw [e.1, e.2] at h
    exact h
  have hh : ShiftInv Shift_hot [2, 1, 0] [] := by
    have h : ShiftInv Shift_hot (Shift_nodes Shift_hot false) (Shift_nodes Shift_hot true) :=
      Shift_run_inv _ _ _
    have e : Shift_nodes Shift_hot false = [2, 1, 0] ∧ Shift_nodes Shift_hot true = [] := by
      decide!
    rw [e.1, e.2] at h
    exact h
  have lm : (pick Shift_mixed.cache.eviction_params.eviction [2, 1, 0] []).length ≤ 3 := by
    decide!
  have lh : (pick Shift_hot.cache.eviction_params.eviction [2, 1, 0] []).length ≤ 3 := by
    decide!
  refine ⟨⟨hm, lm, ?_⟩, hh, lh, ?_⟩
  · obtain ⟨-, -, ⟨w2, he, hsome, -⟩, -⟩ :=
      C18_shift_count_conservation Shift_mixed [2, 1, 0] [] 3 hm lm
    have hv : cold_victim Shift_mixed.mem.heap
        (pick Shift_mixed.cache.eviction_params.eviction [2, 1, 0] []) = some 1 := by decide!
    obtain ⟨-, -, habs, hn, hb⟩ := hsome 1 hv
    have e1 : (Shift_mixed.mem.heap 1).obj_id = 2 := by decide!
    have e2 : (Shift_mixed.mem.heap 1).obj_size +
        Shift_mixed.cache.eviction_params.c0.obj_md_size = 1 := by decide!
    rw [e1] at habs
    rw [e2] at hb
    exact ⟨w2, he, habs, hn, hb⟩
  · obtain ⟨-, -, ⟨w2, he, -, hnone⟩, -⟩ :=
      C18_shift_count_conservation Shift_hot [2, 1, 0] [] 3 hh lh
    have hv : cold_victim Shift_hot.mem.heap
        (pick Shift_hot.cache.eviction_params.eviction [2, 1, 0] []) = none := by decide!
    exact ⟨w2, he, hnone hv⟩

/-- A hit of `ShiftSieve_find` with update on a valid list: the index, the counters and
the set of nodes are kept. -/
theorem Sieve_find_hit_list {w : SieveState} {l : List Ptr} (hi : SieveList w l)
    (req : request_t) {obj : Ptr} (hf : w.cache.hashtable req.obj_id = some obj) :
    ∃ w2 l2, ShiftSieve_find w req true = .ok (w2, some obj) ∧ SieveList w2 l2 ∧ l2.Perm l ∧
      w2.cache.hashtable = w.cache.hashtable ∧ w2.cache.n_obj = w.cache.n_obj ∧
      w2.cache.occupied_byte = w.cache.occupied_byte ∧
      w2.cache.cache_size = w.cache.cache_size ∧
      w2.cache.obj_md_size = w.cache.obj_md_size ∧ w2.mem.brk = w.mem.brk := by
  have hinv : Inv w.mem.heap w.mem.brk w.cache.hashtable w.cache.n_obj
    w.cache.eviction_params.q_head w.cache.eviction_params.q_tail l := hi
  have hol : obj ∈ l := ((hinv.2.2.1 _ _).1 hf).1
  by_cases hsv : (w.mem.heap obj).status &&& SURVIVED_MASK = 0
  · have hmv := hinv.move_to_head hol
    have hperm : (obj :: l.erase obj).Perm l := (List.perm_cons_erase hol).symm
    cases hm : move_obj_to_head (dlist.mk w.mem.heap w.cache.eviction_params.q_head
          w.cache.eviction_params.q_tail) obj with
    | ok q2 =>
      rw [hm] at hmv
      by_cases hpo : some obj = w.cache.eviction_params.pointer
      · have e : ShiftSieve_find w req true =
            .ok ((SieveState.setQ
              (w.setParams { w.cache.eviction_params with pointer := (w.mem.heap obj).prev })
              q2).setHeap (setStatus q2.heap obj ((q2.heap obj).status ||| VISITED_MASK)),
              some obj) := by
          simp [ShiftSieve_find, cache_find_base, hf, hsv, hpo.symm, SieveState.q,
            World.setParams, hm, Res.bind, SieveState.setQ, World.setHeap]
        rw [e]
        exact ⟨_, _, rfl, hmv.1.of_same_links (same_links_setStatus _ _ _), hperm, rfl, rfl, rfl,
          rfl, rfl, rfl⟩
      · have e : ShiftSieve_find w req true =
            .ok ((SieveState.setQ w q2).setHeap
              (setStatus q2.heap obj ((q2.heap obj).status ||| VISITED_MASK)), some obj) := by
          simp [ShiftSieve_find, cache_find_base, hf, hsv, hpo, SieveState.q,
            World.setParams, hm, Res.bind, SieveState.setQ, World.setHeap]
        rw [e]
        exact ⟨_, _, rfl, hmv.1.of_same_links (same_links_setStatus _ _ _), hperm, rfl, rfl, rfl,
          rfl, rfl, rfl⟩
    | fault => rw [hm] at hmv; exact hmv.elim
    | timeout => rw [hm] at hmv; exact hmv.elim
  · have e : ShiftSieve_find w req true =
        .ok (w.setHeap (setStatus w.mem.heap obj ((w.mem.heap obj).status ||| VISITED_MASK)),
          some obj) := by
      simp [ShiftSieve_find, cache_find_base, hf, hsv, Res.bind]
    rw [e]
    exact ⟨_, l, rfl, hinv.of_same_links (same_links_setStatus _ _ _), List.Perm.refl _,
      rfl, rfl, rfl, rfl, rfl, rfl⟩

/-- A `get` whose `find` hits returns true with the state left by `find`. -/
theorem Lever_get_of_find {w w2 : LeverState} {req : request_t} {p : Ptr}
    (h : Lever_find w req true = (w2, some p)) (fuel : Nat) :
    Lever_get fuel w req = .ok (w2, true) := by
  simp only [Lever_get, cache_get_base]
  rw [show Lever_ops.find w req true = .ok (Lever_find w req true) from rfl, h]
  simp only [Res.bind]

theorem Sieve_get_of_find {w w2 : SieveState} {req : request_t} {p : Ptr}
    (h : ShiftSieve_find w req true = .ok (w2, some p)) (fuel : Nat) :
    ShiftSieve_get fuel w req = .ok (w2, true) := by
  simp only [ShiftSieve_get, cache_get_base]
  rw [show (ShiftSieve_ops fuel).find w req true = ShiftSieve_find w req true from rfl, h]
  simp only [Res.bind]

theorem Shift_get_of_find {w w2 : ShiftState} {req : request_t} {p : Ptr}
    (h : Shift_find w req true = .ok (w2, some p)) (fuel : Nat) :
    Shift_get fuel w req = .ok (w2, true) := by
  simp only [Shift_get, cache_get_base]
  rw [show (Shift_ops fuel).find w req true = Shift_find w req true from rfl, h]
  simp only [Res.bind]

theorem Lever_find_hit (w : LeverState) (req : request_t) {p : Ptr}
    (hk : w.cache.hashtable req.obj_id = some p) :
    Lever_find w req true = (w.setHeap (setFreq w.mem.heap p 1), some p) := by
  simp [Lever_find, cache_find_base, hk]

/-- C20: hit stability.  In each of the three engines, `find` with update on a resident
`obj_id` (Lever: any state; ShiftSieve: a state with a valid list; Shift: a valid state,
the key in either FIFO cache) returns the node `p` of the key, so the `get` returns
true, and the index (hence the set of resident `obj_id`s), `n_obj` and
`occupied_byte` are as they were; a second `find` of the same request right after it
returns `p` again, so the repeated `get` returns true as well. -/
theorem C20_hit_stability (wl : LeverState) (ws : SieveState) (ls : List Ptr)
    (wh : ShiftState) (l0 l1 : List Ptr) (req : request_t) (fuel : Nat)
    (hs : SieveList ws ls) (hh : ShiftInv wh l0 l1) :
    (∀ p, wl.cache.hashtable req.obj_id = some p →
      ∃ w2 w3, Lever_find wl req true = (w2, some p) ∧
        Lever_get fuel wl req = .ok (w2, true) ∧
        w2.cache.hashtable = wl.cache.hashtable ∧ w2.cache.n_obj = wl.cache.n_obj ∧
        w2.cache.occupied_byte = wl.cache.occupied_byte ∧
        Lever_find w2 req true = (w3, some p) ∧
        Lever_get fuel w2 req = .ok (w3, true)) ∧
    (∀ p, ws.cache.hashtable req.obj_id = some p →
      ∃ w2 w3, ShiftSieve_find ws req true = .ok (w2, some p) ∧
        ShiftSieve_get fuel ws req = .ok (w2, true) ∧
        w2.cache.hashtable = ws.cache.hashtable ∧ w2.cache.n_obj = ws.cache.n_obj ∧
        w2.cache.occupied_byte = ws.cache.occupied_byte ∧
        ShiftSieve_find w2 req true = .ok (w3, some p) ∧
        ShiftSieve_get fuel w2 req = .ok (w3, true)) ∧
    (∀ b p, (wh.cache.eviction_params.sub b).hashtable req.obj_id = some p →
      ∃ w2 w3, Shift_find wh req true = .ok (w2, some p) ∧
        Shift_get fuel wh req = .ok (w2, true) ∧
        (∀ c, (w2.cache.eviction_params.sub c).hashtable =
          (wh.cache.eviction_params.sub c).hashtable) ∧
        Shift_get_n_obj w2 = Shift_get_n_obj wh ∧
        Shift_get_occupied_byte w2 = Shift_get_occupied_byte wh ∧
        Shift_find w2 req true = .ok (w3, some p) ∧
        Shift_get fuel w2 req = .ok (w3, true)) := by
  refine ⟨fun p hp => ?_, fun p hp => ?_, fun b p hp => ?_⟩
  · have h1 := Lever_find_hit wl req hp
    have h2 := Lever_find_hit (wl.setHeap (setFreq wl.mem.heap p 1)) req hp
    exact ⟨_, _, h1, Lever_get_of_find h1 fuel, rfl, rfl, rfl, h2, Lever_get_of_find h2 fuel⟩
  · obtain ⟨w2, l2, hf, hi2, -, hht, hn, hocc, -⟩ := Sieve_find_hit_list hs req hp
    obtain ⟨w3, l3, hf3, -⟩ := Sieve_find_hit_list hi2 req (hht ▸ hp)
    exact ⟨w2, w3, hf, Sieve_get_of_find hf fuel, hht, hn, hocc, hf3,
      Sieve_get_of_find hf3 fuel⟩
  · obtain ⟨w2, m0, m1, hf, hi2, -, -, hfr, -⟩ := Shift_find_hit hh b req hp
    have hp2 : (w2.cache.eviction_params.sub b).hashtable req.obj_id = some p := by
      rw [(hfr.1 b).1]; exact hp
    obtain ⟨w3, n0, n1, hf3, -⟩ := Shift_find_hit hi2 b req hp2
    exact ⟨w2, w3, hf, Shift_get_of_find hf fuel, fun c => (hfr.1 c).1, hfr.totals.1,
      hfr.totals.2, hf3, Shift_get_of_find hf3 fuel⟩

set_option maxRecDepth 100000 in
theorem C20_witness :
    SieveList Sieve_example_basic (Sieve_nodes Sieve_example_basic) ∧
    ShiftInv Shift_split (Shift_nodes Shift_split false) (Shift_nodes Shift_split true) ∧
    (∃ w2 w3, Lever_find Lever_warm (unit_req 3) true = (w2, some 2) ∧
      Lever_get 1 Lever_warm (unit_req 3) = .ok (w2, true) ∧
      w2.cache.hashtable = Lever_warm.cache.hashtable ∧
      w2.cache.n_obj = Lever_warm.cache.n_obj ∧
      w2.cache.occupied_byte = Lever_warm.cache.occupied_byte ∧
      Lever_find w2 (unit_req 3) true = (w3, some 2) ∧
      Lever_get 1 w2 (unit_req 3) = .ok (w3, true)) ∧
    (∃ w2 w3, ShiftSieve_find Sieve_example_basic (unit_req 3) true = .ok (w2, some 2) ∧
      ShiftSieve_get 1 Sieve_example_basic (unit_req 3) = .ok (w2, true) ∧
      w2.cache.hashtable = Sieve_example_basic.cache.hashtable ∧
      w2.cache.n_obj = Sieve_example_basic.cache.n_obj ∧
      w2.cache.occupied_byte = Sieve_example_basic.cache.occupied_byte ∧
      ShiftSieve_find w2 (unit_req 3) true = .ok (w3, some 2) ∧
      ShiftSieve_get 1 w2 (unit_req 3) = .ok (w3, true)) ∧
    (∃ w2 w3, Shift_find Shift_split (unit_req 3) true = .ok (w2, some 2) ∧
      Shift_get 1 Shift_split (unit_req 3) = .ok (w2, true) ∧
      (∀ c, (w2.cache.eviction_params.sub c).hashtable =
        (Shift_split.cache.eviction_params.sub c).hashtable) ∧
      Shift_get_n_obj w2 = Shift_get_n_obj Shift_split ∧
      Shift_get_occupied_byte w2 = Shift_get_occupied_byte Shift_split ∧
      Shift_find w2 (unit_req 3) true = .ok (w3, some 2) ∧
      Shift_get 1 w2 (unit_req 3) = .ok (w3, true)) ∧
    (∃ w2 w3, Shift_find Shift_split (unit_req 1) true = .ok (w2, some 3) ∧
      Shift_get 1 Shift_split (unit_req 1) = .ok (w2, true) ∧
      (∀ c, (w2.cache.eviction_params.sub c).hashtable =
        (Shift_split.cache.eviction_params.sub c).hashtable) ∧
      Shift_get_n_obj w2 = Shift_get_n_obj Shift_split ∧
      Shift_get_occupied_byte w2 = Shift_get_occupied_byte Shift_split ∧
      Shift_find w2 (unit_req 1) true = .ok (w3, some 3) ∧
      Shift_get 1 w2 (unit_req 1) = .ok (w3, true)) :=
  have hs : SieveList Sieve_example_basic (Sieve_nodes Sieve_example_basic) :=
    Sieve_reach_list (SieveReach_script 2 Sieve_calls_basic rfl .init).all
  have hh : ShiftInv Shift_split (Shift_nodes Shift_split false) (Shift_nodes Shift_split true) :=
    Shift_run_inv _ _ _
  have h3 := C20_hit_stability Lever_warm Sieve_example_basic (Sieve_nodes Sieve_example_basic)
    Shift_split (Shift_nodes Shift_split false) (Shift_nodes Shift_split true) (unit_req 3) 1
    hs hh
  have h1 := C20_hit_stability Lever_warm Sieve_example_basic (Sieve_nodes Sieve_example_basic)
    Shift_split (Shift_nodes Shift_split false) (Shift_nodes Shift_split true) (unit_req 1) 1
    hs hh
  ⟨hs, hh, h3.1 2 (by decide!), h3.2.1 2 (by decide!), h3.2.2 false 2 (by decide!),
    h1.2.2 true 3 (by decide!)⟩

/-- The node at the head of a list is left where it is by `move_obj_to_head`: the list
slots and the heap are returned as they were. -/
theorem move_to_head_noop {q : dlist} {l : List Ptr} (h : IsList q l) {x : Ptr} (hx : x ∈ l)
    (hh : l.head? = some x) : move_obj_to_head q x = .ok q := by
  obtain ⟨hd, tl, hqh, hqt, hlh, hlt, -, -, hpn, -, -, htx, -⟩ := h.ends hx
  have hdx : hd = x := by rw [hlh] at hh; exact Option.some.inj hh
  subst hdx
  have hlinks := h.2.2.2 hd hx
  unfold move_obj_to_head
  by_cases e : q.head = q.tail
  · have htd : tl = hd := by rw [hqh, hqt] at e; exact (Option.some.inj e).symm
    rw [if_pos e, if_pos ⟨hqh.symm, by rw [hlinks.2]; exact htx.1 htd, by rw [hlinks.1]; exact hpn⟩]
  · rw [if_neg e, if_pos hqh.symm]

/-- The node at the tail of a list is left where it is by `move_obj_to_tail`. -/
theorem move_to_tail_noop {q : dlist} {l : List Ptr} (h : IsList q l) {x : Ptr} (hx : x ∈ l)
    (hh : l.getLast? = some x) : move_obj_to_tail q x = .ok q := by
  obtain ⟨hd, tl, hqh, hqt, hlh, hlt, -, -, -, hnn, hhx, -, -⟩ := h.ends hx
  have htx : tl = x := by rw [hlt] at hh; exact Option.some.inj hh
  subst htx
  have hlinks := h.2.2.2 tl hx
  unfold move_obj_to_tail
  by_cases e : q.head = q.tail
  · have htd : hd = tl := by rw [hqh, hqt] at e; exact Option.some.inj e
    rw [if_pos e, if_pos ⟨by rw [hqh, htd], by rw [hlinks.2]; exact hnn,
      by rw [hlinks.1]; exact hhx.1 htd⟩]
  · have hne : ¬ some tl = q.head := fun h2 => e (h2.symm.trans hqt.symm)
    rw [if_neg e, if_neg hne, if_pos hqt.symm]

theorem head?_of_length_one {l : List Ptr} {x : Ptr} (hx : x ∈ l) (h1 : l.length = 1) :
    l.head? = some x ∧ l.getLast? = some x := by
  match l, h1 with
  | [a], _ =>
    have : x = a := by simpa using hx
    subst this
    exact ⟨rfl, rfl⟩

/-- C21: on a well-formed list with node sequence `l` and a node `x` of `l`,
`move_obj_to_head` returns the well-formed list `x :: l.erase x` (head `x`) and
`move_obj_to_tail` the well-formed list `l.erase x ++ [x]` (tail `x`); both change
link fields of nodes of `l` only.  When `l` has one element, or `x` is already the
head (for `move_obj_to_head`) or the tail (for `move_obj_to_tail`), the list slots
and the whole heap are returned unchanged. -/
theorem C21_move_to_ends (q : dlist) (l : List Ptr) (x : Ptr)
    (hwf : well_formed q l) (hx : x ∈ l) :
    (move_obj_to_head q x).holds (fun q2 =>
      well_formed q2 (x :: l.erase x) ∧ q2.head = some x ∧ links_only q q2 l) ∧
    (move_obj_to_tail q x).holds (fun q2 =>
      well_formed q2 (l.erase x ++ [x]) ∧ q2.tail = some x ∧ links_only q q2 l) ∧
    ((l.length = 1 ∨ l.head? = some x) → move_obj_to_head q x = .ok q) ∧
    ((l.length = 1 ∨ l.getLast? = some x) → move_obj_to_tail q x = .ok q) := by
  have h := (well_formed_iff_isList q l).1 hwf
  refine ⟨?_, ?_, ?_, ?_⟩
  · refine Res.holds_mono (move_to_head_spec h hx) ?_
    rintro q2 ⟨h2, hlo⟩
    exact ⟨(well_formed_iff_isList _ _).2 h2, h2.2.1, hlo⟩
  · refine Res.holds_mono (move_to_tail_spec h hx) ?_
    rintro q2 ⟨h2, hlo⟩
    exact ⟨(well_formed_iff_isList _ _).2 h2, by rw [h2.2.2.1]; simp, hlo⟩
  · rintro (h1 | hh)
    · exact move_to_head_noop h hx (head?_of_length_one hx h1).1
    · exact move_to_head_noop h hx hh
  · rintro (h1 | hh)
    · exact move_to_tail_noop h hx (head?_of_length_one hx h1).2
    · exact move_to_tail_noop h hx hh

theorem C21_witness :
    well_formed three_nodes [0, 1, 2] ∧ 1 ∈ [0, 1, 2] ∧
    (move_obj_to_head three_nodes 1).holds (fun q2 =>
      well_formed q2 [1, 0, 2] ∧ q2.head = some 1 ∧ links_only three_nodes q2 [0, 1, 2]) ∧
    (move_obj_to_tail three_nodes 1).holds (fun q2 =>
      well_formed q2 [0, 2, 1] ∧ q2.tail = some 1 ∧ links_only three_nodes q2 [0, 1, 2]) ∧
    move_obj_to_head three_nodes 0 = .ok three_nodes ∧
    move_obj_to_tail three_nodes 2 = .ok three_nodes ∧
    move_obj_to_head one_node 0 = .ok one_node ∧
    move_obj_to_tail one_node 0 = .ok one_node :=
  have h1 := C21_move_to_ends three_nodes [0, 1, 2] 1 (by decide) (by decide)
  have h0 := C21_move_to_ends three_nodes [0, 1, 2] 0 (by decide) (by decide)
  have h2 := C21_move_to_ends three_nodes [0, 1, 2] 2 (by decide) (by decide)
  have ho := C21_move_to_ends one_node [0] 0 (by decide) (by decide)
  ⟨by decide, by decide, h1.1, h1.2.1, h0.2.2.1 (Or.inr rfl), h2.2.2.2 (Or.inr rfl),
    ho.2.2.1 (Or.inl rfl), ho.2.2.2 (Or.inl rfl)⟩

/-- C22: on a well-formed list with node sequence `l` (possibly empty) and a node `x`
not in `l`, `prepend_obj_to_head` returns the well-formed list `x :: l` with
`head = x` and `x.prev` null, and `append_obj_to_tail` the well-formed list
`l ++ [x]` with `tail = x` and `x.next` null; both change link fields only, and only
of `x` and of nodes of `l`.  On the empty list both return `head = tail = x`. -/
theorem C22_prepend_append (q : dlist) (l : List Ptr) (x : Ptr)
    (hwf : well_formed q l) (hx : x ∉ l) :
    (prepend_obj_to_head q x).holds (fun q2 =>
      well_formed q2 (x :: l) ∧ q2.head = some x ∧ (q2.heap x).prev = none ∧
      (q2.heap x).next = q.head ∧ (l = [] → q2.tail = some x) ∧ (l ≠ [] → q2.tail = q.tail) ∧
      links_only q q2 (x :: l)) ∧
    (append_obj_to_tail q x).holds (fun q2 =>
      well_formed q2 (l ++ [x]) ∧ q2.tail = some x ∧ (q2.heap x).next = none ∧
      (q2.heap x).prev = q.tail ∧ (l = [] → q2.head = some x) ∧ (l ≠ [] → q2.head = q.head) ∧
      links_only q q2 (x :: l)) := by
  have h := (well_formed_iff_isList q l).1 hwf
  constructor
  · refine Res.holds_mono (prepend_spec h hx) ?_
    rintro q2 ⟨h2, hlo⟩
    have hl := h2.2.2.2 x (List.mem_cons_self _ _)
    refine ⟨(well_formed_iff_isList _ _).2 h2, h2.2.1, ?_, ?_, ?_, ?_, hlo⟩
    · rw [hl.1, prevOf_cons, if_neg (fun hh => hx (mem_of_head? hh)), prevOf_not_mem hx]
    · rw [hl.2, h.2.1, nextOf_cons, if_pos rfl]
    · intro he; rw [h2.2.2.1, he]; rfl
    · intro hne
      rw [h2.2.2.1, h.2.2.1, getLast?_cons_ne_nil x hne]
  · refine Res.holds_mono (append_spec h hx) ?_
    rintro q2 ⟨h2, hlo⟩
    have hl := h2.2.2.2 x (by simp)
    refine ⟨(well_formed_iff_isList _ _).2 h2, by rw [h2.2.2.1]; simp, ?_, ?_, ?_, ?_, hlo⟩
    · rw [hl.2, nextOf_append_singleton h.1, nextOf_not_mem hx,
        if_neg (fun hh => hx (List.mem_of_getLast?_eq_some hh))]
    · rw [hl.1, h.2.2.1, prevOf_append_singleton hx, if_pos rfl]
    · intro he; rw [h2.2.1, he]; rfl
    · intro hne
      rw [h2.2.1, h.2.1, head?_append_singleton]
      cases l with
      | nil => exact absurd rfl hne
      | cons a t => simp

theorem C22_witness :
    (well_formed two_nodes [0, 1] ∧ 2 ∉ [0, 1] ∧
      (prepend_obj_to_head two_nodes 2).holds (fun q2 =>
        well_formed q2 [2, 0, 1] ∧ q2.head = some 2 ∧ (q2.heap 2).prev = none) ∧
      (append_obj_to_tail two_nodes 2).holds (fun q2 =>
        well_formed q2 [0, 1, 2] ∧ q2.tail = some 2 ∧ (q2.heap 2).next = none)) ∧
    (well_formed no_nodes [] ∧
      (prepend_obj_to_head no_nodes 5).holds (fun q2 =>
        well_formed q2 [5] ∧ q2.head = some 5 ∧ q2.tail = some 5) ∧
      (append_obj_to_tail no_nodes 5).holds (fun q2 =>
        well_formed q2 [5] ∧ q2.head = some 5 ∧ q2.tail = some 5)) :=
  have h2 := C22_prepend_append two_nodes [0, 1] 2 (by decide) (by decide)
  have h0 := C22_prepend_append no_nodes [] 5 (by decide) (by decide)
  ⟨⟨by decide, by decide,
      Res.holds_mono h2.1 (fun _ h => ⟨h.1, h.2.1, h.2.2.1⟩),
      Res.holds_mono h2.2 (fun _ h => ⟨h.1, h.2.1, h.2.2.1⟩)⟩,
    by decide,
    Res.holds_mono h0.1 (fun _ h => ⟨h.1, h.2.1, h.2.2.2.2.1 rfl⟩),
    Res.holds_mono h0.2 (fun _ h => ⟨h.1, h.2.2.2.2.1 rfl, h.2.1⟩)⟩

/-- The predecessor of a node of `l`, if any, is a node of `l` with that node erased. -/
theorem marker_ok_prevOf {l : List Ptr} (hl : l.Nodup) (x : Ptr) :
    marker_ok (l.erase x) (prevOf l x) := by
  cases h : prevOf l x with
  | none => trivial
  | some p =>
    show p ∈ l.erase x
    have hne : p ≠ x := fun e => prevOf_ne_self hl (e ▸ h)
    exact (List.mem_erase_of_ne hne).2 (prevOf_mem h).1

/-- A marker that is not the erased node stays valid. -/
theorem marker_ok_erase {l : List Ptr} {x : Ptr} {m : Option Ptr} (hm : marker_ok l m)
    (hne : m ≠ some x) : marker_ok (l.erase x) m := by
  cases m with
  | none => trivial
  | some p =>
    show p ∈ l.erase x
    exact (List.mem_erase_of_ne (fun e => hne (by rw [e]))).2 hm

/-- The list slots after `Lever_remove_obj` are those `remove_obj_from_list` returns. -/
theorem Lever_remove_obj_q (w : LeverState) (x : Ptr) :
    LeverState.q (Lever_remove_obj w x) = remove_obj_from_list (LeverState.q w) x := by
  have hq : ∀ p2 : Lever_params_t, p2.q_head = w.cache.eviction_params.q_head →
      p2.q_tail = w.cache.eviction_params.q_tail →
      LeverState.q (w.setParams p2) = LeverState.q w := by
    intro p2 h1 h2
    simp [LeverState.q, World.setParams, h1, h2]
  simp only [Lever_remove_obj]
  rw [hq _ (by split_ifs <;> rfl) (by split_ifs <;> rfl)]
  rfl

theorem Lever_remove_obj_slow (w : LeverState) (x : Ptr) :
    (Lever_remove_obj w x).cache.eviction_params.slow =
      if w.cache.eviction_params.slow = some x then (w.mem.heap x).prev
      else w.cache.eviction_params.slow := by
  rcases w with ⟨mem, ⟨ht, n, occ, cs, md, ⟨qh, qt, fast, slow⟩⟩⟩
  simp only [Lever_remove_obj, cache_remove_obj_base, LeverState.setQ, World.setParams,
    World.setHeap]
  by_cases h : slow = some x
  · subst h
    by_cases h2 : fast = some x
    · subst h2; simp
    · have h2' : ¬ some x = fast := fun e => h2 e.symm
      simp [h2, h2']
  · have h' : ¬ some x = slow := fun e => h e.symm
    by_cases h2 : fast = some x
    · subst h2; simp [h, h']
    · have h2' : ¬ some x = fast := fun e => h2 e.symm
      simp [h, h', h2, h2']

theorem Lever_remove_obj_fast (w : LeverState) (x : Ptr) :
    (Lever_remove_obj w x).cache.eviction_params.fast =
      if w.cache.eviction_params.fast = some x then (w.mem.heap x).prev
      else w.cache.eviction_params.fast := by
  rcases w with ⟨mem, ⟨ht, n, occ, cs, md, ⟨qh, qt, fast, slow⟩⟩⟩
  simp only [Lever_remove_obj, cache_remove_obj_base, LeverState.setQ, World.setParams,
    World.setHeap]
  by_cases h : slow = some x
  · subst h
    by_cases h2 : fast = some x
    · subst h2; simp
    · have h2' : ¬ some x = fast := fun e => h2 e.symm
      simp [h2, h2']
  · have h' : ¬ some x = slow := fun e => h e.symm
    by_cases h2 : fast = some x
    · subst h2; simp [h, h']
    · have h2' : ¬ some x = fast := fun e => h2 e.symm
      simp [h, h', h2, h2']

/-- C29: from a Lever state whose list is well-formed with node sequence `l` and whose
markers `fast` and `slow` are each null or a node of `l`, `Lever_remove_obj` of a node
`x` of `l` sets each marker that equals `x` to the predecessor of `x` in `l` (the
value of `x.prev` before the unlinking; null when `x` is the head) and leaves a marker
that differs from `x` as it is; the list afterwards is well-formed with node sequence
`l.erase x`, and `fast` and `slow` are each null or a node of it.  `Lever_remove` of
the key of `x` is that call. -/
theorem C29_lever_remove_markers (w : LeverState) (l : List Ptr) (x : Ptr)
    (hwf : well_formed (LeverState.q w) l)
    (hfast : marker_ok l w.cache.eviction_params.fast)
    (hslow : marker_ok l w.cache.eviction_params.slow) (hx : x ∈ l) :
    (w.mem.heap x).prev = prevOf l x ∧
    (Lever_remove_obj w x).cache.eviction_params.slow =
      (if w.cache.eviction_params.slow = some x then prevOf l x
       else w.cache.eviction_params.slow) ∧
    (Lever_remove_obj w x).cache.eviction_params.fast =
      (if w.cache.eviction_params.fast = some x then prevOf l x
       else w.cache.eviction_params.fast) ∧
    well_formed (LeverState.q (Lever_remove_obj w x)) (l.erase x) ∧
    marker_ok (l.erase x) (Lever_remove_obj w x).cache.eviction_params.slow ∧
    marker_ok (l.erase x) (Lever_remove_obj w x).cache.eviction_params.fast ∧
    (∀ k, w.cache.hashtable k = some x → Lever_remove w k = (Lever_remove_obj w x, true)) := by
  have h := (well_formed_iff_isList _ _).1 hwf
  have hprev : (w.mem.heap x).prev = prevOf l x := (h.2.2.2 x hx).1
  have hs := Lever_remove_obj_slow w x
  have hf := Lever_remove_obj_fast w x
  rw [hprev] at hs hf
  refine ⟨hprev, hs, hf, ?_, ?_, ?_, ?_⟩
  · rw [Lever_remove_obj_q]
    exact (well_formed_iff_isList _ _).2 (remove_isList h hx)
  · rw [hs]
    split_ifs with e
    · exact marker_ok_prevOf h.1 x
    · exact marker_ok_erase hslow e
  · rw [hf]
    split_ifs with e
    · exact marker_ok_prevOf h.1 x
    · exact marker_ok_erase hfast e
  · intro k hk
    simp only [Lever_remove, hashtable_find_obj_id, hk]

set_option maxRecDepth 100000 in
theorem C29_witness :
    (well_formed (LeverState.q Lever_warm) [3, 2, 1] ∧
      marker_ok [3, 2, 1] Lever_warm.cache.eviction_params.fast ∧
      marker_ok [3, 2, 1] Lever_warm.cache.eviction_params.slow ∧
      Lever_warm.cache.eviction_params.fast = some 2 ∧
      Lever_warm.cache.eviction_params.slow = some 2 ∧
      (Lever_remove_obj Lever_warm 2).cache.eviction_params.slow = some 3 ∧
      (Lever_remove_obj Lever_warm 2).cache.eviction_params.fast = some 3 ∧
      well_formed (LeverState.q (Lever_remove_obj Lever_warm 2)) [3, 1] ∧
      Lever_remove Lever_warm 3 = (Lever_remove_obj Lever_warm 2, true)) ∧
    (well_formed (LeverState.q Lever_next) [3, 2, 1] ∧
      Lever_next.cache.eviction_params.fast = some 2 ∧
      Lever_next.cache.eviction_params.slow = some 1 ∧
      (Lever_remove_obj Lever_next 3).cache.eviction_params.slow = some 1 ∧
      (Lever_remove_obj Lever_next 3).cache.eviction_params.fast = some 2 ∧
      (Lever_remove_obj Lever_next 1).cache.eviction_params.slow = some 2 ∧
      (Lever_remove_obj Lever_next 1).cache.eviction_params.fast = some 2 ∧
      well_formed (LeverState.q (Lever_remove_obj Lever_next 1)) [3, 2]) := by
  have hw : well_formed (LeverState.q Lever_warm) [3, 2, 1] := by decide!
  have hwf : marker_ok [3, 2, 1] Lever_warm.cache.eviction_params.fast := by decide!
  have hws : marker_ok [3, 2, 1] Lever_warm.cache.eviction_params.slow := by decide!
  have hn : well_formed (LeverState.q Lever_next) [3, 2, 1] := by decide!
  have hnf : marker_ok [3, 2, 1] Lever_next.cache.eviction_params.fast := by decide!
  have hns : marker_ok [3, 2, 1] Lever_next.cache.eviction_params.slow := by decide!
  obtain ⟨-, a1, a2, a3, -, -, a4⟩ :=
    C29_lever_remove_markers Lever_warm [3, 2, 1] 2 hw hwf hws (by decide)
  obtain ⟨-, b1, b2, -⟩ :=
    C29_lever_remove_markers Lever_next [3, 2, 1] 3 hn hnf hns (by decide)
  obtain ⟨-, c1, c2, c3, -⟩ :=
    C29_lever_remove_markers Lever_next [3, 2, 1] 1 hn hnf hns (by decide)
  refine ⟨⟨hw, hwf, hws, by decide!, by decide!, a1.trans (by decide!), a2.trans (by decide!),
    a3, a4 3 (by decide!)⟩, hn, by decide!, by decide!, b1.trans (by decide!),
    b2.trans (by decide!), c1.trans (by decide!), c2.trans (by decide!), c3⟩

/-- C24: in a Lever state whose list is well-formed with node sequence `l` (with
`n_obj` its length and valid markers), if `fast` and `slow` denote the same node `s`
at the start of `Lever_evict` (each is `s`, or is null and `q_tail` is `s`), then the
call returns and the node it removes is `s`, whatever the `freq` of `s` was: the nodes
left are those of `l` without `s`, in a well-formed list, and the key of `s` has left
the index. -/
theorem C24_lever_markers_coincide (w : LeverState) (l : List Ptr) (s : Ptr)
    (hwf : well_formed (LeverState.q w) l) (hn : w.cache.n_obj = l.length)
    (hfast : marker_ok l w.cache.eviction_params.fast)
    (hslow : marker_ok l w.cache.eviction_params.slow)
    (hs : (w.cache.eviction_params.slow <|> w.cache.eviction_params.q_tail) = some s)
    (hf : (w.cache.eviction_params.fast <|> w.cache.eviction_params.q_tail) = some s) :
    ∃ w2 l2, Lever_evict w = .ok w2 ∧ s ∈ l ∧ l2.Perm (l.erase s) ∧ s ∉ l2 ∧
      well_formed (LeverState.q w2) l2 ∧
      w2.cache.hashtable = Function.update w.cache.hashtable (w.mem.heap s).obj_id none ∧
      w2.cache.n_obj = w.cache.n_obj - 1 := by
  have hl := (well_formed_iff_isList _ _).1 hwf
  have htl : w.cache.eviction_params.q_tail = l.getLast? := hl.2.2.1
  rw [htl] at hs hf
  have hsl : s ∈ l := by
    cases h : w.cache.eviction_params.slow with
    | none => rw [h] at hs; exact List.mem_of_getLast?_eq_some (by simpa using hs)
    | some x =>
      rw [h] at hs hslow
      have : x = s := by simpa using hs
      exact this ▸ hslow
  have hne : l ≠ [] := List.ne_nil_of_mem hsl
  obtain ⟨w2, v, he, hv, -, hrep, hperm, hn2, hht, -⟩ :=
    Lever_evict_refines hl hne hn hfast hslow
  have hvs : v = s := by
    have := abs_evict_victim (a := Lever_abs w l) hs (Or.inr hf)
    rw [hv] at this
    exact Option.some.inj this
  subst hvs
  refine ⟨w2, _, he, hsl, hperm, ?_, (well_formed_iff_isList _ _).2 hrep.1, hht, hn2⟩
  intro hm
  exact not_mem_erase_self hl.1 v (hperm.subset hm)

set_option maxRecDepth 100000 in
theorem C24_witness :
    (well_formed (LeverState.q Lever_warm) [3, 2, 1] ∧
      Lever_warm.cache.eviction_params.fast = some 2 ∧
      Lever_warm.cache.eviction_params.slow = some 2 ∧ (Lever_warm.mem.heap 2).freq = 1 ∧
      ∃ w2 l2, Lever_evict Lever_warm = .ok w2 ∧ l2.Perm [3, 1] ∧ 2 ∉ l2 ∧
        well_formed (LeverState.q w2) l2) ∧
    (well_formed (LeverState.q Lever_cold) [2, 1, 0] ∧
      Lever_cold.cache.eviction_params.fast = none ∧
      Lever_cold.cache.eviction_params.slow = none ∧
      Lever_cold.cache.eviction_params.q_tail = some 0 ∧
      ∃ w2 l2, Lever_evict Lever_cold = .ok w2 ∧ l2.Perm [2, 1] ∧ 0 ∉ l2 ∧
        well_formed (LeverState.q w2) l2) := by
  have hw : well_formed (LeverState.q Lever_warm) [3, 2, 1] := by decide!
  have hc : well_formed (LeverState.q Lever_cold) [2, 1, 0] := by decide!
  obtain ⟨w2, l2, a1, -, a2, a3, a4, -⟩ :=
    C24_lever_markers_coincide Lever_warm [3, 2, 1] 2 hw (by decide!) (by decide!) (by decide!)
      (by decide!) (by decide!)
  obtain ⟨w3, l3, b1, -, b2, b3, b4, -⟩ :=
    C24_lever_markers_coincide Lever_cold [2, 1, 0] 0 hc (by decide!) (by decide!) (by decide!)
      (by decide!) (by decide!)
  exact ⟨⟨hw, by decide!, by decide!, by decide!, w2, l2, a1, a2, a3, a4⟩,
    hc, by decide!, by decide!, by decide!, w3, l3, b1, b2, b3, b4⟩

/-- `Lever_evict` is its scan followed by the slow step. -/
theorem Lever_evict_split (w : LeverState) :
    Lever_evict w = (Lever_evict_scan w).bind Lever_evict_slow := by
  unfold Lever_evict Lever_evict_scan
  simp only [Res.bind_assoc]

theorem Lever_scan_unfold (w : LeverState) :
    Lever_evict_scan w =
      (Lever_evict_fast (w.setParams
          { q_head := w.cache.eviction_params.q_head, q_tail := w.cache.eviction_params.q_tail,
            fast := w.cache.eviction_params.fast <|> w.cache.eviction_params.q_tail,
            slow := w.cache.eviction_params.slow <|> w.cache.eviction_params.q_tail })).bind
        fun w3 =>
          if w3.cache.eviction_params.fast = none then .ok w3 else Lever_evict_fast w3 := by
  unfold Lever_evict_scan
  rcases w with ⟨mem, ⟨ht, n, occ, cs, md, ⟨qh, qt, fast, slow⟩⟩⟩
  cases slow <;> cases fast <;> simp

/-- The scan of `Lever_evict` on a valid state: it returns with the same nodes in a
well-formed list, `slow` at the node it denoted on entry, and the counters as they
were. -/
theorem Lever_scan_spec {w : LeverState} {l : List Ptr}
    (hl : IsList (LeverState.q w) l) (hne : l ≠ [])
    (hfast : marker_ok l w.cache.eviction_params.fast)
    (hslow : marker_ok l w.cache.eviction_params.slow) :
    ∃ w1 l1 s, Lever_evict_scan w = .ok w1 ∧ IsList (LeverState.q w1) l1 ∧ l1.Perm l ∧
      (w.cache.eviction_params.slow <|> w.cache.eviction_params.q_tail) = some s ∧
      w1.cache.eviction_params.slow = some s ∧ s ∈ l1 ∧ same_cache w w1 := by
  obtain ⟨x, hx⟩ := List.exists_mem_of_ne_nil l hne
  obtain ⟨hd, tl, hqh, hqt, hlh, hlt, hdm, tlm, -⟩ := hl.ends hx
  have hqt2 : w.cache.eviction_params.q_tail = some tl := hqt
  obtain ⟨s, hs, hsl⟩ : ∃ s, (w.cache.eviction_params.slow <|> l.getLast?) = some s ∧ s ∈ l := by
    cases h : w.cache.eviction_params.slow with
    | none => exact ⟨tl, by simp [hlt], tlm⟩
    | some s => rw [h] at hslow; exact ⟨s, by simp, hslow⟩
  obtain ⟨f, hf, hfl⟩ : ∃ f, (w.cache.eviction_params.fast <|> l.getLast?) = some f ∧ f ∈ l := by
    cases h : w.cache.eviction_params.fast with
    | none => exact ⟨tl, by simp [hlt], tlm⟩
    | some f => rw [h] at hfast; exact ⟨f, by simp, hfast⟩
  set a0 : lever_abs := lever_abs.mk l (fun p => (w.mem.heap p).freq) (some f) (some s) with ha0
  have hr0 : LeverRep (w.setParams
      { q_head := w.cache.eviction_params.q_head, q_tail := w.cache.eviction_params.q_tail,
        fast := w.cache.eviction_params.fast <|> w.cache.eviction_params.q_tail,
        slow := w.cache.eviction_params.slow <|> w.cache.eviction_params.q_tail })
      a0 := by
    refine ⟨hl, fun p => rfl, ?_, ?_⟩
    · show (w.cache.eviction_params.fast <|> w.cache.eviction_params.q_tail) = some f
      rw [hqt2, ← hlt]; exact hf
    · show (w.cache.eviction_params.slow <|> w.cache.eviction_params.q_tail) = some s
      rw [hqt2, ← hlt]; exact hs
  have hsc0 : same_cache w (w.setParams
      { q_head := w.cache.eviction_params.q_head, q_tail := w.cache.eviction_params.q_tail,
        fast := w.cache.eviction_params.fast <|> w.cache.eviction_params.q_tail,
        slow := w.cache.eviction_params.slow <|> w.cache.eviction_params.q_tail }) :=
    ⟨rfl, rfl, rfl, rfl, rfl, rfl, fun _ => ⟨rfl, rfl⟩⟩
  obtain ⟨w1, e1, hr1, hsc1, hp1, hs1, hm1⟩ :=
    Lever_fast_rep hr0 rfl hsl (show marker_ok l (some f) from hfl) (by simp)
  have hs0 : (w.cache.eviction_params.slow <|> w.cache.eviction_params.q_tail) = some s := by
    rw [hqt2, ← hlt]; exact hs
  rw [Lever_scan_unfold, e1]
  simp only [Res.bind]
  by_cases hfn : w1.cache.eviction_params.fast = none
  · rw [if_pos hfn]
    exact ⟨w1, _, s, rfl, hr1.1, hp1, hs0, hr1.2.2.2.trans hs1, hp1.symm.subset hsl,
      same_cache_trans hsc0 hsc1⟩
  · have hfa : (abs_fast s a0).fast ≠ none := fun h => hfn (hr1.2.2.1.trans h)
    rw [if_neg hfn]
    obtain ⟨w2, e2, hr2, hsc2, hp2, hs2, -⟩ :=
      Lever_fast_rep hr1 hs1 (hp1.symm.subset hsl) hm1 hfa
    exact ⟨w2, _, s, e2, hr2.1, hp2.trans hp1, hs0, hr2.2.2.2.trans hs2,
      (hp2.trans hp1).symm.subset hsl, same_cache_trans (same_cache_trans hsc0 hsc1) hsc2⟩

/-- C25 (as stated, refuted): at capacity 3 after the gets 1 2 3 4 2 the list is
well-formed with nodes 3, 2, 1 and valid markers; the scan of `Lever_evict` leaves
`slow` at node 1, which has `freq = 1` and is the node at `q_tail`; `Lever_evict`
then removes node 1 itself: the nodes left are 3 and 2, and the key of node 1 has left
the index. -/
theorem C25_lever_fifo_demotion_refuted :
    well_formed (LeverState.q Lever_tail_hit) [3, 2, 1] ∧
    marker_ok [3, 2, 1] Lever_tail_hit.cache.eviction_params.fast ∧
    marker_ok [3, 2, 1] Lever_tail_hit.cache.eviction_params.slow ∧
    (Lever_evict_scan Lever_tail_hit).holds (fun w1 =>
      w1.cache.eviction_params.slow = some 1 ∧ (w1.mem.heap 1).freq = 1 ∧
      w1.cache.eviction_params.q_tail = some 1) ∧
    (Lever_evict Lever_tail_hit).holds (fun w2 =>
      Lever_nodes w2 = [3, 2] ∧ 1 ∉ Lever_nodes w2 ∧
      w2.cache.hashtable (Lever_tail_hit.mem.heap 1).obj_id = none) := by
  decide!

/-- C25 (amended): on a Lever state whose list is well-formed and non-empty, with
`n_obj` its length and valid markers, the scan part of `Lever_evict` returns a state
`w1` with the same nodes in a well-formed list and `slow` at a node `s` of it.  If `s`
has `freq = 1` there, `Lever_evict` returns, clears the `freq` of `s`, and removes the
node `v` that is at `q_tail` in `w1`: when `s` is not that tail, `v` is another node
and `s` stays in the list; when `s` is that tail, `v` is `s` and `s` leaves the
list. -/
theorem C25_lever_fifo_demotion_amended (w : LeverState) (l : List Ptr)
    (hwf : well_formed (LeverState.q w) l) (hne : l ≠ []) (hn : w.cache.n_obj = l.length)
    (hfast : marker_ok l w.cache.eviction_params.fast)
    (hslow : marker_ok l w.cache.eviction_params.slow) :
    ∃ w1 l1 s, Lever_evict_scan w = .ok w1 ∧ well_formed (LeverState.q w1) l1 ∧ l1.Perm l ∧
      w1.cache.eviction_params.slow = some s ∧ s ∈ l1 ∧
      ((w1.mem.heap s).freq = 1 →
        ∃ w2 v, Lever_evict w = .ok w2 ∧ w1.cache.eviction_params.q_tail = some v ∧
          (w2.mem.heap s).freq = 0 ∧ well_formed (LeverState.q w2) (l1.erase v) ∧
          (w1.cache.eviction_params.q_tail ≠ some s → v ≠ s ∧ s ∈ l1.erase v) ∧
          (w1.cache.eviction_params.q_tail = some s → v = s ∧ s ∉ l1.erase v)) := by
  have hl := (well_formed_iff_isList _ _).1 hwf
  obtain ⟨w1, l1, s, e1, hl1, hp1, -, hs1, hsl1, hsc⟩ := Lever_scan_spec hl hne hfast hslow
  have hn1 : w1.cache.n_obj = l1.length := by rw [hsc.2.1, hn, hp1.length_eq]
  refine ⟨w1, l1, s, e1, (well_formed_iff_isList _ _).2 hl1, hp1, hs1, hsl1, fun hfr => ?_⟩
  obtain ⟨w2, v, e2, hv, hv1, -, hl2, -, -, -, -, -, -, -, -, -, hfq⟩ :=
    Lever_slow_spec hl1 hs1 hsl1 hn1
  have htl : w1.cache.eviction_params.q_tail = some v := hl1.2.2.1.trans (hv1 hfr)
  refine ⟨w2, v, ?_, htl, ?_, (well_formed_iff_isList _ _).2 hl2, fun hne2 => ?_, fun he => ?_⟩
  · rw [Lever_evict_split, e1]
    exact e2
  · rw [hfq s, if_pos ⟨rfl, hfr⟩]
  · have hvs : v ≠ s := fun e => hne2 (e ▸ htl)
    exact ⟨hvs, (List.mem_erase_of_ne (Ne.symm hvs)).2 hsl1⟩
  · have hvs : v = s := Option.some.inj (htl.symm.trans he)
    exact ⟨hvs, hvs ▸ not_mem_erase_self hl1.1 v⟩

set_option maxRecDepth 100000 in
theorem C25_witness :
    (well_formed (LeverState.q Lever_two_hits) [3, 2, 1] ∧ [3, 2, 1] ≠ [] ∧
      marker_ok [3, 2, 1] Lever_two_hits.cache.eviction_params.fast ∧
      marker_ok [3, 2, 1] Lever_two_hits.cache.eviction_params.slow ∧
      ∃ w1 l1, Lever_evict_scan Lever_two_hits = .ok w1 ∧
        well_formed (LeverState.q w1) l1 ∧ w1.cache.eviction_params.slow = some 1 ∧
        (w1.mem.heap 1).freq = 1 ∧
        ∃ w2, Lever_evict Lever_two_hits = .ok w2 ∧
          w1.cache.eviction_params.q_tail = some 2 ∧ (w2.mem.heap 1).freq = 0 ∧
          well_formed (LeverState.q w2) (l1.erase 2) ∧ 1 ∈ l1.erase 2) ∧
    (well_formed (LeverState.q Lever_tail_hit) [3, 2, 1] ∧
      ∃ w1 l1, Lever_evict_scan Lever_tail_hit = .ok w1 ∧
        well_formed (LeverState.q w1) l1 ∧ w1.cache.eviction_params.slow = some 1 ∧
        (w1.mem.heap 1).freq = 1 ∧
        ∃ w2, Lever_evict Lever_tail_hit = .ok w2 ∧
          w1.cache.eviction_params.q_tail = some 1 ∧ (w2.mem.heap 1).freq = 0 ∧
          well_formed (LeverState.q w2) (l1.erase 1) ∧ 1 ∉ l1.erase 1) := by
  have ha : well_formed (LeverState.q Lever_two_hits) [3, 2, 1] := by decide!
  have haf : marker_ok [3, 2, 1] Lever_two_hits.cache.eviction_params.fast := by decide!
  have has : marker_ok [3, 2, 1] Lever_two_hits.cache.eviction_params.slow := by decide!
  have hb : well_formed (LeverState.q Lever_tail_hit) [3, 2, 1] := by decide!
  refine ⟨⟨ha, by decide, haf, has, ?_⟩, hb, ?_⟩
  · obtain ⟨w1, l1, s, e1, h1, -, h2, -, h3⟩ :=
      C25_lever_fifo_demotion_amended Lever_two_hits [3, 2, 1] ha (by decide) (by decide!)
        haf has
    have hc : (Lever_evict_scan Lever_two_hits).holds (fun w1 =>
        w1.cache.eviction_params.slow = some 1 ∧ (w1.mem.heap 1).freq = 1 ∧
        w1.cache.eviction_params.q_tail = some 2) := by decide!
    rw [e1] at hc
    obtain ⟨c1, c2, c3⟩ := hc
    have hs : s = 1 := Option.some.inj (h2.symm.trans c1)
    subst hs
    obtain ⟨w2, v, e2, d1, d2, d3, d4, -⟩ := h3 c2
    have hv : v = 2 := Option.some.inj (d1.symm.trans c3)
    subst hv
    exact ⟨w1, l1, e1, h1, c1, c2, w2, e2, c3, d2, d3,
      (d4 (by rw [c3]; decide)).2⟩
  · obtain ⟨w1, l1, s, e1, h1, -, h2, -, h3⟩ :=
      C25_lever_fifo_demotion_amended Lever_tail_hit [3, 2, 1] hb (by decide) (by decide!)
        (by decide!) (by decide!)
    have hc : (Lever_evict_scan Lever_tail_hit).holds (fun w1 =>
        w1.cache.eviction_params.slow = some 1 ∧ (w1.mem.heap 1).freq = 1 ∧
        w1.cache.eviction_params.q_tail = some 1) := by decide!
    rw [e1] at hc
    obtain ⟨c1, c2, c3⟩ := hc
    have hs : s = 1 := Option.some.inj (h2.symm.trans c1)
    subst hs
    obtain ⟨w2, v, e2, d1, d2, d3, -, d5⟩ := h3 c2
    have hv : v = 1 := Option.some.inj (d1.symm.trans c3)
    subst hv
    exact ⟨w1, l1, e1, h1, c1, c2, w2, e2, c3, d2, d3, (d5 c3).2⟩

/-- C23: in every state reached from a fresh ShiftSieve cache by `get` and `remove`
calls that holds at least one object, `pointer` is null or a node of the list with at
most `right` nodes on its tail side.  The victim scan that `ShiftSieve_evict` starts
there (`ShiftSieve_select`) never dereferences a null `obj`, makes no more iterations
than there are nodes with VISITED set, hence at most `n_obj`, and ends on a node of
the list whose VISITED bit is clear; `ShiftSieve_evict` returns. -/
theorem C23_sieve_scan_safe (cp : common_cache_params_t) (w : SieveState)
    (h : SieveReach cp w) (hn : 1 ≤ w.cache.n_obj) :
    (∀ p, w.cache.eviction_params.pointer = some p →
      p ∈ Sieve_nodes w ∧
      (afterCount (Sieve_nodes w) p : Int) ≤ w.cache.eviction_params.right) ∧
    (visCount w.mem.heap (Sieve_nodes w) : Int) ≤ w.cache.n_obj ∧
    ∀ fuel, visCount w.mem.heap (Sieve_nodes w) ≤ fuel →
      (∃ w2 v, ShiftSieve_select fuel w = .ok (w2, v) ∧ v ∈ Sieve_nodes w ∧
        (w2.mem.heap v).status &&& VISITED_MASK = 0) ∧
      ∃ w3, ShiftSieve_evict fuel w = .ok w3 := by
  obtain ⟨l, hi⟩ := h.all.inv
  rw [Sieve_nodes_eq hi]
  have hlen : w.cache.n_obj = l.length := hi.1.2.2.2
  have hne : l ≠ [] := by
    intro e
    rw [e] at hlen
    simp at hlen
    omega
  refine ⟨fun p hp => ?_, ?_, fun fuel hf => ⟨?_, ?_⟩⟩
  · have := hi.2.2
    rw [hp] at this
    exact this
  · rw [hlen]
    exact_mod_cast (List.countP_le_length _ : visCount w.mem.heap l ≤ l.length)
  · rcases Sieve_select_spec hi fuel with
      ⟨h2, ri, ho, v, he, hv, -, -, -, hvis⟩ | ⟨-, hlt⟩ | ⟨-, he⟩
    · exact ⟨_, v, he, hv, hvis⟩
    · omega
    · exact absurd he hne
  · rcases Sieve_evict_spec hi fuel with ⟨v, w3, he3, -⟩ | ⟨-, hlt⟩ | ⟨-, he⟩
    · exact ⟨w3, he3⟩
    · omega
    · exact absurd he hne

set_option maxRecDepth 100000 in
theorem C23_witness :
    SieveReach { cache_size := 3, consider_obj_metadata := false } Sieve_example_scan ∧
    1 ≤ Sieve_example_scan.cache.n_obj ∧
    Sieve_example_scan.cache.eviction_params.pointer = some 0 ∧
    Sieve_nodes Sieve_example_scan = [3, 2, 0] ∧
    (0 ∈ Sieve_nodes Sieve_example_scan ∧
      (afterCount (Sieve_nodes Sieve_example_scan) 0 : Int) ≤
        Sieve_example_scan.cache.eviction_params.right) ∧
    visCount Sieve_example_scan.mem.heap (Sieve_nodes Sieve_example_scan) = 2 ∧
    (∃ w2 v, ShiftSieve_select 2 Sieve_example_scan = .ok (w2, v) ∧
      v ∈ Sieve_nodes Sieve_example_scan ∧ (w2.mem.heap v).status &&& VISITED_MASK = 0) ∧
    ∃ w3, ShiftSieve_evict 2 Sieve_example_scan = .ok w3 :=
  have hr : SieveReach { cache_size := 3, consider_obj_metadata := false }
      Sieve_example_scan := SieveReach_script 3 Sieve_calls_scan rfl .init
  have hn : 1 ≤ Sieve_example_scan.cache.n_obj := by decide!
  have h := C23_sieve_scan_safe _ Sieve_example_scan hr hn
  have h2 := h.2.2 2 (by decide!)
  ⟨hr, hn, by decide!, by decide!, h.1 0 (by decide!), by decide!, h2.1, h2.2⟩

/-- C27 (as stated, refuted): at capacity 3 after the gets 1, 2, 3, 1 (A, B, C, A) the
node of A is at the head and the node of B at the tail; after the following get of 4
(D) the node of A still has VISITED set and SURVIVED clear, and `hot` is 0, where the
statement expects VISITED clear, SURVIVED set and `hot = 1`. -/
theorem C27_sieve_scan_state_refuted :
    (run_gets (ShiftSieve_get 3) [1, 2, 3, 1]
        (ShiftSieve_init { cache_size := 3, consider_obj_metadata := false })).holds
      (fun r => Sieve_keys r.1 = [1, 3, 2] ∧ Sieve_nodes r.1 = [0, 2, 1] ∧
        r.1.cache.eviction_params.q_tail = some 1 ∧ (r.1.mem.heap 1).obj_id = 2) ∧
    (run_gets (ShiftSieve_get 3) [1, 2, 3, 1, 4]
        (ShiftSieve_init { cache_size := 3, consider_obj_metadata := false })).holds
      (fun r => (r.1.mem.heap 0).obj_id = 1 ∧ r.1.cache.hashtable 1 = some 0 ∧
        ¬ ((r.1.mem.heap 0).status &&& VISITED_MASK = 0 ∧
           (r.1.mem.heap 0).status &&& SURVIVED_MASK ≠ 0 ∧
           r.1.cache.eviction_params.hot = 1)) := by
  decide!

/-- C27 (amended): at capacity 3 with unit-size objects, the hit on A in the gets A, B,
C, A moves the node of A to the head (SURVIVED is clear on it) and sets VISITED on it,
so the list is A, C, B and the tail is B with VISITED clear.  The eviction triggered
by the get of D starts its scan at B, selects B without a loop iteration, and sets
`pointer` to the predecessor of B.  Afterwards the residents are A, C, D, the node
of A has VISITED set and SURVIVED clear, and `hot` and `right` are 0. -/
theorem C27_sieve_scan_state_amended :
    (run_gets (ShiftSieve_get 3) [1, 2, 3, 1]
        (ShiftSieve_init { cache_size := 3, consider_obj_metadata := false })).holds
      (fun r => Sieve_keys r.1 = [1, 3, 2] ∧ Sieve_nodes r.1 = [0, 2, 1] ∧
        r.1.cache.eviction_params.q_tail = some 1 ∧
        r.1.cache.eviction_params.pointer = none ∧
        (r.1.mem.heap 0).status = VISITED_MASK ∧ (r.1.mem.heap 1).status = 0 ∧
        (ShiftSieve_select 0 r.1).holds (fun t =>
          t.2 = 1 ∧ t.1.cache.eviction_params.pointer = some 2 ∧
          t.1.cache.eviction_params.hot = 0 ∧ t.1.cache.eviction_params.right = 0)) ∧
    (run_gets (ShiftSieve_get 3) [1, 2, 3, 1, 4]
        (ShiftSieve_init { cache_size := 3, consider_obj_metadata := false })).holds
      (fun r => r.2 = [false, false, false, true, false] ∧
        Sieve_keys r.1 = [4, 1, 3] ∧ r.1.cache.hashtable 1 = some 0 ∧
        (r.1.mem.heap 0).status = VISITED_MASK ∧
        (r.1.mem.heap 0).status &&& VISITED_MASK ≠ 0 ∧
        (r.1.mem.heap 0).status &&& SURVIVED_MASK = 0 ∧
        r.1.cache.eviction_params.hot = 0 ∧ r.1.cache.eviction_params.right = 0 ∧
        r.1.cache.eviction_params.pointer = some 2) := by
  decide!

theorem move_to_head_status {q q2 : dlist} {x : Ptr} (h : move_obj_to_head q x = .ok q2)
    (y : Ptr) : (q2.heap y).status = (q.heap y).status := by
  unfold move_obj_to_head at h
  dsimp only at h
  repeat' split at h
  all_goals first | (cases h; simp) | cases h

theorem prepend_status {q q2 : dlist} {x : Ptr} (h : prepend_obj_to_head q x = .ok q2)
    (y : Ptr) : (q2.heap y).status = (q.heap y).status := by
  unfold prepend_obj_to_head at h
  dsimp only at h
  repeat' split at h
  all_goals first | (cases h; simp) | cases h

theorem remove_status (q : dlist) (x y : Ptr) :
    ((remove_obj_from_list q x).heap y).status = (q.heap y).status := by
  unfold remove_obj_from_list
  dsimp only
  simp only [setPrev_status, setNext_status, setPrevO_status, setNextO_status]
  split_ifs <;> simp

theorem survived_or (s : Nat) (m : Nat) (h : s &&& SURVIVED_MASK ≠ 0) :
    (s ||| m) &&& SURVIVED_MASK ≠ 0 := by
  intro e
  apply h
  apply Nat.eq_of_testBit_eq
  intro i
  have := congrArg (fun t => Nat.testBit t i) e
  simp only [Nat.testBit_and, Nat.testBit_or, Nat.zero_testBit] at this ⊢
  cases hs : s.testBit i <;> simp_all

theorem survived_setStatus_other {h : Heap} {p o : Ptr} (v : Nat) (hpo : p ≠ o)
    (hs : survived h p) : survived (setStatus h o v) p := by
  unfold survived at hs ⊢
  simpa [hpo] using hs

/-- One iteration of the victim scan keeps every SURVIVED bit that is set. -/
theorem scan_step_survived (n : Int) (tl : Option Ptr) (fuel : Nat) (s : scan_t) (o : Ptr)
    (ho : s.obj = some o) (hv : (s.heap o).status &&& VISITED_MASK ≠ 0) :
    ∃ s4, ShiftSieve_scan n tl (fuel + 1) s = ShiftSieve_scan n tl fuel s4 ∧
      ∀ p, survived s.heap p → survived s4.heap p := by
  rw [ShiftSieve_scan]
  simp only [ho, if_pos hv]
  refine ⟨_, rfl, fun p hp => ?_⟩
  by_cases hpo : p = o
  · subst hpo
    have h1 : (s.heap p).status &&& NOT_VISITED_MASK &&& SURVIVED_MASK ≠ 0 := by
      rw [status_survived_keep]; exact hp
    split_ifs with a b <;> simp_all [survived]
  · split_ifs <;>
      first
        | exact survived_setStatus_other _ hpo (survived_setStatus_other _ hpo hp)
        | exact survived_setStatus_other _ hpo hp

/-- The victim scan keeps every SURVIVED bit that is set. -/
theorem scan_survived (n : Int) (tl : Option Ptr) (p : Ptr) :
    ∀ (fuel : Nat) (s : scan_t) (r : scan_t × Ptr), ShiftSieve_scan n tl fuel s = .ok r →
      survived s.heap p → survived r.1.heap p := by
  intro fuel
  induction fuel with
  | zero =>
    intro s r h hs
    rw [ShiftSieve_scan] at h
    cases ho : s.obj with
    | none => simp only [ho] at h; cases h
    | some o =>
      simp only [ho] at h
      split_ifs at h
      cases h
      exact hs
  | succ f ih =>
    intro s r h hs
    cases ho : s.obj with
    | none => rw [ShiftSieve_scan] at h; simp only [ho] at h; cases h
    | some o =>
      by_cases hv : (s.heap o).status &&& VISITED_MASK ≠ 0
      · obtain ⟨s4, e, hk⟩ := scan_step_survived n tl f s o ho hv
        rw [e] at h
        exact ih s4 r h (hk p hs)
      · rw [ShiftSieve_scan] at h
        simp only [ho, if_neg hv] at h
        cases h
        exact hs

theorem Sieve_find_survived {w : SieveState} {req : request_t} {u : Bool}
    {r : SieveState × Option Ptr} (h : ShiftSieve_find w req u = .ok r) {p : Ptr}
    (hs : survived w.mem.heap p) : survived r.1.mem.heap p ∧ r.1.mem.brk = w.mem.brk := by
  unfold ShiftSieve_find at h
  cases hf : cache_find_base w req u with
  | none =>
    simp only [hf] at h
    cases h
    exact ⟨hs, rfl⟩
  | some obj =>
    simp only [hf] at h
    cases u with
    | false =>
      simp only [Bool.false_eq_true, if_false] at h
      cases h
      exact ⟨hs, rfl⟩
    | true =>
      simp only [if_true] at h
      by_cases hsv : (w.mem.heap obj).status &&& SURVIVED_MASK = 0
      · rw [if_pos hsv] at h
        cases hm : move_obj_to_head
            (SieveState.q (if some obj = w.cache.eviction_params.pointer then
              w.setParams { w.cache.eviction_params with pointer := (w.mem.heap obj).prev }
              else w)) obj with
        | ok q2 =>
          rw [hm] at h
          simp only [Res.bind] at h
          cases h
          have hst := move_to_head_status hm
          have hq : ∀ y, (q2.heap y).status = (w.mem.heap y).status := by
            intro y
            rw [hst y]
            split_ifs <;> rfl
          have hs2 : survived q2.heap p := by
            unfold survived at hs ⊢
            rw [hq p]; exact hs
          refine ⟨?_, by split_ifs <;> rfl⟩
          by_cases hpo : p = obj
          · subst hpo
            exfalso
            exact hs hsv
          · exact survived_setStatus_other _ hpo hs2
        | fault => rw [hm] at h; cases h
        | timeout => rw [hm] at h; cases h
      · rw [if_neg hsv] at h
        simp only [Res.bind] at h
        cases h
        refine ⟨?_, rfl⟩
        by_cases hpo : p = obj
        · subst hpo
          unfold survived
          show ((setStatus w.mem.heap p ((w.mem.heap p).status ||| VISITED_MASK)) p).status
            &&& SURVIVED_MASK ≠ 0
          simp only [setStatus_status, if_true]
          exact survived_or _ _ hs
        · exact survived_setStatus_other _ hpo hs

/-- A `find` with update on a node that has SURVIVED set writes its status word only:
the node is not moved. -/
theorem Sieve_find_stays (w : SieveState) (req : request_t) {p : Ptr}
    (hf : w.cache.hashtable req.obj_id = some p) (hs : survived w.mem.heap p) :
    ShiftSieve_find w req true =
      .ok (w.setHeap (setStatus w.mem.heap p ((w.mem.heap p).status ||| VISITED_MASK)),
        some p) := by
  have hsv : ¬ (w.mem.heap p).status &&& SURVIVED_MASK = 0 := hs
  simp [ShiftSieve_find, cache_find_base, hf, hsv, Res.bind]

theorem Sieve_insert_survived {w : SieveState} {req : request_t} {r : SieveState × Ptr}
    (h : ShiftSieve_insert w req = .ok r) {p : Ptr} (hp : p ≠ w.mem.brk)
    (hs : survived w.mem.heap p) :
    survived r.1.mem.heap p ∧ r.1.mem.brk = w.mem.brk + 1 := by
  unfold ShiftSieve_insert at h
  dsimp only at h
  cases hm : prepend_obj_to_head (SieveState.q (cache_insert_base w req).1)
      (cache_insert_base w req).2 with
  | ok q2 =>
    rw [hm] at h
    simp only [Res.bind] at h
    cases h
    have hst := prepend_status hm p
    refine ⟨?_, rfl⟩
    apply survived_setStatus_other _ hp
    unfold survived at hs ⊢
    show (q2.heap p).status &&& SURVIVED_MASK ≠ 0
    rw [hst]
    show ((Function.update w.mem.heap w.mem.brk _) p).status &&& SURVIVED_MASK ≠ 0
    rw [Function.update_noteq hp]
    exact hs
  | fault => rw [hm] at h; cases h
  | timeout => rw [hm] at h; cases h

theorem Sieve_select_unfold (fuel : Nat) (w : SieveState) :
    ∃ s0 : scan_t, s0.heap = w.mem.heap ∧
      ShiftSieve_select fuel w =
        (ShiftSieve_scan w.cache.n_obj w.cache.eviction_params.q_tail fuel s0).bind fun r =>
          .ok ((w.setHeap r.1.heap).setParams
            { w.cache.eviction_params with
              right := r.1.right, hot := r.1.hot, pointer := (r.1.heap r.2).prev }, r.2) := by
  unfold ShiftSieve_select
  rcases w with ⟨mem, ⟨ht, n, occ, cs, md, ⟨qh, qt, ptr, ri, ho⟩⟩⟩
  cases ptr with
  | none => exact ⟨_, rfl, rfl⟩
  | some o => exact ⟨_, rfl, rfl⟩

theorem Sieve_select_survived {w : SieveState} {fuel : Nat} {r : SieveState × Ptr}
    (h : ShiftSieve_select fuel w = .ok r) {p : Ptr} (hs : survived w.mem.heap p) :
    survived r.1.mem.heap p ∧ r.1.mem.brk = w.mem.brk := by
  obtain ⟨s0, hh, e⟩ := Sieve_select_unfold fuel w
  rw [e] at h
  cases hsc : ShiftSieve_scan w.cache.n_obj w.cache.eviction_params.q_tail fuel s0 with
  | ok r2 =>
    rw [hsc] at h
    simp only [Res.bind] at h
    cases h
    refine ⟨?_, rfl⟩
    exact scan_survived _ _ p fuel _ r2 hsc (by rw [hh]; exact hs)
  | fault => rw [hsc] at h; cases h
  | timeout => rw [hsc] at h; cases h

theorem Sieve_evict_survived {w w2 : SieveState} {fuel : Nat}
    (h : ShiftSieve_evict fuel w = .ok w2) {p : Ptr} (hs : survived w.mem.heap p) :
    survived w2.mem.heap p ∧ w2.mem.brk = w.mem.brk := by
  unfold ShiftSieve_evict at h
  cases hsel : ShiftSieve_select fuel w with
  | ok r =>
    rw [hsel] at h
    simp only [Res.bind] at h
    cases h
    obtain ⟨h1, h2⟩ := Sieve_select_survived hsel hs
    refine ⟨?_, h2⟩
    unfold survived at h1 ⊢
    show ((remove_obj_from_list (SieveState.q r.1) r.2).heap p).status &&& SURVIVED_MASK ≠ 0
    rw [remove_status]
    exact h1
  | fault => rw [hsel] at h; cases h
  | timeout => rw [hsel] at h; cases h

theorem Sieve_remove_survived (w : SieveState) (k : Nat) {p : Ptr}
    (hs : survived w.mem.heap p) :
    survived (ShiftSieve_remove w k).1.mem.heap p ∧ (ShiftSieve_remove w k).1.mem.brk = w.mem.brk := by
  unfold ShiftSieve_remove
  cases hashtable_find_obj_id w.cache k with
  | none => exact ⟨hs, rfl⟩
  | some obj =>
    refine ⟨?_, ?_⟩
    · unfold survived at hs ⊢
      show ((remove_obj_from_list (SieveState.q _) obj).heap p).status &&& SURVIVED_MASK ≠ 0
      rw [remove_status]
      show ((if some obj = w.cache.eviction_params.pointer then _ else w).mem.heap p).status
        &&& SURVIVED_MASK ≠ 0
      split_ifs <;> exact hs
    · show (if some obj = w.cache.eviction_params.pointer then _ else w).mem.brk = w.mem.brk
      split_ifs <;> rfl

theorem Sieve_evict_loop_survivor (f : Nat) (req : request_t) (p : Ptr) :
    ∀ (fuel : Nat) (w w2 : SieveState),
      evict_until_fits (ShiftSieve_ops f) req fuel w = .ok w2 → survivor w p → survivor w2 p := by
  intro fuel
  induction fuel with
  | zero =>
    intro w w2 h hs
    unfold evict_until_fits at h
    split_ifs at h
    cases h
    exact hs
  | succ n ih =>
    intro w w2 h hs
    unfold evict_until_fits at h
    split_ifs at h
    · rw [show (ShiftSieve_ops f).evict w req = ShiftSieve_evict f w from rfl] at h
      cases he : ShiftSieve_evict f w with
      | ok w1 =>
        rw [he] at h
        simp only [Res.bind] at h
        obtain ⟨h1, h2⟩ := Sieve_evict_survived he hs.2
        exact ih w1 w2 h ⟨by rw [h2]; exact hs.1, h1⟩
      | fault => rw [he] at h; cases h
      | timeout => rw [he] at h; cases h
    · cases h
      exact hs

theorem Sieve_get_survivor {w : SieveState} {fuel : Nat} {req : request_t}
    {r : SieveState × Bool} (h : ShiftSieve_get fuel w req = .ok r) {p : Ptr}
    (hs : survivor w p) : survivor r.1 p := by
  simp only [ShiftSieve_get, cache_get_base] at h
  rw [show (ShiftSieve_ops fuel).find w req true = ShiftSieve_find w req true from rfl] at h
  cases hf : ShiftSieve_find w req true with
  | ok r1 =>
    rw [hf] at h
    simp only [Res.bind] at h
    obtain ⟨a1, a2⟩ := Sieve_find_survived hf hs.2
    have hs1 : survivor r1.1 p := ⟨by rw [a2]; exact hs.1, a1⟩
    cases hr : r1.2 with
    | some o =>
      rw [hr] at h
      cases h
      exact hs1
    | none =>
      rw [hr] at h
      simp only at h
      cases he : evict_until_fits (ShiftSieve_ops fuel) req fuel r1.1 with
      | ok s2 =>
        rw [he] at h
        simp only [Res.bind] at h
        have hs2 := Sieve_evict_loop_survivor fuel req p fuel r1.1 s2 he hs1
        rw [show (ShiftSieve_ops fuel).insert s2 req = ShiftSieve_insert s2 req from rfl] at h
        cases hi : ShiftSieve_insert s2 req with
        | ok r3 =>
          rw [hi] at h
          cases h
          obtain ⟨b1, b2⟩ := Sieve_insert_survived hi (Nat.ne_of_lt hs2.1) hs2.2
          exact ⟨by rw [b2]; exact Nat.lt_succ_of_lt hs2.1, b1⟩
        | fault => rw [hi] at h; cases h
        | timeout => rw [hi] at h; cases h
      | fault => rw [he] at h; cases h
      | timeout => rw [he] at h; cases h
  | fault => rw [hf] at h; cases h
  | timeout => rw [hf] at h; cases h

theorem Sieve_apply_survivor (fuel : Nat) (w : SieveState) (op : sieve_op) {p : Ptr}
    (hs : survivor w p) : survivor (Sieve_apply fuel w op) p := by
  cases op with
  | get k =>
    cases hg : ShiftSieve_get fuel w (unit_req k) with
    | ok r =>
      have : Sieve_apply fuel w (.get k) = r.1 := by simp only [Sieve_apply, hg]
      rw [this]
      exact Sieve_get_survivor hg hs
    | fault =>
      have : Sieve_apply fuel w (.get k) = w := by simp only [Sieve_apply, hg]
      rw [this]; exact hs
    | timeout =>
      have : Sieve_apply fuel w (.get k) = w := by simp only [Sieve_apply, hg]
      rw [this]; exact hs
  | find k =>
    cases hg : ShiftSieve_find w (unit_req k) true with
    | ok r =>
      have : Sieve_apply fuel w (.find k) = r.1 := by simp only [Sieve_apply, hg]
      rw [this]
      obtain ⟨a1, a2⟩ := Sieve_find_survived hg hs.2
      exact ⟨by rw [a2]; exact hs.1, a1⟩
    | fault =>
      have : Sieve_apply fuel w (.find k) = w := by simp only [Sieve_apply, hg]
      rw [this]; exact hs
    | timeout =>
      have : Sieve_apply fuel w (.find k) = w := by simp only [Sieve_apply, hg]
      rw [this]; exact hs
  | evict =>
    by_cases hn : 0 < w.cache.n_obj
    · cases hg : ShiftSieve_evict fuel w with
      | ok r =>
        have : Sieve_apply fuel w .evict = r := by simp only [Sieve_apply, hg, if_pos hn]
        rw [this]
        obtain ⟨a1, a2⟩ := Sieve_evict_survived hg hs.2
        exact ⟨by rw [a2]; exact hs.1, a1⟩
      | fault =>
        have : Sieve_apply fuel w .evict = w := by simp only [Sieve_apply, hg, if_pos hn]
        rw [this]; exact hs
      | timeout =>
        have : Sieve_apply fuel w .evict = w := by simp only [Sieve_apply, hg, if_pos hn]
        rw [this]; exact hs
    · have : Sieve_apply fuel w .evict = w := by simp only [Sieve_apply, if_neg hn]
      rw [this]; exact hs
  | remove k =>
    obtain ⟨a1, a2⟩ := Sieve_remove_survived w k hs.2
    exact ⟨by rw [show (Sieve_apply fuel w (.remove k)).mem.brk = w.mem.brk from a2]; exact hs.1,
      a1⟩

/-- Any sequence of `get`, `find`, `evict` and `remove` calls keeps SURVIVED set on an
allocated node that has it set. -/
theorem Sieve_script_survivor (fuel : Nat) (ops : List sieve_op) {p : Ptr} :
    ∀ w : SieveState, survivor w p → survivor (Sieve_script fuel ops w) p := by
  induction ops with
  | nil => intro w hs; exact hs
  | cons op t ih => intro w hs; exact ih _ (Sieve_apply_survivor fuel w op hs)

theorem Res.isOk_of_holds {α : Type} {r : Res α} {P : α → Prop} (h : r.holds P) :
    r.isOk = true := by
  cases r with
  | ok a => rfl
  | fault => exact h.elim
  | timeout => exact h.elim

/-- C26: SURVIVED is never cleared.  For an allocated node `p` with SURVIVED set in a
ShiftSieve state `w`, every operation that returns leaves SURVIVED set on `p`: `find`
(with or without update), `insert`, `to_evict`, `evict`, `remove`, `get`, and hence
any sequence of `get`, `find`, `evict` and `remove` calls.  A `find` with update of
the key of such a node writes its status word only, so the node is not moved to the
head, in `w` and after any such sequence of calls.  On a valid state these operations
do return: `find`, `insert` of an absent key, and `to_evict` and `evict` on a
non-empty list with fuel for one iteration per VISITED node. -/
theorem C26_sieve_survived_kept (w : SieveState) (p : Ptr) (req : request_t) (fuel : Nat)
    (hb : p < w.mem.brk) (hs : survived w.mem.heap p) :
    (∀ u r, ShiftSieve_find w req u = .ok r → survived r.1.mem.heap p) ∧
    (∀ r, ShiftSieve_insert w req = .ok r → survived r.1.mem.heap p) ∧
    (∀ r, ShiftSieve_to_evict fuel w = .ok r → survived r.1.mem.heap p) ∧
    (∀ w2, ShiftSieve_evict fuel w = .ok w2 → survived w2.mem.heap p) ∧
    (∀ k, survived (ShiftSieve_remove w k).1.mem.heap p) ∧
    (∀ r, ShiftSieve_get fuel w req = .ok r → survived r.1.mem.heap p) ∧
    (∀ ops, survived (Sieve_script fuel ops w).mem.heap p) ∧
    (w.cache.hashtable req.obj_id = some p →
      ShiftSieve_find w req true =
        .ok (w.setHeap (setStatus w.mem.heap p ((w.mem.heap p).status ||| VISITED_MASK)),
          some p)) ∧
    (∀ ops, (Sieve_script fuel ops w).cache.hashtable req.obj_id = some p →
      ShiftSieve_find (Sieve_script fuel ops w) req true =
        .ok ((Sieve_script fuel ops w).setHeap
          (setStatus (Sieve_script fuel ops w).mem.heap p
            (((Sieve_script fuel ops w).mem.heap p).status ||| VISITED_MASK)), some p)) ∧
    (∀ l, SieveInv w l →
      (ShiftSieve_find w req true).isOk = true ∧
      (w.cache.hashtable req.obj_id = none → (ShiftSieve_insert w req).isOk = true) ∧
      (l ≠ [] → visCount w.mem.heap l ≤ fuel →
        (ShiftSieve_to_evict fuel w).isOk = true ∧ (ShiftSieve_evict fuel w).isOk = true)) := by
  have hsv : survivor w p := ⟨hb, hs⟩
  refine ⟨fun u r h => (Sieve_find_survived h hs).1,
    fun r h => (Sieve_insert_survived h (Nat.ne_of_lt hb) hs).1,
    fun r h => (Sieve_select_survived h hs).1,
    fun w2 h => (Sieve_evict_survived h hs).1,
    fun k => (Sieve_remove_survived w k hs).1,
    fun r h => (Sieve_get_survivor h hsv).2,
    fun ops => (Sieve_script_survivor fuel ops w hsv).2,
    fun hf => Sieve_find_stays w req hf hs,
    fun ops hf => Sieve_find_stays _ req hf (Sieve_script_survivor fuel ops w hsv).2,
    fun l hi => ⟨Res.isOk_of_holds (Sieve_find_spec hi req), fun hk => ?_, fun hne hf => ?_⟩⟩
  · obtain ⟨w2, e, -⟩ := Sieve_insert_spec hi req hk
    rw [e]; rfl
  · constructor
    · rcases Sieve_select_spec hi fuel with ⟨h2, ri, ho, v, he, -⟩ | ⟨-, hlt⟩ | ⟨-, he⟩
      · rw [ShiftSieve_to_evict, he]; rfl
      · omega
      · exact absurd he hne
    · rcases Sieve_evict_spec hi fuel with ⟨v, w3, he3, -⟩ | ⟨-, hlt⟩ | ⟨-, he⟩
      · rw [he3]; rfl
      · omega
      · exact absurd he hne

set_option maxRecDepth 100000 in
theorem C26_witness :
    0 < Sieve_example_survivor.mem.brk ∧
    survived Sieve_example_survivor.mem.heap 0 ∧
    Sieve_example_survivor.cache.hashtable (unit_req 1).obj_id = some 0 ∧
    Sieve_nodes Sieve_example_survivor = [3, 2, 0] ∧
    ShiftSieve_find Sieve_example_survivor (unit_req 1) true =
      .ok (Sieve_example_survivor.setHeap (setStatus Sieve_example_survivor.mem.heap 0
        ((Sieve_example_survivor.mem.heap 0).status ||| VISITED_MASK)), some 0) ∧
    survived (ShiftSieve_remove Sieve_example_survivor 3).1.mem.heap 0 ∧
    survived (Sieve_script 3 [.find 1, .get 5, .evict, .get 6, .remove 5]
      Sieve_example_survivor).mem.heap 0 ∧
    (ShiftSieve_find Sieve_example_survivor (unit_req 1) true).isOk = true ∧
    (ShiftSieve_evict 3 Sieve_example_survivor).isOk = true :=
  have hb : 0 < Sieve_example_survivor.mem.brk := by decide!
  have hs : survived Sieve_example_survivor.mem.heap 0 := by decide!
  have hk : Sieve_example_survivor.cache.hashtable (unit_req 1).obj_id = some 0 := by decide!
  have hn : Sieve_nodes Sieve_example_survivor = [3, 2, 0] := by decide!
  have hi : SieveInv Sieve_example_survivor [3, 2, 0] := by
    have hra : SieveReachAll { cache_size := 3, consider_obj_metadata := false }
        Sieve_example_survivor :=
      SieveReachAll_script 3 [.get 1, .get 1, .get 2, .get 3, .get 4] .init
    obtain ⟨l, hl⟩ := hra.inv
    have e : Sieve_nodes Sieve_example_survivor = l := Sieve_nodes_eq hl
    rw [← e, hn] at hl
    exact hl
  have h := C26_sieve_survived_kept Sieve_example_survivor 0 (unit_req 1) 3 hb hs
  have hr := h.2.2.2.2.2.2.2.2.2 [3, 2, 0] hi
  ⟨hb, hs, hk, hn, h.2.2.2.2.2.2.2.1 hk, h.2.2.2.2.1 3, h.2.2.2.2.2.2.1 _, hr.1,
    (hr.2.2 (by decide) (by decide!)).2⟩

theorem setFifo_fifo_self (w : ShiftState) (b : Bool) : w.setFifo b (w.fifo b) = w := by
  cases b <;> rfl

theorem FIFO_remove_miss (f : FIFOState) (k : Nat) (h : f.cache.hashtable k = none) :
    FIFO_remove f k = (f, false) := by
  simp [FIFO_remove, hashtable_find_obj_id, h]

/-- The invariant of a Shift cache is kept by `Shift_remove`. -/
theorem Shift_remove_inv {w : ShiftState} {l0 l1 : List Ptr} (hi : ShiftInv w l0 l1)
    (k : Nat) : ∃ m0 m1, ShiftInv (Shift_remove w k).1 m0 m1 := by
  have hside : ∀ b v, (w.cache.eviction_params.sub b).hashtable k = some v →
      ∃ m0 m1, ShiftInv (w.setFifo b (FIFO_remove (w.fifo b) k).1) m0 m1 := by
    intro b v hk
    obtain ⟨-, -, -, hset, -, hht, -⟩ := Shift_sub_remove hi.1 b hk
    refine ⟨_, _, ShiftInv.mk_of hset (by cases b <;> exact hi.2.1) b ?_⟩
    rw [setFifo_sub_same, setFifo_sub_other, hht]
    exact keys_apart_remove (hi.keys b) _
  unfold Shift_remove
  dsimp only
  cases he : (w.cache.eviction_params.sub w.cache.eviction_params.eviction).hashtable k with
  | some v =>
    have h2 : (FIFO_remove (w.fifo w.cache.eviction_params.eviction) k).2 = true :=
      (Shift_sub_remove hi.1 _ he).2.2.1
    rw [if_pos h2]
    exact hside _ v he
  | none =>
    have e1 := FIFO_remove_miss (w.fifo w.cache.eviction_params.eviction) k he
    rw [e1]
    simp only [Bool.false_eq_true, if_false]
    cases hr : (w.cache.eviction_params.sub w.cache.eviction_params.retention).hashtable k with
    | some v => exact hside _ v hr
    | none =>
      rw [FIFO_remove_miss (w.fifo w.cache.eviction_params.retention) k hr, setFifo_fifo_self]
      exact ⟨l0, l1, hi⟩

theorem ShiftReach_inv {cp : common_cache_params_t} {w : ShiftState} (h : ShiftReach cp w) :
    ∃ l0 l1, ShiftInv w l0 l1 := by
  induction h with
  | init => exact ⟨[], [], Shift_init_inv cp⟩
  | get fuel req _ hg ih =>
    obtain ⟨l0, l1, hi⟩ := ih
    exact Shift_get_inv hi fuel req hg
  | evict fuel _ he ih =>
    obtain ⟨l0, l1, hi⟩ := ih
    rcases Shift_evict_spec hi fuel with ⟨w2, e, hp, -⟩ | ⟨hto, -⟩
    · rw [e] at he
      cases he
      exact hp
    · rw [hto] at he
      cases he
  | remove obj_id _ ih =>
    obtain ⟨l0, l1, hi⟩ := ih
    exact Shift_remove_inv hi obj_id

theorem Shift_run_reach {cp : common_cache_params_t} (fuel : Nat) (ks : List Nat) :
    ∀ w : ShiftState, ShiftReach cp w → ShiftReach cp (Shift_run fuel ks w) := by
  induction ks with
  | nil => intro w h; exact h
  | cons k ks ih =>
    intro w h
    show ShiftReach cp (Shift_run fuel ks (get_or_stay (Shift_get fuel) w k))
    cases hg : Shift_get fuel w (unit_req k) with
    | ok r =>
      have e : get_or_stay (Shift_get fuel) w k = r.1 := by simp only [get_or_stay, hg]
      have hg2 : Shift_get fuel w (unit_req k) = .ok (r.1, r.2) := hg
      rw [e]
      exact ih r.1 (.get fuel (unit_req k) h hg2)
    | fault =>
      have e : get_or_stay (Shift_get fuel) w k = w := by simp only [get_or_stay, hg]
      rw [e]; exact ih w h
    | timeout =>
      have e : get_or_stay (Shift_get fuel) w k = w := by simp only [get_or_stay, hg]
      rw [e]; exact ih w h

/-- On a valid Shift cache `find` without update and `find` with update return the
same node, or both null. -/
theorem Shift_find_agree {w : ShiftState} {l0 l1 : List Ptr} (hi : ShiftInv w l0 l1)
    (req : request_t) :
    ∃ w2 r, Shift_find w req false = .ok (w, r) ∧ Shift_find w req true = .ok (w2, r) ∧
      (r = none ↔ Shift_absent w req.obj_id) ∧
      (∀ v, r = some v ↔
        ∃ b, (w.cache.eviction_params.sub b).hashtable req.obj_id = some v) := by
  have hfalse : ∀ r : Option Ptr,
      ((w.cache.eviction_params.sub w.cache.eviction_params.retention).hashtable req.obj_id <|>
        (w.cache.eviction_params.sub w.cache.eviction_params.eviction).hashtable req.obj_id) = r →
      Shift_find w req false = .ok (w, r) := by
    intro r hr
    unfold Shift_find
    simp only [Bool.not_false, if_true, FIFO_find, cache_find_base, ShiftState.fifo]
    cases h1 : (w.cache.eviction_params.sub w.cache.eviction_params.retention).hashtable
        req.obj_id with
    | some v => rw [h1] at hr; cases hr; rfl
    | none =>
      rw [h1] at hr
      cases h2 : (w.cache.eviction_params.sub w.cache.eviction_params.eviction).hashtable
          req.obj_id with
      | some v => rw [h2] at hr; cases hr; rfl
      | none => rw [h2] at hr; cases hr; rfl
  rcases Shift_resident_or_absent w req.obj_id with ⟨b, v, hk⟩ | hk
  · obtain ⟨w2, m0, m1, hf, -⟩ := Shift_find_hit hi b req hk
    have hother : (w.cache.eviction_params.sub (!b)).hashtable req.obj_id = none :=
      hi.keys b _ (by rw [hk]; simp)
    refine ⟨w2, some v, hfalse _ ?_, hf, ?_, ?_⟩
    · have hret := hi.2.1
      cases hb : b <;> cases hev : w.cache.eviction_params.eviction <;>
        rw [hb] at hk hother <;> rw [hev] at hret <;>
        simp only [Bool.not_false, Bool.not_true] at hret hother <;>
        rw [hret] <;> simp [hk, hother]
    · constructor
      · intro h; cases h
      · intro habs
        have := (Shift_absent_iff w req.obj_id b).1 habs
        rw [hk] at this
        cases this.1
    · intro v2
      constructor
      · intro h; cases h; exact ⟨b, hk⟩
      · rintro ⟨c, hc⟩
        by_cases hcb : c = b
        · subst hcb; rw [hk] at hc; exact hc
        · have : c = !b := by cases c <;> cases b <;> simp_all
          rw [this, hother] at hc
          cases hc
  · have h0 := (Shift_absent_iff w req.obj_id w.cache.eviction_params.eviction).1 hk
    refine ⟨w, none, hfalse _ ?_, Shift_find_miss w req hk, ⟨fun _ => hk, fun _ => rfl⟩, ?_⟩
    · rw [hi.2.1, h0.1, h0.2]; rfl
    · intro v
      constructor
      · intro h; cases h
      · rintro ⟨c, hc⟩
        have := (Shift_absent_iff w req.obj_id c).1 hk
        rw [this.1] at hc
        cases hc

/-- C28: in every state reached from a fresh Shift cache by `get`, `evict` and `remove`
calls, no `obj_id` is resident in both the eviction and the retention cache, and
`find` without update (retention first) and `find` with update (eviction first) return
the same result: the one node indexed under the `obj_id`, or null for both when it is
in neither cache. -/
theorem C28_shift_key_unique (cp : common_cache_params_t) (w : ShiftState)
    (h : ShiftReach cp w) (req : request_t) :
    (∀ k, ¬ ((w.cache.eviction_params.sub w.cache.eviction_params.eviction).hashtable k ≠ none ∧
      (w.cache.eviction_params.sub w.cache.eviction_params.retention).hashtable k ≠ none)) ∧
    ∃ w2 r, Shift_find w req false = .ok (w, r) ∧ Shift_find w req true = .ok (w2, r) ∧
      (r = none ↔ Shift_absent w req.obj_id) ∧
      (∀ v, r = some v ↔
        ∃ b, (w.cache.eviction_params.sub b).hashtable req.obj_id = some v) := by
  obtain ⟨l0, l1, hi⟩ := ShiftReach_inv h
  refine ⟨fun k hk => ?_, Shift_find_agree hi req⟩
  have := hi.keys w.cache.eviction_params.eviction k hk.1
  rw [← hi.2.1] at this
  exact hk.2 this

set_option maxRecDepth 100000 in
theorem C28_witness :
    ShiftReach { cache_size := 3, consider_obj_metadata := false } Shift_split ∧
    (∃ w2, Shift_find Shift_split (unit_req 1) false = .ok (Shift_split, some 3) ∧
      Shift_find Shift_split (unit_req 1) true = .ok (w2, some 3)) ∧
    (∃ w2, Shift_find Shift_split (unit_req 3) false = .ok (Shift_split, some 2) ∧
      Shift_find Shift_split (unit_req 3) true = .ok (w2, some 2)) ∧
    (∃ w2, Shift_find Shift_split (unit_req 9) false = .ok (Shift_split, none) ∧
      Shift_find Shift_split (unit_req 9) true = .ok (w2, none)) ∧
    ShiftReach { cache_size := 3, consider_obj_metadata := false } Shift_example_all ∧
    (∀ k, ¬ ((Shift_example_all.cache.eviction_params.sub
        Shift_example_all.cache.eviction_params.eviction).hashtable k ≠ none ∧
      (Shift_example_all.cache.eviction_params.sub
        Shift_example_all.cache.eviction_params.retention).hashtable k ≠ none)) := by
  have hr : ShiftReach { cache_size := 3, consider_obj_metadata := false } Shift_split :=
    Shift_run_reach 3 [1, 1, 2, 3, 4] _ .init
  have hall : ShiftReach { cache_size := 3, consider_obj_metadata := false }
      Shift_example_all := by
    unfold Shift_example_all
    cases he : Shift_evict 3 Shift_split with
    | ok w => exact .remove 4 (.evict 3 hr he)
    | fault => exact .remove 4 hr
    | timeout => exact .remove 4 hr
  have hit : ∀ (k : Nat) (b : Bool) (v : Ptr),
      (Shift_split.cache.eviction_params.sub b).hashtable (unit_req k).obj_id = some v →
      ∃ w2, Shift_find Shift_split (unit_req k) false = .ok (Shift_split, some v) ∧
        Shift_find Shift_split (unit_req k) true = .ok (w2, some v) := by
    intro k b v hk
    obtain ⟨-, w2, r, a1, a2, -, a4⟩ := C28_shift_key_unique _ Shift_split hr (unit_req k)
    have : r = some v := (a4 v).2 ⟨b, hk⟩
    subst this
    exact ⟨w2, a1, a2⟩
  have miss : ∃ w2, Shift_find Shift_split (unit_req 9) false = .ok (Shift_split, none) ∧
      Shift_find Shift_split (unit_req 9) true = .ok (w2, none) := by
    obtain ⟨-, w2, r, a1, a2, a3, -⟩ := C28_shift_key_unique _ Shift_split hr (unit_req 9)
    have : r = none := a3.2 ⟨by decide!, by decide!⟩
    subst this
    exact ⟨w2, a1, a2⟩
  exact ⟨hr, hit 1 true 3 (by decide!), hit 3 false 2 (by decide!), miss, hall,
    (C28_shift_key_unique _ Shift_example_all hall (unit_req 1)).1⟩

/-! ## C2: Lever marker validity -/

/-- C2 (failing input): capacity 4, unit sizes, gets of keys 1 2 2 3 4 4 5 1 3 5.
All ten gets return; after the last one `slow` is a node of the list but `fast`
is the node of key 1 that this very get evicted by quick demotion, so it is
not in the list. -/
theorem C2_lever_fast_dangles :
    (run_gets (Lever_get 1) [1, 2, 2, 3, 4, 4, 5, 1, 3, 5]
        (Lever_init { cache_size := 4, consider_obj_metadata := false })).holds
      (fun r =>
        Lever_keys r.1 = [5, 3, 4, 2] ∧
        marker_ok (Lever_nodes r.1) r.1.cache.eviction_params.slow ∧
        r.1.cache.eviction_params.fast = some 5 ∧
        ¬ marker_ok (Lever_nodes r.1) r.1.cache.eviction_params.fast) := by
  decide!

/-! ## C3: termination of `get` for Shift -/

theorem Shift_evict_stuck (fuel : Nat) (w : ShiftState) (req : request_t)
    (h : Shift_stuck w req) : Shift_evict fuel w = .ok w := by
  obtain ⟨-, -, h0, h1, h2, -⟩ := h
  unfold Shift_evict
  rw [Shift_evict_loop_done _ _ _ _ h0]
  simp only [Res.bind]
  rw [if_pos h1]
  obtain ⟨m, c⟩ := w
  obtain ⟨ht, n, o, cs, md, p⟩ := c
  obtain ⟨c0, c1, e, r, sh, rl⟩ := p
  simp only [World.setParams] at h2 ⊢
  subst h2
  rfl

theorem Shift_evict_until_fits_stuck (f : Nat) (w : ShiftState) (req : request_t)
    (h : Shift_stuck w req) (fuel : Nat) :
    evict_until_fits (Shift_ops f) req fuel w = .timeout := by
  have hfull := h.2.2.2.2.2
  induction fuel with
  | zero =>
    unfold evict_until_fits
    simp only [Shift_ops]
    rw [if_pos hfull]
  | succ n ih =>
    unfold evict_until_fits
    simp only [Shift_ops]
    rw [if_pos hfull, Shift_evict_stuck f w req h]
    exact ih

/-- In a stuck state `get` exhausts every amount of fuel: `Shift_evict` returns the
state unchanged, so the evict loop of `get` never exits. -/
theorem Shift_get_stuck (w : ShiftState) (req : request_t) (h : Shift_stuck w req)
    (fuel : Nat) : Shift_get fuel w req = .timeout := by
  have h1 := h.1
  have h2 := h.2.1
  simp only [Shift_get, cache_get_base, Shift_ops, Shift_find, Bool.not_true, Bool.false_eq_true,
    if_false]
  rw [Shift_find_in_miss w _ req h1]
  simp only [Res.bind]
  rw [Shift_find_in_miss w _ req h2]
  simp only [Res.bind]
  have := Shift_evict_until_fits_stuck fuel w req h fuel
  simp only [Shift_ops] at this
  rw [this]

/-- C3 (failing input): capacity 1, unit sizes, gets of keys 1, 2, 3.  The first two
gets return (both misses) and leave key 2 in the retention sub-cache with the
eviction sub-cache empty; the third get returns for no amount of fuel. -/
theorem C3_shift_get_diverges :
    (run_gets (Shift_get 1) [1, 2]
        (Shift_init { cache_size := 1, consider_obj_metadata := false })).holds
      (fun r => r.2 = [false, false] ∧
        Shift_keys r.1 r.1.cache.eviction_params.eviction = [] ∧
        Shift_keys r.1 r.1.cache.eviction_params.retention = [(2, 0)] ∧
        ∀ fuel, Shift_get fuel r.1 (unit_req 3) = .timeout) := by
  have h : (run_gets (Shift_get 1) [1, 2]
        (Shift_init { cache_size := 1, consider_obj_metadata := false })).holds
      (fun r => (r.2 = [false, false] ∧
        Shift_keys r.1 r.1.cache.eviction_params.eviction = [] ∧
        Shift_keys r.1 r.1.cache.eviction_params.retention = [(2, 0)]) ∧
        Shift_stuck r.1 (unit_req 3)) := by
    decide!
  refine Res.holds_mono h ?_
  rintro r ⟨⟨h1, h2, h3⟩, h4⟩
  exact ⟨h1, h2, h3, Shift_get_stuck r.1 _ h4⟩

/-! ## C5: Lever promotion scenario -/

/-- C5 (as stated, refuted): after the gets A B C A D (keys 1 2 3 1 4) at capacity 3
the resident set is not {A, B, D}. -/
theorem C5_lever_promotion_refuted :
    ¬ (run_gets (Lever_get 1) [1, 2, 3, 1, 4]
        (Lever_init { cache_size := 3, consider_obj_metadata := false })).holds
      (fun r => same_set (Lever_keys r.1) [1, 2, 4]) := by
  decide!

/-- C5 (amended): after the gets A B C A D at capacity 3 all five gets have returned
(miss, miss, miss, hit, miss), the list holds D, C, B from head to tail, and
the re-accessed A is the object that was evicted: it is no longer in the
index. -/
theorem C5_lever_promotion_amended :
    (run_gets (Lever_get 1) [1, 2, 3, 1, 4]
        (Lever_init { cache_size := 3, consider_obj_metadata := false })).holds
      (fun r => r.2 = [false, false, false, true, false] ∧
        Lever_keys r.1 = [4, 3, 2] ∧
        (Lever_find r.1 (unit_req 1) false).2 = none ∧
        r.1.cache.n_obj = 3) := by
  decide!

/-! ## C6: Shift shuttle scenario -/

/-- C6 (as stated, refuted): after A..H, three gets of A, three of B and a get of I
(keys 1..9) at capacity 8, it is not the case that the retention sub-cache holds
exactly A and B with `freq` 1 each while the eviction sub-cache holds exactly
D..I and `shift` is false. -/
theorem C6_shift_shuttle_refuted :
    ¬ (run_gets (Shift_get 8) [1, 2, 3, 4, 5, 6, 7, 8, 1, 1, 1, 2, 2, 2, 9]
        (Shift_init { cache_size := 8, consider_obj_metadata := false })).holds
      (fun r =>
        same_set (Shift_keys r.1 r.1.cache.eviction_params.retention) [(1, 1), (2, 1)] ∧
        same_set ((Shift_keys r.1 r.1.cache.eviction_params.eviction).map Prod.fst)
          [4, 5, 6, 7, 8, 9] ∧
        r.1.cache.eviction_params.shift = false) := by
  decide!

/-- C6 (amended): after A..H, three gets of A, three of B and a get of I at capacity
8, the retention sub-cache is empty, the eviction sub-cache holds I, B, A, H,
G, F, E, D from head to tail with `freq` 3 on A and B and 0 elsewhere, C is
no longer resident and `shift` is false. -/
theorem C6_shift_shuttle_amended :
    (run_gets (Shift_get 8) [1, 2, 3, 4, 5, 6, 7, 8, 1, 1, 1, 2, 2, 2, 9]
        (Shift_init { cache_size := 8, consider_obj_metadata := false })).holds
      (fun r =>
        Shift_keys r.1 r.1.cache.eviction_params.retention = [] ∧
        Shift_keys r.1 r.1.cache.eviction_params.eviction =
          [(9, 0), (2, 3), (1, 3), (8, 0), (7, 0), (6, 0), (5, 0), (4, 0)] ∧
        (Shift_find r.1 (unit_req 3) false).holds (fun f => f.2 = none) ∧
        r.1.cache.eviction_params.shift = false) := by
  decide!

/-! ## C7: Shift credit halving -/

/-- C7 (failing input): capacity 3, gets of A A A B C (keys 1 1 1 2 3), then
`Shift_evict`.  Before the call the victim A is the tail of the eviction
sub-cache with `freq` 2; after it A sits in the retention sub-cache with
`freq` 0, not 2 / 2 = 1. -/
theorem C7_shift_shuttle_freq_zero :
    (run_gets (Shift_get 3) [1, 1, 1, 2, 3]
        (Shift_init { cache_size := 3, consider_obj_metadata := false })).holds
      (fun r =>
        Shift_keys r.1 r.1.cache.eviction_params.eviction = [(3, 0), (2, 0), (1, 2)] ∧
        Shift_keys r.1 r.1.cache.eviction_params.retention = [] ∧
        (Shift_evict 3 r.1).holds (fun w =>
          w.cache.eviction_params.retention = r.1.cache.eviction_params.retention ∧
          Shift_keys w w.cache.eviction_params.retention = [(1, 0)] ∧
          Shift_keys w w.cache.eviction_params.eviction = [(3, 0)])) := by
  decide!

/-! ## C8: ShiftSieve `to_evict` -/

/-- C8 (failing input): capacity 3, gets of A A B C (keys 1 1 2 3), then `to_evict`.
Before the call `pointer` is null, `right = hot = 0` and A (node 0, the
tail) has status VISITED; the call returns B (node 1) and leaves
`pointer` at C (node 2), `right = hot = 1` and A with status SURVIVED.  Only
the list order is unchanged. -/
theorem C8_sieve_to_evict_mutates :
    (run_gets (ShiftSieve_get 3) [1, 1, 2, 3]
        (ShiftSieve_init { cache_size := 3, consider_obj_metadata := false })).holds
      (fun r =>
        Sieve_nodes r.1 = [2, 1, 0] ∧
        r.1.cache.eviction_params.pointer = none ∧
        r.1.cache.eviction_params.right = 0 ∧
        r.1.cache.eviction_params.hot = 0 ∧
        (r.1.mem.heap 0).status = VISITED_MASK ∧
        (ShiftSieve_to_evict 3 r.1).holds (fun t =>
          t.2 = 1 ∧
          Sieve_nodes t.1 = [2, 1, 0] ∧
          t.1.cache.eviction_params.pointer = some 2 ∧
          t.1.cache.eviction_params.right = 1 ∧
          t.1.cache.eviction_params.hot = 1 ∧
          (t.1.mem.heap 0).status = SURVIVED_MASK)) := by
  decide!

end CacheSim
